import Mathlib

/-!
# chibi-scheme `eval.c`: analyzer, free-variable pass, compiler and VM

A shallow embedding of `src/eval.c`.  Heap objects that the C code mutates or
compares by address (environment frames, Lambda nodes) live in an explicit
`Heap` and are referred to by index; the immutable AST nodes (Cnd, Ref, Set,
Seq, Lit) and the raw forms are trees.  Symbols are interned, so `==` on names
is equality of spelling.  A read the C code performs through an object of the
wrong type, through NULL or outside a buffer is `Err.fault`.  One such read
has a result that the C code only stores: the return address `apply` takes
from `final_resumer`.  It yields a word (`resumer_address`), and the fault is
where that word is used as an instruction pointer.
-/

namespace Chibi

/-! ## Values -/

/-- Codes of the core forms, the `CORE_*` constants of the `core_forms` table. -/
inductive CoreCode where
  | CORE_DEFINE | CORE_SET | CORE_LAMBDA | CORE_IF | CORE_BEGIN | CORE_QUOTE
  | CORE_DEFINE_SYNTAX | CORE_LET_SYNTAX | CORE_LETREC_SYNTAX
  deriving DecidableEq, Repr, Inhabited

/-- The `data` column: NULL, the address of a global cell, or a C function. -/
inductive OpData where
  | nodata
  | cur_input_port | cur_output_port | cur_error_port | interaction_environment
  | fn (name : String)
  deriving DecidableEq, Repr, Inhabited

/-- Tagged values (`sexp`).  `env`, `lambda`, `vector` and `bytecode` carry the
address of the heap object; `codeptr bc off` is a boxed instruction pointer
(`sexp_make_integer(ip)`) into the data of bytecode `bc`; `raw n` is a machine
word holding the integer `n` that no constructor produced (an index, a depth,
a jump distance); `cptr d` is the address of a C global or function. -/
inductive Sexp where
  | null | undef | sdef | eof | strue | sfalse
  | fixnum (n : Int)
  | char (c : Nat)
  | symbol (name : String)
  | string (s : String)
  | pair (car cdr : Sexp)
  | vector (addr : Nat)
  | port (input : Bool) (id : Nat)
  | procedure (flags num_args : Sexp) (bc vars : Sexp)
  | bytecode (addr : Nat)
  | codeptr (bc : Nat) (off : Nat)
  | opcode (idx : Nat)
  | core (code : CoreCode)
  | mac (proc : Sexp) (env : Nat)
  | synclo (env : Nat) (expr : Sexp)
  | exception (kind message irritants : Sexp)
  | env (addr : Nat)
  | lambda (addr : Nat)
  | cnd (test pass fail : Sexp)
  | ref (name loc : Sexp)
  | set (var value : Sexp)
  | seq (ls : Sexp)
  | lit (value : Sexp)
  | raw (n : Int)
  | cptr (d : OpData)
  deriving DecidableEq, Repr, Inhabited

/-- Outcomes that are not a value: `fault` is undefined behaviour of the C code,
`fuel` an exhausted recursion budget of the model, `unmodelled` an operation
outside the embedding (I/O, foreign calls, floating point, mutation of pairs
and strings). -/
inductive Err where
  | fault | fuel | unmodelled
  deriving DecidableEq, Repr, Inhabited

/-- Modelled from the spec: the type predicates of the value runtime (`sexp.h` is
not part of the sources); each is one tag test. -/
def sexp_pairp : Sexp → Bool
  | .pair _ _ => true
  | _ => false

/-- Modelled from the spec: tag test for the empty list. -/
def sexp_nullp : Sexp → Bool
  | .null => true
  | _ => false

/-- Modelled from the spec: tag test for symbols. -/
def sexp_symbolp : Sexp → Bool
  | .symbol _ => true
  | _ => false

/-- Modelled from the spec: tag test for syntactic closures. -/
def sexp_synclop : Sexp → Bool
  | .synclo _ _ => true
  | _ => false

/-- Modelled from the spec: tag test for core-form markers. -/
def sexp_corep : Sexp → Bool
  | .core _ => true
  | _ => false

/-- Modelled from the spec: tag test for Macro values. -/
def sexp_macrop : Sexp → Bool
  | .mac _ _ => true
  | _ => false

/-- Modelled from the spec: tag test for Exception values. -/
def sexp_exceptionp : Sexp → Bool
  | .exception _ _ _ => true
  | _ => false

/-- Modelled from the spec: tag test for Lambda nodes. -/
def sexp_lambdap : Sexp → Bool
  | .lambda _ => true
  | _ => false

/-- Modelled from the spec: tag test for Ref nodes. -/
def sexp_refp : Sexp → Bool
  | .ref _ _ => true
  | _ => false

/-- Modelled from the spec: tag test for Cnd nodes. -/
def sexp_cndp : Sexp → Bool
  | .cnd _ _ _ => true
  | _ => false

/-- Modelled from the spec: tag test for Seq nodes. -/
def sexp_seqp : Sexp → Bool
  | .seq _ => true
  | _ => false

/-- Modelled from the spec: tag test for Set nodes. -/
def sexp_setp : Sexp → Bool
  | .set _ _ => true
  | _ => false

/-- Modelled from the spec: tag test for opcodes. -/
def sexp_opcodep : Sexp → Bool
  | .opcode _ => true
  | _ => false

/-- Modelled from the spec: tag test for procedures. -/
def sexp_procedurep : Sexp → Bool
  | .procedure _ _ _ _ => true
  | _ => false

/-- Modelled from the spec: the unchecked field accessor `sexp_car` of `sexp.h`.
A Ref has the two-field layout of a pair; `insert_free_var` reads the name of a
Ref through `sexp_caar`, so the accessor reads the first field of both. -/
def sexp_car : Sexp → Except Err Sexp
  | .pair a _ => .ok a
  | .ref n _ => .ok n
  | _ => .error .fault

/-- Modelled from the spec: the unchecked field accessor `sexp_cdr` of `sexp.h`,
reading the second field of a pair and (see `sexp_car`) of a Ref. -/
def sexp_cdr : Sexp → Except Err Sexp
  | .pair _ d => .ok d
  | .ref _ l => .ok l
  | _ => .error .fault

def sexp_cadr (x : Sexp) : Except Err Sexp := sexp_cdr x >>= sexp_car
def sexp_cddr (x : Sexp) : Except Err Sexp := sexp_cdr x >>= sexp_cdr
def sexp_caar (x : Sexp) : Except Err Sexp := sexp_car x >>= sexp_car
def sexp_cdar (x : Sexp) : Except Err Sexp := sexp_car x >>= sexp_cdr
def sexp_caddr (x : Sexp) : Except Err Sexp := sexp_cddr x >>= sexp_car
def sexp_caadr (x : Sexp) : Except Err Sexp := sexp_cadr x >>= sexp_car
def sexp_cdadr (x : Sexp) : Except Err Sexp := sexp_cadr x >>= sexp_cdr

/-- The C comparison `a == b` of two values.  Symbols are interned and Lambda
nodes are compared by address, so both are decided without looking further;
the trees of the embedding are compared by structure. -/
def sexp_eq (a b : Sexp) : Bool :=
  match a, b with
  | .symbol x, .symbol y => decide (x = y)
  | .lambda x, .lambda y => decide (x = y)
  | _, _ => decide (a = b)

def sexp_cons (a d : Sexp) : Sexp := .pair a d
def sexp_list1 (a : Sexp) : Sexp := .pair a .null
def sexp_list2 (a b : Sexp) : Sexp := .pair a (.pair b .null)

/-- Number of constructors of a raw form along the fields the accessors read and
the syntactic closures; bounds the recursion depth of the analyzer. -/
def sexp_size : Sexp → Nat
  | .pair a d => sexp_size a + sexp_size d + 1
  | .ref n l => sexp_size n + sexp_size l + 1
  | .synclo _ x => sexp_size x + 1
  | _ => 1

/-- Modelled from the spec: `sexp_reverse` walks the pairs of a list and conses
the elements onto an accumulator (`revappend`). -/
def sexp_revappend : Sexp → Sexp → Sexp
  | .pair a d, acc => sexp_revappend d (.pair a acc)
  | _, acc => acc

/-- Modelled from the spec: list reversal of the value runtime. -/
def sexp_reverse (ls : Sexp) : Sexp := sexp_revappend ls .null

/-- Modelled from the spec: destructive list reversal; on the freshly built
lists it is applied to it returns what `sexp_reverse` returns. -/
def sexp_nreverse (ls : Sexp) : Sexp := sexp_revappend ls .null

/-- Modelled from the spec: number of pairs of a list (unboxed `sexp_length`). -/
def sexp_length : Sexp → Nat
  | .pair _ d => sexp_length d + 1
  | _ => 0

/-- Modelled from the spec: `sexp_memq`, membership by `==`. -/
def sexp_memq (x : Sexp) : Sexp → Bool
  | .pair a d => if sexp_eq a x then true else sexp_memq x d
  | _ => false

/-- Modelled from the spec: `sexp_list_index`, the position of the first element
`==` to `x`, or `-1`. -/
def sexp_list_index_from (x : Sexp) : Sexp → Int → Int
  | .pair a d, i => if sexp_eq a x then i else sexp_list_index_from x d (i + 1)
  | _, _ => -1

def sexp_list_index (ls x : Sexp) : Int := sexp_list_index_from x ls 0

/-- Modelled from the spec: `sexp_insert(ls, x)` pushes `x` unless `ls` already
holds it. -/
def sexp_insert (ls x : Sexp) : Sexp :=
  if sexp_memq x ls then ls else .pair x ls

/-- Modelled from the spec: `sexp_lset_diff(a, b)` (the primitive `diffq`), the
elements of `a` that are not `==` to an element of `b`. -/
def sexp_lset_diff : Sexp → Sexp → Sexp
  | .pair a d, b => if sexp_memq a b then sexp_lset_diff d b else .pair a (sexp_lset_diff d b)
  | _, _ => .null

/-- Modelled from the spec: `sexp_listp`, true on proper lists. -/
def sexp_listp : Sexp → Bool
  | .null => true
  | .pair _ d => sexp_listp d
  | _ => false

/-! ## Opcode table -/

/-- Byte opcodes of the VM, the `OP_*` constants. -/
inductive Op where
  | OP_NOOP | OP_LOCAL_REF | OP_LOCAL_SET | OP_CLOSURE_REF | OP_VECTOR_REF | OP_VECTOR_SET
  | OP_STRING_REF | OP_STRING_SET | OP_MAKE_PROCEDURE | OP_MAKE_VECTOR | OP_PUSH | OP_DROP
  | OP_PARAMETER | OP_PAIRP | OP_NULLP | OP_CHARP | OP_INTEGERP | OP_SYMBOLP | OP_STRINGP
  | OP_VECTORP | OP_PROCEDUREP | OP_IPORTP | OP_OPORTP | OP_EOFP | OP_CAR | OP_CDR
  | OP_SET_CAR | OP_SET_CDR | OP_CONS | OP_ADD | OP_SUB | OP_MUL | OP_DIV | OP_QUOT | OP_MOD
  | OP_NEG | OP_INV | OP_LT | OP_LE | OP_GT | OP_GE | OP_EQ | OP_EQN | OP_TAIL_CALL | OP_CALL
  | OP_APPLY1 | OP_CALLCC | OP_RESUMECC | OP_ERROR | OP_FCALL0 | OP_FCALL1 | OP_FCALL2
  | OP_FCALL3 | OP_JUMP_UNLESS | OP_JUMP | OP_DISPLAY | OP_WRITE | OP_WRITE_CHAR | OP_NEWLINE
  | OP_FLUSH_OUTPUT | OP_READ | OP_READ_CHAR | OP_RET | OP_DONE
  deriving DecidableEq, Repr, Inhabited

/-- Opcode classes, the `OPC_*` constants (`OPC_INOUT` is the class of the I/O
primitives). -/
inductive OpClass where
  | OPC_ACCESSOR | OPC_ARITHMETIC | OPC_ARITHMETIC_INV | OPC_ARITHMETIC_CMP | OPC_PREDICATE
  | OPC_CONSTRUCTOR | OPC_TYPE_PREDICATE | OPC_GENERIC | OPC_INOUT | OPC_PARAMETER | OPC_FOREIGN
  deriving DecidableEq, Repr, Inhabited

/-- Type tags used in the opcode table (`notag` is the entry `0`). -/
inductive Tag where
  | notag | SEXP_PAIR | SEXP_FIXNUM | SEXP_VECTOR | SEXP_STRING | SEXP_PROCEDURE
  | SEXP_IPORT | SEXP_OPORT | SEXP_ENV
  deriving DecidableEq, Repr, Inhabited

/-- The `flags` column of the opcode table: a number, or (in the row of
`call-with-current-continuation`) a type tag written in that column. -/
inductive OpFlags where
  | bits (n : Nat)
  | tag (t : Tag)
  deriving DecidableEq, Repr, Inhabited

structure Opcode where
  op_class : OpClass
  code : Op
  num_args : Nat
  flags : OpFlags
  arg1_type : Tag
  arg2_type : Tag
  inverse : Option Op
  name : String
  data : OpData
  deriving DecidableEq, Repr, Inhabited

def mk_OP (c : OpClass) (o : Op) (n m : Nat) (t u : Tag) (i : Option Op) (s : String)
    (d : OpData) : Opcode :=
  { op_class := c, code := o, num_args := n, flags := .bits m, arg1_type := t, arg2_type := u,
    inverse := i, name := s, data := d }

def mk_FN (o : Op) (n : Nat) (t u : Tag) (s f : String) : Opcode :=
  mk_OP .OPC_FOREIGN o n 0 t u none s (.fn f)

def mk_FN1 (t : Tag) (s f : String) : Opcode := mk_FN .OP_FCALL1 1 t .notag s f
def mk_FN2 (t u : Tag) (s f : String) : Opcode := mk_FN .OP_FCALL2 2 t u s f

def mk_PARAM (n : String) (a : OpData) (t : Tag) : Opcode :=
  mk_OP .OPC_PARAMETER .OP_PARAMETER 0 1 t .notag none n a

def core_forms : List (CoreCode × String) :=
  [ (.CORE_DEFINE, "define"), (.CORE_SET, "set!"), (.CORE_LAMBDA, "lambda"), (.CORE_IF, "if"),
    (.CORE_BEGIN, "begin"), (.CORE_QUOTE, "quote"), (.CORE_DEFINE_SYNTAX, "define-syntax"),
    (.CORE_LET_SYNTAX, "let-syntax"), (.CORE_LETREC_SYNTAX, "letrec-syntax") ]

def opcodes : List Opcode :=
  [ mk_OP .OPC_ACCESSOR .OP_CAR 1 0 .SEXP_PAIR .notag none "car" .nodata,
    mk_OP .OPC_ACCESSOR .OP_SET_CAR 2 0 .SEXP_PAIR .notag none "set-car!" .nodata,
    mk_OP .OPC_ACCESSOR .OP_CDR 1 0 .SEXP_PAIR .notag none "cdr" .nodata,
    mk_OP .OPC_ACCESSOR .OP_SET_CDR 2 0 .SEXP_PAIR .notag none "set-cdr!" .nodata,
    mk_OP .OPC_ACCESSOR .OP_VECTOR_REF 2 0 .SEXP_VECTOR .SEXP_FIXNUM none "vector-ref" .nodata,
    mk_OP .OPC_ACCESSOR .OP_VECTOR_SET 3 0 .SEXP_VECTOR .SEXP_FIXNUM none "vector-set!" .nodata,
    mk_OP .OPC_ACCESSOR .OP_STRING_REF 2 0 .SEXP_STRING .SEXP_FIXNUM none "string-ref" .nodata,
    mk_OP .OPC_ACCESSOR .OP_STRING_SET 3 0 .SEXP_STRING .SEXP_FIXNUM none "string-set!" .nodata,
    mk_OP .OPC_ARITHMETIC .OP_ADD 0 1 .SEXP_FIXNUM .notag none "+" .nodata,
    mk_OP .OPC_ARITHMETIC .OP_MUL 0 1 .SEXP_FIXNUM .notag none "*" .nodata,
    mk_OP .OPC_ARITHMETIC_INV .OP_SUB 0 1 .SEXP_FIXNUM .notag (some .OP_NEG) "-" .nodata,
    mk_OP .OPC_ARITHMETIC_INV .OP_DIV 0 1 .SEXP_FIXNUM .notag (some .OP_INV) "/" .nodata,
    mk_OP .OPC_ARITHMETIC .OP_QUOT 2 0 .SEXP_FIXNUM .SEXP_FIXNUM none "quotient" .nodata,
    mk_OP .OPC_ARITHMETIC .OP_MOD 2 0 .SEXP_FIXNUM .SEXP_FIXNUM none "modulo" .nodata,
    mk_OP .OPC_ARITHMETIC_CMP .OP_LT 0 1 .SEXP_FIXNUM .notag none "<" .nodata,
    mk_OP .OPC_ARITHMETIC_CMP .OP_LE 0 1 .SEXP_FIXNUM .notag none "<=" .nodata,
    mk_OP .OPC_ARITHMETIC_CMP .OP_GT 0 1 .SEXP_FIXNUM .notag (some .OP_LE) ">" .nodata,
    mk_OP .OPC_ARITHMETIC_CMP .OP_GE 0 1 .SEXP_FIXNUM .notag (some .OP_LT) ">=" .nodata,
    mk_OP .OPC_ARITHMETIC_CMP .OP_EQ 0 1 .SEXP_FIXNUM .notag none "=" .nodata,
    mk_OP .OPC_PREDICATE .OP_EQ 2 0 .notag .notag none "eq?" .nodata,
    mk_OP .OPC_CONSTRUCTOR .OP_CONS 2 0 .notag .notag none "cons" .nodata,
    mk_OP .OPC_CONSTRUCTOR .OP_MAKE_VECTOR 2 0 .SEXP_FIXNUM .notag none "make-vector" .nodata,
    mk_OP .OPC_CONSTRUCTOR .OP_MAKE_PROCEDURE 4 0 .notag .notag none "make-procedure" .nodata,
    mk_OP .OPC_TYPE_PREDICATE .OP_PAIRP 1 0 .notag .notag none "pair?" .nodata,
    mk_OP .OPC_TYPE_PREDICATE .OP_NULLP 1 0 .notag .notag none "null?" .nodata,
    mk_OP .OPC_TYPE_PREDICATE .OP_STRINGP 1 0 .notag .notag none "string?" .nodata,
    mk_OP .OPC_TYPE_PREDICATE .OP_SYMBOLP 1 0 .notag .notag none "symbol?" .nodata,
    mk_OP .OPC_TYPE_PREDICATE .OP_CHARP 1 0 .notag .notag none "char?" .nodata,
    mk_OP .OPC_TYPE_PREDICATE .OP_VECTORP 1 0 .notag .notag none "vector?" .nodata,
    mk_OP .OPC_TYPE_PREDICATE .OP_PROCEDUREP 1 0 .notag .notag none "procedure?" .nodata,
    mk_OP .OPC_TYPE_PREDICATE .OP_IPORTP 1 0 .notag .notag none "input-port?" .nodata,
    mk_OP .OPC_TYPE_PREDICATE .OP_OPORTP 1 0 .notag .notag none "output-port?" .nodata,
    mk_OP .OPC_TYPE_PREDICATE .OP_EOFP 1 0 .notag .notag none "eof-object?" .nodata,
    mk_OP .OPC_GENERIC .OP_APPLY1 2 0 .SEXP_PROCEDURE .SEXP_PAIR none "apply1" .nodata,
    { op_class := .OPC_GENERIC, code := .OP_CALLCC, num_args := 1, flags := .tag .SEXP_PROCEDURE,
      arg1_type := .notag, arg2_type := .notag, inverse := none,
      name := "call-with-current-continuation", data := .nodata },
    { op_class := .OPC_GENERIC, code := .OP_ERROR, num_args := 1, flags := .tag .SEXP_STRING,
      arg1_type := .notag, arg2_type := .notag, inverse := none, name := "error",
      data := .nodata },
    mk_OP .OPC_INOUT .OP_WRITE 1 3 .notag .SEXP_OPORT none "write" .cur_output_port,
    mk_OP .OPC_INOUT .OP_DISPLAY 1 3 .notag .SEXP_OPORT none "display" .cur_output_port,
    mk_OP .OPC_INOUT .OP_WRITE_CHAR 1 3 .notag .SEXP_OPORT none "write-char" .cur_output_port,
    mk_OP .OPC_INOUT .OP_NEWLINE 0 3 .notag .SEXP_OPORT none "newline" .cur_output_port,
    mk_OP .OPC_INOUT .OP_FLUSH_OUTPUT 0 3 .notag .SEXP_OPORT none "flush-output" .cur_output_port,
    mk_OP .OPC_INOUT .OP_READ 0 3 .notag .SEXP_IPORT none "read" .cur_input_port,
    mk_OP .OPC_INOUT .OP_READ_CHAR 0 3 .notag .SEXP_IPORT none "read-char" .cur_input_port,
    mk_FN1 .SEXP_PAIR "length" "sexp_length",
    mk_FN1 .SEXP_PAIR "reverse" "sexp_reverse",
    mk_FN1 .SEXP_PAIR "list->vector" "sexp_list_to_vector",
    mk_FN1 .SEXP_STRING "open-input-file" "sexp_open_input_file",
    mk_FN1 .SEXP_STRING "open-output-file" "sexp_open_output_file",
    mk_FN1 .SEXP_IPORT "close-input-port" "sexp_close_port",
    mk_FN1 .SEXP_OPORT "close-output-port" "sexp_close_port",
    mk_FN1 .notag "load" "sexp_load",
    mk_FN2 .notag .SEXP_PAIR "memq" "sexp_memq",
    mk_FN2 .notag .SEXP_PAIR "assq" "sexp_assq",
    mk_FN2 .SEXP_PAIR .SEXP_PAIR "diffq" "sexp_lset_diff",
    mk_PARAM "current-input-port" .cur_input_port .SEXP_IPORT,
    mk_PARAM "current-output-port" .cur_output_port .SEXP_OPORT,
    mk_PARAM "current-error-port" .cur_error_port .SEXP_OPORT,
    mk_PARAM "interaction-environment" .interaction_environment .SEXP_ENV ]

/-! ## Heap -/

/-- An environment frame: parent (NULL for a root), the Lambda it was created
for (unset for a root), and the association list of binding cells. -/
structure Frame where
  parent : Option Nat
  lambda : Option Sexp
  bindings : List (Sexp × Sexp)
  deriving DecidableEq, Repr, Inhabited

/-- A Lambda node.  `body` is unset until `analyze_lambda` has analyzed it. -/
structure LamNode where
  params : Sexp
  body : Option Sexp
  locals : Sexp
  fv : Sexp
  sv : Sexp
  deriving DecidableEq, Repr, Inhabited

/-- One byte of a bytecode buffer: never written, an opcode byte written by
`emit`, the first byte of a word written by `emit_word`, or one of the
`sizeof(sexp) - 1` bytes that follow it. -/
inductive Slot where
  | junk
  | byte (op : Op)
  | word (w : Sexp)
  | wtail
  deriving DecidableEq, Repr, Inhabited

/-- The heap: environment frames, Lambda nodes, the data of finalized bytecode
objects and the contents of vectors, each addressed by index. -/
structure Heap where
  envs : List Frame
  lams : List LamNode
  bcs : List (List Slot) := []
  vecs : List (List Sexp) := []
  deriving DecidableEq, Repr, Inhabited

/-- Modelled from the spec: the node `sexp_alloc_type(lambda, SEXP_LAMBDA)`
returns; the allocator is not part of the sources, the fresh node has empty
locals, free-vars and set-vars lists and no body. -/
def fresh_lambda (params : Sexp) : LamNode :=
  { params := params, body := none, locals := .null, fv := .null, sv := .null }

def alloc_lambda (h : Heap) (params : Sexp) : Sexp × Heap :=
  (.lambda h.lams.length, { h with lams := h.lams ++ [fresh_lambda params] })

def get_lambda (h : Heap) : Sexp → Except Err LamNode
  | .lambda a => match h.lams[a]? with
    | some n => .ok n
    | none => .error .fault
  | _ => .error .fault

def set_lambda (h : Heap) (l : Sexp) (f : LamNode → LamNode) : Except Err Heap :=
  match l with
  | .lambda a => match h.lams[a]? with
    | some n => .ok { h with lams := h.lams.set a (f n) }
    | none => .error .fault
  | _ => .error .fault

/-! ## Environment utilities -/

def assq_cell (key : Sexp) : List (Sexp × Sexp) → Option (Sexp × Sexp)
  | [] => none
  | c :: ls => if sexp_eq c.1 key then some c else assq_cell key ls

/-- The `do … while (e)` loop of `env_cell`; the budget is the number of frames,
which an acyclic parent chain cannot exceed. -/
def env_cell_loop (envs : List Frame) : Nat → Nat → Sexp → Except Err (Option (Sexp × Sexp))
  | 0, _, _ => .error .fuel
  | n + 1, e, key =>
    match envs[e]? with
    | none => .error .fault
    | some f =>
      match assq_cell key f.bindings with
      | some c => .ok (some c)
      | none =>
        match f.parent with
        | none => .ok none
        | some p => env_cell_loop envs n p key

def env_cell (h : Heap) (e : Nat) (key : Sexp) : Except Err (Option (Sexp × Sexp)) :=
  env_cell_loop h.envs h.envs.length e key

/-- The loop `while (sexp_env_parent(e)) e = sexp_env_parent(e)`. -/
def env_root_loop (envs : List Frame) : Nat → Nat → Except Err Nat
  | 0, _ => .error .fuel
  | n + 1, e =>
    match envs[e]? with
    | none => .error .fault
    | some f =>
      match f.parent with
      | none => .ok e
      | some p => env_root_loop envs n p

def env_root (h : Heap) (e : Nat) : Except Err Nat :=
  env_root_loop h.envs h.envs.length e

def push_binding (envs : List Frame) (e : Nat) (cell : Sexp × Sexp) : List Frame :=
  match envs[e]? with
  | some f => envs.set e { f with bindings := cell :: f.bindings }
  | none => envs

def env_cell_create (h : Heap) (e : Nat) (key value : Sexp) :
    Except Err ((Sexp × Sexp) × Heap) := do
  match ← env_cell h e key with
  | some cell => pure (cell, h)
  | none =>
    let r ← env_root h e
    pure ((key, value), { h with envs := push_binding h.envs r (key, value) })

def env_global_loop (envs : List Frame) : Nat → Nat → Sexp → Except Err Bool
  | 0, _, _ => .error .fuel
  | n + 1, e, id =>
    match envs[e]? with
    | none => .error .fault
    | some f =>
      match f.parent with
      | none => .ok true
      | some p =>
        match assq_cell id f.bindings with
        | some _ => .ok false
        | none => env_global_loop envs n p id

def env_global_p (h : Heap) (e : Nat) (id : Sexp) : Except Err Bool :=
  env_global_loop h.envs h.envs.length e id

def set_cell (key value : Sexp) : List (Sexp × Sexp) → List (Sexp × Sexp)
  | [] => []
  | c :: ls => if sexp_eq c.1 key then (c.1, value) :: ls else c :: set_cell key value ls

def env_define (h : Heap) (e : Nat) (key value : Sexp) : Except Err Heap :=
  match h.envs[e]? with
  | none => .error .fault
  | some f =>
    match assq_cell key f.bindings with
    | some _ => .ok { h with envs := h.envs.set e { f with bindings := set_cell key value f.bindings } }
    | none => .ok { h with envs := h.envs.set e { f with bindings := (key, value) :: f.bindings } }

/-- The binding loop of `extend_env`: each variable is pushed in front. -/
def extend_bindings (value : Sexp) : Sexp → List (Sexp × Sexp) → List (Sexp × Sexp)
  | .pair v d, acc => extend_bindings value d ((v, value) :: acc)
  | _, acc => acc

def extend_env (h : Heap) (env : Nat) (vars value : Sexp) : Nat × Heap :=
  (h.envs.length,
   { h with envs := h.envs ++ [{ parent := some env, lambda := none,
                                 bindings := extend_bindings value vars [] }] })

def set_env_lambda (h : Heap) (e : Nat) (l : Sexp) : Except Err Heap :=
  match h.envs[e]? with
  | some f => .ok { h with envs := h.envs.set e { f with lambda := some l } }
  | none => .error .fault

def sexp_env_lambda (h : Heap) (e : Nat) : Except Err (Option Sexp) :=
  match h.envs[e]? with
  | some f => .ok f.lambda
  | none => .error .fault

def core_code (h : Heap) (e : Nat) (sym : Sexp) : Except Err (Option CoreCode) := do
  match ← env_cell h e sym with
  | some (_, .core c) => pure (some c)
  | _ => pure none

def sexp_reverse_flatten_dot_loop : Sexp → Sexp → Sexp
  | .pair a d, res => sexp_reverse_flatten_dot_loop d (.pair a res)
  | .null, res => res
  | ls, res => .pair ls res

def sexp_reverse_flatten_dot (ls : Sexp) : Sexp := sexp_reverse_flatten_dot_loop ls .null

def sexp_flatten_dot (ls : Sexp) : Sexp := sexp_nreverse (sexp_reverse_flatten_dot ls)

def sexp_idp : Sexp → Bool
  | .synclo _ x => sexp_idp x
  | .symbol _ => true
  | _ => false

/-! ## AST constructors -/

def the_compile_error_symbol : Sexp := .symbol "compile-error"

def sexp_make_exception (kind message irritants : Sexp) : Sexp :=
  .exception kind message irritants

def sexp_compile_error (message : String) (irritants : Sexp) : Sexp :=
  sexp_make_exception the_compile_error_symbol (.string message) irritants

def sexp_make_set (var value : Sexp) : Sexp := .set var value
def sexp_make_ref (name loc : Sexp) : Sexp := .ref name loc
def sexp_make_cnd (test pass fail : Sexp) : Sexp := .cnd test pass fail
def sexp_make_lit (value : Sexp) : Sexp := .lit value

def sexp_ref_name : Sexp → Except Err Sexp
  | .ref n _ => .ok n
  | _ => .error .fault

def sexp_ref_loc : Sexp → Except Err Sexp
  | .ref _ l => .ok l
  | _ => .error .fault

/-! ## The analyzer

Every `analyze_*` function of the source calls `analyze` on parts of its form;
here that call is the parameter `rec`, and `analyze` ties the knot. -/

abbrev Res := Except Err (Sexp × Heap)
abbrev Rec := Sexp → Nat → Heap → Res

def analyze_var_ref (x : Sexp) (env : Nat) (h : Heap) : Res := do
  let (cell, h1) ← env_cell_create h env x .undef
  pure (sexp_make_ref x cell.2, h1)

/-- The loop of `analyze_app`, `res` being the list built so far. -/
def analyze_app_loop (rec : Rec) (env : Nat) : Sexp → Sexp → Heap → Res
  | .pair a d, res, h => do
    let (tmp, h1) ← rec a env h
    if sexp_exceptionp tmp then pure (tmp, h1)
    else analyze_app_loop rec env d (.pair tmp res) h1
  | _, res, h => pure (sexp_nreverse res, h)

def analyze_app (rec : Rec) (x : Sexp) (env : Nat) (h : Heap) : Res :=
  analyze_app_loop rec env x .null h

def analyze_seq (rec : Rec) (ls : Sexp) (env : Nat) (h : Heap) : Res :=
  if sexp_nullp ls then pure (.undef, h)
  else do
    let d ← sexp_cdr ls
    if sexp_nullp d then do
      let a ← sexp_car ls
      rec a env h
    else do
      let (tmp, h1) ← analyze_app rec ls env h
      if sexp_exceptionp tmp then pure (tmp, h1)
      else pure (.seq tmp, h1)

def analyze_if (rec : Rec) (x : Sexp) (env : Nat) (h : Heap) : Res := do
  let a ← sexp_car x
  let (test, h1) ← rec a env h
  if sexp_exceptionp test then pure (test, h1)
  else do
    let b ← sexp_cadr x
    let (pass, h2) ← rec b env h1
    if sexp_exceptionp pass then pure (pass, h2)
    else do
      let dd ← sexp_cddr x
      let c ← (if sexp_pairp dd then sexp_caddr x else pure .undef)
      let (fail, h3) ← rec c env h2
      if sexp_exceptionp fail then pure (fail, h3)
      else pure (sexp_make_cnd test pass fail, h3)

def analyze_lambda (rec : Rec) (x : Sexp) (env : Nat) (h : Heap) : Res := do
  let params ← sexp_cadr x
  let (res, h1) := alloc_lambda h params
  let (env2, h2) := extend_env h1 env (sexp_flatten_dot params) res
  let h3 ← set_env_lambda h2 env2 res
  let forms ← sexp_cddr x
  let (body, h4) ← analyze_seq rec forms env2 h3
  if sexp_exceptionp body then pure (body, h4)
  else do
    let h5 ← set_lambda h4 res (fun n => { n with body := some body })
    pure (res, h5)

def analyze_define (rec : Rec) (x : Sexp) (env : Nat) (h : Heap) : Res := do
  let target ← sexp_cadr x
  let name ← (if sexp_pairp target then sexp_caadr x else pure target)
  let owner ← sexp_env_lambda h env
  let h1 ← (match owner with
    | some l =>
      if sexp_lambdap l then set_lambda h l (fun n => { n with locals := .pair name n.locals })
      else pure h
    | none => pure h)
  let (value, h2) ←
    (if sexp_pairp target then do
      let formals ← sexp_cdadr x
      let body ← sexp_cddr x
      analyze_lambda rec (sexp_cons .undef (sexp_cons formals body)) env h1
    else do
      let v ← sexp_caddr x
      rec v env h1)
  if sexp_exceptionp value then pure (value, h2)
  else do
    let (ref, h3) ← analyze_var_ref name env h2
    if sexp_exceptionp ref then pure (ref, h3)
    else do
      let (_, h4) ← env_cell_create h3 env name .sdef
      pure (sexp_make_set ref value, h4)

def analyze_set (rec : Rec) (x : Sexp) (env : Nat) (h : Heap) : Res := do
  let target ← sexp_cadr x
  let (ref, h1) ← analyze_var_ref target env h
  let loc ← sexp_ref_loc ref
  let name ← sexp_ref_name ref
  let h2 ← (if sexp_lambdap loc
    then set_lambda h1 loc (fun n => { n with sv := sexp_insert n.sv name })
    else pure h1)
  if sexp_exceptionp ref then pure (ref, h2)
  else do
    let v ← sexp_caddr x
    let (value, h3) ← rec v env h2
    if sexp_exceptionp value then pure (value, h3)
    else pure (sexp_make_set ref value, h3)

/-- The body of `analyze`; the `goto loop` of the syntactic-closure case is the
recursive call `rec`. -/
def analyze_step (rec : Rec) (x : Sexp) (env : Nat) (h : Heap) : Res :=
  match x with
  | .pair a _ =>
    if sexp_idp a then do
      match ← env_cell h env a with
      | none => analyze_app rec x env h
      | some cell =>
        match cell.2 with
        | .core .CORE_DEFINE => analyze_define rec x env h
        | .core .CORE_SET => analyze_set rec x env h
        | .core .CORE_LAMBDA => analyze_lambda rec x env h
        | .core .CORE_IF => analyze_if rec x env h
        | .core .CORE_BEGIN => analyze_seq rec x env h
        | .core .CORE_QUOTE => pure (sexp_make_lit x, h)
        | .core c => pure (sexp_compile_error "unknown core form" (sexp_list1 (.core c)), h)
        | .mac _ _ => pure (sexp_compile_error "macros not yet supported" (sexp_list1 x), h)
        | _ => analyze_app rec x env h
    else analyze_app rec x env h
  | .symbol _ => analyze_var_ref x env h
  | .synclo e y => rec y e h
  | _ => pure (x, h)

def analyzeF : Nat → Rec
  | 0 => fun _ _ _ => .error .fuel
  | n + 1 => analyze_step (analyzeF n)

/-- The analyzer `analyze(x, env)`; the recursion budget `sexp_size x` is never
exhausted (`analyze_unfold`). -/
def analyze (x : Sexp) (env : Nat) (h : Heap) : Res := analyzeF (sexp_size x) x env h

/-! ## Standard environment -/

def sexp_intern (name : String) : Sexp := .symbol name

/-- The first loop of `make_standard_env`. -/
def define_core_forms (e : Nat) : List (CoreCode × String) → Heap → Except Err Heap
  | [], h => pure h
  | (c, s) :: rest, h => do
    let h1 ← env_define h e (sexp_intern s) (.core c)
    define_core_forms e rest h1

/-- The second loop of `make_standard_env`, `i` being the index of the next row. -/
def define_opcodes (e : Nat) : List Opcode → Nat → Heap → Except Err Heap
  | [], _, h => pure h
  | o :: rest, i, h => do
    let h1 ← env_define h e (sexp_intern o.name) (.opcode i)
    define_opcodes e rest (i + 1) h1

def make_standard_env (h : Heap) : Except Err (Nat × Heap) := do
  let e := h.envs.length
  let h0 : Heap := { h with envs := h.envs ++ [{ parent := none, lambda := none, bindings := [] }] }
  let h1 ← define_core_forms e core_forms h0
  let h2 ← define_opcodes e opcodes 0 h1
  pure (e, h2)

def empty_heap : Heap := { envs := [], lams := [], bcs := [], vecs := [] }

/-! ## Free-variable pass -/

/-- The scan of `insert_free_var`: is there an entry with this name and loc?  The
entries are Refs, read through `sexp_caar` and `sexp_cdar`. -/
def free_var_member (name loc : Sexp) : Sexp → Except Err Bool
  | .pair a d => do
    let n ← sexp_car a
    if sexp_eq name n then do
      let l ← sexp_cdr a
      if sexp_eq loc l then pure true else free_var_member name loc d
    else free_var_member name loc d
  | _ => pure false

def insert_free_var (x fv : Sexp) : Except Err Sexp := do
  let name ← sexp_ref_name x
  let loc ← sexp_ref_loc x
  if ← free_var_member name loc fv then pure fv else pure (sexp_cons x fv)

/-- The loop of `union_free_vars`. -/
def union_free_vars_loop : Sexp → Sexp → Except Err Sexp
  | .pair a d, fv2 => do
    let fv2 ← insert_free_var a fv2
    union_free_vars_loop d fv2
  | _, fv2 => pure fv2

def union_free_vars (fv1 fv2 : Sexp) : Except Err Sexp :=
  if sexp_nullp fv2 then pure fv1 else union_free_vars_loop fv1 fv2

abbrev FvRec := Sexp → Sexp → Heap → Except Err (Sexp × Heap)

/-- The loops `for ( ; sexp_pairp(x); x=sexp_cdr(x)) fv = free_vars(sexp_car(x), fv)`. -/
def free_vars_list (rec : FvRec) : Sexp → Sexp → Heap → Except Err (Sexp × Heap)
  | .pair a d, fv, h => do
    let (fv, h1) ← rec a fv h
    free_vars_list rec d fv h1
  | _, fv, h => pure (fv, h)

/-- The body of `free_vars`, `rec` being the recursive call. -/
def free_vars_step (rec : FvRec) (x fv : Sexp) (h : Heap) : Except Err (Sexp × Heap) :=
  match x with
  | .lambda _ => do
    let node ← get_lambda h x
    let body ← match node.body with
      | some b => pure b
      | none => .error .fault
    let (fv1, h1) ← rec body .null h
    let node1 ← get_lambda h1 x
    let fv2 := sexp_lset_diff fv1 (sexp_flatten_dot node1.params)
    let h2 ← set_lambda h1 x (fun n => { n with fv := fv2 })
    let fv ← union_free_vars fv2 fv
    pure (fv, h2)
  | .pair _ _ => free_vars_list rec x fv h
  | .cnd test pass fail => do
    let (fv, h1) ← rec test fv h
    let (fv, h2) ← rec pass fv h1
    rec fail fv h2
  | .seq ls => free_vars_list rec ls fv h
  | .set var value => do
    let (fv, h1) ← rec value fv h
    rec var fv h1
  | .ref _ loc =>
    if sexp_lambdap loc then do
      let fv ← insert_free_var x fv
      pure (fv, h)
    else pure (fv, h)
  | _ => pure (fv, h)

def free_varsF : Nat → FvRec
  | 0 => fun _ _ _ => .error .fuel
  | n + 1 => free_vars_step (free_varsF n)

/-- Size of an AST along the fields `free_vars` and `compile_one` descend into,
Lambda bodies excluded. -/
def ast_size : Sexp → Nat
  | .pair a d => ast_size a + ast_size d + 1
  | .cnd t p f => ast_size t + ast_size p + ast_size f + 1
  | .set v x => ast_size v + ast_size x + 1
  | .seq ls => ast_size ls + 1
  | _ => 1

/-- Recursion budget for a walk over the AST `x` in heap `h`: the size of `x` and
of every Lambda body of the heap; a walk that enters each Lambda at most once
cannot exceed it. -/
def ast_budget (h : Heap) (x : Sexp) : Nat :=
  ast_size x + (h.lams.map (fun n => match n.body with
    | some b => ast_size b + 1
    | none => 1)).sum

/-- The pass `free_vars(x, fv)`. -/
def free_vars (x fv : Sexp) (h : Heap) : Except Err (Sexp × Heap) :=
  free_varsF (ast_budget h x) x fv h

/-! ## Bytecode utilities -/

/-- Bytes of a machine word, `sizeof(sexp)`, on a 64-bit build. -/
def sizeof_sexp : Nat := 8

/-- Modelled from the spec: `INIT_BCODE_SIZE` of `eval.h`, "initial 128 bytes". -/
def INIT_BCODE_SIZE : Nat := 128

/-- Modelled from the spec: `INIT_STACK_SIZE` of `eval.h`, "say 8192 slots". -/
def INIT_STACK_SIZE : Nat := 8192

/-- Modelled from the spec: width of the fixnum tag of `sexp.h`;
`sexp_unbox_integer` shifts a word right by this many bits. -/
def SEXP_FIXNUM_BITS : Nat := 2

/-- A compile-time context: the bytecode buffer (its length is
`sexp_bytecode_length`), the cursor, the simulated stack depth, the enclosing
Lambda and the tail-position flag. -/
structure Context where
  bc : List Slot
  pos : Nat
  depth : Int
  lambda : Option Sexp
  tailp : Bool
  deriving DecidableEq, Repr, Inhabited

/-- The context `sexp_new_context` returns: a code buffer of `INIT_BCODE_SIZE`
unwritten bytes, position and depth 0.  The function does not assign the
fields `lambda` and `tailp`; they are taken as zero. -/
def sexp_new_context : Context :=
  { bc := List.replicate INIT_BCODE_SIZE .junk, pos := 0, depth := 0, lambda := none,
    tailp := false }

def sexp_extend_context (lambda : Option Sexp) : Context :=
  { sexp_new_context with lambda := lambda }

def shrink_bcode (c : Context) (i : Nat) : Except Err Context :=
  if c.bc.length ≠ i then
    if i ≤ c.bc.length then pure { c with bc := c.bc.take i } else .error .fault
  else pure c

def expand_bcode (c : Context) (size : Nat) : Context :=
  if c.bc.length < c.pos + size then
    { c with bc := c.bc ++ List.replicate c.bc.length .junk }
  else c

/-- A store of `new` at byte offset `pos`; outside the buffer it is a fault. -/
def write_slots (bc : List Slot) (pos : Nat) (new : List Slot) : Except Err (List Slot) :=
  if pos + new.length ≤ bc.length then
    pure (bc.take pos ++ new ++ bc.drop (pos + new.length))
  else .error .fault

def word_slots (w : Sexp) : List Slot :=
  .word w :: List.replicate (sizeof_sexp - 1) .wtail

def emit (op : Op) (c : Context) : Except Err Context := do
  let c := expand_bcode c 1
  let bc ← write_slots c.bc c.pos [.byte op]
  pure { c with bc := bc, pos := c.pos + 1 }

def emit_word (w : Sexp) (c : Context) : Except Err Context := do
  let c := expand_bcode c sizeof_sexp
  let bc ← write_slots c.bc c.pos (word_slots w)
  pure { c with bc := bc, pos := c.pos + sizeof_sexp }

def emit_push (obj : Sexp) (c : Context) : Except Err Context := do
  let c ← emit .OP_PUSH c
  emit_word obj c

def sexp_make_procedure (flags num_args bc vars : Sexp) : Sexp :=
  .procedure flags num_args bc vars

def sexp_make_integer (n : Int) : Sexp := .fixnum n

/-- Modelled from the spec: `sexp_make_vector(len, dflt)` allocates a vector of
`len` copies of `dflt`. -/
def sexp_make_vector (h : Heap) (len : Nat) (dflt : Sexp) : Sexp × Heap :=
  (.vector h.vecs.length, { h with vecs := h.vecs ++ [List.replicate len dflt] })

def sexp_context_make_label (c : Context) : Nat × Context :=
  (c.pos, { c with pos := c.pos + sizeof_sexp })

/-- The store `((sexp_uint_t*) data)[label] = pos - label`: `label` indexes the
buffer as an array of words. -/
def sexp_context_patch_label (c : Context) (label : Nat) : Except Err Context := do
  let bc ← write_slots c.bc (label * sizeof_sexp) (word_slots (.raw ((c.pos : Int) - label)))
  pure { c with bc := bc }

def finalize_bytecode (c : Context) (h : Heap) : Except Err (Sexp × Heap) := do
  let c ← emit .OP_RET c
  let c ← shrink_bcode c c.pos
  pure (.bytecode h.bcs.length, { h with bcs := h.bcs ++ [c.bc] })

/-! ## The compiler -/

abbrev CRes := Except Err (Context × Heap)
abbrev CRec := Sexp → Context → Heap → CRes

def compile_lit (value : Sexp) (c : Context) (h : Heap) : CRes := do
  let c ← emit_push value c
  pure (c, h)

/-- The loop of `compile_seq`. -/
def compile_seq_loop (rec : CRec) : Sexp → Sexp → Context → Heap → CRes
  | head, .pair t1 t2, c, h => do
    let a ← sexp_car head
    let (c, h) ← rec a c h
    let c ← emit .OP_DROP c
    compile_seq_loop rec (.pair t1 t2) t2 { c with depth := c.depth - 1 } h
  | head, _, c, h => do
    let a ← sexp_car head
    rec a c h

def compile_seq (rec : CRec) (app : Sexp) (c : Context) (h : Heap) : CRes := do
  let tail ← sexp_cdr app
  compile_seq_loop rec app tail c h

def compile_cnd (rec : CRec) (test pass fail : Sexp) (c : Context) (h : Heap) : CRes := do
  let (c, h) ← rec test c h
  let c ← emit .OP_JUMP_UNLESS c
  let (label1, c) := sexp_context_make_label { c with depth := c.depth - 1 }
  let (c, h) ← rec pass c h
  let c ← emit .OP_JUMP c
  let (label2, c) := sexp_context_make_label { c with depth := c.depth - 1 }
  let c ← sexp_context_patch_label c label1
  let (c, h) ← rec fail c h
  let c ← sexp_context_patch_label c label2
  pure (c, h)

/-- The closure-ref loop of `compile_non_global_ref`:
`for (i=0; sexp_pairp(fv); ls=sexp_cdr(fv), i++)` never advances `fv`. -/
def closure_ref_loop : Nat → Sexp → Sexp → Sexp → Nat → Except Err Nat
  | 0, _, _, _, _ => .error .fuel
  | n + 1, name, loc, fv, i =>
    if sexp_pairp fv then do
      let a ← sexp_car fv
      if sexp_eq name a then do
        let d ← sexp_cdr fv
        if sexp_eq loc d then pure i else closure_ref_loop n name loc fv (i + 1)
      else closure_ref_loop n name loc fv (i + 1)
    else pure i

def compile_non_global_ref (fuel : Nat) (name loc : Sexp) (lambda : Option Sexp) (fv : Sexp)
    (c : Context) (unboxp : Bool) (h : Heap) : Except Err Context := do
  let c ←
    if (match lambda with
        | some l => sexp_eq loc l
        | none => false) then do
      let c ← emit .OP_LOCAL_REF c
      let node ← get_lambda h loc
      emit_word (.raw (sexp_list_index node.params name)) c
    else do
      let i ← closure_ref_loop fuel name loc fv 0
      let c ← emit .OP_CLOSURE_REF c
      emit_word (.raw i) c
  let node ← get_lambda h loc
  let c ← if unboxp && decide (sexp_list_index node.sv name ≥ 0) then emit .OP_CDR c else pure c
  pure { c with depth := c.depth + 1 }

def sexp_lambda_fv (h : Heap) : Option Sexp → Except Err Sexp
  | some l => do
    let node ← get_lambda h l
    pure node.fv
  | none => .error .fault

def compile_ref (fuel : Nat) (ref : Sexp) (c : Context) (unboxp : Bool) (h : Heap) :
    Except Err Context := do
  let loc ← sexp_ref_loc ref
  if ! sexp_lambdap loc then do
    let c ← emit_push ref c
    emit .OP_CDR c
  else do
    let lam := c.lambda
    let fv ← sexp_lambda_fv h lam
    let name ← sexp_ref_name ref
    compile_non_global_ref fuel name loc lam fv c unboxp h

def compile_set (fuel : Nat) (rec : CRec) (set : Sexp) (c : Context) (h : Heap) : CRes := do
  let (ref, value) ← match set with
    | .set var value => pure (var, value)
    | _ => .error .fault
  let (c, h) ← rec value c h
  let loc ← sexp_ref_loc ref
  let c ← if ! sexp_lambdap loc then emit_push ref c else compile_ref fuel ref c false h
  let c ← emit .OP_SET_CDR c
  pure ({ c with depth := c.depth - 1 }, h)

/-- The argument loops `for ( ; sexp_pairp(ls); ls = sexp_cdr(ls)) compile_one(...)`. -/
def compile_args (rec : CRec) : Sexp → Context → Heap → CRes
  | .pair a d, c, h => do
    let (c, h) ← rec a c h
    compile_args rec d c h
  | _, c, h => pure (c, h)

def get_opcode : Sexp → Except Err Opcode
  | .opcode i => match opcodes[i]? with
    | some o => pure o
    | none => .error .fault
  | _ => .error .fault

/-- Modelled from the spec: `sexp_opcode_variadic_p`, bit 0 of the flags column;
a type tag written in that column has an unknown value. -/
def sexp_opcode_variadic_p (o : Opcode) : Except Err Bool :=
  match o.flags with
  | .bits n => pure (n % 2 == 1)
  | .tag _ => .error .unmodelled

/-- Modelled from the spec: `sexp_opcode_opt_param_p`, bit 1 of the flags column. -/
def sexp_opcode_opt_param_p (o : Opcode) : Except Err Bool :=
  match o.flags with
  | .bits n => pure ((n / 2) % 2 == 1)
  | .tag _ => .error .unmodelled

/-- Modelled from the spec: numeric values of the `OPC_*` enumeration of
`eval.h`, counted from 1 in the order generic, type predicate, predicate,
arithmetic, arithmetic-inverse, arithmetic-compare, I/O, constructor, accessor,
parameter, foreign. -/
def opclass_value : OpClass → Nat
  | .OPC_GENERIC => 1 | .OPC_TYPE_PREDICATE => 2 | .OPC_PREDICATE => 3 | .OPC_ARITHMETIC => 4
  | .OPC_ARITHMETIC_INV => 5 | .OPC_ARITHMETIC_CMP => 6 | .OPC_INOUT => 7 | .OPC_CONSTRUCTOR => 8
  | .OPC_ACCESSOR => 9 | .OPC_PARAMETER => 10 | .OPC_FOREIGN => 11

/-- The C expression `! sexp_opcode_class(op) == OPC_ARITHMETIC_INV`, which
negates the class before comparing. -/
def not_class_eq_inv (o : Opcode) : Bool :=
  (if opclass_value o.op_class = 0 then 1 else 0) == opclass_value .OPC_ARITHMETIC_INV

/-- The folding loop `for (i=num_args-2; i>0; i--) emit(sexp_opcode_code(op))`. -/
def emit_times (op : Op) : Nat → Context → Except Err Context
  | 0, c => pure c
  | n + 1, c => do
    let c ← emit op c
    emit_times op n c

/-- The test of the default-parameter branch of `compile_opcode_app`,
`num_args < sexp_opcode_num_args(op) && sexp_opcode_variadic_p(op) &&
sexp_opcode_data(op)`, evaluated left to right.  With NULL in the data column
the conjunction is false whatever the flag bit is. -/
def opcode_default_p (op : Opcode) (num_args : Int) : Except Err Bool :=
  if num_args < op.num_args then
    match sexp_opcode_variadic_p op with
    | .ok variadic => pure (variadic && decide (op.data ≠ .nodata))
    | .error e => if op.data = .nodata then pure false else .error e
  else pure false

def compile_opcode_app (rec : CRec) (app : Sexp) (c : Context) (h : Heap) : CRes := do
  let opx ← sexp_car app
  let op ← get_opcode opx
  let args ← sexp_cdr app
  let num_args : Int := sexp_length args
  let dflt ← opcode_default_p op num_args
  let (c, num_args) ←
    if dflt then do
      let c ← emit .OP_PARAMETER c
      let c ← emit_word (.cptr op.data) c
      let opt ← sexp_opcode_opt_param_p op
      let c ← if ! opt then do
          let c ← emit .OP_CALL c
          emit_word (sexp_make_integer 0) c
        else pure c
      pure ({ c with depth := c.depth + 1 }, num_args + 1)
    else pure (c, num_args)
  let ls := if op.inverse.isSome && not_class_eq_inv op then args else sexp_reverse args
  let (c, h) ← compile_args rec ls c h
  let c ←
    if op.op_class = .OPC_ARITHMETIC_INV then
      emit (if num_args = 1 then op.inverse.getD .OP_NOOP else op.code) c
    else do
      let c ← if op.op_class = .OPC_FOREIGN then emit_push (.cptr op.data) c else pure c
      emit (match op.inverse with
        | some i => i
        | none => op.code) c
  let c ←
    if num_args > 2 then
      if op.op_class = .OPC_ARITHMETIC ∨ op.op_class = .OPC_ARITHMETIC_INV then
        emit_times op.code (num_args - 2).toNat c
      else pure c
    else pure c
  let c ← if op.op_class = .OPC_PARAMETER then emit_word (.cptr op.data) c else pure c
  pure ({ c with depth := c.depth - (num_args - 1) }, h)

def compile_general_app (rec : CRec) (app : Sexp) (c : Context) (h : Heap) : CRes := do
  let args ← sexp_cdr app
  let len : Nat := sexp_length args
  let (c, h) ← compile_args rec (sexp_reverse args) c h
  let f ← sexp_car app
  let (c, h) ← rec f c h
  let c ←
    if c.tailp then do
      let c ← emit .OP_TAIL_CALL c
      let c ← emit_word (.raw c.depth) c
      emit_word (sexp_make_integer len) c
    else do
      let c ← emit .OP_CALL c
      emit_word (sexp_make_integer len) c
  pure ({ c with depth := c.depth - len }, h)

def compile_app (rec : CRec) (app : Sexp) (c : Context) (h : Heap) : CRes := do
  let f ← sexp_car app
  if sexp_opcodep f then compile_opcode_app rec app c h
  else compile_general_app rec app c h

/-- The loop of `compile_lambda` that stores each captured value in the vector. -/
def compile_closed_vars (fuel : Nat) (prev_lambda : Option Sexp) (prev_fv : Sexp) (h : Heap) :
    Sexp → Nat → Context → Except Err Context
  | .pair ref d, k, c => do
    let name ← sexp_ref_name ref
    let loc ← sexp_ref_loc ref
    let c ← compile_non_global_ref fuel name loc prev_lambda prev_fv c true h
    let c ← emit_push (sexp_make_integer k) c
    let c ← emit .OP_LOCAL_REF c
    let c ← emit_word (.raw 3) c
    let c ← emit .OP_VECTOR_SET c
    let c ← emit .OP_DROP c
    compile_closed_vars fuel prev_lambda prev_fv h d (k + 1) { c with depth := c.depth - 1 }
  | _, _, c => pure c

def compile_lambda (fuel : Nat) (rec : CRec) (lambda : Sexp) (c : Context) (h : Heap) : CRes := do
  let prev_lambda := c.lambda
  let prev_fv ← sexp_lambda_fv h prev_lambda
  let node ← get_lambda h lambda
  let fv := node.fv
  let ctx := { sexp_new_context with lambda := some lambda }
  let body ← match node.body with
    | some b => pure b
    | none => .error .fault
  let (ctx, h) ← rec body ctx h
  let flags := sexp_make_integer (if sexp_listp node.params then 0 else 1)
  let len := sexp_make_integer (sexp_length node.params)
  let (bc, h) ← finalize_bytecode ctx h
  if sexp_nullp fv then do
    let (vec, h) := sexp_make_vector h 0 .undef
    compile_lit (sexp_make_procedure flags len bc vec) c h
  else do
    let c ← emit_push .undef c
    let c ← emit_push len c
    let c ← emit .OP_MAKE_VECTOR c
    let c ← compile_closed_vars fuel prev_lambda prev_fv h fv 0 { c with depth := c.depth - 1 }
    let c ← emit_push bc c
    let c ← emit_push len c
    let c ← emit_push flags c
    let c ← emit .OP_MAKE_PROCEDURE c
    pure (c, h)

/-- The body of `compile_one`, `rec` being the recursive call and `fuel` the
budget of the closure-ref loop. -/
def compile_one_step (fuel : Nat) (rec : CRec) (x : Sexp) (c : Context) (h : Heap) : CRes :=
  match x with
  | .pair _ _ => compile_app rec x c h
  | .lambda _ => compile_lambda fuel rec x c h
  | .cnd test pass fail => compile_cnd rec test pass fail c h
  | .ref _ _ => do
    let c ← compile_ref fuel x c true h
    pure (c, h)
  | .set _ _ => compile_set fuel rec x c h
  | .seq ls => compile_seq rec ls c h
  | .lit value => compile_lit value c h
  | _ => compile_lit x c h

def compile_oneF : Nat → CRec
  | 0 => fun _ _ _ => .error .fuel
  | n + 1 => compile_one_step n (compile_oneF n)

def compile_one (x : Sexp) (c : Context) (h : Heap) : CRes :=
  compile_oneF (ast_budget h x) x c h

/-- The entry point `compile(x, env, context)`: the thunk, or the Exception of
the analyzer. -/
def compile (x : Sexp) (env : Nat) (h : Heap) : Except Err (Sexp × Heap) := do
  let (ast, h) ← analyze x env h
  if sexp_exceptionp ast then pure (ast, h)
  else do
    let (_, h) ← free_vars ast .null h
    let ctx := sexp_new_context
    let (ctx, h) ← compile_one ast ctx h
    let (bc, h) ← finalize_bytecode ctx h
    let (vec, h) := sexp_make_vector h 0 .undef
    pure (sexp_make_procedure (sexp_make_integer 0) (sexp_make_integer 0) bc vec, h)

/-! ## The virtual machine -/

/-- The process-wide singletons: the two resumer bytecodes set by `scheme_init`,
the value of the error-handler cell, and the port and environment cells the
`PARAMETER` opcode reads. -/
structure Runtime where
  continuation_resumer : Sexp
  final_resumer : Sexp
  exception_handler : Sexp
  cur_input_port : Sexp
  cur_output_port : Sexp
  cur_error_port : Sexp
  interaction_environment : Sexp
  deriving DecidableEq, Repr, Inhabited

/-- The registers of `vm`: heap, value stack (a slot never written is `none`),
`top`, the current bytecode and the offset `ip` into its data, and `cp`. -/
structure VM where
  heap : Heap
  stack : List (Option Sexp)
  top : Int
  bc : Nat
  ip : Int
  cp : Sexp
  deriving DecidableEq, Repr, Inhabited

/-- A step of the machine either continues or leaves the loop with a value. -/
inductive Step where
  | next (m : VM)
  | done (v : Sexp)
  deriving DecidableEq, Repr, Inhabited

def stack_get (stack : List (Option Sexp)) (i : Int) : Except Err Sexp :=
  if 0 ≤ i ∧ i < INIT_STACK_SIZE then
    match stack[i.toNat]? with
    | some (some v) => pure v
    | _ => .error .fault
  else .error .fault

def stack_set (stack : List (Option Sexp)) (i : Int) (v : Sexp) :
    Except Err (List (Option Sexp)) :=
  if 0 ≤ i ∧ i < INIT_STACK_SIZE then
    if i.toNat < stack.length then pure (stack.set i.toNat (some v))
    else pure (stack ++ List.replicate (i.toNat - stack.length) none ++ [some v])
  else .error .fault

def VM.arg (m : VM) (n : Int) : Except Err Sexp := stack_get m.stack (m.top - n)

def VM.set_arg (m : VM) (n : Int) (v : Sexp) : Except Err VM := do
  let st ← stack_set m.stack (m.top - n) v
  pure { m with stack := st }

def VM.push (m : VM) (v : Sexp) : Except Err VM := do
  let st ← stack_set m.stack m.top v
  pure { m with stack := st, top := m.top + 1 }

def get_bytecode (h : Heap) : Sexp → Except Err (List Slot)
  | .bytecode a => match h.bcs[a]? with
    | some d => pure d
    | none => .error .fault
  | _ => .error .fault

def read_byte (h : Heap) (bc : Nat) (ip : Int) : Except Err Op :=
  match h.bcs[bc]? with
  | some d =>
    if 0 ≤ ip then
      match d[ip.toNat]? with
      | some (.byte op) => pure op
      | _ => .error .fault
    else .error .fault
  | none => .error .fault

/-- The read `((sexp*)ip)[k]`: a whole word written by `emit_word`. -/
def read_word (h : Heap) (bc : Nat) (ip : Int) (k : Nat) : Except Err Sexp :=
  match h.bcs[bc]? with
  | some d =>
    let at_ := ip + k * sizeof_sexp
    if 0 ≤ at_ then
      match d[at_.toNat]? with
      | some (.word w) =>
        if (d.drop (at_.toNat + 1)).take (sizeof_sexp - 1) = List.replicate (sizeof_sexp - 1) .wtail
        then pure w else .error .fault
      | _ => .error .fault
    else .error .fault
  | none => .error .fault

/-- Modelled from the spec: `sexp_unbox_integer`; a boxed fixnum gives its
integer, a raw word is shifted right by the tag width. -/
def sexp_unbox_integer : Sexp → Except Err Int
  | .fixnum n => pure n
  | .raw n => pure (n / 2 ^ SEXP_FIXNUM_BITS)
  | _ => .error .fault

/-- The cast `(sexp_sint_t) ((sexp*)ip)[0]` of a word to a raw integer. -/
def word_raw : Sexp → Except Err Int
  | .raw n => pure n
  | _ => .error .fault

/-- The cast `(unsigned char*) sexp_unbox_integer(x)` of a saved instruction
pointer. -/
def unbox_codeptr : Sexp → Except Err (Nat × Int)
  | .codeptr bc off => pure (bc, off)
  | _ => .error .fault

def make_codeptr (bc : Nat) (ip : Int) : Except Err Sexp :=
  if 0 ≤ ip then pure (.codeptr bc ip.toNat) else .error .fault

def sexp_make_boolean (b : Bool) : Sexp := if b then .strue else .sfalse

def sexp_integerp : Sexp → Bool
  | .fixnum _ => true
  | _ => false

def sexp_vector_ref (h : Heap) (v : Sexp) (i : Sexp) : Except Err Sexp := do
  let k ← sexp_unbox_integer i
  match v with
  | .vector a => match h.vecs[a]? with
    | some d =>
      if 0 ≤ k then
        match d[k.toNat]? with
        | some x => pure x
        | none => .error .fault
      else .error .fault
    | none => .error .fault
  | _ => .error .fault

def sexp_vector_set (h : Heap) (v : Sexp) (i : Sexp) (x : Sexp) : Except Err Heap := do
  let k ← sexp_unbox_integer i
  match v with
  | .vector a => match h.vecs[a]? with
    | some d =>
      if 0 ≤ k ∧ k.toNat < d.length then
        pure { h with vecs := h.vecs.set a (d.set k.toNat x) }
      else .error .fault
    | none => .error .fault
  | _ => .error .fault

/-- Modelled from the spec: `sexp_procedure_variadic_p`, "flags bit 0 indicates
variadic". -/
def sexp_procedure_variadic_p : Sexp → Except Err Bool
  | .procedure (.fixnum f) _ _ _ => pure (f % 2 == 1)
  | _ => .error .fault

def sexp_procedure_num_args : Sexp → Except Err Sexp
  | .procedure _ n _ _ => pure n
  | _ => .error .fault

def sexp_procedure_code : Sexp → Except Err Sexp
  | .procedure _ _ bc _ => pure bc
  | _ => .error .fault

def sexp_procedure_vars : Sexp → Except Err Sexp
  | .procedure _ _ _ vars => pure vars
  | _ => .error .fault

/-- The address `sexp_bytecode_data(bc)`, offset 0 of the data of a bytecode. -/
def sexp_bytecode_data : Sexp → Except Err Nat
  | .bytecode a => pure a
  | _ => .error .fault

/-- Fixnum arithmetic is done on machine words: `2^(64 - SEXP_FIXNUM_BITS)`
values, two's complement. -/
def fx_wrap (n : Int) : Int :=
  (n + 2 ^ (61 : Nat)) % 2 ^ (62 : Nat) - 2 ^ (61 : Nat)

/-- The tagged word of a fixnum read as an unsigned address, the order `<`
compares by. -/
def fx_word (n : Int) : Int := (n * 4 + 1) % 2 ^ (64 : Nat)

/-- The jump to `call_error_handler`: the exception is on top of the stack. -/
def call_error_handler (rt : Runtime) (m : VM) : Except Err Step := do
  let tmp1 := rt.exception_handler
  let st ← stack_set m.stack m.top (.raw 1)
  let ret ← make_codeptr m.bc (m.ip + 4)
  let st ← stack_set st (m.top + 1) ret
  let st ← stack_set st (m.top + 2) m.cp
  let bc ← sexp_procedure_code tmp1
  let a ← sexp_bytecode_data bc
  let cp ← sexp_procedure_vars tmp1
  pure (.next { m with stack := st, top := m.top + 3, bc := a, ip := 0, cp := cp })

/-- The statement `sexp_raise(msg, args)`. -/
def sexp_raise (rt : Runtime) (m : VM) (msg : String) (args : Sexp) : Except Err Step := do
  let st ← stack_set m.stack m.top (sexp_compile_error msg args)
  call_error_handler rt { m with stack := st, top := m.top + 1 }

/-- The loop `for (k=top-i; k<top-(i-j)-1; k++) stack[top-i-1] = sexp_cons(stack[k],
stack[top-i-1])` of the variadic call, `n` iterations from `k`. -/
def gather_rest (slot : Int) : Nat → Int → List (Option Sexp) → Except Err (List (Option Sexp))
  | 0, _, st => pure st
  | n + 1, k, st => do
    let x ← stack_get st k
    let acc ← stack_get st slot
    let st ← stack_set st slot (sexp_cons x acc)
    gather_rest slot n (k + 1) st

/-- The copying loops `stack[dst+k] = stack[src+k]` for `k = 0 .. n-1`, in
ascending order. -/
def copy_slots (dst src : Int) : Nat → Int → List (Option Sexp) →
    Except Err (List (Option Sexp))
  | 0, _, st => pure st
  | n + 1, k, st => do
    let x ← stack_get st (src + k)
    let st ← stack_set st (dst + k) x
    copy_slots dst src n (k + 1) st

/-- The loop `for (k=top; k>=top-i; k--) stack[k] = stack[k-1]`, `n` iterations. -/
def shift_up : Nat → Int → List (Option Sexp) → Except Err (List (Option Sexp))
  | 0, _, st => pure st
  | n + 1, k, st => do
    let x ← stack_get st (k - 1)
    let st ← stack_set st k x
    shift_up n (k - 1) st

/-- The code at label `make_call`: `tmp1` is the callee, `i` the argument count. -/
def make_call (rt : Runtime) (m : VM) (tmp1 : Sexp) (i : Int) : Except Err Step := do
  let tmp1 := if sexp_opcodep tmp1 then Sexp.undef else tmp1
  if ! sexp_procedurep tmp1 then
    sexp_raise rt m "non procedure application" (sexp_list1 tmp1)
  else do
    let na ← sexp_procedure_num_args tmp1
    let d ← sexp_unbox_integer na
    let j := i - d
    let variadic ← sexp_procedure_variadic_p tmp1
    if j < 0 then
      sexp_raise rt m "not enough args" (sexp_list2 tmp1 (sexp_make_integer i))
    else if j > 0 ∧ ! variadic then
      sexp_raise rt m "too many args" (sexp_list2 tmp1 (sexp_make_integer i))
    else do
      let (st, top, i) ←
        if j > 0 then do
          let slot := m.top - i - 1
          let x ← stack_get m.stack slot
          let st ← stack_set m.stack slot (sexp_cons x .null)
          let n1 := ((m.top - (i - j) - 1) - (m.top - i)).toNat
          let st ← gather_rest slot n1 (m.top - i) st
          let k := m.top - i + n1
          let st ← copy_slots (k - j + 1) k (m.top - k).toNat 0 st
          pure (st, m.top - (j - 1), i - (j - 1))
        else if variadic then do
          let st ← shift_up (i + 1).toNat m.top m.stack
          let st ← stack_set st (m.top - i - 1) .null
          pure (st, m.top + 1, i + 1)
        else pure (m.stack, m.top, i)
      let st ← stack_set st (top - 1) (sexp_make_integer i)
      let ret ← make_codeptr m.bc (m.ip + sizeof_sexp)
      let st ← stack_set st top ret
      let st ← stack_set st (top + 1) m.cp
      let bc ← sexp_procedure_code tmp1
      let a ← sexp_bytecode_data bc
      let cp ← sexp_procedure_vars tmp1
      pure (.next { m with stack := st, top := top + 2, bc := a, ip := 0, cp := cp })

/-- The loop of `sexp_save_stack`: the slots `0 .. to-1`. -/
def sexp_save_stack (stack : List (Option Sexp)) : Nat → Except Err (List Sexp)
  | 0 => pure []
  | n + 1 => do
    let rest ← sexp_save_stack stack n
    let x ← stack_get stack n
    pure (rest ++ [x])

/-- The loop of `sexp_restore_stack`, `i` being the next index. -/
def sexp_restore_stack : List Sexp → Int → List (Option Sexp) →
    Except Err (List (Option Sexp))
  | [], _, st => pure st
  | x :: rest, i, st => do
    let st ← stack_set st i x
    sexp_restore_stack rest (i + 1) st

/-- The loop `for ( ; sexp_pairp(tmp2); tmp2=sexp_cdr(tmp2), top--) _ARG1 = sexp_car(tmp2)`
of `OP_APPLY1`. -/
def spread_args : Sexp → Int → List (Option Sexp) → Except Err (List (Option Sexp) × Int)
  | .pair a d, top, st => do
    let st ← stack_set st (top - 1) a
    spread_args d (top - 1) st
  | _, top, st => pure (st, top)

def type_test (m : VM) (p : Sexp → Bool) : Except Err Step := do
  let a ← m.arg 1
  let m ← m.set_arg 1 (sexp_make_boolean (p a))
  pure (.next m)

/-- The integer cases of `OP_ADD`, `OP_SUB` and `OP_MUL`. -/
def arith (rt : Runtime) (m : VM) (f : Int → Int → Int) (msg : String) : Except Err Step := do
  let a1 ← m.arg 1
  let a2 ← m.arg 2
  match a1, a2 with
  | .fixnum x, .fixnum y =>
    let m ← m.set_arg 2 (.fixnum (fx_wrap (f x y)))
    pure (.next { m with top := m.top - 1 })
  | _, _ => sexp_raise rt m msg (sexp_list2 a1 a2)

/-- The comparisons `_ARG1 < _ARG2` etc., which compare the tagged words. -/
def compare (m : VM) (f : Int → Int → Bool) : Except Err Step := do
  let a1 ← m.arg 1
  let a2 ← m.arg 2
  match a1, a2 with
  | .fixnum x, .fixnum y =>
    let m ← m.set_arg 2 (sexp_make_boolean (f (fx_word x) (fx_word y)))
    pure (.next { m with top := m.top - 1 })
  | _, _ => .error .unmodelled

/-- Values whose `==` is decided by their spelling: immediates, symbols and
addresses. -/
def sexp_immediatep : Sexp → Bool
  | .pair _ _ | .string _ | .procedure _ _ _ _ | .exception _ _ _ | .mac _ _ | .synclo _ _
  | .cnd _ _ _ | .ref _ _ | .set _ _ | .seq _ | .lit _ => false
  | _ => true

def deref_global (rt : Runtime) : Sexp → Except Err Sexp
  | .cptr .cur_input_port => pure rt.cur_input_port
  | .cptr .cur_output_port => pure rt.cur_output_port
  | .cptr .cur_error_port => pure rt.cur_error_port
  | .cptr .interaction_environment => pure rt.interaction_environment
  | _ => .error .fault

/-- Modelled from the spec: the byte value of an opcode, numbered in the order
of the declaration (`eval.h` is not part of the sources). -/
def op_byte (op : Op) : Int := op.toCtorIdx

/-- One turn of the `switch (*ip++)` loop of `vm`. -/
def vm_step (rt : Runtime) (m0 : VM) : Except Err Step := do
  let op ← read_byte m0.heap m0.bc m0.ip
  let m := { m0 with ip := m0.ip + 1 }
  match op with
  | .OP_NOOP => pure (.next m)
  | .OP_LOCAL_REF => do
    let w ← read_word m.heap m.bc m.ip 0
    let k ← word_raw w
    let x ← stack_get m.stack (m.top - k)
    let st ← stack_set m.stack m.top x
    pure (.next { m with stack := st, ip := m.ip + sizeof_sexp, top := m.top + 1 })
  | .OP_LOCAL_SET => do
    let w ← read_word m.heap m.bc m.ip 0
    let k ← word_raw w
    let x ← m.arg 1
    let st ← stack_set m.stack (m.top - k) x
    let m ← VM.set_arg { m with stack := st } 1 .undef
    pure (.next { m with ip := m.ip + sizeof_sexp })
  | .OP_CLOSURE_REF => do
    let w ← read_word m.heap m.bc m.ip 0
    let x ← sexp_vector_ref m.heap m.cp w
    let m ← m.push x
    pure (.next { m with ip := m.ip + sizeof_sexp })
  | .OP_VECTOR_REF => do
    let a1 ← m.arg 1
    let a2 ← m.arg 2
    let x ← sexp_vector_ref m.heap a1 a2
    let m ← m.set_arg 2 x
    pure (.next { m with top := m.top - 1 })
  | .OP_VECTOR_SET => do
    let a1 ← m.arg 1
    let a2 ← m.arg 2
    let a3 ← m.arg 3
    let h ← sexp_vector_set m.heap a1 a2 a3
    let m ← VM.set_arg { m with heap := h } 3 .undef
    pure (.next { m with top := m.top - 2 })
  | .OP_STRING_REF => .error .unmodelled
  | .OP_STRING_SET => .error .unmodelled
  | .OP_MAKE_PROCEDURE => do
    let a1 ← m.arg 1
    let a2 ← m.arg 2
    let a3 ← m.arg 3
    let a4 ← m.arg 4
    let m ← m.set_arg 4 (sexp_make_procedure a1 a2 a3 a4)
    pure (.next { m with top := m.top - 3 })
  | .OP_MAKE_VECTOR => do
    let a1 ← m.arg 1
    let a2 ← m.arg 2
    let len ← sexp_unbox_integer a1
    if len < 0 then .error .fault
    else do
      let (v, h) := sexp_make_vector m.heap len.toNat a2
      let m ← VM.set_arg { m with heap := h } 2 v
      pure (.next { m with top := m.top - 1 })
  | .OP_PUSH => do
    let w ← read_word m.heap m.bc m.ip 0
    let m ← m.push w
    pure (.next { m with ip := m.ip + sizeof_sexp })
  | .OP_DROP => pure (.next { m with top := m.top - 1 })
  | .OP_PARAMETER => do
    let w ← read_word m.heap m.bc m.ip 0
    let x ← deref_global rt w
    let m ← m.push x
    pure (.next { m with ip := m.ip + sizeof_sexp })
  | .OP_PAIRP => type_test m sexp_pairp
  | .OP_NULLP => type_test m sexp_nullp
  | .OP_CHARP => type_test m (fun x => match x with
    | .char _ => true
    | _ => false)
  | .OP_INTEGERP => type_test m sexp_integerp
  | .OP_SYMBOLP => type_test m sexp_symbolp
  | .OP_STRINGP => type_test m (fun x => match x with
    | .string _ => true
    | _ => false)
  | .OP_VECTORP => type_test m (fun x => match x with
    | .vector _ => true
    | _ => false)
  | .OP_PROCEDUREP => type_test m sexp_procedurep
  | .OP_IPORTP => type_test m (fun x => match x with
    | .port true _ => true
    | _ => false)
  | .OP_OPORTP => type_test m (fun x => match x with
    | .port false _ => true
    | _ => false)
  | .OP_EOFP => type_test m (fun x => sexp_eq x .eof)
  | .OP_CAR => do
    let a1 ← m.arg 1
    match a1 with
    | .pair a _ => do
      let m ← m.set_arg 1 a
      pure (.next m)
    | _ => sexp_raise rt m "car: not a pair" (sexp_list1 a1)
  | .OP_CDR => do
    let a1 ← m.arg 1
    match a1 with
    | .pair _ d => do
      let m ← m.set_arg 1 d
      pure (.next m)
    | _ => sexp_raise rt m "cdr: not a pair" (sexp_list1 a1)
  | .OP_SET_CAR => do
    let a1 ← m.arg 1
    if ! sexp_pairp a1 then sexp_raise rt m "set-car!: not a pair" (sexp_list1 a1)
    else .error .unmodelled
  | .OP_SET_CDR => do
    let a1 ← m.arg 1
    if ! sexp_pairp a1 then sexp_raise rt m "set-cdr!: not a pair" (sexp_list1 a1)
    else .error .unmodelled
  | .OP_CONS => do
    let a1 ← m.arg 1
    let a2 ← m.arg 2
    let m ← m.set_arg 2 (sexp_cons a1 a2)
    pure (.next { m with top := m.top - 1 })
  | .OP_ADD => arith rt m (fun x y => x + y) "+: not a number"
  | .OP_SUB => arith rt m (fun x y => x - y) "-: not a number"
  | .OP_MUL => arith rt m (fun x y => x * y) "*: not a number"
  | .OP_DIV => do
    let a1 ← m.arg 1
    let a2 ← m.arg 2
    if sexp_integerp a1 && sexp_integerp a2 then .error .unmodelled
    else sexp_raise rt m "/: not a number" (sexp_list2 a1 a2)
  | .OP_QUOT => do
    let a1 ← m.arg 1
    let a2 ← m.arg 2
    match a1, a2 with
    | .fixnum x, .fixnum y =>
      if y = 0 then .error .fault
      else do
        let m ← m.set_arg 2 (.fixnum (fx_wrap (Int.tdiv x y)))
        pure (.next { m with top := m.top - 1 })
    | _, _ => sexp_raise rt m "quotient: not a number" (sexp_list2 a1 a2)
  | .OP_MOD => do
    let a1 ← m.arg 1
    let a2 ← m.arg 2
    match a1, a2 with
    | .fixnum x, .fixnum y =>
      if y = 0 then .error .fault
      else do
        let m ← m.set_arg 2 (.fixnum (fx_wrap (Int.tmod x y)))
        pure (.next { m with top := m.top - 1 })
    | _, _ => sexp_raise rt m "modulo: not a number" (sexp_list2 a1 a2)
  | .OP_NEG => do
    let a1 ← m.arg 1
    match a1 with
    | .fixnum x => do
      let m ← m.set_arg 1 (.fixnum (fx_wrap (-x)))
      pure (.next m)
    | _ => sexp_raise rt m "-: not a number" (sexp_list1 a1)
  | .OP_LT => compare m (fun x y => decide (x < y))
  | .OP_LE => compare m (fun x y => decide (x ≤ y))
  | .OP_GT => compare m (fun x y => decide (x > y))
  | .OP_GE => compare m (fun x y => decide (x ≥ y))
  | .OP_EQ | .OP_EQN => do
    let a1 ← m.arg 1
    let a2 ← m.arg 2
    if sexp_immediatep a1 || sexp_immediatep a2 then do
      let m ← m.set_arg 2 (sexp_make_boolean (sexp_eq a1 a2))
      pure (.next { m with top := m.top - 1 })
    else .error .unmodelled
  | .OP_TAIL_CALL => do
    let w0 ← read_word m.heap m.bc m.ip 0
    let w1 ← read_word m.heap m.bc m.ip 1
    let j ← sexp_unbox_integer w0
    let i ← sexp_unbox_integer w1
    let tmp1 ← m.arg 1
    let rip ← stack_get m.stack (m.top - i - 3)
    let (rbc, roff) ← unbox_codeptr rip
    let cp ← stack_get m.stack (m.top - i - 2)
    let st ← copy_slots (m.top - j) (m.top - i - 1) i.toNat 0 m.stack
    make_call rt { m with stack := st, top := m.top - (j - i - 1), bc := rbc,
                          ip := roff - sizeof_sexp, cp := cp } tmp1 i
  | .OP_CALL => do
    if m.top ≥ INIT_STACK_SIZE then sexp_raise rt m "out of stack space" .null
    else do
      let w ← read_word m.heap m.bc m.ip 0
      let i ← sexp_unbox_integer w
      let tmp1 ← m.arg 1
      make_call rt m tmp1 i
  | .OP_APPLY1 => do
    let tmp1 ← m.arg 1
    let tmp2 ← m.arg 2
    let i : Int := sexp_length tmp2
    let (st, top) ← spread_args tmp2 (m.top + (i - 2)) m.stack
    make_call rt { m with stack := st, top := top + i + 1, ip := m.ip - sizeof_sexp } tmp1 i
  | .OP_CALLCC => do
    let tmp1 ← m.arg 1
    let st ← stack_set m.stack m.top (sexp_make_integer 1)
    let here ← make_codeptr m.bc m.ip
    let st ← stack_set st (m.top + 1) here
    let st ← stack_set st (m.top + 2) m.cp
    let saved ← sexp_save_stack st (m.top + 3).toNat
    let h := m.heap
    let sv : Sexp := .vector h.vecs.length
    let h1 : Heap := { h with vecs := h.vecs ++ [saved] }
    let cv : Sexp := .vector h1.vecs.length
    let h2 : Heap := { h1 with vecs := h1.vecs ++ [[sv]] }
    let k := sexp_make_procedure (sexp_make_integer 0) (sexp_make_integer 1)
      rt.continuation_resumer cv
    let st ← stack_set st (m.top - 1) k
    make_call rt { m with heap := h2, stack := st, top := m.top + 1,
                          ip := m.ip - sizeof_sexp } tmp1 1
  | .OP_RESUMECC => do
    let tmp1 ← m.arg 4
    let saved ← sexp_vector_ref m.heap m.cp (.raw 0)
    let data ← match saved with
      | .vector a => match m.heap.vecs[a]? with
        | some d => pure d
        | none => .error .fault
      | _ => .error .fault
    let st ← sexp_restore_stack data 0 m.stack
    let top : Int := data.length
    let cp ← stack_get st (top - 1)
    let rip ← stack_get st (top - 2)
    let (rbc, roff) ← unbox_codeptr rip
    let st ← stack_set st (top - 3 - 1) tmp1
    pure (.next { m with stack := st, top := top - 3, bc := rbc, ip := roff, cp := cp })
  | .OP_ERROR => call_error_handler rt m
  | .OP_FCALL0 | .OP_FCALL1 | .OP_FCALL2 | .OP_FCALL3 => .error .unmodelled
  | .OP_JUMP_UNLESS => do
    let x ← stack_get m.stack (m.top - 1)
    let m := { m with top := m.top - 1 }
    if sexp_eq x .sfalse then do
      let w ← read_word m.heap m.bc m.ip 0
      let d ← word_raw w
      pure (.next { m with ip := m.ip + d })
    else pure (.next { m with ip := m.ip + 1 })
  | .OP_JUMP => do
    let w ← read_word m.heap m.bc m.ip 0
    let d ← word_raw w
    pure (.next { m with ip := m.ip + d })
  | .OP_DISPLAY | .OP_WRITE | .OP_WRITE_CHAR | .OP_NEWLINE | .OP_FLUSH_OUTPUT | .OP_READ
  | .OP_READ_CHAR => .error .unmodelled
  | .OP_RET => do
    if m.top < 4 then do
      let v ← m.arg 1
      pure (.done v)
    else do
      let cp ← m.arg 2
      let rip ← m.arg 3
      let (rbc, roff) ← unbox_codeptr rip
      let n ← m.arg 4
      let i ← sexp_unbox_integer n
      let v ← m.arg 1
      let st ← stack_set m.stack (m.top - i - 4) v
      pure (.next { m with stack := st, top := m.top - i - 3, bc := rbc, ip := roff, cp := cp })
  | .OP_DONE => do
    let v ← m.arg 1
    pure (.done v)
  | .OP_INV => sexp_raise rt m "unknown opcode" (sexp_list1 (sexp_make_integer (op_byte .OP_INV)))

/-- The loop of `vm`, at most `fuel` instructions. -/
def vm_run (rt : Runtime) : Nat → VM → Except Err Sexp
  | 0, _ => .error .fuel
  | n + 1, m => do
    match ← vm_step rt m with
    | .done v => pure v
    | .next m1 => vm_run rt n m1

def vm (rt : Runtime) (fuel : Nat) (bc : Sexp) (cp : Sexp) (h : Heap)
    (stack : List (Option Sexp)) (top : Int) : Except Err Sexp := do
  let a ← sexp_bytecode_data bc
  vm_run rt fuel { heap := h, stack := stack, top := top, bc := a, ip := 0, cp := cp }

/-! ## The eval interface -/

/-- The two resumer bytecodes built by `scheme_init`. -/
def scheme_init (h : Heap) : Except Err ((Sexp × Sexp) × Heap) := do
  let context := sexp_new_context
  let context ← emit .OP_RESUMECC context
  let (continuation_resumer, h) ← finalize_bytecode context h
  let context := sexp_extend_context none
  let context ← emit .OP_DONE context
  let (final_resumer, h) ← finalize_bytecode context h
  pure ((continuation_resumer, final_resumer), h)

/-- The argument loop of `apply`. -/
def push_args : Sexp → Int → List (Option Sexp) → Except Err (List (Option Sexp) × Int)
  | .pair a d, top, st => do
    let st ← stack_set st top a
    push_args d (top + 1) st
  | _, top, st => pure (st, top)

/-- The word `sexp_make_integer(sexp_bytecode_data(sexp_procedure_code(x)))` that
`apply` stores as return address.  The field is read without a tag test and the
data address is computed from it, not read through it, so the expression has a
value for every object `x` and touches no memory outside `x`.  For a Procedure
over a Bytecode the word is the boxed address of the first instruction.  For
any other object the bytes at the position of the field are not the address
of a Bytecode: the word is kept as a raw word, from which `unbox_codeptr`
decodes no instruction pointer. -/
def resumer_address : Sexp → Sexp
  | .procedure _ _ (.bytecode a) _ => .codeptr a 0
  | _ => .raw 0

/-- The frame of `apply`: the arguments in list order, the argument count, the
return address taken from `final_resumer`, an empty vector; then the VM runs
the code of `proc`. -/
def apply (rt : Runtime) (fuel : Nat) (proc args : Sexp) (h : Heap)
    (stack : List (Option Sexp)) : Except Err Sexp := do
  let (stack, top) ← push_args args 0 stack
  let stack ← stack_set stack top (sexp_make_integer top)
  let top := top + 1
  let stack ← stack_set stack top (resumer_address rt.final_resumer)
  let top := top + 1
  let (vec, h) := sexp_make_vector h 0 .undef
  let stack ← stack_set stack top vec
  let top := top + 1
  let bc ← sexp_procedure_code proc
  let cp ← sexp_procedure_vars proc
  vm rt fuel bc cp h stack top

def eval_in_context (rt : Runtime) (fuel : Nat) (obj : Sexp) (env : Nat) (h : Heap)
    (stack : List (Option Sexp)) : Except Err Sexp := do
  let (thunk, h) ← compile obj env h
  apply rt fuel thunk .null h stack

/-- The wrapper `eval(obj, env)`: a new context has a new, unwritten stack. -/
def eval (rt : Runtime) (fuel : Nat) (obj : Sexp) (env : Nat) (h : Heap) : Except Err Sexp :=
  eval_in_context rt fuel obj env h []

/-! ## Start-up state and form builders -/

/-- A proper list of forms. -/
def sexp_list : List Sexp → Sexp
  | [] => .null
  | a :: rest => .pair a (sexp_list rest)

/-- The initialisation done by `main` before any form is read: `scheme_init`,
the standard environment, and the default error handler `PUSH undef; DONE`. -/
def main_init : Except Err (Runtime × Nat × Heap) := do
  let ((continuation_resumer, final_resumer), h) ← scheme_init empty_heap
  let (e, h) ← make_standard_env h
  let context := sexp_new_context
  let context ← emit_push .undef context
  let context ← emit .OP_DONE context
  let (bc, h) ← finalize_bytecode context h
  let (vec, h) := sexp_make_vector h 0 .undef
  let err_handler := sexp_make_procedure (sexp_make_integer 0) (sexp_make_integer 0) bc vec
  let h ← env_define h e (sexp_intern "*error-handler*") err_handler
  pure ({ continuation_resumer := continuation_resumer, final_resumer := final_resumer,
          exception_handler := err_handler, cur_input_port := .port true 0,
          cur_output_port := .port false 1, cur_error_port := .port false 2,
          interaction_environment := .env e }, e, h)

/-- The runtime singletons after `main_init`. -/
def main_rt : Runtime :=
  match main_init with
  | .ok (rt, _, _) => rt
  | .error _ => default

/-- The standard environment after `main_init`. -/
def main_env : Nat :=
  match main_init with
  | .ok (_, e, _) => e
  | .error _ => 0

/-- The heap after `main_init`. -/
def main_heap : Heap :=
  match main_init with
  | .ok (_, _, h) => h
  | .error _ => empty_heap

/-- Occurrence of a node in an AST: `Sub h y x` holds when `y` is `x` or is
reached from `x` through the fields the free-variable pass and the compiler
descend into, the body of a Lambda being read from the heap `h`. -/
inductive Sub (h : Heap) : Sexp → Sexp → Prop where
  | refl (x : Sexp) : Sub h x x
  | car {y a d : Sexp} : Sub h y a → Sub h y (.pair a d)
  | cdr {y a d : Sexp} : Sub h y d → Sub h y (.pair a d)
  | test {y t p f : Sexp} : Sub h y t → Sub h y (.cnd t p f)
  | pass {y t p f : Sexp} : Sub h y p → Sub h y (.cnd t p f)
  | fail {y t p f : Sexp} : Sub h y f → Sub h y (.cnd t p f)
  | var {y v x : Sexp} : Sub h y v → Sub h y (.set v x)
  | value {y v x : Sexp} : Sub h y x → Sub h y (.set v x)
  | seq {y ls : Sexp} : Sub h y ls → Sub h y (.seq ls)
  | body {y b : Sexp} {a : Nat} {n : LamNode} :
      h.lams[a]? = some n → n.body = some b → Sub h y b → Sub h y (.lambda a)

/-- Forms as the reader produces them: atoms and pairs, no AST node and no
syntactic closure. -/
def raw_form : Sexp → Bool
  | .null | .undef | .sdef | .eof | .strue | .sfalse | .fixnum _ | .char _ | .symbol _
  | .string _ | .vector _ => true
  | .pair a d => raw_form a && raw_form d
  | _ => false

/-- Values that `analyze` returns unchanged and `compile_one` compiles as a
literal: everything but pairs, symbols, syntactic closures, AST nodes and
Exceptions (which `compile` hands back instead of a thunk). -/
def self_evaluating : Sexp → Bool
  | .pair _ _ | .symbol _ | .synclo _ _ | .exception _ _ _ | .lambda _ | .cnd _ _ _ | .ref _ _
  | .set _ _ | .seq _ | .lit _ => false
  | _ => true

/-- The code `PUSH w; RET` that `compile` produces for a literal `w`. -/
def push_ret_code (w : Sexp) : List Slot :=
  [.byte .OP_PUSH] ++ word_slots w ++ [.byte .OP_RET]

/-! ## Well-formedness of analyzed ASTs -/

/-- A binding cell made by `extend_env` for a Lambda: its value is a Lambda node
whose flattened parameter list holds its name. -/
def LamBind (h : Heap) (c : Sexp × Sexp) : Prop :=
  ∃ a node, c.2 = .lambda a ∧ h.lams[a]? = some node
    ∧ sexp_memq c.1 (sexp_flatten_dot node.params) = true

/-- The loc `l` of a Ref named `n`: a Lambda node whose parameter list binds `n`,
or the value of the binding cell of `n` in the root frame `r`. -/
def RefGood (h : Heap) (r : Nat) (n l : Sexp) : Prop :=
  LamBind h (n, l)
    ∨ ∃ f, h.envs[r]? = some f ∧ f.parent = none ∧ assq_cell n f.bindings = some (n, l)

/-- Nodes the passes do not descend into. -/
def ast_leaf : Sexp → Bool
  | .ref _ _ | .pair _ _ | .cnd _ _ _ | .set _ _ | .seq _ | .lambda _ => false
  | _ => true

/-- An AST all of whose Refs have a good loc and all of whose Lambdas have a body. -/
inductive GoodAst (h : Heap) (r : Nat) : Sexp → Prop where
  | leaf {x : Sexp} : ast_leaf x = true → GoodAst h r x
  | ref {n l : Sexp} : RefGood h r n l → GoodAst h r (.ref n l)
  | pair {a d : Sexp} : GoodAst h r a → GoodAst h r d → GoodAst h r (.pair a d)
  | cnd {t p f : Sexp} : GoodAst h r t → GoodAst h r p → GoodAst h r f → GoodAst h r (.cnd t p f)
  | set {v x : Sexp} : GoodAst h r v → GoodAst h r x → GoodAst h r (.set v x)
  | seq {ls : Sexp} : GoodAst h r ls → GoodAst h r (.seq ls)
  | lambda {a : Nat} {node : LamNode} {b : Sexp} :
      h.lams[a]? = some node → node.body = some b → GoodAst h r b → GoodAst h r (.lambda a)

/-- The parent chain of frame `e` ends in the root `r`, and every frame before
the root was made by `extend_env` for a Lambda. -/
inductive Chain (h : Heap) (r : Nat) : Nat → Prop where
  | root {f : Frame} : h.envs[r]? = some f → f.parent = none → Chain h r r
  | step {e p : Nat} {f : Frame} : h.envs[e]? = some f → f.parent = some p →
      (∀ c ∈ f.bindings, LamBind h c) → Chain h r p → Chain h r e

/-- What later analysis keeps of a heap: the cells of the root frame `r`, the
parameters of every Lambda and the bodies already set. -/
structure Grow (h h1 : Heap) (r : Nat) : Prop where
  root : ∀ f : Frame, h.envs[r]? = some f → ∃ f1 : Frame, h1.envs[r]? = some f1
    ∧ f1.parent = f.parent
    ∧ ∀ key c, assq_cell key f.bindings = some c → assq_cell key f1.bindings = some c
  lams : ∀ (a : Nat) (n : LamNode), h.lams[a]? = some n → ∃ n1 : LamNode,
    h1.lams[a]? = some n1 ∧ n1.params = n.params ∧ ∀ b, n.body = some b → n1.body = some b

/-- What a call of the analyzer keeps of a heap: besides `Grow`, every frame
other than the root and the body field of every Lambda stay as they are. -/
structure Ext (h h1 : Heap) (r : Nat) : Prop where
  grow : Grow h h1 r
  frames : ∀ (i : Nat) (f : Frame), i ≠ r → h.envs[i]? = some f → h1.envs[i]? = some f
  bodies : ∀ (a : Nat) (n : LamNode), h.lams[a]? = some n → ∃ n1 : LamNode,
    h1.lams[a]? = some n1 ∧ n1.body = n.body

/-- The result `ast` of a call of the analyzer from heap `h` to heap `h1`. -/
def Post (r : Nat) (h : Heap) (ast : Sexp) (h1 : Heap) : Prop :=
  Ext h h1 r ∧ (sexp_exceptionp ast = false → GoodAst h1 r ast)

/-- A recursive callee that meets `Post` on raw forms. -/
def RecGood (r : Nat) (rec : Rec) : Prop :=
  ∀ y env h ast h1, raw_form y = true → Chain h r env → rec y env h = .ok (ast, h1) →
    Post r h ast h1

/-- The frame `analyze_lambda` builds for the Lambda `l` with flattened
parameters `vars` under the frame `env`. -/
def lambda_frame (env : Nat) (l vars : Sexp) : Frame :=
  { parent := some env, lambda := some l, bindings := extend_bindings l vars [] }

/-- Two recursive callees agree on every form of size below `n`. -/
def Agree (r1 r2 : Rec) (n : Nat) : Prop :=
  ∀ y, sexp_size y < n → r1 y = r2 y

/-- What `env_cell` finds along a good chain. -/
def Found (h : Heap) (r : Nat) (key : Sexp) : Option (Sexp × Sexp) → Prop
  | some c => c.1 = key ∧ (LamBind h c
      ∨ ∃ f, h.envs[r]? = some f ∧ f.parent = none ∧ assq_cell key f.bindings = some c)
  | none => ∃ f, h.envs[r]? = some f ∧ f.parent = none ∧ assq_cell key f.bindings = none

/-! ## Forms and predicates of the error contract -/

/-- The first form of the counter program: a Lambda whose body defines `c` and
returns a nested Lambda that assigns and reads `c`. -/
def counter_program : Sexp :=
  sexp_list [.symbol "define", .symbol "counter",
    sexp_list [.symbol "lambda", .null,
      sexp_list [.symbol "define", .symbol "c", .fixnum 0],
      sexp_list [.symbol "lambda", .null,
        sexp_list [.symbol "set!", .symbol "c", sexp_list [.symbol "+", .symbol "c", .fixnum 1]],
        .symbol "c"]]]

/-- The Lambda nodes of the analyzed counter program: the outer Lambda `L` at
address 0, whose body defines `c`, and the nested Lambda `M` at address 1. -/
def counter_lambdas : List LamNode :=
  [{ params := .null,
     body := some (.seq (sexp_list [.set (.ref (.symbol "c") .undef) (.fixnum 0), .lambda 1])),
     locals := sexp_list [.symbol "c"], fv := .null, sv := .null },
   { params := .null,
     body := some (.seq (sexp_list [
       .set (.ref (.symbol "c") .undef)
         (sexp_list [.ref (.symbol "+") (.opcode 8), .ref (.symbol "c") .undef, .fixnum 1]),
       .ref (.symbol "c") .undef])),
     locals := .null, fv := .null, sv := .null }]

/-- The forms `es` are analyzed one after the other in the frame `env`, from heap
`h` to heap `h1`, and none of them yields an Exception. -/
inductive AnalyzedAll (env : Nat) : Heap → List Sexp → Heap → Prop where
  | nil (h : Heap) : AnalyzedAll env h [] h
  | cons {h h1 h2 : Heap} {e a : Sexp} {es : List Sexp} :
      analyze e env h = .ok (a, h1) → sexp_exceptionp a = false →
      AnalyzedAll env h1 es h2 → AnalyzedAll env h (e :: es) h2

/-- The head `a` of a form makes `analyze` treat the form as an application:
it is no identifier, or it is unbound, or it is bound to a value that is
neither a core form nor a Macro. -/
def app_head (h : Heap) (env : Nat) (a : Sexp) : Prop :=
  sexp_idp a = false ∨ env_cell h env a = .ok none
    ∨ ∃ cell, env_cell h env a = .ok (some cell) ∧ sexp_corep cell.2 = false
        ∧ sexp_macrop cell.2 = false

/-- A heap whose only frame binds `m` to a Macro. -/
def macro_heap : Heap :=
  { envs := [{ parent := none, lambda := none,
               bindings := [(.symbol "m", .mac .undef 0)] }], lams := [] }

/-- The heap `macro_heap` after a Ref to the unbound name `f` was analyzed. -/
def macro_heap_with_f : Heap :=
  { envs := [{ parent := none, lambda := none,
               bindings := [(.symbol "f", .undef), (.symbol "m", .mac .undef 0)] }], lams := [] }

/-! ## Stack segments and machine states -/

/-- The value in slot `k` of a stack, if the slot was ever written. -/
def slot (st : List (Option Sexp)) (k : Nat) : Option Sexp :=
  match st[k]? with
  | some (some v) => some v
  | _ => none

/-- The values `l` sit in the slots `off, off + 1, ...` of the stack. -/
def Seg (st : List (Option Sexp)) (off : Nat) (l : List Sexp) : Prop :=
  ∀ (k : Nat) (v : Sexp), l[k]? = some v → slot st (off + k) = some v

/-- The outcome `s` of a step is a raise: the machine continues in the code of
the error handler, the Exception `exc` sits in the slot that was the top of the
stack, and the frame of the handler call lies above it. -/
def Raised (rt : Runtime) (s : Except Err Step) (top : Nat) (exc : Sexp) : Prop :=
  ∃ m1, s = .ok (.next m1) ∧ m1.top = ((top + 4 : Nat) : Int) ∧ slot m1.stack top = some exc
    ∧ sexp_procedure_code rt.exception_handler = .ok (.bytecode m1.bc) ∧ m1.ip = 0

/-- The machine state whose stack holds the values `live` below `top` (and
anything in the slots `rest` above), about to execute the instruction at
offset `ip` of bytecode `bc`. -/
def vm_state (h : Heap) (live : List Sexp) (rest : List (Option Sexp)) (bc ip : Nat)
    (cp : Sexp) : VM :=
  { heap := h, stack := live.map some ++ rest, top := (live.length : Int), bc := bc,
    ip := (ip : Int), cp := cp }

/-- A heap that holds nothing but the bytecode `code`, at address 0. -/
def code_heap (code : List Slot) : Heap :=
  { envs := [], lams := [], bcs := [code], vecs := [] }

/-- The values `vs` are pushed one after the other. -/
def push_values : List Sexp → VM → Except Err VM
  | [], m => pure m
  | v :: vs, m => do
    let m1 ← m.push v
    push_values vs m1

/-- Consecutive self tail calls of `proc`, one for each element of the list:
the body pushes the new arguments `args` (as they lie on the stack) and the
procedure, then executes the `TAIL_CALL` at offset `site` of its bytecode. -/
def self_tail_calls (rt : Runtime) (proc : Sexp) (site : Nat) :
    List (List Sexp) → VM → Except Err VM
  | [], m => pure m
  | args :: rest, m => do
    let m1 ← push_values (args ++ [proc]) m
    match ← vm_step rt { m1 with ip := (site : Int) } with
    | .next m2 => self_tail_calls rt proc site rest m2
    | .done _ => .error .fault

/-- The snapshot `CALLCC` takes of the stack `S ++ [receiver]`: the stack with
the frame words of the call it is about to make (count 1, the address after
the `CALLCC` opcode, the current `cp`). -/
def callcc_snapshot (S : List Sexp) (receiver : Sexp) (b p : Nat) (C : Sexp) : List Sexp :=
  S ++ [receiver, .fixnum 1, .codeptr b (p + 1), C]

/-- The heap after `CALLCC`: the snapshot vector and the one-element captured
vector of the continuation that refers to it. -/
def callcc_heap (h : Heap) (saved : List Sexp) : Heap :=
  { h with vecs := h.vecs ++ [saved] ++ [[.vector h.vecs.length]] }

/-- The continuation procedure `CALLCC` creates in heap `h`. -/
def callcc_continuation (rt : Runtime) (h : Heap) : Sexp :=
  sexp_make_procedure (sexp_make_integer 0) (sexp_make_integer 1) rt.continuation_resumer
    (.vector (h.vecs.length + 1))

/-- A heap that holds nothing but the bytecodes `codes`. -/
def codes_heap (codes : List (List Slot)) : Heap :=
  { envs := [], lams := [], bcs := codes, vecs := [] }

/-- A runtime whose error handler is a procedure with the bytecode at address 0. -/
def sample_rt : Runtime :=
  { continuation_resumer := .bytecode 0, final_resumer := .bytecode 0,
    exception_handler := .procedure (.fixnum 0) (.fixnum 0) (.bytecode 0) .null,
    cur_input_port := .null, cur_output_port := .null, cur_error_port := .null,
    interaction_environment := .null }

/-- Equality of results is decidable when it is on errors and on values. -/
instance decEqExcept {ε α : Type} [DecidableEq ε] [DecidableEq α] : DecidableEq (Except ε α)
  | .ok a, .ok b => if h : a = b then isTrue (congrArg _ h) else isFalse (fun e => h (by injection e))
  | .error a, .error b =>
    if h : a = b then isTrue (congrArg _ h) else isFalse (fun e => h (by injection e))
  | .ok _, .error _ => isFalse (fun e => by cases e)
  | .error _, .ok _ => isFalse (fun e => by cases e)

/-- A fresh context after `sexp_context_patch_label` with the label 2. -/
def patched_context : Context :=
  { sexp_new_context with
    bc := List.replicate 16 .junk ++ word_slots (.raw (-2)) ++ List.replicate 104 .junk }

/-- The code of the expressions `xs`, emitted one after the other in the order
of the list. -/
def compile_each (rec : CRec) : List Sexp → Context → Heap → CRes
  | [], c, h => pure (c, h)
  | x :: xs, c, h => do
    let (c, h) ← rec x c h
    compile_each rec xs c h

/-- The call instruction with operand `n` that ends an application: `CALL n`,
or `TAIL_CALL depth n` in a tail context. -/
def emit_call (n : Nat) (c : Context) : Except Err Context :=
  if c.tailp then do
    let c ← emit .OP_TAIL_CALL c
    let c ← emit_word (.raw c.depth) c
    emit_word (sexp_make_integer n) c
  else do
    let c ← emit .OP_CALL c
    emit_word (sexp_make_integer n) c

/-- The code of the elements of a sequence in source order, the value of every
element but the last being dropped. -/
def compile_in_order (rec : CRec) : Sexp → List Sexp → Context → Heap → CRes
  | x, [], c, h => rec x c h
  | x, y :: rest, c, h => do
    let (c, h) ← rec x c h
    let c ← emit .OP_DROP c
    compile_in_order rec y rest { c with depth := c.depth - 1 } h

/-- The parent chain of frame `e` in heap `h`: the frames from `e` up to a root. -/
inductive Path (h : Heap) : Nat → List Nat → Prop where
  | root {e : Nat} {f : Frame} : h.envs[e]? = some f → f.parent = none → Path h e [e]
  | step {e p : Nat} {f : Frame} {ps : List Nat} : h.envs[e]? = some f → f.parent = some p →
      Path h p ps → Path h e (e :: ps)

/-- Frame `i` of the heap has a cell whose car is `key`. -/
def binds (h : Heap) (key : Sexp) (i : Nat) : Bool :=
  match h.envs[i]? with
  | some f => f.bindings.any (fun c => sexp_eq c.1 key)
  | none => false

/-- A heap of two frames, frame 1 being a child of the root frame 0. -/
def two_frames : Heap :=
  { envs := [{ parent := none, lambda := none, bindings := [(.symbol "x", .fixnum 1)] },
             { parent := some 0, lambda := none, bindings := [(.symbol "y", .fixnum 2)] }],
    lams := [] }

/-- The first cell whose car is `key` in the bindings of frame `i`. -/
def first_cell (h : Heap) (key : Sexp) (i : Nat) : Option (Sexp × Sexp) :=
  match h.envs[i]? with
  | some f => f.bindings.find? (fun c => sexp_eq c.1 key)
  | none => none

/-- What `env_define` makes of the frame it is applied to. -/
def frame_define (f : Frame) (key value : Sexp) : Frame :=
  match assq_cell key f.bindings with
  | some _ => { f with bindings := set_cell key value f.bindings }
  | none => { f with bindings := (key, value) :: f.bindings }

/-- The frame after the definitions of the first loop of `make_standard_env`. -/
def core_frame : List (CoreCode × String) → Frame → Frame
  | [], f => f
  | (c, s) :: rest, f => core_frame rest (frame_define f (sexp_intern s) (.core c))

/-- The frame after the definitions of the second loop of `make_standard_env`. -/
def opcode_frame : List Opcode → Nat → Frame → Frame
  | [], _, f => f
  | o :: rest, i, f => opcode_frame rest (i + 1) (frame_define f (sexp_intern o.name) (.opcode i))

/-- The frame of the standard environment. -/
def standard_frame : Frame :=
  opcode_frame opcodes 0 (core_frame core_forms { parent := none, lambda := none, bindings := [] })

/-- The first cell for `key` of the first frame of the list that has one. -/
def lookup_path (h : Heap) (key : Sexp) : List Nat → Option (Sexp × Sexp)
  | [] => none
  | i :: ps =>
    match first_cell h key i with
    | some c => some c
    | none => lookup_path h key ps

/-- The elements of a list value: the cars of its chain of pairs. -/
def sexp_elems : Sexp → List Sexp
  | .pair a d => a :: sexp_elems d
  | _ => []

/-- A Ref whose loc is a Lambda. -/
def lambda_ref : Sexp → Bool
  | .ref _ l => sexp_lambdap l
  | _ => false

/-- A free-vars list in good order: every entry is a Ref whose loc is a Lambda,
and no two entries have the same name and the same loc. -/
def FvOk (fv : Sexp) : Prop :=
  (∀ a ∈ sexp_elems fv, lambda_ref a = true) ∧ (sexp_elems fv).Nodup

/-- No parameter of a Lambda of the heap is a Ref node. -/
def ParamsOk (h : Heap) : Prop :=
  ∀ node ∈ h.lams, ∀ p ∈ sexp_elems (sexp_flatten_dot node.params), sexp_refp p = false

/-- Two entries of a free-vars list name the same variable: equal name and
equal loc. -/
def same_var (a b : Sexp) : Prop :=
  sexp_ref_name a = sexp_ref_name b ∧ sexp_ref_loc a = sexp_ref_loc b

/-- A heap with the Lambda `(lambda (x) (lambda (y) (car x y x)))`, analyzed. -/
def nested_heap : Heap :=
  { envs := [],
    lams := [{ params := sexp_list [.symbol "x"], body := some (.lambda 1), locals := .null,
               fv := .null, sv := .null },
             { params := sexp_list [.symbol "y"],
               body := some (sexp_list [.ref (.symbol "car") (.opcode 0),
                 .ref (.symbol "x") (.lambda 0), .ref (.symbol "y") (.lambda 1),
                 .ref (.symbol "x") (.lambda 0)]),
               locals := .null, fv := .null, sv := .null }] }

/-- The free-vars list `free_vars` computes for both Lambdas of `nested_heap`. -/
def nested_fv : Sexp :=
  sexp_list [.ref (.symbol "y") (.lambda 1), .ref (.symbol "x") (.lambda 0)]

/-- The heap `nested_heap` after `free_vars`. -/
def nested_heap_after : Heap :=
  { nested_heap with lams := nested_heap.lams.map (fun n => { n with fv := nested_fv }) }

/-- Occurrence of the node `y` in the AST `x` as `free_vars` walks it: the
elements of an application or of a sequence, the parts of a Cnd and of a Set,
and the body of a Lambda (read from the heap `h`). -/
inductive Occ (h : Heap) : Sexp → Sexp → Prop where
  | refl (x : Sexp) : Occ h x x
  | elem {y a d : Sexp} : Occ h y a → Occ h y (.pair a d)
  | rest {y a a2 d2 : Sexp} : Occ h y (.pair a2 d2) → Occ h y (.pair a (.pair a2 d2))
  | test {y t p f : Sexp} : Occ h y t → Occ h y (.cnd t p f)
  | pass {y t p f : Sexp} : Occ h y p → Occ h y (.cnd t p f)
  | fail {y t p f : Sexp} : Occ h y f → Occ h y (.cnd t p f)
  | var {y v x : Sexp} : Occ h y v → Occ h y (.set v x)
  | value {y v x : Sexp} : Occ h y x → Occ h y (.set v x)
  | seq {y a d : Sexp} : Occ h y (.pair a d) → Occ h y (.seq (.pair a d))
  | body {y b : Sexp} {a : Nat} {n : LamNode} :
      h.lams[a]? = some n → n.body = some b → Occ h y b → Occ h y (.lambda a)

/-- The heaps have the same Lambdas, with the same bodies and parameters. -/
def SameLams (h h1 : Heap) : Prop :=
  h1.lams.length = h.lams.length ∧ ∀ (a : Nat) (n n1 : LamNode), h.lams[a]? = some n →
    h1.lams[a]? = some n1 → n1.body = n.body ∧ n1.params = n.params

/-- Every Ref with a Lambda loc that occurs in `x` is an entry of `fv`. -/
def Collected (h : Heap) (x fv : Sexp) : Prop :=
  ∀ n l, sexp_lambdap l = true → Occ h (.ref n l) x → .ref n l ∈ sexp_elems fv

/-- A Lambda node whose free-vars list is in good order and holds every Ref
with a Lambda loc that occurs in its body. -/
def GoodNode (h : Heap) (node : LamNode) : Prop :=
  FvOk node.fv ∧ ∀ b, node.body = some b → Collected h b node.fv

/-- From heap `h` to heap `h1` the Lambdas keep bodies and parameters, and every
node is as it was or is a good node. -/
def Kept (h h1 : Heap) : Prop :=
  SameLams h h1 ∧ ∀ (a : Nat) (n1 : LamNode), h1.lams[a]? = some n1 →
    h.lams[a]? = some n1 ∨ GoodNode h n1

/-- What a call `free_vars(x, fv)` from heap `h` establishes, returning `fv1`
and the heap `h1`. -/
def FvPost (h : Heap) (x fv fv1 : Sexp) (h1 : Heap) : Prop :=
  Kept h h1 ∧ FvOk fv1 ∧ sexp_elems fv ⊆ sexp_elems fv1 ∧ Collected h x fv1
    ∧ ∀ a, Occ h (.lambda a) x → ∃ n1, h1.lams[a]? = some n1 ∧ GoodNode h n1

/-- The part of the recursion budget that belongs to the Lambdas with address
`k` and above. -/
def tail_budget (h : Heap) (k : Nat) : Nat :=
  ((h.lams.drop k).map (fun n => match n.body with
    | some b => ast_size b + 1
    | none => 1)).sum

/-- The body of a Lambda holds only Lambdas allocated after it. -/
def Nested (h : Heap) : Prop :=
  ∀ (a : Nat) (node : LamNode) (b : Sexp), h.lams[a]? = some node → node.body = some b →
    ∀ a2, Occ h (.lambda a2) b → a < a2

/-- Every Lambda that occurs in `x` is in the heap and has a body. -/
def Bodies (h : Heap) (x : Sexp) : Prop :=
  ∀ a, Occ h (.lambda a) x → ∃ (node : LamNode) (b : Sexp), h.lams[a]? = some node
    ∧ node.body = some b

/-- The walk of `x` fits the budget `n`: the Lambdas of `x` have bodies and
addresses from `k` on, and the size of `x` with the budget of the Lambdas from
`k` on is at most `n`. -/
def Fits (h0 : Heap) (k n : Nat) (x : Sexp) : Prop :=
  Bodies h0 x ∧ (∀ a, Occ h0 (.lambda a) x → k ≤ a) ∧ ast_size x + tail_budget h0 k ≤ n

/-- The code emitted so far: the bytecode buffer up to the cursor. -/
def emitted (c : Context) : List Slot := c.bc.take c.pos

/-- A context whose cursor lies inside its buffer and whose buffer holds at
least one word, so that one doubling by `expand_bcode` makes room for any
instruction or operand. -/
def Roomy (c : Context) : Prop := c.pos ≤ c.bc.length ∧ sizeof_sexp ≤ c.bc.length

/-- The instruction `PUSH w`: the opcode byte and the operand word. -/
def push_code (w : Sexp) : List Slot := .byte .OP_PUSH :: word_slots w

/-- The machine after `n` instructions: its state, or the value it stopped
with earlier. -/
def vm_steps (rt : Runtime) : Nat → VM → Except Err Step
  | 0, m => pure (.next m)
  | n + 1, m => do
    match ← vm_step rt m with
    | .done v => pure (.done v)
    | .next m1 => vm_steps rt n m1

/-- The fixnum operation the VM performs for `ADD`, `SUB` and `MUL`
(`sexp_fx_add`, `sexp_fx_sub`, `sexp_fx_mul` on `_ARG1` and `_ARG2`). -/
def fx_op : Op → Int → Int → Int
  | .OP_ADD, x, y => fx_wrap (x + y)
  | .OP_SUB, x, y => fx_wrap (x - y)
  | .OP_MUL, x, y => fx_wrap (x * y)
  | _, x, _ => x

/-- The comparison the VM performs for `LT`, `LE`, `GT` and `GE`: on the tagged
words of `_ARG1` and `_ARG2`. -/
def cmp_op : Op → Int → Int → Bool
  | .OP_LT, x, y => decide (fx_word x < fx_word y)
  | .OP_LE, x, y => decide (fx_word x ≤ fx_word y)
  | .OP_GT, x, y => decide (fx_word x > fx_word y)
  | .OP_GE, x, y => decide (fx_word x ≥ fx_word y)
  | _, _, _ => false

/-- The instructions `PUSH w` for each `w` of a list, in order. -/
def push_all : List Sexp → List Slot
  | [] => []
  | w :: ws => push_code w ++ push_all ws

/-- The heap after `finalize_bytecode` stored `code`. -/
def with_code (h : Heap) (code : List Slot) : Heap :=
  { h with bcs := h.bcs ++ [code] }

/-- An application of the opcode at row `i` of the table to integer literals. -/
def opcode_app (i : Nat) (args : List Int) : Sexp :=
  .pair (.opcode i) (sexp_list (args.map .fixnum))

/-- The code of an n-ary arithmetic application: the arguments pushed last to
first, then `n - 1` copies of the opcode. -/
def arith_code (op : Op) (args : List Int) : List Slot :=
  push_all (args.reverse.map .fixnum) ++ List.replicate (args.length - 1) (.byte op)

/-- The integer operation an arithmetic opcode stands for. -/
def int_op : Op → Int → Int → Int
  | .OP_ADD, x, y => x + y
  | .OP_SUB, x, y => x - y
  | .OP_MUL, x, y => x * y
  | _, x, _ => x

/-- The range of a fixnum: `2^62` values around zero. -/
def fixnum_range (n : Int) : Prop := -(2 ^ (61 : Nat)) ≤ n ∧ n < 2 ^ (61 : Nat)

/-- The instruction that ends a general application of `n` arguments compiled
in the context `c`. -/
def call_code (c : Context) (n : Nat) : List Slot :=
  if c.tailp then
    [.byte .OP_TAIL_CALL] ++ word_slots (.raw c.depth) ++ word_slots (sexp_make_integer n)
  else [.byte .OP_CALL] ++ word_slots (sexp_make_integer n)

/-- The code of the application `(f a1 ... an)` of a global `f` to integer
literals, ended by `CALL n`. -/
def app_call_code (f : Sexp) (args : List Int) : List Slot :=
  push_all (args.reverse.map .fixnum) ++ (push_code f ++ [.byte .OP_CDR])
    ++ ([.byte .OP_CALL] ++ word_slots (sexp_make_integer args.length))

/-- A Lambda node without free variables whose body is `body`. -/
def closed_lambda (params body : Sexp) : LamNode :=
  { params := params, body := some body, locals := .null, fv := .null, sv := .null }

/-- A heap that holds one Lambda node and nothing else. -/
def lambda_heap (node : LamNode) : Heap :=
  { envs := [], lams := [node], bcs := [], vecs := [] }

/-- The context of a Lambda body in which the tail flag has been set by hand
(no function of the compiler sets it). -/
def tail_context (lam : Sexp) : Context :=
  { sexp_new_context with lambda := some lam, tailp := true }

/-- The instruction `LOCAL_REF k`. -/
def local_ref_code (k : Int) : List Slot := .byte .OP_LOCAL_REF :: word_slots (.raw k)

/-- The frame `args ... n ret-ip ret-cp` a call leaves above the slots `B`, the
arguments in the order of their slots. -/
def call_frame (B args : List Sexp) (count rip rcp : Sexp) : List Sexp :=
  B ++ args ++ [count, rip, rcp]

/-- The Lambda nodes of `(lambda (y) (lambda () 7))` in which the inner Lambda
has been given the free-vars list `(Ref(y, outer))`. -/
def capture_heap : Heap :=
  { envs := [],
    lams := [fresh_lambda (sexp_list [.symbol "y"]),
      { params := .null, body := some (.fixnum 7), locals := .null,
        fv := sexp_list [.ref (.symbol "y") (.lambda 0)], sv := .null }],
    bcs := [], vecs := [] }

/-- The code `compile_lambda` emits for the inner Lambda of `capture_heap`. -/
def capture_code : List Slot :=
  push_code .undef ++ push_code (.fixnum 0) ++ [.byte .OP_MAKE_VECTOR]
    ++ local_ref_code 0 ++ push_code (.fixnum 0) ++ local_ref_code 3
    ++ [.byte .OP_VECTOR_SET, .byte .OP_DROP]
    ++ push_code (.bytecode 0) ++ push_code (.fixnum 0) ++ push_code (.fixnum 0)
    ++ [.byte .OP_MAKE_PROCEDURE]

/-- A heap with one Lambda node `node` and one bytecode `code`. -/
def node_code_heap (node : LamNode) (code : List Slot) : Heap :=
  { envs := [], lams := [node], bcs := [code], vecs := [] }

/-- The heap of `capture_heap` after the body of the inner Lambda and the code
`capture_code` of the enclosing body have been stored. -/
def capture_run_heap : Heap :=
  { capture_heap with bcs := [push_ret_code (.fixnum 7), capture_code ++ [.byte .OP_RET]] }

/-- A non-variadic procedure of `n` parameters. -/
def fixed_proc (f : Int) (n a : Nat) (vars : Sexp) : Sexp :=
  .procedure (.fixnum f) (.fixnum n) (.bytecode a) vars

/-- The binding `env_cell` finds for `key` from frame `e`: the first cell for
`key` along the parent chain, or none when the chain ends without one. -/
inductive Lookup (h : Heap) (key : Sexp) : Nat → Option (Sexp × Sexp) → Prop where
  | here {e : Nat} {f : Frame} {c : Sexp × Sexp} :
      h.envs[e]? = some f → assq_cell key f.bindings = some c → Lookup h key e (some c)
  | unbound {e : Nat} {f : Frame} :
      h.envs[e]? = some f → assq_cell key f.bindings = none → f.parent = none →
      Lookup h key e none
  | up {e p : Nat} {f : Frame} {res : Option (Sexp × Sexp)} :
      h.envs[e]? = some f → assq_cell key f.bindings = none → f.parent = some p →
      Lookup h key p res → Lookup h key e res

/-- An AST whose Refs are resolved as by a lookup from the frame `e`: the loc of
every Ref is the value of the first cell for its name, the body of a Lambda
being resolved from the frame that binds the flattened parameters to it. -/
inductive Scoped (h : Heap) : Nat → Sexp → Prop where
  | leaf {e : Nat} {x : Sexp} : ast_leaf x = true → Scoped h e x
  | ref {e : Nat} {n l : Sexp} {c : Sexp × Sexp} :
      Lookup h n e (some c) → c.2 = l → Scoped h e (.ref n l)
  | pair {e : Nat} {a d : Sexp} : Scoped h e a → Scoped h e d → Scoped h e (.pair a d)
  | cnd {e : Nat} {t p f : Sexp} : Scoped h e t → Scoped h e p → Scoped h e f →
      Scoped h e (.cnd t p f)
  | set {e : Nat} {v x : Sexp} : Scoped h e v → Scoped h e x → Scoped h e (.set v x)
  | seq {e : Nat} {ls : Sexp} : Scoped h e ls → Scoped h e (.seq ls)
  | lambda {e e2 a : Nat} {node : LamNode} {b : Sexp} :
      h.lams[a]? = some node → node.body = some b →
      h.envs[e2]? = some (lambda_frame e (.lambda a) (sexp_flatten_dot node.params)) →
      Scoped h e2 b → Scoped h e (.lambda a)

/-- Occurrence of the node `y` in the AST `x` outside every nested Lambda whose
flattened parameter list holds the name `n`. -/
inductive Outside (h : Heap) (n y : Sexp) : Sexp → Prop where
  | refl : Outside h n y y
  | car {a d : Sexp} : Outside h n y a → Outside h n y (.pair a d)
  | cdr {a d : Sexp} : Outside h n y d → Outside h n y (.pair a d)
  | test {t p f : Sexp} : Outside h n y t → Outside h n y (.cnd t p f)
  | pass {t p f : Sexp} : Outside h n y p → Outside h n y (.cnd t p f)
  | fail {t p f : Sexp} : Outside h n y f → Outside h n y (.cnd t p f)
  | var {v x : Sexp} : Outside h n y v → Outside h n y (.set v x)
  | value {v x : Sexp} : Outside h n y x → Outside h n y (.set v x)
  | seq {ls : Sexp} : Outside h n y ls → Outside h n y (.seq ls)
  | body {b : Sexp} {a : Nat} {node : LamNode} :
      h.lams[a]? = some node → node.body = some b →
      sexp_memq n (sexp_flatten_dot node.params) = false →
      Outside h n y b → Outside h n y (.lambda a)

/-- What a heap change keeps for scoping: the cells of the root frame `r`, the
parameters and the set bodies of the Lambdas, and every other frame. -/
def Same (h h1 : Heap) (r : Nat) : Prop :=
  Grow h h1 r ∧ ∀ (i : Nat) (f : Frame), i ≠ r → h.envs[i]? = some f → h1.envs[i]? = some f

/-- The names bound along the chain of `env` keep their entry (or absence) in
the root frame `r`. -/
def Keep (r env : Nat) (h h1 : Heap) : Prop :=
  ∀ (key : Sexp) (c : Sexp × Sexp) (f f1 : Frame), Lookup h key env (some c) →
    h.envs[r]? = some f → h1.envs[r]? = some f1 →
    assq_cell key f1.bindings = assq_cell key f.bindings

/-- The scoping part of the result of a call of the analyzer in frame `env`. -/
def Post2 (r env : Nat) (h : Heap) (ast : Sexp) (h1 : Heap) : Prop :=
  (sexp_exceptionp ast = false → Scoped h1 env ast) ∧ Keep r env h h1

/-- A recursive callee that meets `Post2` on raw forms. -/
def RecScoped (r : Nat) (rec : Rec) : Prop :=
  ∀ y env h ast h1, raw_form y = true → Chain h r env → rec y env h = .ok (ast, h1) →
    Post2 r env h ast h1

/-! ## Lemmas: the analyzer is total -/

theorem Agree.mono {r1 r2 : Rec} {n m : Nat} (hag : Agree r1 r2 n) (hmn : m ≤ n) :
    Agree r1 r2 m :=
  fun y hy => hag y (Nat.lt_of_lt_of_le hy hmn)

@[simp] theorem sexp_eq_iff (a b : Sexp) : sexp_eq a b = true ↔ a = b := by
  unfold sexp_eq
  split <;> simp

@[simp] theorem sexp_eq_refl (a : Sexp) : sexp_eq a a = true := (sexp_eq_iff a a).2 rfl

theorem sexp_size_pos (x : Sexp) : 0 < sexp_size x := by
  cases x <;> simp [sexp_size]

theorem sexp_car_size {x a : Sexp} (hx : sexp_car x = .ok a) : sexp_size a < sexp_size x := by
  cases x <;> simp [sexp_car] at hx <;> subst hx <;> simp [sexp_size] <;> omega

theorem sexp_cdr_size {x a : Sexp} (hx : sexp_cdr x = .ok a) : sexp_size a < sexp_size x := by
  cases x <;> simp [sexp_cdr] at hx <;> subst hx <;> simp [sexp_size] <;> omega

theorem bind_ok_inv {α β : Type} {m : Except Err α} {f : α → Except Err β} {b : β}
    (hb : (m >>= f) = .ok b) : ∃ a, m = .ok a ∧ f a = .ok b := by
  cases m with
  | error e => simp [bind, Except.bind] at hb
  | ok a => exact ⟨a, rfl, hb⟩

theorem sexp_cadr_size {x a : Sexp} (hx : sexp_cadr x = .ok a) : sexp_size a < sexp_size x := by
  obtain ⟨d, hd, ha⟩ := bind_ok_inv hx
  exact Nat.lt_trans (sexp_car_size ha) (sexp_cdr_size hd)

theorem sexp_cddr_size {x a : Sexp} (hx : sexp_cddr x = .ok a) : sexp_size a < sexp_size x := by
  obtain ⟨d, hd, ha⟩ := bind_ok_inv hx
  exact Nat.lt_trans (sexp_cdr_size ha) (sexp_cdr_size hd)

theorem sexp_caddr_size {x a : Sexp} (hx : sexp_caddr x = .ok a) : sexp_size a < sexp_size x := by
  obtain ⟨d, hd, ha⟩ := bind_ok_inv hx
  exact Nat.lt_trans (sexp_car_size ha) (sexp_cddr_size hd)

theorem analyze_app_loop_congr (r1 r2 : Rec) (env : Nat) :
    ∀ (x res : Sexp) (h : Heap), Agree r1 r2 (sexp_size x) →
      analyze_app_loop r1 env x res h = analyze_app_loop r2 env x res h := by
  intro x
  induction x with
  | pair a d _ ihd =>
    intro res h hag
    have ha : r1 a = r2 a := hag a (by simp [sexp_size]; omega)
    have hd : Agree r1 r2 (sexp_size d) := hag.mono (by simp [sexp_size]; omega)
    simp only [analyze_app_loop, ha]
    cases r2 a env h with
    | error e => rfl
    | ok p =>
      obtain ⟨tmp, h1⟩ := p
      simp only [bind, Except.bind]
      split
      · rfl
      · exact ihd _ _ hd
  | _ => intros; rfl

theorem analyze_app_congr (r1 r2 : Rec) (x : Sexp) (env : Nat) (h : Heap)
    (hag : Agree r1 r2 (sexp_size x)) : analyze_app r1 x env h = analyze_app r2 x env h :=
  analyze_app_loop_congr r1 r2 env x .null h hag

theorem analyze_seq_congr (r1 r2 : Rec) (ls : Sexp) (env : Nat) (h : Heap)
    (hag : Agree r1 r2 (sexp_size ls)) : analyze_seq r1 ls env h = analyze_seq r2 ls env h := by
  unfold analyze_seq
  rw [analyze_app_congr r1 r2 ls env h hag]
  cases hx : sexp_car ls with
  | error e => rfl
  | ok a =>
    have ha : r1 a = r2 a := hag a (sexp_car_size hx)
    simp only [bind, Except.bind, ha]

theorem analyze_if_congr (r1 r2 : Rec) (x : Sexp) (env : Nat) (h : Heap)
    (hag : Agree r1 r2 (sexp_size x)) : analyze_if r1 x env h = analyze_if r2 x env h := by
  unfold analyze_if
  cases hx : sexp_car x with
  | error e => rfl
  | ok a =>
    have hu : r1 .undef = r2 .undef :=
      hag _ (Nat.lt_of_le_of_lt (sexp_size_pos a) (sexp_car_size hx))
    have ha : r1 a = r2 a := hag a (sexp_car_size hx)
    cases hb : sexp_cadr x with
    | error e => simp only [bind, Except.bind, ha]
    | ok b =>
      have hb2 : r1 b = r2 b := hag b (sexp_cadr_size hb)
      cases hdd : sexp_cddr x with
      | error e => simp only [bind, Except.bind, ha, hb2]
      | ok dd =>
        by_cases hp : sexp_pairp dd = true
        · cases hc : sexp_caddr x with
          | error e => simp only [bind, Except.bind, pure, Except.pure, ha, hb2, hp, if_true]
          | ok c =>
            have hc2 : r1 c = r2 c := hag c (sexp_caddr_size hc)
            simp only [bind, Except.bind, pure, Except.pure, ha, hb2, hp, if_true, hc2]
        · simp only [bind, Except.bind, pure, Except.pure, ha, hb2, hp, Bool.false_eq_true,
            if_false, hu]

theorem analyze_lambda_congr (r1 r2 : Rec) (x : Sexp) (env : Nat) (h : Heap)
    (hag : ∀ forms, sexp_cddr x = .ok forms → Agree r1 r2 (sexp_size forms)) :
    analyze_lambda r1 x env h = analyze_lambda r2 x env h := by
  unfold analyze_lambda
  cases hf : sexp_cddr x with
  | error e => rfl
  | ok forms =>
    have hs : ∀ env2 h3, analyze_seq r1 forms env2 h3 = analyze_seq r2 forms env2 h3 :=
      fun env2 h3 => analyze_seq_congr r1 r2 forms env2 h3 (hag forms hf)
    simp only [bind, Except.bind, hs]

theorem analyze_define_congr (r1 r2 : Rec) (x : Sexp) (env : Nat) (h : Heap)
    (hag : Agree r1 r2 (sexp_size x)) :
    analyze_define r1 x env h = analyze_define r2 x env h := by
  unfold analyze_define
  have hl : ∀ formals body h1, sexp_cddr x = .ok body →
      analyze_lambda r1 (sexp_cons .undef (sexp_cons formals body)) env h1
        = analyze_lambda r2 (sexp_cons .undef (sexp_cons formals body)) env h1 := by
    intro formals body h1 hbody
    apply analyze_lambda_congr
    intro forms hforms
    simp [sexp_cons, sexp_cddr, sexp_cdr, bind, Except.bind] at hforms
    subst hforms
    exact hag.mono (Nat.le_of_lt (sexp_cddr_size hbody))
  cases hb : sexp_cddr x with
  | error e =>
    cases hc : sexp_caddr x with
    | error e2 => simp only [bind, Except.bind, pure, Except.pure]
    | ok c =>
      simp [sexp_caddr, hb, bind, Except.bind] at hc
  | ok body =>
    have hl2 := fun formals h1 => hl formals body h1 hb
    cases hc : sexp_caddr x with
    | error e2 => simp only [bind, Except.bind, pure, Except.pure, hl2]
    | ok c =>
      have hc2 : r1 c = r2 c := hag c (sexp_caddr_size hc)
      simp only [bind, Except.bind, pure, Except.pure, hl2, hc2]

theorem analyze_set_congr (r1 r2 : Rec) (x : Sexp) (env : Nat) (h : Heap)
    (hag : Agree r1 r2 (sexp_size x)) :
    analyze_set r1 x env h = analyze_set r2 x env h := by
  unfold analyze_set
  cases hc : sexp_caddr x with
  | error e2 => simp only [bind, Except.bind, pure, Except.pure]
  | ok c =>
    have hc2 : r1 c = r2 c := hag c (sexp_caddr_size hc)
    simp only [bind, Except.bind, pure, Except.pure, hc2]

theorem analyze_step_congr (r1 r2 : Rec) (x : Sexp) (env : Nat) (h : Heap)
    (hag : Agree r1 r2 (sexp_size x)) :
    analyze_step r1 x env h = analyze_step r2 x env h := by
  have hcddr : ∀ forms, sexp_cddr x = .ok forms → Agree r1 r2 (sexp_size forms) :=
    fun forms hf => hag.mono (Nat.le_of_lt (sexp_cddr_size hf))
  unfold analyze_step
  cases x with
  | pair a d =>
    simp only [analyze_app_congr r1 r2 _ env h hag, analyze_define_congr r1 r2 _ env h hag,
      analyze_set_congr r1 r2 _ env h hag, analyze_lambda_congr r1 r2 _ env h hcddr,
      analyze_if_congr r1 r2 _ env h hag, analyze_seq_congr r1 r2 _ env h hag]
  | synclo e y =>
    have hy : r1 y = r2 y := hag y (by simp [sexp_size])
    simp only [hy]
  | _ => rfl

theorem analyzeF_stable : ∀ (k : Nat) (x : Sexp), sexp_size x ≤ k →
    ∀ n, sexp_size x ≤ n → analyzeF n x = analyzeF (sexp_size x) x := by
  intro k
  induction k with
  | zero =>
    intro x hx
    have := sexp_size_pos x
    omega
  | succ k ih =>
    intro x hx n hn
    have hpos := sexp_size_pos x
    obtain ⟨m, rfl⟩ : ∃ m, n = m + 1 := ⟨n - 1, by omega⟩
    obtain ⟨s, hs⟩ : ∃ s, sexp_size x = s + 1 := ⟨sexp_size x - 1, by omega⟩
    rw [hs]
    funext env h
    show analyze_step (analyzeF m) x env h = analyze_step (analyzeF s) x env h
    apply analyze_step_congr
    intro y hy
    rw [ih y (by omega) m (by omega), ih y (by omega) s (by omega)]

/-- The total analyzer satisfies the recursion of the source: `analyze` is its
own recursive callee. -/
theorem analyze_unfold (x : Sexp) (env : Nat) (h : Heap) :
    analyze x env h = analyze_step analyze x env h := by
  have hpos := sexp_size_pos x
  obtain ⟨s, hs⟩ : ∃ s, sexp_size x = s + 1 := ⟨sexp_size x - 1, by omega⟩
  unfold analyze
  rw [hs]
  show analyze_step (analyzeF s) x env h = _
  apply analyze_step_congr
  intro y hy
  funext env2 h2
  show analyzeF s y env2 h2 = analyzeF (sexp_size y) y env2 h2
  rw [analyzeF_stable (sexp_size y) y (Nat.le_refl _) s (by omega)]

/-! ## Core forms of the analyzer -/

set_option maxRecDepth 100000

@[simp] theorem sexp_exceptionp_ref (n l : Sexp) : sexp_exceptionp (.ref n l) = false := rfl
@[simp] theorem sexp_exceptionp_lit (v : Sexp) : sexp_exceptionp (.lit v) = false := rfl
@[simp] theorem sexp_exceptionp_cnd (t p f : Sexp) : sexp_exceptionp (.cnd t p f) = false := rfl
@[simp] theorem sexp_exceptionp_set (v x : Sexp) : sexp_exceptionp (.set v x) = false := rfl
@[simp] theorem sexp_exceptionp_seq (ls : Sexp) : sexp_exceptionp (.seq ls) = false := rfl
@[simp] theorem sexp_exceptionp_lambda (a : Nat) : sexp_exceptionp (.lambda a) = false := rfl
@[simp] theorem sexp_exceptionp_pair (a d : Sexp) : sexp_exceptionp (.pair a d) = false := rfl
@[simp] theorem sexp_exceptionp_undef : sexp_exceptionp .undef = false := rfl

theorem analyze_symbol_bound (s : String) (env : Nat) (h : Heap) (cell : Sexp × Sexp)
    (hc : env_cell h env (.symbol s) = .ok (some cell)) :
    analyze (.symbol s) env h = .ok (.ref (.symbol s) cell.2, h) := by
  rw [analyze_unfold]
  simp [analyze_step, analyze_var_ref, env_cell_create, hc, bind, Except.bind, pure, Except.pure,
    sexp_make_ref]

theorem sexp_size_lt_list2 (a d : Sexp) : sexp_list [a, d] ≠ d := by
  intro hd
  have hs := congrArg sexp_size hd
  simp [sexp_list, sexp_size] at hs
  omega

/-- C6 (as the code behaves): for every datum `d`, in an environment where
`quote` resolves to the quote core form, `analyze` of `(quote d)` succeeds
without touching the heap and yields a Lit node whose value is the whole form
`(quote d)`, which is never the datum `d` itself. -/
theorem C6_quote_lit_holds_whole_form (d : Sexp) (env : Nat) (h : Heap) (key : Sexp)
    (hq : env_cell h env (.symbol "quote") = .ok (some (key, .core .CORE_QUOTE))) :
    analyze (sexp_list [.symbol "quote", d]) env h
        = .ok (.lit (sexp_list [.symbol "quote", d]), h)
      ∧ Sexp.lit (sexp_list [.symbol "quote", d]) ≠ .lit d := by
  constructor
  · rw [analyze_unfold]
    simp [analyze_step, sexp_list, sexp_idp, hq, bind, Except.bind, pure, Except.pure,
      sexp_make_lit]
  · intro hl
    exact sexp_size_lt_list2 _ d (Sexp.lit.inj hl)

theorem C6_quote_lit_holds_whole_form_witness :
    env_cell main_heap main_env (.symbol "quote")
        = .ok (some (.symbol "quote", .core .CORE_QUOTE))
      ∧ analyze (sexp_list [.symbol "quote", .fixnum 42]) main_env main_heap
        = .ok (.lit (sexp_list [.symbol "quote", .fixnum 42]), main_heap) :=
  ⟨by rfl, (C6_quote_lit_holds_whole_form (.fixnum 42) main_env main_heap (.symbol "quote")
    (by rfl)).1⟩

/-- C7 (as the code behaves): where `if` resolves to the if core form and the
analyses of `t` and then `p` succeed with ASTs `T` and `P`, `analyze` of
`(if t p f)` yields `Cnd(Ref(if), T, P)`: the test is a reference to the
symbol `if`, the pass branch is the analysis of the test expression, the fail
branch is the analysis of the pass expression, and `f` is not analyzed. -/
theorem C7_if_reads_form_from_head (t p f : Sexp) (env : Nat) (h h1 h2 : Heap)
    (key T P : Sexp)
    (hif : env_cell h env (.symbol "if") = .ok (some (key, .core .CORE_IF)))
    (ht : analyze t env h = .ok (T, h1)) (hT : sexp_exceptionp T = false)
    (hp : analyze p env h1 = .ok (P, h2)) (hP : sexp_exceptionp P = false) :
    analyze (sexp_list [.symbol "if", t, p, f]) env h
      = .ok (.cnd (.ref (.symbol "if") (.core .CORE_IF)) T P, h2) := by
  have hs := analyze_symbol_bound "if" env h _ hif
  rw [analyze_unfold]
  simp [analyze_step, analyze_if, sexp_list, sexp_idp, hif, hs, ht, hT, hp, hP, bind,
    Except.bind, pure, Except.pure, sexp_car, sexp_cadr, sexp_cddr, sexp_caddr, sexp_cdr,
    sexp_pairp, sexp_make_cnd]

theorem C7_if_reads_form_from_head_witness :
    analyze (sexp_list [.symbol "if", .strue, .fixnum 1, .fixnum 2]) main_env main_heap
      = .ok (.cnd (.ref (.symbol "if") (.core .CORE_IF)) .strue (.fixnum 1), main_heap) :=
  C7_if_reads_form_from_head .strue (.fixnum 1) (.fixnum 2) main_env main_heap main_heap
    main_heap (.symbol "if") .strue (.fixnum 1) (by rfl) (by rfl) (by rfl) (by rfl) (by rfl)

/-- C8 (as the code behaves): where `begin` resolves to the begin core form,
`analyze` of `(begin)` yields a Ref to the symbol `begin` (not Undefined), and
`analyze` of `(begin e)` yields a Seq of two elements, the Ref to `begin`
followed by the analysis of `e` (not the analysis of `e` alone). -/
theorem C8_begin_analyzes_its_head (e : Sexp) (env : Nat) (h h1 : Heap) (key E : Sexp)
    (hb : env_cell h env (.symbol "begin") = .ok (some (key, .core .CORE_BEGIN)))
    (he : analyze e env h = .ok (E, h1)) (hE : sexp_exceptionp E = false) :
    analyze (sexp_list [.symbol "begin"]) env h
        = .ok (.ref (.symbol "begin") (.core .CORE_BEGIN), h)
      ∧ analyze (sexp_list [.symbol "begin", e]) env h
        = .ok (.seq (sexp_list [.ref (.symbol "begin") (.core .CORE_BEGIN), E]), h1) := by
  have hs := analyze_symbol_bound "begin" env h _ hb
  constructor
  · rw [analyze_unfold]
    simp [analyze_step, analyze_seq, sexp_list, sexp_idp, hb, hs, bind, Except.bind, pure,
      Except.pure, sexp_car, sexp_cdr, sexp_nullp]
  · rw [analyze_unfold]
    simp [analyze_step, analyze_seq, analyze_app, analyze_app_loop, sexp_list, sexp_idp, hb, hs,
      he, hE, bind, Except.bind, pure, Except.pure, sexp_car, sexp_cdr, sexp_nullp,
      sexp_nreverse, sexp_revappend]

theorem C8_begin_analyzes_its_head_witness :
    analyze (sexp_list [.symbol "begin"]) main_env main_heap
        = .ok (.ref (.symbol "begin") (.core .CORE_BEGIN), main_heap)
      ∧ analyze (sexp_list [.symbol "begin", .fixnum 7]) main_env main_heap
        = .ok (.seq (sexp_list [.ref (.symbol "begin") (.core .CORE_BEGIN), .fixnum 7]),
            main_heap) :=
  C8_begin_analyzes_its_head (.fixnum 7) main_env main_heap main_heap (.symbol "begin")
    (.fixnum 7) (by rfl) (by rfl) (by rfl)

theorem set_lambda_envs {h h1 : Heap} {l : Sexp} {f : LamNode → LamNode}
    (hs : set_lambda h l f = .ok h1) : h1.envs = h.envs := by
  unfold set_lambda at hs
  split at hs
  · split at hs
    · cases hs; rfl
    · cases hs
  · cases hs

theorem env_cell_of_envs {h h1 : Heap} (he : h1.envs = h.envs) (env : Nat) (key : Sexp) :
    env_cell h1 env key = env_cell h env key := by
  simp [env_cell, he]

theorem analyze_lambda_head (X Y P B : Sexp) (env : Nat) (h : Heap) :
    analyze_lambda analyze (.pair X (.pair P B)) env h
      = analyze_lambda analyze (.pair Y (.pair P B)) env h := by
  simp [analyze_lambda, sexp_cadr, sexp_cddr, sexp_cdr, sexp_car, bind, Except.bind]

theorem analyze_lambda_form (P B : Sexp) (env : Nat) (h : Heap) (key : Sexp)
    (hl : env_cell h env (.symbol "lambda") = .ok (some (key, .core .CORE_LAMBDA))) :
    analyze (.pair (.symbol "lambda") (.pair P B)) env h
      = analyze_lambda analyze (.pair (.symbol "lambda") (.pair P B)) env h := by
  rw [analyze_unfold]
  simp [analyze_step, sexp_idp, hl, bind, Except.bind]

/-- The two spellings of a procedure definition are analyzed alike: the result
(a Set AST, an Exception or a fault) and the heap are the same. -/
theorem define_sugar_eq (f : String) (P B : Sexp) (env : Nat) (h : Heap) (k1 k2 : Sexp)
    (hdef : env_cell h env (.symbol "define") = .ok (some (k1, .core .CORE_DEFINE)))
    (hlam : env_cell h env (.symbol "lambda") = .ok (some (k2, .core .CORE_LAMBDA))) :
    analyze (.pair (.symbol "define") (.pair (.pair (.symbol f) P) B)) env h
      = analyze (sexp_list [.symbol "define", .symbol f,
          .pair (.symbol "lambda") (.pair P B)]) env h := by
  have key : ∀ h1 : Heap, h1.envs = h.envs →
      analyze (.pair (.symbol "lambda") (.pair P B)) env h1
        = analyze_lambda analyze (sexp_cons .undef (sexp_cons P B)) env h1 := by
    intro h1 he
    rw [analyze_lambda_form P B env h1 k2 (by rw [env_cell_of_envs he]; exact hlam)]
    exact analyze_lambda_head _ _ P B env h1
  rw [analyze_unfold, analyze_unfold (sexp_list _)]
  simp only [analyze_step, sexp_list, sexp_idp, hdef, bind, Except.bind, if_true]
  unfold analyze_define
  simp only [sexp_cadr, sexp_caadr, sexp_cdadr, sexp_cddr, sexp_caddr, sexp_cdr, sexp_car, bind,
    Except.bind, sexp_pairp, pure, Except.pure, if_true, Bool.false_eq_true, if_false]
  cases ho : sexp_env_lambda h env with
  | error e => rfl
  | ok owner =>
    cases owner with
    | none =>
      simp only [key h rfl]
    | some l =>
      by_cases hl : sexp_lambdap l = true
      · simp only [hl, if_true]
        cases hs : set_lambda h l (fun n => { n with locals := .pair (.symbol f) n.locals }) with
        | error e => rfl
        | ok h1 => simp only [key h1 (set_lambda_envs hs)]
      · simp only [hl, Bool.false_eq_true, if_false, key h rfl]

/-! ## The eval interface on literals -/

theorem analyze_self_evaluating (v : Sexp) (env : Nat) (h : Heap)
    (hv : self_evaluating v = true) : analyze v env h = .ok (v, h) := by
  rw [analyze_unfold]
  cases v <;> simp [self_evaluating] at hv <;> rfl

theorem ast_size_self_evaluating (v : Sexp) (hv : self_evaluating v = true) :
    ast_size v = 1 := by
  cases v <;> simp [self_evaluating] at hv <;> rfl

theorem free_vars_self_evaluating (v fv : Sexp) (h : Heap) (hv : self_evaluating v = true) :
    free_vars v fv h = .ok (fv, h) := by
  unfold free_vars ast_budget
  rw [ast_size_self_evaluating v hv, Nat.add_comm]
  cases v <;> simp [self_evaluating] at hv <;> rfl

theorem compile_one_self_evaluating (v : Sexp) (c : Context) (h : Heap)
    (hv : self_evaluating v = true) : compile_one v c h = compile_lit v c h := by
  unfold compile_one ast_budget
  rw [ast_size_self_evaluating v hv, Nat.add_comm]
  cases v <;> simp [self_evaluating] at hv <;> rfl

theorem finalize_push (w : Sexp) (h : Heap) :
    (compile_lit w sexp_new_context h >>= fun r => finalize_bytecode r.1 r.2)
      = .ok (.bytecode h.bcs.length, { h with bcs := h.bcs ++ [push_ret_code w] }) := by
  rfl

theorem compile_self_evaluating (v : Sexp) (env : Nat) (h : Heap)
    (hv : self_evaluating v = true) :
    compile v env h
      = .ok (.procedure (.fixnum 0) (.fixnum 0) (.bytecode h.bcs.length) (.vector h.vecs.length),
          { h with bcs := h.bcs ++ [push_ret_code v], vecs := h.vecs ++ [[]] }) := by
  have hexc : sexp_exceptionp v = false := by
    cases v <;> simp [self_evaluating] at hv <;> rfl
  have hfin := finalize_push v h
  unfold compile
  simp only [analyze_self_evaluating v env h hv, free_vars_self_evaluating v .null h hv,
    compile_one_self_evaluating v _ h hv, hexc, bind, Except.bind, pure, Except.pure] at hfin ⊢
  cases hc : compile_lit v sexp_new_context h with
  | error e => simp [hc] at hfin
  | ok r =>
    simp only [hc] at hfin
    simp only [hfin]
    rfl

theorem final_resumer_is_bytecode : main_rt.final_resumer = .bytecode 1 := by rfl

/-- The word `apply` stores as return address in the standard runtime is not an
instruction pointer: `scheme_init` stored a Bytecode in `final_resumer`, not a
Procedure. -/
theorem main_resumer_address : resumer_address main_rt.final_resumer = .raw 0 := by rfl

/-- What `compile` does not turn into a thunk, `eval` does not run. -/
theorem eval_compile_error (rt : Runtime) (fuel : Nat) (obj : Sexp) (env : Nat) (h : Heap)
    (e : Err) (hc : compile obj env h = .error e) : eval rt fuel obj env h = .error e := by
  unfold eval eval_in_context
  rw [hc]
  rfl

/-- Run from a frame whose return address is the code `DONE` of a resumer, the
thunk `PUSH w; RET` returns `w`: the VM itself carries a literal through. -/
theorem vm_push_ret (rt : Runtime) (w cp0 cp : Sexp) (lams : List LamNode) (envs : List Frame)
    (vecs : List (List Sexp)) :
    vm_run rt 3
      { heap := { envs := envs, lams := lams,
                  bcs := [[.byte .OP_DONE, .byte .OP_RET], push_ret_code w], vecs := vecs },
        stack := [some (.fixnum 0), some (.codeptr 0 0), some cp0], top := 3, bc := 1, ip := 0,
        cp := cp } = .ok w := by
  rfl

/-- C3 (as the code behaves): in the standard environment the application
`((lambda (x) x) 5)` is analyzed, but `compile` does not produce a thunk:
`compile_lambda` reads the free-vars list of the enclosing Lambda of a
top-level context, which has none; so `eval` does not return `5`. -/
theorem C3_eval_identity_application (fuel : Nat) :
    (analyze (sexp_list [sexp_list [.symbol "lambda", sexp_list [.symbol "x"], .symbol "x"],
        .fixnum 5]) main_env main_heap).map (fun r => (r.1, r.2.lams))
        = .ok (sexp_list [.lambda 0, .fixnum 5],
            [{ params := sexp_list [.symbol "x"], body := some (.ref (.symbol "x") (.lambda 0)),
               locals := .null, fv := .null, sv := .null }])
      ∧ compile (sexp_list [sexp_list [.symbol "lambda", sexp_list [.symbol "x"], .symbol "x"],
          .fixnum 5]) main_env main_heap = .error .fault
      ∧ eval main_rt fuel (sexp_list [sexp_list [.symbol "lambda", sexp_list [.symbol "x"],
          .symbol "x"], .fixnum 5]) main_env main_heap ≠ .ok (.fixnum 5) :=
  ⟨by rfl, by rfl, fun hne => by
    rw [eval_compile_error main_rt fuel _ main_env main_heap .fault (by rfl)] at hne
    cases hne⟩

/-! ## Free variables and set-vars on concrete programs -/

/-- C5 (as the code behaves): after `free_vars` on the analysis of
`(lambda (x) x)`, the free-vars list of the Lambda holds the Ref to its own
parameter `x`, whose loc is that Lambda: `sexp_lset_diff` compares the Refs of
the list with the symbols of the parameter list and removes nothing. -/
theorem C5_free_vars_keeps_own_parameter :
    (analyze (sexp_list [.symbol "lambda", sexp_list [.symbol "x"], .symbol "x"]) main_env
        main_heap >>= fun r => free_vars r.1 .null r.2).map (fun r => (r.1, r.2.lams))
      = .ok (sexp_list [.ref (.symbol "x") (.lambda 0)],
          [{ params := sexp_list [.symbol "x"], body := some (.ref (.symbol "x") (.lambda 0)),
             locals := .null, fv := sexp_list [.ref (.symbol "x") (.lambda 0)],
             sv := .null }]) := by
  rfl

/-- C10 (as the code behaves): the analysis of `(lambda (x) (define x 1))`
contains the node `Set(Ref(x, L), 1)` whose target has loc `L`, yet the
set-vars of `L` are empty (`analyze_define` never inserts); the analysis of
`(lambda (x) (set! x 1))` contains the same node and has `x` in the set-vars. -/
theorem C10_define_target_not_in_set_vars :
    (analyze (sexp_list [.symbol "lambda", sexp_list [.symbol "x"],
        sexp_list [.symbol "define", .symbol "x", .fixnum 1]]) main_env main_heap).map
        (fun r => (r.1, r.2.lams))
        = .ok (.lambda 0,
            [{ params := sexp_list [.symbol "x"],
               body := some (.set (.ref (.symbol "x") (.lambda 0)) (.fixnum 1)),
               locals := sexp_list [.symbol "x"], fv := .null, sv := .null }])
      ∧ (analyze (sexp_list [.symbol "lambda", sexp_list [.symbol "x"],
          sexp_list [.symbol "set!", .symbol "x", .fixnum 1]]) main_env main_heap).map
          (fun r => (r.1, r.2.lams))
        = .ok (.lambda 0,
            [{ params := sexp_list [.symbol "x"],
               body := some (.set (.ref (.symbol "x") (.lambda 0)) (.fixnum 1)),
               locals := .null, fv := .null, sv := sexp_list [.symbol "x"] }]) :=
  ⟨by rfl, by rfl⟩

/-! ## Every Ref of an analyzed AST has a Lambda or a cell value as loc -/

theorem Grow.grow_refl (h : Heap) (r : Nat) : Grow h h r :=
  ⟨fun f hf => ⟨f, hf, rfl, fun _ _ hc => hc⟩, fun _ n hn => ⟨n, hn, rfl, fun _ hb => hb⟩⟩

theorem Grow.grow_trans {h h1 h2 : Heap} {r : Nat} (g1 : Grow h h1 r) (g2 : Grow h1 h2 r) :
    Grow h h2 r := by
  constructor
  · intro f hf
    obtain ⟨f1, hf1, hp1, hc1⟩ := g1.root f hf
    obtain ⟨f2, hf2, hp2, hc2⟩ := g2.root f1 hf1
    exact ⟨f2, hf2, hp2.trans hp1, fun key c hc => hc2 key c (hc1 key c hc)⟩
  · intro a n hn
    obtain ⟨n1, hn1, hp1, hb1⟩ := g1.lams a n hn
    obtain ⟨n2, hn2, hp2, hb2⟩ := g2.lams a n1 hn1
    exact ⟨n2, hn2, hp2.trans hp1, fun b hb => hb2 b (hb1 b hb)⟩

theorem Ext.ext_refl (h : Heap) (r : Nat) : Ext h h r :=
  ⟨Grow.grow_refl h r, fun _ _ _ hf => hf, fun _ n hn => ⟨n, hn, rfl⟩⟩

theorem Ext.ext_trans {h h1 h2 : Heap} {r : Nat} (e1 : Ext h h1 r) (e2 : Ext h1 h2 r) :
    Ext h h2 r := by
  refine ⟨e1.grow.grow_trans e2.grow, ?_, ?_⟩
  · intro i f hi hf
    exact e2.frames i f hi (e1.frames i f hi hf)
  · intro a n hn
    obtain ⟨n1, hn1, hb1⟩ := e1.bodies a n hn
    obtain ⟨n2, hn2, hb2⟩ := e2.bodies a n1 hn1
    exact ⟨n2, hn2, hb2.trans hb1⟩

theorem LamBind.lam_grow {h h1 : Heap} {r : Nat} {c : Sexp × Sexp} (hc : LamBind h c)
    (g : Grow h h1 r) : LamBind h1 c := by
  obtain ⟨a, node, hl, hn, hm⟩ := hc
  obtain ⟨n1, hn1, hp1, _⟩ := g.lams a node hn
  exact ⟨a, n1, hl, hn1, by rw [hp1]; exact hm⟩

theorem RefGood.ref_grow {h h1 : Heap} {r : Nat} {n l : Sexp} (hg : RefGood h r n l)
    (g : Grow h h1 r) : RefGood h1 r n l := by
  rcases hg with hl | ⟨f, hf, hp, hc⟩
  · exact Or.inl (hl.lam_grow g)
  · obtain ⟨f1, hf1, hp1, hc1⟩ := g.root f hf
    exact Or.inr ⟨f1, hf1, hp1.trans hp, hc1 _ _ hc⟩

theorem GoodAst.ast_grow {h h1 : Heap} {r : Nat} {x : Sexp} (hx : GoodAst h r x)
    (g : Grow h h1 r) : GoodAst h1 r x := by
  induction hx with
  | leaf hl => exact .leaf hl
  | ref hr => exact .ref (hr.ref_grow g)
  | pair _ _ iha ihd => exact .pair iha ihd
  | cnd _ _ _ iht ihp ihf => exact .cnd iht ihp ihf
  | set _ _ ihv ihx => exact .set ihv ihx
  | seq _ ih => exact .seq ih
  | lambda hn hb _ ih =>
    obtain ⟨n1, hn1, _, hb1⟩ := g.lams _ _ hn
    exact .lambda hn1 (hb1 _ hb) ih

theorem Chain.root_frame {h : Heap} {r e : Nat} (hc : Chain h r e) :
    ∃ f, h.envs[r]? = some f ∧ f.parent = none := by
  induction hc with
  | root hf hp => exact ⟨_, hf, hp⟩
  | step _ _ _ _ ih => exact ih

theorem Chain.ext {h h1 : Heap} {r e : Nat} (hc : Chain h r e) (x : Ext h h1 r) :
    Chain h1 r e := by
  induction hc with
  | root hf hp =>
    obtain ⟨f1, hf1, hp1, _⟩ := x.grow.root _ hf
    exact .root hf1 (hp1.trans hp)
  | @step e p f hf hp hb hc ih =>
    have hne : e ≠ r := by
      intro he
      subst he
      obtain ⟨f0, hf0, hp0⟩ := hc.root_frame
      rw [hf] at hf0
      cases hf0
      rw [hp] at hp0
      cases hp0
    exact .step (x.frames e f hne hf) hp (fun c hcm => (hb c hcm).lam_grow x.grow) ih

theorem assq_cell_some {key : Sexp} {l : List (Sexp × Sexp)} {c : Sexp × Sexp}
    (h : assq_cell key l = some c) : c.1 = key ∧ c ∈ l := by
  induction l with
  | nil => simp [assq_cell] at h
  | cons d l ih =>
    unfold assq_cell at h
    split at h
    · next hd =>
      cases h
      exact ⟨(sexp_eq_iff _ _).1 hd, List.mem_cons_self _ _⟩
    · obtain ⟨h1, h2⟩ := ih h
      exact ⟨h1, List.mem_cons_of_mem _ h2⟩

theorem env_cell_loop_chain {h : Heap} {r : Nat} (key : Sexp) :
    ∀ (fuel e : Nat) (res : Option (Sexp × Sexp)), Chain h r e →
      env_cell_loop h.envs fuel e key = .ok res → Found h r key res := by
  intro fuel
  induction fuel with
  | zero => intro e res _ hr; simp [env_cell_loop] at hr
  | succ n ih =>
    intro e res hc hr
    unfold env_cell_loop at hr
    cases hc with
    | @root f hf hp =>
      simp only [hf] at hr
      cases ha : assq_cell key f.bindings with
      | some c =>
        simp only [ha] at hr
        cases hr
        exact ⟨(assq_cell_some ha).1, Or.inr ⟨_, hf, hp, ha⟩⟩
      | none =>
        simp only [ha, hp] at hr
        cases hr
        exact ⟨_, hf, hp, ha⟩
    | @step _ p f hf hp hb hc2 =>
      simp only [hf] at hr
      cases ha : assq_cell key f.bindings with
      | some c =>
        simp only [ha] at hr
        cases hr
        exact ⟨(assq_cell_some ha).1, Or.inl (hb c (assq_cell_some ha).2)⟩
      | none =>
        simp only [ha, hp] at hr
        exact ih _ _ hc2 hr

theorem env_root_loop_chain {h : Heap} {r : Nat} :
    ∀ (fuel e r1 : Nat), Chain h r e → env_root_loop h.envs fuel e = .ok r1 → r1 = r := by
  intro fuel
  induction fuel with
  | zero => intro e r1 _ hr; simp [env_root_loop] at hr
  | succ n ih =>
    intro e r1 hc hr
    unfold env_root_loop at hr
    cases hc with
    | root hf hp =>
      simp only [hf, hp] at hr
      cases hr
      rfl
    | step hf hp hb hc2 =>
      simp only [hf, hp] at hr
      exact ih _ _ hc2 hr

theorem assq_cell_cons_ne {key key2 v : Sexp} {l : List (Sexp × Sexp)} {c : Sexp × Sexp}
    (hn : assq_cell key l = none) (hc : assq_cell key2 l = some c) :
    assq_cell key2 ((key, v) :: l) = some c := by
  unfold assq_cell
  split
  · next he =>
    have : key = key2 := (sexp_eq_iff _ _).1 he
    subst this
    rw [hn] at hc
    cases hc
  · exact hc

theorem push_binding_ext {h : Heap} {r : Nat} {f : Frame} {key v : Sexp}
    (hf : h.envs[r]? = some f) (hp : f.parent = none) (hn : assq_cell key f.bindings = none) :
    Ext h { h with envs := push_binding h.envs r (key, v) } r
      ∧ ∃ f1 : Frame, (push_binding h.envs r (key, v))[r]? = some f1 ∧ f1.parent = none
          ∧ assq_cell key f1.bindings = some (key, v) := by
  have hlt : r < h.envs.length := by
    by_contra hge
    rw [List.getElem?_eq_none (by omega)] at hf
    cases hf
  have hnew : (push_binding h.envs r (key, v))[r]?
      = some { f with bindings := (key, v) :: f.bindings } := by
    simp [push_binding, hf, List.getElem?_set, hlt]
  refine ⟨⟨⟨?_, ?_⟩, ?_, ?_⟩, _, hnew, hp, ?_⟩
  · intro f0 hf0
    rw [hf] at hf0
    cases hf0
    exact ⟨_, hnew, rfl, fun key2 c hc => assq_cell_cons_ne hn hc⟩
  · intro a n hn
    exact ⟨n, hn, rfl, fun _ hb => hb⟩
  · intro i f0 hi hf0
    simp only [push_binding, hf]
    rw [List.getElem?_set_ne (Ne.symm hi)]
    exact hf0
  · intro a n hn
    exact ⟨n, hn, rfl⟩
  · simp [assq_cell]

theorem env_cell_create_post {h h1 : Heap} {r env : Nat} {key v : Sexp} {cell : Sexp × Sexp}
    (hc : Chain h r env) (hr : env_cell_create h env key v = .ok (cell, h1)) :
    Ext h h1 r ∧ cell.1 = key ∧ (LamBind h1 cell
      ∨ ∃ f, h1.envs[r]? = some f ∧ f.parent = none ∧ assq_cell key f.bindings = some cell) := by
  unfold env_cell_create at hr
  cases hf : env_cell h env key with
  | error e => simp [hf, bind, Except.bind] at hr
  | ok res =>
    have hfound := env_cell_loop_chain key _ _ _ hc hf
    cases res with
    | some c =>
      simp [hf, bind, Except.bind, pure, Except.pure] at hr
      obtain ⟨rfl, rfl⟩ := hr
      exact ⟨Ext.ext_refl _ _, hfound.1, hfound.2⟩
    | none =>
      obtain ⟨f, hfr, hp, hn⟩ := hfound
      cases hroot : env_root h env with
      | error e => simp [hf, hroot, bind, Except.bind] at hr
      | ok r1 =>
        have : r1 = r := env_root_loop_chain _ _ _ hc hroot
        subst this
        simp [hf, hroot, bind, Except.bind, pure, Except.pure] at hr
        obtain ⟨rfl, rfl⟩ := hr
        obtain ⟨hext, f1, hf1, hp1, ha1⟩ := push_binding_ext (v := v) hfr hp hn
        exact ⟨hext, rfl, Or.inr ⟨f1, hf1, hp1, ha1⟩⟩

theorem analyze_var_ref_post {h h1 : Heap} {r env : Nat} {x ast : Sexp}
    (hc : Chain h r env) (hr : analyze_var_ref x env h = .ok (ast, h1)) :
    Post r h ast h1 := by
  unfold analyze_var_ref at hr
  cases hcc : env_cell_create h env x .undef with
  | error e => simp [hcc, bind, Except.bind] at hr
  | ok p =>
    obtain ⟨cell, h2⟩ := p
    simp [hcc, bind, Except.bind, pure, Except.pure, sexp_make_ref] at hr
    obtain ⟨rfl, rfl⟩ := hr
    obtain ⟨hext, hk, hgood⟩ := env_cell_create_post hc hcc
    refine ⟨hext, fun _ => .ref ?_⟩
    rcases hgood with hl | ⟨f, hf, hp, ha⟩
    · left
      obtain ⟨a, node, h1, h2, h3⟩ := hl
      exact ⟨a, node, h1, h2, by rw [← hk]; exact h3⟩
    · right
      refine ⟨f, hf, hp, ?_⟩
      rw [ha]
      congr 1
      exact Prod.ext hk rfl

theorem set_lambda_ext {h h1 : Heap} {r : Nat} {l : Sexp} {g : LamNode → LamNode}
    (hg : ∀ n, (g n).params = n.params ∧ (g n).body = n.body)
    (hs : set_lambda h l g = .ok h1) : Ext h h1 r := by
  unfold set_lambda at hs
  split at hs
  · next a =>
    split at hs
    · next n hn =>
      cases hs
      have hlt : a < h.lams.length := by
        by_contra hge
        rw [List.getElem?_eq_none (by omega)] at hn
        cases hn
      have key : ∀ (a2 : Nat) (n2 : LamNode), h.lams[a2]? = some n2 →
          ∃ n1 : LamNode, (h.lams.set a (g n))[a2]? = some n1 ∧ n1.params = n2.params
            ∧ n1.body = n2.body := by
        intro a2 n2 hn2
        by_cases he : a = a2
        · subst he
          rw [hn] at hn2
          cases hn2
          exact ⟨g n, by simp [List.getElem?_set, hlt], (hg n).1, (hg n).2⟩
        · exact ⟨n2, by rw [List.getElem?_set_ne he]; exact hn2, rfl, rfl⟩
      refine ⟨⟨fun f hf => ⟨f, hf, rfl, fun _ _ hc => hc⟩, ?_⟩, fun _ _ _ hf => hf, ?_⟩
      · intro a2 n2 hn2
        obtain ⟨n1, h1, h2, h3⟩ := key a2 n2 hn2
        exact ⟨n1, h1, h2, fun b hb => by rw [h3]; exact hb⟩
      · intro a2 n2 hn2
        obtain ⟨n1, h1, _, h3⟩ := key a2 n2 hn2
        exact ⟨n1, h1, h3⟩
    · cases hs
  · cases hs

theorem GoodAst.pair_inv {h : Heap} {r : Nat} {a d : Sexp} (hg : GoodAst h r (.pair a d)) :
    GoodAst h r a ∧ GoodAst h r d := by
  cases hg with
  | leaf hl => simp [ast_leaf] at hl
  | pair ha hd => exact ⟨ha, hd⟩

theorem GoodAst.revappend {h : Heap} {r : Nat} :
    ∀ (x acc : Sexp), GoodAst h r x → GoodAst h r acc → GoodAst h r (sexp_revappend x acc) := by
  intro x
  induction x with
  | pair a d _ ihd =>
    intro acc hx hacc
    obtain ⟨ha, hd⟩ := hx.pair_inv
    simp only [sexp_revappend]
    exact ihd _ hd (.pair ha hacc)
  | _ => intro acc _ hacc; simpa [sexp_revappend] using hacc

theorem Post.post_trans {r : Nat} {h h1 h2 : Heap} {ast : Sexp} (e1 : Ext h h1 r)
    (p : Post r h1 ast h2) : Post r h ast h2 :=
  ⟨e1.ext_trans p.1, p.2⟩

theorem analyze_app_loop_post {r : Nat} {rec : Rec} (hrec : RecGood r rec) (env : Nat) :
    ∀ (x res : Sexp) (h : Heap) (ast : Sexp) (h1 : Heap), raw_form x = true → Chain h r env →
      GoodAst h r res → analyze_app_loop rec env x res h = .ok (ast, h1) → Post r h ast h1 := by
  intro x
  induction x with
  | pair a d _ ihd =>
    intro res h ast h1 hraw hc hres hr
    simp only [raw_form, Bool.and_eq_true] at hraw
    unfold analyze_app_loop at hr
    cases ha : rec a env h with
    | error e => simp [ha, bind, Except.bind] at hr
    | ok p =>
      obtain ⟨tmp, h2⟩ := p
      have hp := hrec a env h tmp h2 hraw.1 hc ha
      simp only [ha, bind, Except.bind] at hr
      by_cases hexc : sexp_exceptionp tmp = true
      · simp only [hexc, if_true, pure, Except.pure] at hr
        cases hr
        exact ⟨hp.1, fun hne => by rw [hexc] at hne; cases hne⟩
      · simp only [hexc, Bool.false_eq_true, if_false] at hr
        have hgood : GoodAst h2 r (.pair tmp res) :=
          .pair (hp.2 (by simpa using hexc)) (hres.ast_grow hp.1.grow)
        exact Post.post_trans hp.1 (ihd _ _ _ _ hraw.2 (hc.ext hp.1) hgood hr)
  | _ =>
    intro res h ast h1 _ _ hres hr
    simp only [analyze_app_loop, pure, Except.pure] at hr
    cases hr
    exact ⟨Ext.ext_refl _ _, fun _ => GoodAst.revappend _ _ hres (.leaf rfl)⟩

theorem analyze_app_post {r : Nat} {rec : Rec} (hrec : RecGood r rec) {x : Sexp} {env : Nat}
    {h h1 : Heap} {ast : Sexp} (hraw : raw_form x = true) (hc : Chain h r env)
    (hr : analyze_app rec x env h = .ok (ast, h1)) : Post r h ast h1 :=
  analyze_app_loop_post hrec env x .null h ast h1 hraw hc (.leaf rfl) hr

theorem raw_form_car {x a : Sexp} (hraw : raw_form x = true) (ha : sexp_car x = .ok a) :
    raw_form a = true := by
  cases x <;> simp [sexp_car] at ha <;> simp [raw_form] at hraw
  subst ha
  exact hraw.1

theorem raw_form_cdr {x a : Sexp} (hraw : raw_form x = true) (ha : sexp_cdr x = .ok a) :
    raw_form a = true := by
  cases x <;> simp [sexp_cdr] at ha <;> simp [raw_form] at hraw
  subst ha
  exact hraw.2

theorem analyze_seq_post {r : Nat} {rec : Rec} (hrec : RecGood r rec) {ls : Sexp} {env : Nat}
    {h h1 : Heap} {ast : Sexp} (hraw : raw_form ls = true) (hc : Chain h r env)
    (hr : analyze_seq rec ls env h = .ok (ast, h1)) : Post r h ast h1 := by
  unfold analyze_seq at hr
  by_cases hn : sexp_nullp ls = true
  · simp only [hn, if_true, pure, Except.pure] at hr
    cases hr
    exact ⟨Ext.ext_refl _ _, fun _ => .leaf rfl⟩
  · simp only [hn, Bool.false_eq_true, if_false] at hr
    cases hd : sexp_cdr ls with
    | error e => simp [hd, bind, Except.bind] at hr
    | ok d =>
      simp only [hd, bind, Except.bind] at hr
      by_cases hdn : sexp_nullp d = true
      · simp only [hdn, if_true] at hr
        cases ha : sexp_car ls with
        | error e => simp [ha] at hr
        | ok a =>
          simp only [ha] at hr
          exact hrec a env h ast h1 (raw_form_car hraw ha) hc hr
      · simp only [hdn, Bool.false_eq_true, if_false] at hr
        cases hap : analyze_app rec ls env h with
        | error e => simp [hap] at hr
        | ok p =>
          obtain ⟨tmp, h2⟩ := p
          have hp := analyze_app_post hrec hraw hc hap
          simp only [hap] at hr
          by_cases hexc : sexp_exceptionp tmp = true
          · simp only [hexc, if_true, pure, Except.pure] at hr
            cases hr
            exact ⟨hp.1, fun hne => by rw [hexc] at hne; cases hne⟩
          · simp only [hexc, Bool.false_eq_true, if_false, pure, Except.pure] at hr
            cases hr
            exact ⟨hp.1, fun _ => .seq (hp.2 (by simpa using hexc))⟩

theorem raw_form_cadr {x a : Sexp} (hraw : raw_form x = true) (ha : sexp_cadr x = .ok a) :
    raw_form a = true := by
  obtain ⟨d, hd, hda⟩ := bind_ok_inv ha
  exact raw_form_car (raw_form_cdr hraw hd) hda

theorem raw_form_cddr {x a : Sexp} (hraw : raw_form x = true) (ha : sexp_cddr x = .ok a) :
    raw_form a = true := by
  obtain ⟨d, hd, hda⟩ := bind_ok_inv ha
  exact raw_form_cdr (raw_form_cdr hraw hd) hda

theorem raw_form_caddr {x a : Sexp} (hraw : raw_form x = true) (ha : sexp_caddr x = .ok a) :
    raw_form a = true := by
  obtain ⟨d, hd, hda⟩ := bind_ok_inv ha
  exact raw_form_car (raw_form_cddr hraw hd) hda

theorem raw_form_cdadr {x a : Sexp} (hraw : raw_form x = true) (ha : sexp_cdadr x = .ok a) :
    raw_form a = true := by
  obtain ⟨d, hd, hda⟩ := bind_ok_inv ha
  exact raw_form_cdr (raw_form_cadr hraw hd) hda

theorem not_exc {x : Sexp} (h : ¬ sexp_exceptionp x = true) : sexp_exceptionp x = false := by
  simpa using h

theorem Post.of_exc {r : Nat} {h h1 : Heap} {ast : Sexp} (e : Ext h h1 r)
    (hexc : sexp_exceptionp ast = true) : Post r h ast h1 :=
  ⟨e, fun hne => by rw [hexc] at hne; cases hne⟩

theorem analyze_if_post {r : Nat} {rec : Rec} (hrec : RecGood r rec) {x : Sexp} {env : Nat}
    {h h1 : Heap} {ast : Sexp} (hraw : raw_form x = true) (hc : Chain h r env)
    (hr : analyze_if rec x env h = .ok (ast, h1)) : Post r h ast h1 := by
  unfold analyze_if at hr
  cases ha : sexp_car x with
  | error e => simp [ha, bind, Except.bind] at hr
  | ok a =>
    simp only [ha, bind, Except.bind] at hr
    cases ht : rec a env h with
    | error e => simp [ht] at hr
    | ok pt =>
      obtain ⟨test, h2⟩ := pt
      have hpt := hrec a env h test h2 (raw_form_car hraw ha) hc ht
      simp only [ht] at hr
      by_cases hexc : sexp_exceptionp test = true
      · simp only [hexc, if_true, pure, Except.pure] at hr
        cases hr
        exact Post.of_exc hpt.1 hexc
      · simp only [hexc, Bool.false_eq_true, if_false] at hr
        cases hb : sexp_cadr x with
        | error e => simp [hb] at hr
        | ok b =>
          simp only [hb] at hr
          cases hp : rec b env h2 with
          | error e => simp [hp] at hr
          | ok pp =>
            obtain ⟨pass, h3⟩ := pp
            have hpp := hrec b env h2 pass h3 (raw_form_cadr hraw hb) (hc.ext hpt.1) hp
            simp only [hp] at hr
            by_cases hexc2 : sexp_exceptionp pass = true
            · simp only [hexc2, if_true, pure, Except.pure] at hr
              cases hr
              exact Post.of_exc (hpt.1.ext_trans hpp.1) hexc2
            · simp only [hexc2, Bool.false_eq_true, if_false] at hr
              have tail : ∀ c : Sexp, raw_form c = true →
                  Except.bind (rec c env h3) (fun v =>
                      if sexp_exceptionp v.1 = true then Except.ok (v.1, v.2)
                      else Except.ok (sexp_make_cnd test pass v.1, v.2)) = Except.ok (ast, h1) →
                  Post r h ast h1 := by
                intro c hrawc hr
                simp only [Except.bind] at hr
                cases hf : rec c env h3 with
                | error e => simp [hf] at hr
                | ok pf =>
                  obtain ⟨fail, h4⟩ := pf
                  have hc3 := (hc.ext hpt.1).ext hpp.1
                  have hpf := hrec c env h3 fail h4 hrawc hc3 hf
                  simp only [hf] at hr
                  have hext := (hpt.1.ext_trans hpp.1).ext_trans hpf.1
                  by_cases hexc3 : sexp_exceptionp fail = true
                  · simp only [hexc3, if_true, pure, Except.pure] at hr
                    cases hr
                    exact Post.of_exc hext hexc3
                  · simp only [hexc3, Bool.false_eq_true, if_false, pure, Except.pure,
                      sexp_make_cnd] at hr
                    cases hr
                    exact ⟨hext, fun _ => .cnd
                      ((hpt.2 (not_exc hexc)).ast_grow (hpp.1.ext_trans hpf.1).grow)
                      ((hpp.2 (not_exc hexc2)).ast_grow hpf.1.grow) (hpf.2 (not_exc hexc3))⟩
              cases hdd : sexp_cddr x with
              | error e => simp [hdd] at hr
              | ok dd =>
                simp only [hdd] at hr
                by_cases hpd : sexp_pairp dd = true
                · simp only [hpd, if_true] at hr
                  cases hcc : sexp_caddr x with
                  | error e => simp [hcc] at hr
                  | ok c =>
                    simp only [hcc, pure, Except.pure] at hr
                    exact tail c (raw_form_caddr hraw hcc) hr
                · simp only [hpd, Bool.false_eq_true, if_false, pure, Except.pure] at hr
                  exact tail .undef rfl hr

theorem getElem?_lt {α : Type} {l : List α} {i : Nat} {x : α} (h : l[i]? = some x) :
    i < l.length := by
  by_contra hge
  rw [List.getElem?_eq_none (by omega)] at h
  cases h

theorem extend_bindings_mem (value : Sexp) :
    ∀ (vars : Sexp) (acc : List (Sexp × Sexp)) (c : Sexp × Sexp),
      c ∈ extend_bindings value vars acc →
        c ∈ acc ∨ (c.2 = value ∧ sexp_memq c.1 vars = true) := by
  intro vars
  induction vars with
  | pair v d _ ihd =>
    intro acc c hc
    simp only [extend_bindings] at hc
    rcases ihd _ _ hc with hm | ⟨h1, h2⟩
    · rcases List.mem_cons.1 hm with rfl | hm2
      · exact Or.inr ⟨rfl, by simp [sexp_memq]⟩
      · exact Or.inl hm2
    · exact Or.inr ⟨h1, by simp [sexp_memq, h2]⟩
  | _ => intro acc c hc; exact Or.inl (by simpa [extend_bindings] using hc)

theorem set_concat_length {α : Type} (l : List α) (x y : α) :
    (l ++ [x]).set l.length y = l ++ [y] := by
  induction l with
  | nil => rfl
  | cons a l ih => simp [List.set, ih]

/-- The heap after `analyze_lambda` has allocated the Lambda and its frame. -/
theorem lambda_setup {h h3 : Heap} {r env : Nat} (params : Sexp) (hc : Chain h r env)
    (hs : set_env_lambda (extend_env (alloc_lambda h params).2 env (sexp_flatten_dot params)
        (alloc_lambda h params).1).2 (extend_env (alloc_lambda h params).2 env
          (sexp_flatten_dot params) (alloc_lambda h params).1).1 (alloc_lambda h params).1
        = .ok h3) :
    Ext h h3 r ∧ Chain h3 r h.envs.length
      ∧ h3.lams[h.lams.length]? = some (fresh_lambda params) := by
  have hh : h3.envs = h.envs ++ [lambda_frame env (.lambda h.lams.length)
        (sexp_flatten_dot params)] ∧ h3.lams = h.lams ++ [fresh_lambda params] := by
    simp only [alloc_lambda, extend_env, set_env_lambda, List.getElem?_concat_length,
      set_concat_length] at hs
    cases hs
    exact ⟨rfl, rfl⟩
  have hl : ∀ (a : Nat) (n : LamNode), h.lams[a]? = some n → h3.lams[a]? = some n := by
    intro a n hn
    rw [hh.2, List.getElem?_append_left (getElem?_lt hn)]
    exact hn
  have he : ∀ (i : Nat) (f : Frame), h.envs[i]? = some f → h3.envs[i]? = some f := by
    intro i f hf
    rw [hh.1, List.getElem?_append_left (getElem?_lt hf)]
    exact hf
  have hext : Ext h h3 r := ⟨⟨fun f hf => ⟨f, he r f hf, rfl, fun _ _ hc => hc⟩,
    fun a n hn => ⟨n, hl a n hn, rfl, fun _ hb => hb⟩⟩, fun i f _ hf => he i f hf,
    fun a n hn => ⟨n, hl a n hn, rfl⟩⟩
  have hnew : h3.lams[h.lams.length]? = some (fresh_lambda params) := by
    rw [hh.2]
    exact List.getElem?_concat_length _ _
  refine ⟨hext, ?_, hnew⟩
  refine Chain.step (f := lambda_frame env (.lambda h.lams.length) (sexp_flatten_dot params))
    (by rw [hh.1]; exact List.getElem?_concat_length _ _) rfl ?_ (hc.ext hext)
  intro c hcm
  rcases extend_bindings_mem _ _ _ _ hcm with hm | ⟨h1, h2⟩
  · cases hm
  · exact ⟨h.lams.length, _, h1, hnew, h2⟩

theorem set_lambda_fresh_ext {h h4 h5 : Heap} {r a : Nat} {g : LamNode → LamNode}
    (hext : Ext h h4 r) (hfresh : h.lams.length ≤ a)
    (hs : set_lambda h4 (.lambda a) g = .ok h5) : Ext h h5 r := by
  simp only [set_lambda] at hs
  split at hs
  · next n hn =>
    cases hs
    have hne : ∀ (a2 : Nat) (n2 : LamNode), h.lams[a2]? = some n2 → a ≠ a2 := by
      intro a2 n2 hn2
      have := getElem?_lt hn2
      omega
    refine ⟨⟨hext.grow.root, ?_⟩, hext.frames, ?_⟩
    · intro a2 n2 hn2
      obtain ⟨n1, h1, h2, h3⟩ := hext.grow.lams a2 n2 hn2
      exact ⟨n1, by rw [List.getElem?_set_ne (hne a2 n2 hn2)]; exact h1, h2, h3⟩
    · intro a2 n2 hn2
      obtain ⟨n1, h1, h2⟩ := hext.bodies a2 n2 hn2
      exact ⟨n1, by rw [List.getElem?_set_ne (hne a2 n2 hn2)]; exact h1, h2⟩
  · cases hs

theorem set_body_grow {h4 h5 : Heap} {r a : Nat} {n : LamNode} {b : Sexp}
    (hn : h4.lams[a]? = some n) (hb : n.body = none)
    (hs : set_lambda h4 (.lambda a) (fun n => { n with body := some b }) = .ok h5) :
    Grow h4 h5 r ∧ h5.lams[a]? = some { n with body := some b } := by
  simp only [set_lambda, hn] at hs
  cases hs
  have hlt := getElem?_lt hn
  refine ⟨⟨fun f hf => ⟨f, hf, rfl, fun _ _ hc => hc⟩, ?_⟩, by simp [List.getElem?_set, hlt]⟩
  intro a2 n2 hn2
  by_cases he : a = a2
  · subst he
    rw [hn] at hn2
    cases hn2
    exact ⟨{ n with body := some b }, by simp [List.getElem?_set, hlt], rfl,
      fun b2 hb2 => by rw [hb] at hb2; cases hb2⟩
  · exact ⟨n2, by rw [List.getElem?_set_ne he]; exact hn2, rfl, fun _ hb2 => hb2⟩

theorem analyze_lambda_post {r : Nat} {rec : Rec} (hrec : RecGood r rec) {x : Sexp} {env : Nat}
    {h h1 : Heap} {ast : Sexp} (hraw : raw_form x = true) (hc : Chain h r env)
    (hr : analyze_lambda rec x env h = .ok (ast, h1)) : Post r h ast h1 := by
  unfold analyze_lambda at hr
  cases hpar : sexp_cadr x with
  | error e => simp [hpar, bind, Except.bind] at hr
  | ok params =>
    simp only [hpar, bind, Except.bind] at hr
    cases hset : set_env_lambda (extend_env (alloc_lambda h params).2 env
        (sexp_flatten_dot params) (alloc_lambda h params).1).2 (extend_env
          (alloc_lambda h params).2 env (sexp_flatten_dot params) (alloc_lambda h params).1).1
        (alloc_lambda h params).1 with
    | error e => simp [hset] at hr
    | ok h3 =>
      obtain ⟨hext3, hc3, hl3⟩ := lambda_setup params hc hset
      simp only [hset] at hr
      cases hforms : sexp_cddr x with
      | error e => simp [hforms] at hr
      | ok forms =>
        simp only [hforms] at hr
        cases hseq : analyze_seq rec forms (extend_env (alloc_lambda h params).2 env
            (sexp_flatten_dot params) (alloc_lambda h params).1).1 h3 with
        | error e => simp [hseq] at hr
        | ok pb =>
          obtain ⟨body, h4⟩ := pb
          have hpb := analyze_seq_post hrec (raw_form_cddr hraw hforms) hc3 hseq
          simp only [hseq] at hr
          by_cases hexc : sexp_exceptionp body = true
          · simp only [hexc, if_true, pure, Except.pure] at hr
            cases hr
            exact Post.of_exc (hext3.ext_trans hpb.1) hexc
          · simp only [hexc, Bool.false_eq_true, if_false] at hr
            cases hs5 : set_lambda h4 (alloc_lambda h params).1
                (fun n => { n with body := some body }) with
            | error e => simp [hs5] at hr
            | ok h5 =>
              simp only [hs5, pure, Except.pure] at hr
              cases hr
              obtain ⟨n4, hn4, hb4⟩ := hpb.1.bodies _ _ hl3
              have hs5a : set_lambda h4 (.lambda h.lams.length)
                  (fun n => { n with body := some body }) = .ok h1 := hs5
              obtain ⟨hg, hn5⟩ := set_body_grow (r := r) hn4 hb4 hs5a
              refine ⟨set_lambda_fresh_ext (hext3.ext_trans hpb.1) (Nat.le_refl _) hs5a, fun _ => ?_⟩
              exact .lambda hn5 rfl ((hpb.2 (not_exc hexc)).ast_grow hg)

theorem analyze_define_post {r : Nat} {rec : Rec} (hrec : RecGood r rec) {x : Sexp} {env : Nat}
    {h h1 : Heap} {ast : Sexp} (hraw : raw_form x = true) (hc : Chain h r env)
    (hr : analyze_define rec x env h = .ok (ast, h1)) : Post r h ast h1 := by
  unfold analyze_define at hr
  obtain ⟨target, htar, hr⟩ := bind_ok_inv hr
  obtain ⟨name, hname, hr⟩ := bind_ok_inv hr
  obtain ⟨owner, hown, hr⟩ := bind_ok_inv hr
  obtain ⟨ha, hh1, hr⟩ := bind_ok_inv hr
  obtain ⟨⟨value, hb⟩, hval, hr⟩ := bind_ok_inv hr
  dsimp only at hr
  have hexta : Ext h ha r := by
    cases owner with
    | none =>
      simp only [pure, Except.pure] at hh1
      cases hh1
      exact Ext.ext_refl _ _
    | some l =>
      dsimp only at hh1
      by_cases hl : sexp_lambdap l = true
      · simp only [hl, if_true] at hh1
        exact set_lambda_ext (g := fun n => { n with locals := .pair name n.locals })
          (fun n => ⟨rfl, rfl⟩) hh1
      · simp only [hl, Bool.false_eq_true, if_false, pure, Except.pure] at hh1
        cases hh1
        exact Ext.ext_refl _ _
  have hca := hc.ext hexta
  have hpv : Post r ha value hb := by
    by_cases hpt : sexp_pairp target = true
    · simp only [hpt, if_true] at hval
      obtain ⟨formals, hform, hval⟩ := bind_ok_inv hval
      obtain ⟨body, hbody, hval⟩ := bind_ok_inv hval
      have hrawl : raw_form (sexp_cons .undef (sexp_cons formals body)) = true := by
        simp [sexp_cons, raw_form, raw_form_cdadr hraw hform, raw_form_cddr hraw hbody]
      exact analyze_lambda_post hrec hrawl hca hval
    · simp only [hpt, Bool.false_eq_true, if_false] at hval
      obtain ⟨v, hv, hval⟩ := bind_ok_inv hval
      exact hrec v env ha value hb (raw_form_caddr hraw hv) hca hval
  by_cases hexc : sexp_exceptionp value = true
  · simp only [hexc, if_true, pure, Except.pure] at hr
    cases hr
    exact Post.of_exc (hexta.ext_trans hpv.1) hexc
  · simp only [hexc, Bool.false_eq_true, if_false] at hr
    obtain ⟨⟨ref, hc3⟩, hvr, hr⟩ := bind_ok_inv hr
    dsimp only at hr
    have hcb := hca.ext hpv.1
    have hpr := analyze_var_ref_post hcb hvr
    by_cases hexc2 : sexp_exceptionp ref = true
    · simp only [hexc2, if_true, pure, Except.pure] at hr
      cases hr
      exact Post.of_exc ((hexta.ext_trans hpv.1).ext_trans hpr.1) hexc2
    · simp only [hexc2, Bool.false_eq_true, if_false] at hr
      obtain ⟨⟨cell, h4⟩, hcc, hr⟩ := bind_ok_inv hr
      obtain ⟨hext4, _, _⟩ := env_cell_create_post (hcb.ext hpr.1) hcc
      simp only [pure, Except.pure, sexp_make_set] at hr
      cases hr
      exact ⟨((hexta.ext_trans hpv.1).ext_trans hpr.1).ext_trans hext4, fun _ => .set
        ((hpr.2 (not_exc hexc2)).ast_grow hext4.grow)
        ((hpv.2 (not_exc hexc)).ast_grow (hpr.1.ext_trans hext4).grow)⟩

theorem analyze_set_post {r : Nat} {rec : Rec} (hrec : RecGood r rec) {x : Sexp} {env : Nat}
    {h h1 : Heap} {ast : Sexp} (hraw : raw_form x = true) (hc : Chain h r env)
    (hr : analyze_set rec x env h = .ok (ast, h1)) : Post r h ast h1 := by
  unfold analyze_set at hr
  obtain ⟨target, htar, hr⟩ := bind_ok_inv hr
  obtain ⟨⟨ref, ha⟩, hvr, hr⟩ := bind_ok_inv hr
  dsimp only at hr
  obtain ⟨loc, hloc, hr⟩ := bind_ok_inv hr
  obtain ⟨name, hnm, hr⟩ := bind_ok_inv hr
  obtain ⟨hb, hsv, hr⟩ := bind_ok_inv hr
  have hpr := analyze_var_ref_post hc hvr
  have hextb : Ext ha hb r := by
    by_cases hl : sexp_lambdap loc = true
    · simp only [hl, if_true] at hsv
      exact set_lambda_ext (g := fun n => { n with sv := sexp_insert n.sv name })
        (fun n => ⟨rfl, rfl⟩) hsv
    · simp only [hl, Bool.false_eq_true, if_false, pure, Except.pure] at hsv
      cases hsv
      exact Ext.ext_refl _ _
  by_cases hexc : sexp_exceptionp ref = true
  · simp only [hexc, if_true, pure, Except.pure] at hr
    cases hr
    exact Post.of_exc (hpr.1.ext_trans hextb) hexc
  · simp only [hexc, Bool.false_eq_true, if_false] at hr
    obtain ⟨v, hv, hr⟩ := bind_ok_inv hr
    obtain ⟨⟨value, h3⟩, hval, hr⟩ := bind_ok_inv hr
    dsimp only at hr
    have hpv := hrec v env hb value h3 (raw_form_caddr hraw hv) ((hc.ext hpr.1).ext hextb) hval
    by_cases hexc2 : sexp_exceptionp value = true
    · simp only [hexc2, if_true, pure, Except.pure] at hr
      cases hr
      exact Post.of_exc ((hpr.1.ext_trans hextb).ext_trans hpv.1) hexc2
    · simp only [hexc2, Bool.false_eq_true, if_false, pure, Except.pure, sexp_make_set] at hr
      cases hr
      exact ⟨(hpr.1.ext_trans hextb).ext_trans hpv.1, fun _ => .set
        ((hpr.2 (not_exc hexc)).ast_grow (hextb.ext_trans hpv.1).grow) (hpv.2 (not_exc hexc2))⟩

theorem raw_form_leaf {x : Sexp} (hraw : raw_form x = true) (hp : sexp_pairp x = false) :
    ast_leaf x = true := by
  cases x <;> simp [raw_form] at hraw <;> simp [sexp_pairp] at hp <;> rfl

theorem analyze_step_post {r : Nat} {rec : Rec} (hrec : RecGood r rec) {x : Sexp} {env : Nat}
    {h h1 : Heap} {ast : Sexp} (hraw : raw_form x = true) (hc : Chain h r env)
    (hr : analyze_step rec x env h = .ok (ast, h1)) : Post r h ast h1 := by
  unfold analyze_step at hr
  cases x with
  | pair a d =>
    dsimp only at hr
    by_cases hid : sexp_idp a = true
    · simp only [hid, if_true] at hr
      obtain ⟨res, hres, hr⟩ := bind_ok_inv hr
      cases res with
      | none => exact analyze_app_post hrec hraw hc hr
      | some cell =>
        dsimp only at hr
        split at hr
        · exact analyze_define_post hrec hraw hc hr
        · exact analyze_set_post hrec hraw hc hr
        · exact analyze_lambda_post hrec hraw hc hr
        · exact analyze_if_post hrec hraw hc hr
        · exact analyze_seq_post hrec hraw hc hr
        · simp only [pure, Except.pure, sexp_make_lit] at hr
          cases hr
          exact ⟨Ext.ext_refl _ _, fun _ => .leaf rfl⟩
        · simp only [pure, Except.pure] at hr
          cases hr
          exact Post.of_exc (Ext.ext_refl _ _) rfl
        · simp only [pure, Except.pure] at hr
          cases hr
          exact Post.of_exc (Ext.ext_refl _ _) rfl
        · exact analyze_app_post hrec hraw hc hr
    · simp only [hid, Bool.false_eq_true, if_false] at hr
      exact analyze_app_post hrec hraw hc hr
  | symbol s => exact analyze_var_ref_post hc hr
  | synclo e y => simp [raw_form] at hraw
  | _ =>
    first
      | (simp [raw_form] at hraw; done)
      | (simp only [pure, Except.pure] at hr
         cases hr
         exact ⟨Ext.ext_refl _ _, fun _ => .leaf rfl⟩)

theorem analyzeF_good (r : Nat) : ∀ n, RecGood r (analyzeF n) := by
  intro n
  induction n with
  | zero =>
    intro y env h ast h1 _ _ hr
    simp [analyzeF] at hr
  | succ n ih =>
    intro y env h ast h1 hraw hc hr
    exact analyze_step_post ih hraw hc hr

theorem analyze_good (r : Nat) : RecGood r analyze :=
  fun y env h ast h1 hraw hc hr => analyzeF_good r (sexp_size y) y env h ast h1 hraw hc hr

theorem GoodAst.sub {h : Heap} {r : Nat} {x y : Sexp} (hs : Sub h y x) :
    GoodAst h r x → GoodAst h r y := by
  induction hs with
  | refl => exact id
  | car _ ih =>
    intro hg
    exact ih hg.pair_inv.1
  | cdr _ ih =>
    intro hg
    exact ih hg.pair_inv.2
  | test _ ih =>
    intro hg
    cases hg with
    | leaf hl => simp [ast_leaf] at hl
    | cnd ht _ _ => exact ih ht
  | pass _ ih =>
    intro hg
    cases hg with
    | leaf hl => simp [ast_leaf] at hl
    | cnd _ hp _ => exact ih hp
  | fail _ ih =>
    intro hg
    cases hg with
    | leaf hl => simp [ast_leaf] at hl
    | cnd _ _ hf => exact ih hf
  | var _ ih =>
    intro hg
    cases hg with
    | leaf hl => simp [ast_leaf] at hl
    | set hv _ => exact ih hv
  | value _ ih =>
    intro hg
    cases hg with
    | leaf hl => simp [ast_leaf] at hl
    | set _ hx => exact ih hx
  | seq _ ih =>
    intro hg
    cases hg with
    | leaf hl => simp [ast_leaf] at hl
    | seq hl => exact ih hl
  | body hn hb _ ih =>
    intro hg
    cases hg with
    | leaf hl => simp [ast_leaf] at hl
    | lambda hn2 hb2 hg2 =>
      rw [hn] at hn2
      cases hn2
      rw [hb] at hb2
      cases hb2
      exact ih hg2

theorem Sub.of_exception {h : Heap} {y k m i : Sexp} (hs : Sub h y (.exception k m i)) :
    y = .exception k m i := by
  cases hs
  rfl

/-- What `analyze_var_ref` stores as loc, for every form made of atoms and
pairs analyzed in a root frame `env`: a Lambda node whose flattened parameter
list holds the name, or the value stored in the binding cell of the name in
the root frame (the cdr of the cell, not the cell). -/
theorem ref_loc_lambda_or_cell_value (x : Sexp) (env : Nat) (h h1 : Heap) (ast : Sexp)
    (hraw : raw_form x = true)
    (hroot : (h.envs[env]?).map (fun f => f.parent) = some none)
    (hr : analyze x env h = .ok (ast, h1)) (n l : Sexp) (hs : Sub h1 (.ref n l) ast) :
    RefGood h1 env n l := by
  have hc : Chain h env env := by
    cases hf : h.envs[env]? with
    | none => simp [hf] at hroot
    | some f =>
      simp only [hf, Option.map_some', Option.some.injEq] at hroot
      exact .root hf hroot
  have hp := analyze_good env x env h ast h1 hraw hc hr
  by_cases hexc : sexp_exceptionp ast = true
  · cases ast <;> simp [sexp_exceptionp] at hexc
    cases Sub.of_exception hs
  · have hg := GoodAst.sub hs (hp.2 (not_exc hexc))
    cases hg with
    | leaf hl => simp [ast_leaf] at hl
    | ref hg => exact hg

/-- C4 (as the code behaves): in the standard environment `analyze` of the
symbol `car` returns a Ref whose loc is the opcode stored in the binding cell
of `car`; that loc is not a Lambda node and is not the binding cell, which is
the pair `(car . opcode)`.  `analyze_var_ref` stores `sexp_cdr(cell)`, the
value the cell holds at analysis time, although `compile_ref` and
`compile_set` emit `CDR` and `SET_CDR` on the loc and so need the cell. -/
theorem C4_global_loc_is_not_the_cell :
    analyze (.symbol "car") main_env main_heap
        = .ok (.ref (.symbol "car") (.opcode 0), main_heap)
      ∧ env_cell main_heap main_env (.symbol "car") = .ok (some (.symbol "car", .opcode 0))
      ∧ sexp_lambdap (.opcode 0) = false
      ∧ Sexp.opcode 0 ≠ sexp_cons (.symbol "car") (.opcode 0) :=
  ⟨by rfl, by rfl, by rfl, by simp [sexp_cons]⟩

/-! ## Internal defines, macros and the error contract of applications -/

theorem counter_analysis :
    (analyze counter_program main_env main_heap).map (fun r => (r.1, r.2.lams))
      = .ok (.set (.ref (.symbol "counter") .undef) (.lambda 0), counter_lambdas) := by
  rfl

theorem counter_free_vars (envs : List Frame) (bcs : List (List Slot)) (vecs : List (List Sexp)) :
    free_vars (.set (.ref (.symbol "counter") .undef) (.lambda 0)) .null
        { envs := envs, lams := counter_lambdas, bcs := bcs, vecs := vecs }
      = .ok (.null, { envs := envs, lams := counter_lambdas, bcs := bcs, vecs := vecs }) := by
  rfl

/-- C11 (as the code behaves): after analysis and the free-variable pass of the
counter program, the Lambda nodes are `counter_lambdas`: the outer Lambda has
`c` in its locals but its set-vars are empty, and the free-vars of the nested
Lambda are empty.  `analyze_define` records the name in the locals without
binding it in the frame of the Lambda, so every Ref to `c` resolves to a cell
of the root frame and has the loc Undefined, never the outer Lambda. -/
theorem C11_counter_define_not_boxed_nor_captured :
    (analyze counter_program main_env main_heap >>= fun r => free_vars r.1 .null r.2).map
        (fun r => r.2.lams) = .ok counter_lambdas := by
  have ha := counter_analysis
  cases hr : analyze counter_program main_env main_heap with
  | error e => rw [hr] at ha; cases ha
  | ok r =>
    obtain ⟨ast, h1⟩ := r
    rw [hr] at ha
    simp only [Except.map, Except.ok.injEq, Prod.mk.injEq] at ha
    obtain ⟨hast, hl⟩ := ha
    subst hast
    obtain ⟨envs, lams, bcs, vecs⟩ := h1
    simp only at hl
    subst hl
    simp only [bind, Except.bind, counter_free_vars, Except.map]

/-- C12: for every pair form whose head is an identifier bound to a Macro value,
`analyze` returns the Exception of kind `compile-error` with the message
"macros not yet supported" and the form as its only irritant, and leaves the
heap as it was. -/
theorem C12_macro_use_is_compile_error (a rest : Sexp) (env : Nat) (h : Heap)
    (key proc : Sexp) (menv : Nat) (hid : sexp_idp a = true)
    (hcell : env_cell h env a = .ok (some (key, .mac proc menv))) :
    analyze (.pair a rest) env h
      = .ok (.exception (.symbol "compile-error") (.string "macros not yet supported")
          (sexp_list [.pair a rest]), h) := by
  rw [analyze_unfold]
  simp only [analyze_step, hid, hcell, bind, Except.bind, if_true]
  rfl

theorem C12_macro_use_is_compile_error_witness :
    sexp_idp (.symbol "m") = true
      ∧ analyze (sexp_list [.symbol "m", .fixnum 1]) 0 macro_heap
        = .ok (.exception (.symbol "compile-error") (.string "macros not yet supported")
            (sexp_list [sexp_list [.symbol "m", .fixnum 1]]), macro_heap) :=
  ⟨by rfl, C12_macro_use_is_compile_error (.symbol "m") (sexp_list [.fixnum 1]) 0 macro_heap
    (.symbol "m") .undef 0 (by rfl) (by rfl)⟩

/-- The loop of `analyze_app` returns the Exception of the first element that
yields one, with the heap that element left. -/
theorem analyze_app_loop_stops (env : Nat) (e exc : Sexp) (post : List Sexp) (h1 h2 : Heap)
    (he : analyze e env h1 = .ok (exc, h2)) (hexc : sexp_exceptionp exc = true) :
    ∀ (pre : List Sexp) (h : Heap) (res : Sexp), AnalyzedAll env h pre h1 →
      analyze_app_loop analyze env (sexp_list (pre ++ e :: post)) res h = .ok (exc, h2) := by
  intro pre
  induction pre with
  | nil =>
    intro h res hall
    cases hall
    simp only [List.nil_append, sexp_list, analyze_app_loop, he, bind, Except.bind, hexc, if_true]
    rfl
  | cons x xs ih =>
    intro h res hall
    cases hall with
    | cons hx hne hrest =>
      simp only [List.cons_append, sexp_list, analyze_app_loop, hx, bind, Except.bind, hne]
      exact ih _ _ hrest

theorem analyze_app_form (a d : Sexp) (env : Nat) (h : Heap) (hh : app_head h env a) :
    analyze (.pair a d) env h = analyze_app analyze (.pair a d) env h := by
  rw [analyze_unfold]
  rcases hh with hid | hnone | ⟨cell, hc, hcore, hmac⟩
  · simp [analyze_step, hid]
  · by_cases hid : sexp_idp a = true
    · simp [analyze_step, hid, hnone, bind, Except.bind]
    · simp [analyze_step, hid]
  · by_cases hid : sexp_idp a = true
    · simp only [analyze_step, hid, hc, bind, Except.bind, if_true]
      obtain ⟨k, v⟩ := cell
      cases v <;> simp_all [sexp_corep, sexp_macrop]
    · simp [analyze_step, hid]

/-- C13: for every application form `(e0 ... en)`, written `pre ++ e :: post`:
if the elements `pre` are analyzed in order without an Exception and the
analysis of `e` then yields the Exception `exc`, `analyze` of the whole form
returns `exc` itself together with the heap the analysis of `e` left, so the
elements `post` to its right change nothing. -/
theorem C13_application_stops_at_first_exception (pre post : List Sexp) (e exc : Sexp)
    (env : Nat) (h h1 h2 : Heap)
    (happ : app_head h env ((pre ++ e :: post).headD .null))
    (hpre : AnalyzedAll env h pre h1)
    (he : analyze e env h1 = .ok (exc, h2)) (hexc : sexp_exceptionp exc = true) :
    analyze (sexp_list (pre ++ e :: post)) env h = .ok (exc, h2) := by
  have hloop := analyze_app_loop_stops env e exc post h1 h2 he hexc pre h .null hpre
  cases hl : pre ++ e :: post with
  | nil => simp at hl
  | cons a d =>
    rw [hl] at happ hloop
    simp only [sexp_list] at hloop ⊢
    rw [analyze_app_form a (sexp_list d) env h happ]
    exact hloop

theorem C13_application_stops_at_first_exception_witness :
    analyze (sexp_list [.symbol "f", sexp_list [.symbol "m"], .symbol "y"]) 0 macro_heap
      = .ok (.exception (.symbol "compile-error") (.string "macros not yet supported")
          (sexp_list [sexp_list [.symbol "m"]]),
        macro_heap_with_f) :=
  C13_application_stops_at_first_exception [.symbol "f"] [.symbol "y"] (sexp_list [.symbol "m"])
    _ 0 macro_heap _ _ (Or.inr (Or.inl (by rfl)))
    (.cons (by rfl) (by rfl) (.nil _)) (by rfl) (by rfl)

/-! ## The virtual machine: calls, returns and continuations -/

theorem stack_get_slot {st : List (Option Sexp)} {k : Nat} {v : Sexp}
    (hs : slot st k = some v) (hk : k < INIT_STACK_SIZE) : stack_get st (k : Int) = .ok v := by
  unfold stack_get
  have h1 : (0 : Int) ≤ (k : Int) ∧ (k : Int) < (INIT_STACK_SIZE : Nat) := by omega
  rw [if_pos h1]
  unfold slot at hs
  simp only [Int.toNat_ofNat]
  split at hs
  · next w hw =>
    simp only [Option.some.injEq] at hs
    subst hs
    rfl
  · cases hs

theorem stack_set_slot (st : List (Option Sexp)) {k : Nat} (v : Sexp)
    (hk : k < INIT_STACK_SIZE) :
    ∃ st1, stack_set st (k : Int) v = .ok st1
      ∧ ∀ j, slot st1 j = if j = k then some v else slot st j := by
  unfold stack_set
  have h1 : (0 : Int) ≤ (k : Int) ∧ (k : Int) < (INIT_STACK_SIZE : Nat) := by omega
  rw [if_pos h1]
  simp only [Int.toNat_ofNat]
  by_cases hl : k < st.length
  · rw [if_pos hl]
    refine ⟨_, rfl, fun j => ?_⟩
    unfold slot
    by_cases hj : j = k
    · subst hj; simp [List.getElem?_set, hl]
    · rw [if_neg hj]
      have : k ≠ j := fun h => hj h.symm
      simp [List.getElem?_set, this]
  · rw [if_neg hl]
    refine ⟨_, rfl, fun j => ?_⟩
    unfold slot
    by_cases hj : j = k
    · subst hj
      rw [if_pos rfl]
      have hlen : (st ++ List.replicate (j - st.length) none).length = j := by
        simp; omega
      rw [List.getElem?_append_right (by omega)]
      simp [hlen]
    · rw [if_neg hj]
      by_cases hj2 : j < st.length
      · rw [List.append_assoc, List.getElem?_append_left hj2]
      · have e1 : st[j]? = none := List.getElem?_eq_none (by omega)
        rw [e1]
        by_cases hj3 : j < k
        · rw [List.getElem?_append_left (by simp; omega),
            List.getElem?_append_right (by omega)]
          rw [List.getElem?_replicate]
          simp
        · have : (st ++ List.replicate (k - st.length) none ++ [some v])[j]? = none :=
            List.getElem?_eq_none (by simp; omega)
          rw [this]

theorem Seg.seg_nil (st : List (Option Sexp)) (off : Nat) : Seg st off [] := by
  intro k v h; simp at h

theorem seg_append {st : List (Option Sexp)} {off : Nat} {l1 l2 : List Sexp} :
    Seg st off (l1 ++ l2) ↔ Seg st off l1 ∧ Seg st (off + l1.length) l2 := by
  constructor
  · intro h
    refine ⟨fun k v hk => h k v ?_, fun k v hk => ?_⟩
    · have hlt : k < l1.length := by
        by_contra hc
        rw [List.getElem?_eq_none (by omega)] at hk
        cases hk
      rw [List.getElem?_append_left hlt]; exact hk
    · have := h (l1.length + k) v (by
        rw [List.getElem?_append_right (by omega)]
        simpa using hk)
      rw [← Nat.add_assoc] at this
      exact this
  · rintro ⟨h1, h2⟩ k v hk
    by_cases hlt : k < l1.length
    · rw [List.getElem?_append_left hlt] at hk
      exact h1 k v hk
    · rw [List.getElem?_append_right (by omega)] at hk
      have := h2 (k - l1.length) v hk
      have e : off + l1.length + (k - l1.length) = off + k := by omega
      rw [e] at this
      exact this

theorem seg_cons {st : List (Option Sexp)} {off : Nat} {x : Sexp} {l : List Sexp} :
    Seg st off (x :: l) ↔ slot st off = some x ∧ Seg st (off + 1) l := by
  have := @seg_append st off [x] l
  simp only [List.singleton_append, List.length_singleton] at this
  rw [this]
  constructor
  · rintro ⟨h1, h2⟩
    exact ⟨h1 0 x rfl, h2⟩
  · rintro ⟨h1, h2⟩
    refine ⟨fun k v hk => ?_, h2⟩
    cases k with
    | zero => simp at hk; subst hk; exact h1
    | succ k => simp at hk

theorem Seg.seg_same {st st1 : List (Option Sexp)} {off : Nat} {l : List Sexp}
    (h : Seg st off l) (hs : ∀ j, off ≤ j → j < off + l.length → slot st1 j = slot st j) :
    Seg st1 off l := by
  intro k v hk
  have hlt : k < l.length := by
    by_contra hc
    rw [List.getElem?_eq_none (by omega)] at hk
    cases hk
  rw [hs (off + k) (by omega) (by omega)]
  exact h k v hk

theorem seg_of_stack (l : List Sexp) (g : List (Option Sexp)) : Seg (l.map some ++ g) 0 l := by
  intro k v hk
  have hlt : k < l.length := by
    by_contra hc
    rw [List.getElem?_eq_none (by omega)] at hk
    cases hk
  unfold slot
  rw [Nat.zero_add, List.getElem?_append_left (by simpa using hlt), List.getElem?_map, hk]
  rfl

theorem stack_of_seg {st : List (Option Sexp)} {l : List Sexp} (h : Seg st 0 l) :
    ∃ g, st = l.map some ++ g := by
  refine ⟨st.drop l.length, ?_⟩
  have hk : ∀ k, k < l.length → st[k]? = some (some l[k]!) := by
    intro k hlt
    have := h k l[k]! (by simp [List.getElem?_eq_getElem hlt, getElem!_pos, hlt])
    unfold slot at this
    rw [Nat.zero_add] at this
    split at this
    · next w hw => simp at this; rw [hw, this]
    · cases this
  have hlen : l.length ≤ st.length := by
    by_contra hc
    cases hl : l.length with
    | zero => omega
    | succ n =>
      have := hk n (by omega)
      rw [List.getElem?_eq_none (by omega)] at this
      cases this
  have htake : st.take l.length = l.map some := by
    apply List.ext_getElem?
    intro k
    by_cases hlt : k < l.length
    · rw [List.getElem?_take_of_lt hlt, hk k hlt, List.getElem?_map,
        List.getElem?_eq_getElem hlt]
      simp [getElem!_pos, hlt]
    · rw [List.getElem?_eq_none (by simp; omega), List.getElem?_eq_none (by simp; omega)]
  rw [← htake, List.take_append_drop]

theorem ok_bind {α β : Type} (x : α) (f : α → Except Err β) : (Except.ok x >>= f) = f x :=
  id rfl

theorem stack_get_some {st : List (Option Sexp)} {k : Nat} (hk : k < INIT_STACK_SIZE)
    (hs : (slot st k).isSome = true) : ∃ v, slot st k = some v ∧ stack_get st (k : Int) = .ok v := by
  cases h : slot st k with
  | none => rw [h] at hs; cases hs
  | some v => exact ⟨v, rfl, stack_get_slot h hk⟩

theorem gather_rest_spec (s : Nat) : ∀ (xs : List Sexp) (k : Nat) (st : List (Option Sexp))
    (acc : Sexp), slot st s = some acc → Seg st k xs → s < k →
    k + xs.length ≤ INIT_STACK_SIZE →
    ∃ st1, gather_rest (s : Int) xs.length (k : Int) st = .ok st1
      ∧ slot st1 s = some (xs.foldl (fun a x => sexp_cons x a) acc)
      ∧ ∀ j, j ≠ s → slot st1 j = slot st j := by
  intro xs
  induction xs with
  | nil =>
    intro k st acc hacc _ _ _
    exact ⟨st, rfl, hacc, fun _ _ => rfl⟩
  | cons x xs ih =>
    intro k st acc hacc hseg hlt hle
    rw [seg_cons] at hseg
    simp only [List.length_cons] at hle
    obtain ⟨st2, hset, hst2⟩ := stack_set_slot st (k := s) (sexp_cons x acc) (by omega)
    have hseg2 : Seg st2 (k + 1) xs :=
      hseg.2.seg_same (fun j hj _ => by rw [hst2 j, if_neg (by omega)])
    have hacc2 : slot st2 s = some (sexp_cons x acc) := by rw [hst2 s, if_pos rfl]
    obtain ⟨st1, hrun, hres, hother⟩ := ih (k + 1) st2 (sexp_cons x acc) hacc2 hseg2 (by omega)
      (by omega)
    refine ⟨st1, ?_, ?_, ?_⟩
    · have e : (k : Int) + 1 = ((k + 1 : Nat) : Int) := by push_cast; rfl
      rw [List.length_cons, gather_rest]
      simp only [stack_get_slot hseg.1 (by omega : k < INIT_STACK_SIZE),
        stack_get_slot hacc (by omega : s < INIT_STACK_SIZE), hset, ok_bind, e]
      exact hrun
    · simpa using hres
    · intro j hj
      rw [hother j hj, hst2 j, if_neg hj]

theorem copy_slots_spec (dst src : Nat) (hds : dst ≤ src) : ∀ (n k : Nat)
    (st : List (Option Sexp)), (∀ j, src + k ≤ j → j < src + k + n → (slot st j).isSome = true) →
    src + k + n ≤ INIT_STACK_SIZE →
    ∃ st1, copy_slots (dst : Int) (src : Int) n (k : Int) st = .ok st1
      ∧ ∀ j, slot st1 j
          = if dst + k ≤ j ∧ j < dst + k + n then slot st (j - dst + src) else slot st j := by
  intro n
  induction n with
  | zero =>
    intro k st _ _
    refine ⟨st, rfl, fun j => ?_⟩
    rw [if_neg (by omega)]
  | succ n ih =>
    intro k st hsome hle
    obtain ⟨x, hx, hget⟩ := @stack_get_some st (src + k) (by omega)
      (hsome _ (by omega) (by omega))
    obtain ⟨st2, hset, hst2⟩ := stack_set_slot st (k := dst + k) x (by omega)
    obtain ⟨st1, hrun, hres⟩ := ih (k + 1) st2 (fun j h1 h2 => by
      rw [hst2 j, if_neg (by omega)]
      exact hsome j (by omega) (by omega)) (by omega)
    refine ⟨st1, ?_, fun j => ?_⟩
    · have e1 : (src : Int) + (k : Int) = ((src + k : Nat) : Int) := by push_cast; rfl
      have e2 : (dst : Int) + (k : Int) = ((dst + k : Nat) : Int) := by push_cast; rfl
      have e3 : (k : Int) + 1 = ((k + 1 : Nat) : Int) := by push_cast; rfl
      rw [copy_slots]
      simp only [e1, e2, e3, hget, hset, ok_bind]
      exact hrun
    · rw [hres j]
      by_cases hj : j = dst + k
      · subst hj
        rw [if_neg (by omega), if_pos (by omega), hst2, if_pos rfl]
        have : dst + k - dst + src = src + k := by omega
        rw [this, hx]
      · by_cases hin : dst + (k + 1) ≤ j ∧ j < dst + (k + 1) + n
        · rw [if_pos hin, if_pos (by omega), hst2, if_neg (by omega)]
        · rw [if_neg hin, if_neg (by omega), hst2, if_neg hj]

theorem shift_up_spec : ∀ (n k : Nat) (st : List (Option Sexp)), n ≤ k → k < INIT_STACK_SIZE →
    (∀ j, k - n ≤ j → j < k → (slot st j).isSome = true) →
    ∃ st1, shift_up n (k : Int) st = .ok st1
      ∧ ∀ j, slot st1 j = if k - n < j ∧ j ≤ k then slot st (j - 1) else slot st j := by
  intro n
  induction n with
  | zero =>
    intro k st _ _ _
    refine ⟨st, rfl, fun j => ?_⟩
    rw [if_neg (by omega)]
  | succ n ih =>
    intro k st hnk hk hsome
    obtain ⟨x, hx, hget⟩ := @stack_get_some st (k - 1) (by omega)
      (hsome _ (by omega) (by omega))
    obtain ⟨st2, hset, hst2⟩ := stack_set_slot st (k := k) x hk
    obtain ⟨st1, hrun, hres⟩ := ih (k - 1) st2 (by omega) (by omega) (fun j h1 h2 => by
      rw [hst2 j, if_neg (by omega)]
      exact hsome j (by omega) (by omega))
    refine ⟨st1, ?_, fun j => ?_⟩
    · have e1 : (k : Int) - 1 = ((k - 1 : Nat) : Int) := by omega
      rw [shift_up]
      simp only [e1, hget, hset, ok_bind]
      exact hrun
    · rw [hres j]
      by_cases hj : j = k
      · subst hj
        rw [if_neg (by omega), if_pos (by omega), hst2, if_pos rfl, hx]
      · by_cases hin : k - 1 - n < j ∧ j ≤ k - 1
        · rw [if_pos hin, if_pos (by omega), hst2, if_neg (by omega)]
        · rw [if_neg hin, if_neg (by omega), hst2, if_neg hj]

theorem Seg.seg_shift {st st1 : List (Option Sexp)} {off off1 : Nat} {l : List Sexp}
    (h : Seg st off l) (hs : ∀ k, k < l.length → slot st1 (off1 + k) = slot st (off + k)) :
    Seg st1 off1 l := by
  intro k v hk
  have hlt : k < l.length := by
    by_contra hc
    rw [List.getElem?_eq_none (by omega)] at hk
    cases hk
  rw [hs k hlt]
  exact h k v hk

/-- The three writes that end `make_call`: the argument count over the procedure
slot, then the saved `ip` and the saved `cp`. -/
theorem push_frame (st : List (Option Sexp)) (T : Nat) (c r cp : Sexp) (hT : 1 ≤ T)
    (hroom : T + 2 ≤ INIT_STACK_SIZE) :
    ∃ s1 s2 s3, stack_set st ((T : Int) - 1) c = .ok s1 ∧ stack_set s1 (T : Int) r = .ok s2
      ∧ stack_set s2 ((T : Int) + 1) cp = .ok s3
      ∧ ∀ j, slot s3 j = if j = T - 1 then some c else if j = T then some r
          else if j = T + 1 then some cp else slot st j := by
  obtain ⟨s1, h1, p1⟩ := stack_set_slot st (k := T - 1) c (by omega)
  obtain ⟨s2, h2, p2⟩ := stack_set_slot s1 (k := T) r (by omega)
  obtain ⟨s3, h3, p3⟩ := stack_set_slot s2 (k := T + 1) cp (by omega)
  have e1 : (T : Int) - 1 = ((T - 1 : Nat) : Int) := by omega
  have e2 : (T : Int) + 1 = ((T + 1 : Nat) : Int) := by push_cast; rfl
  refine ⟨s1, s2, s3, by rw [e1, h1], h2, by rw [e2, h3], fun j => ?_⟩
  rw [p3 j, p2 j, p1 j]
  by_cases a : j = T + 1
  · rw [if_pos a, if_neg (by omega), if_neg (by omega), if_pos a]
  · rw [if_neg a]
    by_cases b : j = T
    · rw [if_pos b, if_neg (by omega), if_pos b]
    · rw [if_neg b]
      by_cases c : j = T - 1
      · rw [if_pos c, if_pos c]
      · rw [if_neg c, if_neg c, if_neg b, if_neg a]

theorem make_call_fixed (rt : Runtime) (h : Heap) (st : List (Option Sexp)) (T bc : Nat)
    (ip : Int) (cp : Sexp) (f : Int) (d a : Nat) (vars : Sexp)
    (hf : (f % 2 == 1) = false) (hT : 1 ≤ T) (hroom : T + 2 ≤ INIT_STACK_SIZE)
    (hip : 0 ≤ ip + 8) :
    ∃ st1, make_call rt { heap := h, stack := st, top := (T : Int), bc := bc, ip := ip, cp := cp }
          (.procedure (.fixnum f) (.fixnum d) (.bytecode a) vars) (d : Int)
        = .ok (.next { heap := h, stack := st1, top := ((T + 2 : Nat) : Int), bc := a, ip := 0,
                       cp := vars })
      ∧ ∀ j, slot st1 j = if j = T - 1 then some (.fixnum d)
          else if j = T then some (.codeptr bc (ip + 8).toNat)
          else if j = T + 1 then some cp else slot st j := by
  obtain ⟨s1, s2, st1, h1, h2, h3, hslots⟩ :=
    push_frame st T (.fixnum d) (.codeptr bc (ip + 8).toNat) cp hT hroom
  refine ⟨st1, ?_, hslots⟩
  have hj1 : ¬ ((d : Int) - (d : Int) < 0) := by omega
  have hj2 : ¬ ((d : Int) - (d : Int) > 0) := by omega
  unfold make_call
  simp only [sexp_opcodep, sexp_procedurep, sexp_procedure_num_args, sexp_unbox_integer,
    sexp_procedure_variadic_p, sexp_procedure_code, sexp_procedure_vars, sexp_bytecode_data,
    sexp_make_integer, make_codeptr, sizeof_sexp, hf, hj1, hj2, pure, Except.pure, ok_bind,
    Bool.not_true, Bool.false_eq_true, if_false, if_true, false_and, hip, Nat.cast_ofNat,
    h1, h2, h3, Nat.cast_add]

theorem sexp_raise_ok (rt : Runtime) (h : Heap) (st : List (Option Sexp)) (T bc : Nat) (ip : Int)
    (cp : Sexp) (msg : String) (args : Sexp) (hf hn hv : Sexp) (ha : Nat)
    (hh : rt.exception_handler = .procedure hf hn (.bytecode ha) hv)
    (hroom : T + 4 ≤ INIT_STACK_SIZE) (hip : 0 ≤ ip + 4) :
    ∃ st1, sexp_raise rt { heap := h, stack := st, top := (T : Int), bc := bc, ip := ip, cp := cp }
          msg args
        = .ok (.next { heap := h, stack := st1, top := ((T + 4 : Nat) : Int), bc := ha, ip := 0,
                       cp := hv })
      ∧ slot st1 T = some (sexp_compile_error msg args)
      ∧ ∀ j, j < T → slot st1 j = slot st j := by
  obtain ⟨s0, h0, p0⟩ := stack_set_slot st (k := T) (sexp_compile_error msg args) (by omega)
  obtain ⟨s1, h1, p1⟩ := stack_set_slot s0 (k := T + 1) (.raw 1) (by omega)
  obtain ⟨s2, h2, p2⟩ := stack_set_slot s1 (k := T + 2) (.codeptr bc (ip + 4).toNat) (by omega)
  obtain ⟨s3, h3, p3⟩ := stack_set_slot s2 (k := T + 3) cp (by omega)
  refine ⟨s3, ?_, ?_, fun j hj => ?_⟩
  · have e1 : (T : Int) + 1 = ((T + 1 : Nat) : Int) := by push_cast; rfl
    have e2 : ((T + 1 : Nat) : Int) + 1 = ((T + 2 : Nat) : Int) := by push_cast; omega
    have e3 : ((T + 1 : Nat) : Int) + 2 = ((T + 3 : Nat) : Int) := by push_cast; omega
    have e4 : ((T + 1 : Nat) : Int) + 3 = ((T + 4 : Nat) : Int) := by push_cast; omega
    unfold sexp_raise
    simp only [h0, ok_bind, e1]
    unfold call_error_handler
    simp only [hh, h1, ok_bind, make_codeptr, hip, if_true, pure, Except.pure, e2, e3, e4, h2, h3,
      sexp_procedure_code, sexp_bytecode_data, sexp_procedure_vars]
  · rw [p3, if_neg (by omega), p2, if_neg (by omega), p1, if_neg (by omega), p0, if_pos rfl]
  · rw [p3, if_neg (by omega), p2, if_neg (by omega), p1, if_neg (by omega), p0,
      if_neg (by omega)]

theorem make_call_few (rt : Runtime) (m : VM) (f : Int) (n d : Nat) (bcode vars : Sexp)
    (hnd : n < d) :
    make_call rt m (.procedure (.fixnum f) (.fixnum d) bcode vars) (n : Int)
      = sexp_raise rt m "not enough args"
          (sexp_list2 (.procedure (.fixnum f) (.fixnum d) bcode vars) (.fixnum n)) := by
  have hj1 : ((n : Int) - (d : Int) < 0) := by omega
  unfold make_call
  simp only [sexp_opcodep, sexp_procedurep, sexp_procedure_num_args, sexp_unbox_integer,
    sexp_procedure_variadic_p, sexp_make_integer, hj1, pure, Except.pure, ok_bind,
    Bool.not_true, Bool.false_eq_true, if_false, if_true]

theorem make_call_many (rt : Runtime) (m : VM) (f : Int) (n d : Nat) (bcode vars : Sexp)
    (hnd : d < n) (hf : (f % 2 == 1) = false) :
    make_call rt m (.procedure (.fixnum f) (.fixnum d) bcode vars) (n : Int)
      = sexp_raise rt m "too many args"
          (sexp_list2 (.procedure (.fixnum f) (.fixnum d) bcode vars) (.fixnum n)) := by
  have hj1 : ¬ ((n : Int) - (d : Int) < 0) := by omega
  have hj2 : ((n : Int) - (d : Int) > 0) := by omega
  unfold make_call
  simp only [sexp_opcodep, sexp_procedurep, sexp_procedure_num_args, sexp_unbox_integer,
    sexp_procedure_variadic_p, sexp_make_integer, hj1, hj2, hf, pure, Except.pure, ok_bind,
    Bool.not_true, Bool.not_false, Bool.false_eq_true, if_false, if_true, true_and, and_self]

theorem vm_step_call (rt : Runtime) (h : Heap) (st : List (Option Sexp)) (T b p : Nat)
    (c proc : Sexp) (n : Int) (hop : read_byte h b (p : Int) = .ok .OP_CALL)
    (hw : read_word h b ((p : Int) + 1) 0 = .ok (.fixnum n))
    (hT : 1 ≤ T) (hroom : T < INIT_STACK_SIZE) (hproc : slot st (T - 1) = some proc) :
    vm_step rt { heap := h, stack := st, top := (T : Int), bc := b, ip := (p : Int), cp := c }
      = make_call rt { heap := h, stack := st, top := (T : Int), bc := b, ip := (p : Int) + 1,
                       cp := c } proc n := by
  have hge : ¬ ((T : Int) ≥ (INIT_STACK_SIZE : Nat)) := by omega
  have e1 : (T : Int) - 1 = ((T - 1 : Nat) : Int) := by omega
  have hget := stack_get_slot hproc (by omega : T - 1 < INIT_STACK_SIZE)
  unfold vm_step
  simp only [hop, ok_bind, hw, hge, if_false, VM.arg, e1, hget, sexp_unbox_integer, pure,
    Except.pure]

theorem sexp_list_foldr (l : List Sexp) : sexp_list l = l.foldr Sexp.pair .null := by
  induction l with
  | nil => rfl
  | cons a l ih => simp [sexp_list, ih]

theorem foldl_cons_reverse (x : Sexp) (ys : List Sexp) :
    ys.foldl (fun a y => sexp_cons y a) (sexp_cons x .null) = sexp_list ((x :: ys).reverse) := by
  rw [sexp_list_foldr, List.reverse_cons, List.foldr_append, ← List.foldl_reverse]
  simp [sexp_cons, List.foldl_reverse]

theorem make_call_rest (rt : Runtime) (h : Heap) (st : List (Option Sexp)) (T b bc : Nat)
    (ip : Int) (cp : Sexp) (f : Int) (a : Nat) (vars x : Sexp) (ys fixed : List Sexp)
    (hf : (f % 2 == 1) = true)
    (hT : T = b + (ys.length + 1) + fixed.length + 1) (hroom : T + 2 ≤ INIT_STACK_SIZE)
    (hip : 0 ≤ ip + 8)
    (hseg : Seg st b ((x :: ys) ++ fixed.reverse
      ++ [.procedure (.fixnum f) (.fixnum fixed.length) (.bytecode a) vars])) :
    ∃ st1, make_call rt { heap := h, stack := st, top := (T : Int), bc := bc, ip := ip, cp := cp }
          (.procedure (.fixnum f) (.fixnum fixed.length) (.bytecode a) vars)
          ((ys.length + 1 + fixed.length : Nat) : Int)
        = .ok (.next { heap := h, stack := st1, top := ((b + fixed.length + 4 : Nat) : Int),
                       bc := a, ip := 0, cp := vars })
      ∧ Seg st1 b ([sexp_list ((x :: ys).reverse)] ++ fixed.reverse
          ++ [.fixnum (fixed.length + 1), .codeptr bc (ip + 8).toNat, cp])
      ∧ ∀ j, j < b → slot st1 j = slot st j := by
  have hseg0 := hseg
  rw [seg_append, seg_append, seg_cons] at hseg
  obtain ⟨⟨⟨hx, hys⟩, hfix⟩, hproc⟩ := hseg
  -- the rest slot
  obtain ⟨sa, hsa, pa⟩ := stack_set_slot st (k := b) (sexp_cons x .null) (by omega)
  have hys_a : Seg sa (b + 1) ys := hys.seg_same (fun j hj _ => by rw [pa, if_neg (by omega)])
  obtain ⟨sb, hsb, hrest, pb⟩ := gather_rest_spec b ys (b + 1) sa (sexp_cons x .null)
    (by rw [pa, if_pos rfl]) hys_a (by omega) (by omega)
  have hsome : ∀ j, b + (ys.length + 1) + 0 ≤ j → j < b + (ys.length + 1) + 0 + (fixed.length + 1) →
      (slot sb j).isSome = true := by
    intro j h1 h2
    rw [pb j (by omega), pa, if_neg (by omega)]
    by_cases hj : j < b + (ys.length + 1) + fixed.length
    · have hlt : j - (b + (ys.length + 1)) < fixed.reverse.length := by simp; omega
      have := hfix (j - (b + (ys.length + 1))) _ (List.getElem?_eq_getElem hlt)
      have e : b + (x :: ys).length + (j - (b + (ys.length + 1))) = j := by simp; omega
      rw [e] at this
      rw [this]; rfl
    · have := hproc 0 _ rfl
      have e : b + (x :: ys ++ fixed.reverse).length + 0 = j := by simp; omega
      rw [e] at this
      rw [this]; rfl
  obtain ⟨sc, hsc, pc⟩ := copy_slots_spec (b + 1) (b + (ys.length + 1)) (by omega)
    (fixed.length + 1) 0 sb hsome (by omega)
  obtain ⟨s1, s2, st1, h1, h2, h3, pf⟩ := push_frame sc (b + fixed.length + 2)
    (.fixnum ((fixed.length + 1 : Nat) : Int)) (.codeptr bc (ip + 8).toNat) cp (by omega) (by omega)
  refine ⟨st1, ?_, ?_, ?_⟩
  · have hj1 : ¬ (((ys.length + 1 + fixed.length : Nat) : Int) - (fixed.length : Int) < 0) := by
      omega
    have hj2 : (((ys.length + 1 + fixed.length : Nat) : Int) - (fixed.length : Int) > 0) := by
      omega
    unfold make_call
    simp only [sexp_opcodep, sexp_procedurep, sexp_procedure_num_args, sexp_unbox_integer,
      sexp_procedure_variadic_p, sexp_procedure_code, sexp_procedure_vars, sexp_bytecode_data,
      sexp_make_integer, make_codeptr, sizeof_sexp, hf, hj1, hj2, pure, Except.pure, ok_bind,
      Bool.not_true, Bool.false_eq_true, if_false, if_true, and_false, hip, Nat.cast_ofNat]
    have q2 : ((T : Int) - (((ys.length + 1 + fixed.length : Nat) : Int)
        - (((ys.length + 1 + fixed.length : Nat) : Int) - (fixed.length : Int))) - 1
        - ((T : Int) - ((ys.length + 1 + fixed.length : Nat) : Int))).toNat = ys.length := by
      omega
    rw [q2]
    have q4 : (T : Int) - ((ys.length + 1 + fixed.length : Nat) : Int) + (ys.length : Int)
        - (((ys.length + 1 + fixed.length : Nat) : Int) - (fixed.length : Int)) + 1
        = ((b + 1 : Nat) : Int) := by omega
    rw [q4]
    have q5 : (T : Int) - ((ys.length + 1 + fixed.length : Nat) : Int) + (ys.length : Int)
        = ((b + (ys.length + 1) : Nat) : Int) := by omega
    rw [q5]
    have q6 : ((T : Int) - ((b + (ys.length + 1) : Nat) : Int)).toNat = fixed.length + 1 := by
      omega
    rw [q6]
    have q1 : (T : Int) - ((ys.length + 1 + fixed.length : Nat) : Int) - 1 = (b : Int) := by omega
    rw [q1]
    have q3 : (T : Int) - ((ys.length + 1 + fixed.length : Nat) : Int) = ((b + 1 : Nat) : Int) := by
      omega
    rw [q3]
    have qF : (T : Int) - (((ys.length + 1 + fixed.length : Nat) : Int) - (fixed.length : Int) - 1)
        = ((b + fixed.length + 2 : Nat) : Int) := by omega
    rw [qF]
    have qI : ((ys.length + 1 + fixed.length : Nat) : Int)
        - (((ys.length + 1 + fixed.length : Nat) : Int) - (fixed.length : Int) - 1)
        = ((fixed.length + 1 : Nat) : Int) := by omega
    rw [qI]
    have qT : ((b + fixed.length + 2 : Nat) : Int) + 2 = ((b + fixed.length + 4 : Nat) : Int) := by
      omega
    rw [qT]
    simp only [Nat.cast_zero] at hsc
    simp only [stack_get_slot hx (by omega : b < INIT_STACK_SIZE), hsa, hsb, hsc, h1, h2, h3,
      ok_bind]
  · rw [seg_append, seg_append]
    refine ⟨⟨?_, ?_⟩, ?_⟩
    · intro k v hk
      cases k with
      | succ k => simp at hk
      | zero =>
        simp only [List.getElem?_cons_zero, Option.some.injEq] at hk
        subst hk
        rw [Nat.add_zero, pf, if_neg (by omega), if_neg (by omega), if_neg (by omega), pc,
          if_neg (by omega), hrest, foldl_cons_reverse]
    · refine hfix.seg_shift (fun k hk => ?_)
      simp only [List.length_reverse] at hk
      simp only [List.length_singleton, List.length_cons, List.length_nil]
      rw [pf, if_neg (by omega), if_neg (by omega), if_neg (by omega), pc, if_pos (by omega),
        pb _ (by omega), pa, if_neg (by omega)]
      have e : b + 1 + k - (b + 1) + (b + (ys.length + 1)) = b + (ys.length + 1) + k := by omega
      rw [e]
    · simp only [List.length_append, List.length_singleton, List.length_reverse]
      rw [seg_cons, seg_cons, seg_cons]
      refine ⟨?_, ?_, ?_, Seg.seg_nil _ _⟩
      · rw [pf, if_pos (by omega)]
        simp only [Nat.cast_add, Nat.cast_one]
      · rw [pf, if_neg (by omega), if_pos (by omega)]
      · rw [pf, if_neg (by omega), if_neg (by omega), if_pos (by omega)]
  · intro j hj
    rw [pf, if_neg (by omega), if_neg (by omega), if_neg (by omega), pc, if_neg (by omega),
      pb _ (by omega), pa, if_neg (by omega)]

theorem make_call_empty_rest (rt : Runtime) (h : Heap) (st : List (Option Sexp)) (T b bc : Nat)
    (ip : Int) (cp : Sexp) (f : Int) (a : Nat) (vars : Sexp) (fixed : List Sexp)
    (hf : (f % 2 == 1) = true)
    (hT : T = b + fixed.length + 1) (hroom : T + 3 ≤ INIT_STACK_SIZE)
    (hip : 0 ≤ ip + 8)
    (hseg : Seg st b (fixed.reverse
      ++ [.procedure (.fixnum f) (.fixnum fixed.length) (.bytecode a) vars])) :
    ∃ st1, make_call rt { heap := h, stack := st, top := (T : Int), bc := bc, ip := ip, cp := cp }
          (.procedure (.fixnum f) (.fixnum fixed.length) (.bytecode a) vars)
          ((fixed.length : Nat) : Int)
        = .ok (.next { heap := h, stack := st1, top := ((b + fixed.length + 4 : Nat) : Int),
                       bc := a, ip := 0, cp := vars })
      ∧ Seg st1 b ([sexp_list []] ++ fixed.reverse
          ++ [.fixnum (fixed.length + 1), .codeptr bc (ip + 8).toNat, cp])
      ∧ ∀ j, j < b → slot st1 j = slot st j := by
  have hsome : ∀ j, T - (fixed.length + 1) ≤ j → j < T → (slot st j).isSome = true := by
    intro j h1 h2
    have hlt : j - b < (fixed.reverse
      ++ [Sexp.procedure (.fixnum f) (.fixnum fixed.length) (.bytecode a) vars]).length := by
      simp; omega
    have := hseg (j - b) _ (List.getElem?_eq_getElem hlt)
    have e : b + (j - b) = j := by omega
    rw [e] at this
    rw [this]; rfl
  obtain ⟨sa, hsa, pa⟩ := shift_up_spec (fixed.length + 1) T st (by omega) (by omega) hsome
  obtain ⟨sb, hsb, pb⟩ := stack_set_slot sa (k := b) Sexp.null (by omega)
  obtain ⟨s1, s2, st1, h1, h2, h3, pf⟩ := push_frame sb (T + 1)
    (.fixnum ((fixed.length + 1 : Nat) : Int)) (.codeptr bc (ip + 8).toNat) cp (by omega) (by omega)
  refine ⟨st1, ?_, ?_, ?_⟩
  · have hj1 : ¬ ((fixed.length : Int) - (fixed.length : Int) < 0) := by omega
    have hj2 : ¬ ((fixed.length : Int) - (fixed.length : Int) > 0) := by omega
    unfold make_call
    simp only [sexp_opcodep, sexp_procedurep, sexp_procedure_num_args, sexp_unbox_integer,
      sexp_procedure_variadic_p, sexp_procedure_code, sexp_procedure_vars, sexp_bytecode_data,
      sexp_make_integer, make_codeptr, sizeof_sexp, hf, hj1, hj2, pure, Except.pure, ok_bind,
      Bool.not_true, Bool.false_eq_true, if_false, if_true, and_false, false_and, hip,
      Nat.cast_ofNat]
    have q1 : ((fixed.length : Int) + 1).toNat = fixed.length + 1 := by omega
    have q2 : (T : Int) - (fixed.length : Int) - 1 = (b : Int) := by omega
    have q3 : (T : Int) + 1 + 1 = ((T + 1 : Nat) : Int) + 1 := by omega
    have q4 : (T : Int) + 1 - 1 = ((T + 1 : Nat) : Int) - 1 := by omega
    have q5 : (T : Int) + 1 + 2 = ((b + fixed.length + 4 : Nat) : Int) := by omega
    have q6 : (T : Int) + 1 = ((T + 1 : Nat) : Int) := by omega
    have q7 : (fixed.length : Int) + 1 = ((fixed.length + 1 : Nat) : Int) := by omega
    rw [q1, q2, q3, q4, q5, q6, q7]
    simp only [hsa, hsb, h1, h2, h3, ok_bind]
  · rw [seg_append, seg_append]
    refine ⟨⟨?_, ?_⟩, ?_⟩
    · intro k v hk
      cases k with
      | succ k => simp at hk
      | zero =>
        simp only [List.getElem?_cons_zero, Option.some.injEq] at hk
        subst hk
        rw [Nat.add_zero, pf, if_neg (by omega), if_neg (by omega), if_neg (by omega), pb,
          if_pos rfl]
        rfl
    · rw [seg_append] at hseg
      refine hseg.1.seg_shift (fun k hk => ?_)
      simp only [List.length_reverse] at hk
      simp only [List.length_singleton, List.length_cons, List.length_nil]
      rw [pf, if_neg (by omega), if_neg (by omega), if_neg (by omega), pb, if_neg (by omega),
        pa, if_pos (by omega)]
      have e : b + 1 + k - 1 = b + k := by omega
      rw [e]
    · simp only [List.length_append, List.length_singleton, List.length_reverse]
      rw [seg_cons, seg_cons, seg_cons]
      refine ⟨?_, ?_, ?_, Seg.seg_nil _ _⟩
      · rw [pf, if_pos (by omega)]
        simp only [Nat.cast_add, Nat.cast_one]
      · rw [pf, if_neg (by omega), if_pos (by omega)]
      · rw [pf, if_neg (by omega), if_neg (by omega), if_pos (by omega)]
  · intro j hj
    rw [pf, if_neg (by omega), if_neg (by omega), if_neg (by omega), pb, if_neg (by omega),
      pa, if_neg (by omega)]

theorem make_call_variadic (rt : Runtime) (h : Heap) (st : List (Option Sexp)) (T b bc : Nat)
    (ip : Int) (cp : Sexp) (f : Int) (a : Nat) (vars : Sexp) (extra fixed : List Sexp)
    (hf : (f % 2 == 1) = true)
    (hT : T = b + extra.length + fixed.length + 1) (hroom : T + 3 ≤ INIT_STACK_SIZE)
    (hip : 0 ≤ ip + 8)
    (hseg : Seg st b (extra.reverse ++ fixed.reverse
      ++ [.procedure (.fixnum f) (.fixnum fixed.length) (.bytecode a) vars])) :
    ∃ st1, make_call rt { heap := h, stack := st, top := (T : Int), bc := bc, ip := ip, cp := cp }
          (.procedure (.fixnum f) (.fixnum fixed.length) (.bytecode a) vars)
          ((extra.length + fixed.length : Nat) : Int)
        = .ok (.next { heap := h, stack := st1, top := ((b + fixed.length + 4 : Nat) : Int),
                       bc := a, ip := 0, cp := vars })
      ∧ Seg st1 b ([sexp_list extra] ++ fixed.reverse
          ++ [.fixnum (fixed.length + 1), .codeptr bc (ip + 8).toNat, cp])
      ∧ ∀ j, j < b → slot st1 j = slot st j := by
  cases hr : extra.reverse with
  | nil =>
    have he : extra = [] := by simpa using hr
    subst he
    simp only [List.reverse_nil, List.nil_append, List.length_nil, Nat.add_zero, Nat.zero_add]
      at hseg hT ⊢
    exact make_call_empty_rest rt h st T b bc ip cp f a vars fixed hf hT hroom hip hseg
  | cons x ys =>
    have he : extra = (x :: ys).reverse := by rw [← hr, List.reverse_reverse]
    have hl : extra.length = ys.length + 1 := by rw [he]; simp
    rw [hr] at hseg
    rw [hl] at hT ⊢
    rw [he]
    exact make_call_rest rt h st T b bc ip cp f a vars x ys fixed hf hT (by omega) hip hseg

theorem slot_last (l : List Sexp) (x : Sexp) (g : List (Option Sexp)) :
    slot ((l ++ [x]).map some ++ g) ((l ++ [x]).length - 1) = some x := by
  have := seg_of_stack (l ++ [x]) g ((l ++ [x]).length - 1) x (by simp)
  rw [Nat.zero_add] at this
  exact this

theorem seg_last {st : List (Option Sexp)} {l : List Sexp} {x : Sexp}
    (h : Seg st 0 (l ++ [x])) : slot st l.length = some x := by
  have := h l.length x (by simp)
  rw [Nat.zero_add] at this
  exact this

theorem call_variadic_step (rt : Runtime) (h : Heap) (B fixed extra : List Sexp)
    (st : List (Option Sexp)) (b p : Nat) (c : Sexp) (f : Int) (a : Nat) (vars : Sexp)
    (hf : (f % 2 == 1) = true)
    (hop : read_byte h b (p : Int) = .ok .OP_CALL)
    (hw : read_word h b ((p : Int) + 1) 0
      = .ok (.fixnum ((extra.length + fixed.length : Nat) : Int)))
    (hroom : B.length + extra.length + fixed.length + 4 ≤ INIT_STACK_SIZE)
    (hseg0 : Seg st 0 (B ++ extra.reverse ++ fixed.reverse
      ++ [Sexp.procedure (.fixnum f) (.fixnum fixed.length) (.bytecode a) vars])) :
    ∃ st1, vm_step rt
        { heap := h, stack := st,
          top := ((B.length + extra.length + fixed.length + 1 : Nat) : Int),
          bc := b, ip := (p : Int), cp := c }
      = .ok (.next
        { heap := h, stack := st1, top := ((B.length + fixed.length + 4 : Nat) : Int),
          bc := a, ip := 0, cp := vars })
      ∧ Seg st1 0 (B ++ [sexp_list extra] ++ fixed.reverse
            ++ [Sexp.fixnum (fixed.length + 1), .codeptr b (p + 9), c]) := by
  have hlast := seg_last hseg0
  have hlen : (B ++ extra.reverse ++ fixed.reverse).length
      = B.length + extra.length + fixed.length + 1 - 1 := by simp; omega
  rw [hlen] at hlast
  rw [vm_step_call rt h _ _ b p c _ _ hop hw (by omega) (by omega) hlast]
  rw [List.append_assoc, List.append_assoc, seg_append, Nat.zero_add] at hseg0
  obtain ⟨hB, hrest⟩ := hseg0
  rw [← List.append_assoc] at hrest
  obtain ⟨st1, hcall, hseg1, hlow⟩ := make_call_variadic rt h _ _ B.length b ((p : Int) + 1) c f a
    vars extra fixed hf rfl (by omega) (by omega) hrest
  have e9 : ((p : Int) + 1 + 8).toNat = p + 9 := by omega
  rw [e9] at hseg1
  refine ⟨st1, hcall, ?_⟩
  rw [List.append_assoc, List.append_assoc, seg_append, Nat.zero_add]
  refine ⟨hB.seg_same (fun j _ hj => ?_), ?_⟩
  · rw [Nat.zero_add] at hj
    exact hlow j hj
  · rw [← List.append_assoc]
    exact hseg1

/-- C17: `CALL n` of a variadic procedure with `d` declared arguments, `n ≥ d`,
the arguments `fixed ++ extra` having been pushed right to left: the callee is
entered with the `d` fixed arguments in place, the list of the surplus
arguments in source order (the empty list when there are none) in the lowest
slot of the frame, and the argument count `d + 1`. -/
theorem C17_variadic_call_gathers_rest (rt : Runtime) (h : Heap) (B fixed extra : List Sexp)
    (G : List (Option Sexp)) (b p : Nat) (c : Sexp) (f : Int) (a : Nat) (vars : Sexp)
    (hf : (f % 2 == 1) = true)
    (hop : read_byte h b (p : Int) = .ok .OP_CALL)
    (hw : read_word h b ((p : Int) + 1) 0
      = .ok (.fixnum ((extra.length + fixed.length : Nat) : Int)))
    (hroom : B.length + extra.length + fixed.length + 4 ≤ INIT_STACK_SIZE) :
    ∃ G1, vm_step rt (vm_state h (B ++ extra.reverse ++ fixed.reverse
          ++ [Sexp.procedure (.fixnum f) (.fixnum fixed.length) (.bytecode a) vars]) G b p c)
      = .ok (.next (vm_state h (B ++ [sexp_list extra] ++ fixed.reverse
          ++ [Sexp.fixnum (fixed.length + 1), .codeptr b (p + 9), c]) G1 a 0 vars)) := by
  obtain ⟨st1, hstep, hseg⟩ := call_variadic_step rt h B fixed extra _ b p c f a vars hf hop hw
    hroom (seg_of_stack _ G)
  obtain ⟨G1, hG1⟩ := stack_of_seg hseg
  refine ⟨G1, ?_⟩
  have e1 : ((B ++ extra.reverse ++ fixed.reverse
      ++ [Sexp.procedure (.fixnum f) (.fixnum fixed.length) (.bytecode a) vars]).length : Int)
      = ((B.length + extra.length + fixed.length + 1 : Nat) : Int) := by
    simp only [List.length_append, List.length_reverse, List.length_singleton]
  have e2 : ((B ++ [sexp_list extra] ++ fixed.reverse
      ++ [Sexp.fixnum (fixed.length + 1), .codeptr b (p + 9), c]).length : Int)
      = ((B.length + fixed.length + 4 : Nat) : Int) := by
    simp only [List.length_append, List.length_reverse, List.length_singleton, List.length_cons,
      List.length_nil]
    omega
  unfold vm_state
  rw [e1, e2, hstep, hG1]
  rfl

theorem C17_variadic_call_gathers_rest_witness :
    ∃ G1, vm_step default (vm_state
          (code_heap ([.byte .OP_CALL] ++ word_slots (.fixnum 3)))
          [.fixnum 30, .fixnum 20, .fixnum 10,
            .procedure (.fixnum 1) (.fixnum 1) (.bytecode 0) .null] [] 0 0 .undef)
      = .ok (.next (vm_state (code_heap ([.byte .OP_CALL] ++ word_slots (.fixnum 3)))
          [sexp_list [.fixnum 20, .fixnum 30], .fixnum 10, .fixnum 2, .codeptr 0 9, .undef]
          G1 0 0 .null)) :=
  C17_variadic_call_gathers_rest default (code_heap ([.byte .OP_CALL] ++ word_slots (.fixnum 3)))
    [] [.fixnum 10] [.fixnum 20, .fixnum 30] [] 0 0 .undef 1 0 .null (by rfl) (by rfl) (by rfl)
    (by decide)

theorem call_fixed_step (rt : Runtime) (h : Heap) (B args : List Sexp)
    (st : List (Option Sexp)) (b p : Nat) (c : Sexp) (f : Int) (a : Nat) (vars : Sexp)
    (hf : (f % 2 == 1) = false)
    (hop : read_byte h b (p : Int) = .ok .OP_CALL)
    (hw : read_word h b ((p : Int) + 1) 0 = .ok (.fixnum ((args.length : Nat) : Int)))
    (hroom : B.length + args.length + 3 ≤ INIT_STACK_SIZE)
    (hseg0 : Seg st 0 (B ++ args
      ++ [Sexp.procedure (.fixnum f) (.fixnum args.length) (.bytecode a) vars])) :
    ∃ st1, vm_step rt
        { heap := h, stack := st, top := ((B.length + args.length + 1 : Nat) : Int),
          bc := b, ip := (p : Int), cp := c }
      = .ok (.next
        { heap := h, stack := st1, top := ((B.length + args.length + 3 : Nat) : Int),
          bc := a, ip := 0, cp := vars })
      ∧ Seg st1 0 (B ++ args ++ [Sexp.fixnum args.length, .codeptr b (p + 9), c]) := by
  have hlast := seg_last hseg0
  have hlen : (B ++ args).length = B.length + args.length + 1 - 1 := by simp
  rw [hlen] at hlast
  rw [vm_step_call rt h _ _ b p c _ _ hop hw (by omega) (by omega) hlast]
  obtain ⟨st1, hcall, hslots⟩ := make_call_fixed rt h st (B.length + args.length + 1) b
    ((p : Int) + 1) c f args.length a vars hf (by omega) (by omega) (by omega)
  have e9 : ((p : Int) + 1 + 8).toNat = p + 9 := by omega
  rw [e9] at hslots
  refine ⟨st1, hcall, ?_⟩
  rw [seg_append] at hseg0 ⊢
  refine ⟨hseg0.1.seg_same (fun j _ hj => ?_), ?_⟩
  · simp only [List.length_append, Nat.zero_add] at hj
    rw [hslots, if_neg (by omega), if_neg (by omega), if_neg (by omega)]
  · simp only [List.length_append, Nat.zero_add]
    rw [seg_cons, seg_cons, seg_cons]
    refine ⟨?_, ?_, ?_, Seg.seg_nil _ _⟩
    · rw [hslots, if_pos (by omega)]
    · rw [hslots, if_neg (by omega), if_pos (by omega)]
    · rw [hslots, if_neg (by omega), if_neg (by omega), if_pos (by omega)]

theorem call_variadic_args (rt : Runtime) (h : Heap) (B args : List Sexp)
    (st : List (Option Sexp)) (b p : Nat) (c : Sexp) (f : Int) (d a : Nat) (vars : Sexp)
    (hf : (f % 2 == 1) = true)
    (hop : read_byte h b (p : Int) = .ok .OP_CALL)
    (hw : read_word h b ((p : Int) + 1) 0 = .ok (.fixnum ((args.length : Nat) : Int)))
    (hle : d ≤ args.length)
    (hroom : B.length + args.length + 4 ≤ INIT_STACK_SIZE)
    (hseg0 : Seg st 0 (B ++ args
      ++ [Sexp.procedure (.fixnum f) (.fixnum d) (.bytecode a) vars])) :
    ∃ st1, vm_step rt
        { heap := h, stack := st, top := ((B.length + args.length + 1 : Nat) : Int),
          bc := b, ip := (p : Int), cp := c }
      = .ok (.next
        { heap := h, stack := st1, top := ((B.length + d + 4 : Nat) : Int),
          bc := a, ip := 0, cp := vars })
      ∧ Seg st1 0 (B ++ [sexp_list (args.take (args.length - d)).reverse]
          ++ args.drop (args.length - d)
          ++ [Sexp.fixnum (d + 1), .codeptr b (p + 9), c]) := by
  obtain ⟨extra, fixed, hargs, hfl, hE, hF⟩ : ∃ extra fixed : List Sexp,
      args = extra.reverse ++ fixed.reverse ∧ fixed.length = d
      ∧ (args.take (args.length - d)).reverse = extra
      ∧ args.drop (args.length - d) = fixed.reverse :=
    ⟨(args.take (args.length - d)).reverse, (args.drop (args.length - d)).reverse,
      by simp, by simp; omega, rfl, by simp⟩
  rw [hE, hF]
  subst hargs
  subst hfl
  have hlen : (extra.reverse ++ fixed.reverse).length = extra.length + fixed.length := by simp
  rw [hlen] at hw hroom ⊢
  rw [← List.append_assoc] at hseg0
  have := call_variadic_step rt h B fixed extra st b p c f a vars hf hop hw
    (by omega) hseg0
  rw [← Nat.add_assoc]
  exact this

/-- The three outcomes of `CALL n` on a procedure with `d` declared arguments. -/
theorem call_outcome (rt : Runtime) (h : Heap) (B args : List Sexp)
    (st : List (Option Sexp)) (b p : Nat) (c : Sexp) (f : Int) (d a : Nat) (vars : Sexp)
    (hf0 hn0 hv0 : Sexp) (ha0 : Nat)
    (hh : rt.exception_handler = .procedure hf0 hn0 (.bytecode ha0) hv0)
    (hop : read_byte h b (p : Int) = .ok .OP_CALL)
    (hw : read_word h b ((p : Int) + 1) 0 = .ok (.fixnum ((args.length : Nat) : Int)))
    (hroom : B.length + args.length + 5 ≤ INIT_STACK_SIZE)
    (hseg0 : Seg st 0 (B ++ args
      ++ [Sexp.procedure (.fixnum f) (.fixnum d) (.bytecode a) vars])) :
    ∃ m1, vm_step rt
        { heap := h, stack := st, top := ((B.length + args.length + 1 : Nat) : Int),
          bc := b, ip := (p : Int), cp := c } = .ok (.next m1)
      ∧ ((args.length < d ∧ m1.top = ((B.length + args.length + 1 + 4 : Nat) : Int)
            ∧ slot m1.stack (B.length + args.length + 1)
              = some (sexp_compile_error "not enough args"
                  (sexp_list2 (.procedure (.fixnum f) (.fixnum d) (.bytecode a) vars)
                    (.fixnum args.length)))
            ∧ m1.bc = ha0 ∧ m1.ip = 0)
        ∨ (d < args.length ∧ (f % 2 == 1) = false
            ∧ m1.top = ((B.length + args.length + 1 + 4 : Nat) : Int)
            ∧ slot m1.stack (B.length + args.length + 1)
              = some (sexp_compile_error "too many args"
                  (sexp_list2 (.procedure (.fixnum f) (.fixnum d) (.bytecode a) vars)
                    (.fixnum args.length)))
            ∧ m1.bc = ha0 ∧ m1.ip = 0)
        ∨ (¬ args.length < d ∧ ¬ (d < args.length ∧ (f % 2 == 1) = false)
            ∧ m1.top < ((B.length + args.length + 1 + 4 : Nat) : Int))) := by
  have hlast := seg_last hseg0
  have hlen : (B ++ args).length = B.length + args.length + 1 - 1 := by simp
  rw [hlen] at hlast
  by_cases h1 : args.length < d
  · rw [vm_step_call rt h _ _ b p c _ _ hop hw (by omega) (by omega) hlast,
      make_call_few rt _ f args.length d _ vars h1]
    obtain ⟨st1, hr, hs, _⟩ := sexp_raise_ok rt h st (B.length + args.length + 1) b
      ((p : Int) + 1) c "not enough args"
      (sexp_list2 (.procedure (.fixnum f) (.fixnum d) (.bytecode a) vars) (.fixnum args.length))
      hf0 hn0 hv0 ha0 hh (by omega) (by omega)
    exact ⟨_, hr, Or.inl ⟨h1, rfl, hs, rfl, rfl⟩⟩
  · by_cases h2 : d < args.length ∧ (f % 2 == 1) = false
    · rw [vm_step_call rt h _ _ b p c _ _ hop hw (by omega) (by omega) hlast,
        make_call_many rt _ f args.length d _ vars h2.1 h2.2]
      obtain ⟨st1, hr, hs, _⟩ := sexp_raise_ok rt h st (B.length + args.length + 1) b
        ((p : Int) + 1) c "too many args"
        (sexp_list2 (.procedure (.fixnum f) (.fixnum d) (.bytecode a) vars)
          (.fixnum args.length))
        hf0 hn0 hv0 ha0 hh (by omega) (by omega)
      exact ⟨_, hr, Or.inr (Or.inl ⟨h2.1, h2.2, rfl, hs, rfl, rfl⟩)⟩
    · rcases Bool.eq_false_or_eq_true (f % 2 == 1) with hf | hf
      rotate_left
      · have hd : d = args.length := by
          rcases Nat.lt_trichotomy d args.length with hlt | heq | hgt
          · exact absurd ⟨hlt, hf⟩ h2
          · exact heq
          · exact absurd hgt h1
        subst hd
        obtain ⟨st1, hstep, _⟩ := call_fixed_step rt h B args st b p c f a vars hf hop hw
          (by omega) hseg0
        refine ⟨_, hstep, Or.inr (Or.inr ⟨h1, h2, ?_⟩)⟩
        show ((B.length + args.length + 3 : Nat) : Int) < _
        omega
      · have hle : d ≤ args.length := by omega
        obtain ⟨st1, hstep, _⟩ := call_variadic_args rt h B args st b p c f d a vars hf hop hw
          hle (by omega) hseg0
        refine ⟨_, hstep, Or.inr (Or.inr ⟨h1, h2, ?_⟩)⟩
        show ((B.length + d + 4 : Nat) : Int) < _
        omega

theorem vm_state_top (h : Heap) (B args : List Sexp) (x : Sexp) (G : List (Option Sexp))
    (b p : Nat) (c : Sexp) :
    vm_state h (B ++ args ++ [x]) G b p c
      = { heap := h, stack := (B ++ args ++ [x]).map some ++ G,
          top := ((B.length + args.length + 1 : Nat) : Int), bc := b, ip := (p : Int),
          cp := c } := by
  unfold vm_state
  simp only [List.length_append, List.length_singleton]

theorem vm_state_of_seg {h : Heap} {st : List (Option Sexp)} {l : List Sexp} {n : Nat}
    {a : Nat} {c : Sexp} (hseg : Seg st 0 l) (hn : l.length = n) :
    ∃ G1, ({ heap := h, stack := st, top := (n : Int), bc := a, ip := 0, cp := c } : VM)
      = vm_state h l G1 a 0 c := by
  obtain ⟨G1, hG1⟩ := stack_of_seg hseg
  refine ⟨G1, ?_⟩
  unfold vm_state
  rw [hG1, hn]
  rfl

/-- C16: `CALL n` on a procedure with `d` declared arguments, with room for the
frame on the stack: the step raises "not enough args" exactly when `n < d`, it
raises "too many args" exactly when `n > d` and the procedure is not variadic,
and otherwise the callee is entered (its bytecode from offset 0, its captured
vector in `cp`) over the frame `[args..., count, saved ip, saved cp]`, the
saved `ip` being the address after the operand of the `CALL`; for a variadic
procedure the arguments of the frame are the rest list and the `d` fixed
arguments, counted `d + 1`. -/
theorem C16_call_arity_check (rt : Runtime) (h : Heap) (B args : List Sexp)
    (G : List (Option Sexp)) (b p : Nat) (c proc : Sexp) (f : Int) (d a : Nat) (vars : Sexp)
    (hf0 hn0 hv0 : Sexp) (ha0 : Nat)
    (hproc : proc = .procedure (.fixnum f) (.fixnum d) (.bytecode a) vars)
    (hh : rt.exception_handler = .procedure hf0 hn0 (.bytecode ha0) hv0)
    (hop : read_byte h b (p : Int) = .ok .OP_CALL)
    (hw : read_word h b ((p : Int) + 1) 0 = .ok (.fixnum ((args.length : Nat) : Int)))
    (hroom : B.length + args.length + 5 ≤ INIT_STACK_SIZE) :
    (Raised rt (vm_step rt (vm_state h (B ++ args ++ [proc]) G b p c))
        (B.length + args.length + 1)
        (sexp_compile_error "not enough args" (sexp_list2 proc (.fixnum args.length)))
      ↔ args.length < d)
    ∧ (Raised rt (vm_step rt (vm_state h (B ++ args ++ [proc]) G b p c))
        (B.length + args.length + 1)
        (sexp_compile_error "too many args" (sexp_list2 proc (.fixnum args.length)))
      ↔ (d < args.length ∧ (f % 2 == 1) = false))
    ∧ (args.length = d → (f % 2 == 1) = false →
        ∃ G1, vm_step rt (vm_state h (B ++ args ++ [proc]) G b p c)
          = .ok (.next (vm_state h (B ++ args ++ [Sexp.fixnum d, .codeptr b (p + 9), c])
              G1 a 0 vars)))
    ∧ (d ≤ args.length → (f % 2 == 1) = true →
        ∃ G1, vm_step rt (vm_state h (B ++ args ++ [proc]) G b p c)
          = .ok (.next (vm_state h (B ++ [sexp_list (args.take (args.length - d)).reverse]
              ++ args.drop (args.length - d)
              ++ [Sexp.fixnum (d + 1), .codeptr b (p + 9), c]) G1 a 0 vars))) := by
  subst hproc
  rw [vm_state_top]
  have hseg0 := seg_of_stack (B ++ args
    ++ [Sexp.procedure (.fixnum f) (.fixnum d) (.bytecode a) vars]) G
  obtain ⟨m1, hstep, hcases⟩ := call_outcome rt h B args _ b p c f d a vars hf0 hn0 hv0 ha0 hh
    hop hw hroom hseg0
  have hcode : ∀ m : VM, m.bc = ha0 →
      sexp_procedure_code rt.exception_handler = .ok (.bytecode m.bc) := by
    intro m hm
    rw [hh, hm]
    rfl
  refine ⟨⟨?_, ?_⟩, ⟨?_, ?_⟩, ?_, ?_⟩
  · rintro ⟨m2, hm2, htop, hslot, _, _⟩
    rw [hstep] at hm2
    simp only [Except.ok.injEq, Step.next.injEq] at hm2
    subst hm2
    rcases hcases with ⟨hlt, _⟩ | ⟨_, _, _, hs, _⟩ | ⟨_, _, ht⟩
    · exact hlt
    · rw [hslot] at hs
      simp [sexp_compile_error, sexp_make_exception] at hs
    · rw [htop] at ht
      omega
  · intro hlt
    rcases hcases with ⟨_, htop, hs, hbc, hip⟩ | ⟨hgt, _⟩ | ⟨hn, _⟩
    · exact ⟨m1, hstep, htop, hs, hcode m1 hbc, hip⟩
    · omega
    · exact absurd hlt hn
  · rintro ⟨m2, hm2, htop, hslot, _, _⟩
    rw [hstep] at hm2
    simp only [Except.ok.injEq, Step.next.injEq] at hm2
    subst hm2
    rcases hcases with ⟨_, _, hs, _⟩ | ⟨hgt, hf, _⟩ | ⟨_, _, ht⟩
    · rw [hslot] at hs
      simp [sexp_compile_error, sexp_make_exception] at hs
    · exact ⟨hgt, hf⟩
    · rw [htop] at ht
      omega
  · intro hgt
    rcases hcases with ⟨hlt, _⟩ | ⟨_, _, htop, hs, hbc, hip⟩ | ⟨_, hn, _⟩
    · omega
    · exact ⟨m1, hstep, htop, hs, hcode m1 hbc, hip⟩
    · exact absurd hgt hn
  · intro hd hf
    subst hd
    obtain ⟨st1, hs, hseg⟩ := call_fixed_step rt h B args _ b p c f a vars hf hop hw (by omega)
      hseg0
    obtain ⟨G1, hG1⟩ := vm_state_of_seg (h := h) (a := a) (c := vars) hseg
      (n := B.length + args.length + 3) (by simp; omega)
    exact ⟨G1, by rw [hs, hG1]⟩
  · intro hle hf
    obtain ⟨st1, hs, hseg⟩ := call_variadic_args rt h B args _ b p c f d a vars hf hop hw hle
      (by omega) hseg0
    obtain ⟨G1, hG1⟩ := vm_state_of_seg (h := h) (a := a) (c := vars) hseg
      (n := B.length + d + 4) (by simp; omega)
    exact ⟨G1, by rw [hs, hG1]⟩

theorem ret_step (rt : Runtime) (h : Heap) (B args : List Sexp) (st : List (Option Sexp))
    (b p : Nat) (c : Sexp) (rb ro : Nat) (rcp v : Sexp)
    (hop : read_byte h b (p : Int) = .ok .OP_RET)
    (hroom : B.length + args.length + 4 ≤ INIT_STACK_SIZE)
    (hseg : Seg st 0 (B ++ args ++ [Sexp.fixnum args.length, .codeptr rb ro, rcp, v])) :
    ∃ st1, vm_step rt
        { heap := h, stack := st, top := ((B.length + args.length + 4 : Nat) : Int),
          bc := b, ip := (p : Int), cp := c }
      = .ok (.next
        { heap := h, stack := st1, top := ((B.length + 1 : Nat) : Int), bc := rb,
          ip := (ro : Int), cp := rcp })
      ∧ Seg st1 0 (B ++ [v]) := by
  rw [seg_append, seg_cons, seg_cons, seg_cons, seg_cons] at hseg
  obtain ⟨hBA, hn, hrip, hrcp, hv, _⟩ := hseg
  simp only [List.length_append, Nat.zero_add] at hn hrip hrcp hv
  obtain ⟨st1, hset, hslots⟩ := stack_set_slot st (k := B.length) v (by omega)
  refine ⟨st1, ?_, ?_⟩
  · have hlt : ¬ (((B.length + args.length + 4 : Nat) : Int) < 4) := by omega
    have e1 : ((B.length + args.length + 4 : Nat) : Int) - 1
        = ((B.length + args.length + 1 + 1 + 1 : Nat) : Int) := by omega
    have e2 : ((B.length + args.length + 4 : Nat) : Int) - 2
        = ((B.length + args.length + 1 + 1 : Nat) : Int) := by omega
    have e3 : ((B.length + args.length + 4 : Nat) : Int) - 3
        = ((B.length + args.length + 1 : Nat) : Int) := by omega
    have e4 : ((B.length + args.length + 4 : Nat) : Int) - 4
        = ((B.length + args.length : Nat) : Int) := by omega
    have e5 : ((B.length + args.length + 4 : Nat) : Int) - (args.length : Int) - 4
        = ((B.length : Nat) : Int) := by omega
    have e6 : ((B.length + args.length + 4 : Nat) : Int) - (args.length : Int) - 3
        = ((B.length + 1 : Nat) : Int) := by omega
    unfold vm_step
    simp only [hop, ok_bind, hlt, if_false, VM.arg, e1, e2, e3, e4,
      stack_get_slot hn (by omega), stack_get_slot hrip (by omega),
      stack_get_slot hrcp (by omega), stack_get_slot hv (by omega), unbox_codeptr,
      sexp_unbox_integer, pure, Except.pure, e5, e6, hset]
  · rw [seg_append, seg_cons]
    rw [seg_append] at hBA
    refine ⟨hBA.1.seg_same (fun j _ hj => ?_), ?_, Seg.seg_nil _ _⟩
    · rw [hslots, if_neg (by omega)]
    · rw [hslots, Nat.zero_add, if_pos rfl]

theorem push_values_spec (h : Heap) (b : Nat) (ip : Int) (c : Sexp) :
    ∀ (vs l : List Sexp) (st : List (Option Sexp)), Seg st 0 l →
      l.length + vs.length ≤ INIT_STACK_SIZE →
      ∃ st1, push_values vs
          { heap := h, stack := st, top := ((l.length : Nat) : Int), bc := b, ip := ip, cp := c }
          = .ok
          { heap := h, stack := st1, top := (((l ++ vs).length : Nat) : Int), bc := b, ip := ip,
            cp := c }
        ∧ Seg st1 0 (l ++ vs) := by
  intro vs
  induction vs with
  | nil =>
    intro l st hseg _
    refine ⟨st, ?_, by simpa using hseg⟩
    simp only [List.append_nil]
    rfl
  | cons v vs ih =>
    intro l st hseg hroom
    simp only [List.length_cons] at hroom
    obtain ⟨s1, hset, hslots⟩ := stack_set_slot st (k := l.length) v (by omega)
    have hseg1 : Seg s1 0 (l ++ [v]) := by
      rw [seg_append, seg_cons]
      refine ⟨hseg.seg_same (fun j _ hj => ?_), ?_, Seg.seg_nil _ _⟩
      · rw [hslots, if_neg (by omega)]
      · rw [hslots, Nat.zero_add, if_pos rfl]
    obtain ⟨st1, hrun, hres⟩ := ih (l ++ [v]) s1 hseg1 (by simp; omega)
    refine ⟨st1, ?_, by simpa using hres⟩
    have e1 : ((l.length : Nat) : Int) + 1 = (((l ++ [v]).length : Nat) : Int) := by simp
    have e2 : l ++ v :: vs = l ++ [v] ++ vs := by simp
    rw [push_values]
    simp only [VM.push, hset, ok_bind, pure, Except.pure, e1]
    rw [e2]
    exact hrun

theorem tail_call_step (rt : Runtime) (h : Heap) (B old new : List Sexp) (cnt : Sexp)
    (st : List (Option Sexp)) (b p : Nat) (c : Sexp) (rb ro : Nat) (rcp : Sexp) (f : Int)
    (a : Nat) (vars : Sexp) (hf : (f % 2 == 1) = false)
    (hop : read_byte h b (p : Int) = .ok .OP_TAIL_CALL)
    (hw0 : read_word h b ((p : Int) + 1) 0
      = .ok (.fixnum ((old.length + new.length + 4 : Nat) : Int)))
    (hw1 : read_word h b ((p : Int) + 1) 1 = .ok (.fixnum ((new.length : Nat) : Int)))
    (hroom : B.length + old.length + 3 + new.length + 1 ≤ INIT_STACK_SIZE)
    (hseg : Seg st 0 (B ++ old ++ [cnt, .codeptr rb ro, rcp] ++ new
      ++ [Sexp.procedure (.fixnum f) (.fixnum new.length) (.bytecode a) vars])) :
    ∃ st1, vm_step rt
        { heap := h, stack := st,
          top := ((B.length + old.length + 3 + new.length + 1 : Nat) : Int),
          bc := b, ip := (p : Int), cp := c }
      = .ok (.next
        { heap := h, stack := st1, top := ((B.length + new.length + 3 : Nat) : Int), bc := a,
          ip := 0, cp := vars })
      ∧ Seg st1 0 (B ++ new ++ [Sexp.fixnum new.length, .codeptr rb ro, rcp]) := by
  rw [seg_append, seg_append, seg_append, seg_append, seg_cons, seg_cons, seg_cons, seg_cons]
    at hseg
  obtain ⟨⟨⟨⟨hB, hold⟩, _, hrip, hrcp, _⟩, hnew⟩, hproc, _⟩ := hseg
  simp only [List.length_append, Nat.zero_add, List.length_cons,
    List.length_nil] at hold hrip hrcp hnew hproc
  have hsome : ∀ j, B.length + old.length + 3 + 0 ≤ j →
      j < B.length + old.length + 3 + 0 + new.length → (slot st j).isSome = true := by
    intro j h1 h2
    have hlt : j - (B.length + old.length + 3) < new.length := by omega
    have := hnew (j - (B.length + old.length + 3)) _ (List.getElem?_eq_getElem hlt)
    have e : B.length + old.length + (0 + 1 + 1 + 1) + (j - (B.length + old.length + 3)) = j := by
      omega
    rw [e] at this
    rw [this]; rfl
  obtain ⟨sc, hsc, pc⟩ := copy_slots_spec B.length (B.length + old.length + 3) (by omega)
    new.length 0 st hsome (by omega)
  obtain ⟨st1, hcall, hslots⟩ := make_call_fixed rt h sc (B.length + new.length + 1) rb
    ((ro : Int) - 8) rcp f new.length a vars hf (by omega) (by omega) (by omega)
  refine ⟨st1, ?_, ?_⟩
  · unfold vm_step
    simp only [hop, ok_bind, hw0, hw1, sexp_unbox_integer, pure, Except.pure, VM.arg]
    have e1 : ((B.length + old.length + 3 + new.length + 1 : Nat) : Int) - 1
        = ((B.length + old.length + (0 + 1 + 1 + 1) + new.length : Nat) : Int) := by omega
    have e2 : ((B.length + old.length + 3 + new.length + 1 : Nat) : Int) - (new.length : Int) - 3
        = ((B.length + old.length + 1 : Nat) : Int) := by omega
    have e3 : ((B.length + old.length + 3 + new.length + 1 : Nat) : Int) - (new.length : Int) - 2
        = ((B.length + old.length + 1 + 1 : Nat) : Int) := by omega
    have e4 : ((B.length + old.length + 3 + new.length + 1 : Nat) : Int)
        - ((old.length + new.length + 4 : Nat) : Int) = ((B.length : Nat) : Int) := by omega
    have e5 : ((B.length + old.length + 3 + new.length + 1 : Nat) : Int) - (new.length : Int) - 1
        = ((B.length + old.length + 3 : Nat) : Int) := by omega
    have e6 : ((new.length : Nat) : Int).toNat = new.length := by omega
    have e7 : ((B.length + old.length + 3 + new.length + 1 : Nat) : Int)
        - (((old.length + new.length + 4 : Nat) : Int) - (new.length : Int) - 1)
        = ((B.length + new.length + 1 : Nat) : Int) := by omega
    have e8 : ((B.length + new.length + 1 + 2 : Nat) : Int)
        = ((B.length + new.length + 3 : Nat) : Int) := by omega
    simp only [Nat.cast_zero] at hsc
    rw [e8] at hcall
    rw [e1, e2, e3, e4, e5, e6, e7]
    simp only [stack_get_slot hproc (by omega), stack_get_slot hrip (by omega),
      stack_get_slot hrcp (by omega), ok_bind, unbox_codeptr, pure, Except.pure, hsc, sizeof_sexp,
      Nat.cast_ofNat, hcall]
  · have e9 : ((ro : Int) - 8 + 8).toNat = ro := by omega
    rw [e9] at hslots
    rw [seg_append, seg_append, seg_cons, seg_cons, seg_cons]
    simp only [List.length_append, Nat.zero_add]
    refine ⟨⟨hB.seg_same (fun j _ hj => ?_), hnew.seg_shift (fun k hk => ?_)⟩, ?_, ?_, ?_, Seg.seg_nil _ _⟩
    · rw [Nat.zero_add] at hj
      rw [hslots, if_neg (by omega), if_neg (by omega), if_neg (by omega), pc, if_neg (by omega)]
    · rw [hslots, if_neg (by omega), if_neg (by omega), if_neg (by omega), pc, if_pos (by omega)]
      congr 1
      omega
    · rw [hslots, if_pos (by omega)]
    · rw [hslots, if_neg (by omega), if_pos (by omega)]
    · rw [hslots, if_neg (by omega), if_neg (by omega), if_pos (by omega)]

theorem self_tail_calls_top (rt : Runtime) (h : Heap) (B : List Sexp) (n a site rb ro : Nat)
    (rcp vars : Sexp) (f : Int) (hf : (f % 2 == 1) = false)
    (hop : read_byte h a (site : Int) = .ok .OP_TAIL_CALL)
    (hw0 : read_word h a ((site : Int) + 1) 0 = .ok (.fixnum ((n + n + 4 : Nat) : Int)))
    (hw1 : read_word h a ((site : Int) + 1) 1 = .ok (.fixnum ((n : Nat) : Int)))
    (hroom : B.length + n + 3 + n + 1 ≤ INIT_STACK_SIZE) :
    ∀ (argss : List (List Sexp)) (args0 : List Sexp) (st : List (Option Sexp)) (q : Int),
      (∀ x ∈ argss, x.length = n) → args0.length = n →
      Seg st 0 (B ++ args0 ++ [Sexp.fixnum n, .codeptr rb ro, rcp]) →
      ∃ m1, self_tail_calls rt (.procedure (.fixnum f) (.fixnum n) (.bytecode a) vars) site argss
            { heap := h, stack := st, top := ((B.length + n + 3 : Nat) : Int), bc := a, ip := q,
              cp := vars } = .ok m1
        ∧ m1.top = ((B.length + n + 3 : Nat) : Int) := by
  intro argss
  induction argss with
  | nil =>
    intro args0 st q _ _ _
    exact ⟨_, rfl, rfl⟩
  | cons args rest ih =>
    intro args0 st q hall h0 hseg
    have hargs : args.length = n := hall args (List.mem_cons_self _ _)
    have hlen : (B ++ args0 ++ [Sexp.fixnum n, .codeptr rb ro, rcp]).length
        = B.length + n + 3 := by simp [h0]; omega
    obtain ⟨s1, hpush, hseg1⟩ := push_values_spec h a q vars
      (args ++ [Sexp.procedure (.fixnum f) (.fixnum n) (.bytecode a) vars])
      (B ++ args0 ++ [Sexp.fixnum n, .codeptr rb ro, rcp]) st hseg (by simp [h0, hargs]; omega)
    rw [hlen] at hpush
    have hlen2 : ((B ++ args0 ++ [Sexp.fixnum n, .codeptr rb ro, rcp])
        ++ (args ++ [Sexp.procedure (.fixnum f) (.fixnum n) (.bytecode a) vars])).length
        = B.length + args0.length + 3 + args.length + 1 := by simp; omega
    rw [hlen2] at hpush
    rw [← List.append_assoc] at hseg1
    subst hargs
    have hw0b : read_word h a ((site : Int) + 1) 0
        = .ok (.fixnum ((args0.length + args.length + 4 : Nat) : Int)) := by
      rw [h0]; exact hw0
    obtain ⟨st2, hstep, hseg2⟩ := tail_call_step rt h B args0 args (.fixnum args.length) s1 a
      site vars rb ro rcp f a vars hf hop hw0b hw1 (by omega) hseg1
    obtain ⟨m1, hrun, htop⟩ := ih args st2 0 (fun x hx => hall x (List.mem_cons_of_mem _ hx))
      rfl hseg2
    refine ⟨m1, ?_, htop⟩
    rw [self_tail_calls]
    simp only [hpush, ok_bind, hstep]
    exact hrun

theorem save_stack_spec (st : List (Option Sexp)) (l : List Sexp) (hseg : Seg st 0 l)
    (hroom : l.length ≤ INIT_STACK_SIZE) : sexp_save_stack st l.length = .ok l := by
  induction l using List.reverseRecOn with
  | nil => rfl
  | append_singleton l x ih =>
    rw [seg_append, seg_cons, Nat.zero_add] at hseg
    simp only [List.length_append, List.length_singleton] at hroom ⊢
    rw [sexp_save_stack, ih hseg.1 (by omega), ok_bind, stack_get_slot hseg.2.1 (by omega), ok_bind]
    rfl

theorem restore_stack_spec : ∀ (data : List Sexp) (i : Nat) (st : List (Option Sexp)),
    i + data.length ≤ INIT_STACK_SIZE →
    ∃ st1, sexp_restore_stack data (i : Int) st = .ok st1 ∧ Seg st1 i data
      ∧ ∀ j, j < i → slot st1 j = slot st j := by
  intro data
  induction data with
  | nil =>
    intro i st _
    exact ⟨st, rfl, Seg.seg_nil _ _, fun _ _ => rfl⟩
  | cons x data ih =>
    intro i st hroom
    simp only [List.length_cons] at hroom
    obtain ⟨s1, hset, hslots⟩ := stack_set_slot st (k := i) x (by omega)
    obtain ⟨st1, hrun, hseg, hlow⟩ := ih (i + 1) s1 (by omega)
    have e : (i : Int) + 1 = ((i + 1 : Nat) : Int) := by push_cast; rfl
    refine ⟨st1, ?_, ?_, fun j hj => ?_⟩
    · rw [sexp_restore_stack, hset, ok_bind, e]
      exact hrun
    · rw [seg_cons]
      refine ⟨?_, hseg⟩
      rw [hlow i (by omega), hslots, if_pos rfl]
    · rw [hlow j (by omega), hslots, if_neg (by omega)]

theorem callcc_step (rt : Runtime) (h : Heap) (S : List Sexp) (st : List (Option Sexp))
    (b p : Nat) (C : Sexp) (f : Int) (a : Nat) (vars : Sexp)
    (hf : (f % 2 == 1) = false)
    (hop : read_byte h b (p : Int) = .ok .OP_CALLCC)
    (hroom : S.length + 4 ≤ INIT_STACK_SIZE)
    (hseg : Seg st 0 (S ++ [Sexp.procedure (.fixnum f) (.fixnum 1) (.bytecode a) vars])) :
    ∃ st1, vm_step rt
        { heap := h, stack := st, top := ((S.length + 1 : Nat) : Int), bc := b, ip := (p : Int),
          cp := C }
      = .ok (.next
        { heap := callcc_heap h (callcc_snapshot S
            (.procedure (.fixnum f) (.fixnum 1) (.bytecode a) vars) b p C),
          stack := st1, top := ((S.length + 4 : Nat) : Int), bc := a, ip := 0, cp := vars })
      ∧ Seg st1 0 (S ++ [callcc_continuation rt h, .fixnum 1, .codeptr b (p + 1), C]) := by
  have hrecv := seg_last hseg
  rw [seg_append] at hseg
  obtain ⟨hS, _⟩ := hseg
  obtain ⟨s1, h1, p1⟩ := stack_set_slot st (k := S.length + 1) (.fixnum 1) (by omega)
  obtain ⟨s2, h2, p2⟩ := stack_set_slot s1 (k := S.length + 2) (.codeptr b (p + 1)) (by omega)
  obtain ⟨s3, h3, p3⟩ := stack_set_slot s2 (k := S.length + 3) C (by omega)
  have hsnap : Seg s3 0 (callcc_snapshot S
      (.procedure (.fixnum f) (.fixnum 1) (.bytecode a) vars) b p C) := by
    unfold callcc_snapshot
    rw [seg_append, seg_cons, seg_cons, seg_cons, seg_cons, Nat.zero_add]
    refine ⟨hS.seg_same (fun j _ hj => ?_), ?_, ?_, ?_, ?_, Seg.seg_nil _ _⟩
    · rw [Nat.zero_add] at hj
      rw [p3, if_neg (by omega), p2, if_neg (by omega), p1, if_neg (by omega)]
    · rw [p3, if_neg (by omega), p2, if_neg (by omega), p1, if_neg (by omega), hrecv]
    · rw [p3, if_neg (by omega), p2, if_neg (by omega), p1, if_pos rfl]
    · rw [p3, if_neg (by omega), p2, if_pos rfl]
    · rw [p3, if_pos rfl]
  have hsave := save_stack_spec s3 _ hsnap (by unfold callcc_snapshot; simp; omega)
  have hsl : (callcc_snapshot S (.procedure (.fixnum f) (.fixnum 1) (.bytecode a) vars) b p
      C).length = S.length + 4 := by
    unfold callcc_snapshot; simp
  rw [hsl] at hsave
  obtain ⟨s4, h4, p4⟩ := stack_set_slot s3 (k := S.length) (callcc_continuation rt h) (by omega)
  obtain ⟨st1, hcall, hslots⟩ := make_call_fixed rt
    (callcc_heap h (callcc_snapshot S (.procedure (.fixnum f) (.fixnum 1) (.bytecode a) vars) b p
      C)) s4 (S.length + 2) b ((p : Int) + 1 - 8) C f 1 a vars hf (by omega) (by omega) (by omega)
  refine ⟨st1, ?_, ?_⟩
  · have e1 : ((S.length + 1 : Nat) : Int) - 1 = ((S.length : Nat) : Int) := by omega
    have e2 : ((S.length + 1 : Nat) : Int) + 1 = ((S.length + 2 : Nat) : Int) := by omega
    have e3 : ((S.length + 1 : Nat) : Int) + 2 = ((S.length + 3 : Nat) : Int) := by omega
    have e4 : (((S.length + 1 : Nat) : Int) + 3).toNat = S.length + 4 := by omega
    have hip : (0 : Int) ≤ (p : Int) + 1 := by omega
    have e5 : ((p : Int) + 1).toNat = p + 1 := by omega
    have e6 : ((S.length + 2 + 2 : Nat) : Int) = ((S.length + 4 : Nat) : Int) := by omega
    rw [e6] at hcall
    unfold vm_step
    simp only [hop, ok_bind, VM.arg, e1, stack_get_slot hrecv (by omega), sexp_make_integer,
      make_codeptr, hip, if_true, pure, Except.pure, h1, e2, e5, h2, e3, h3, e4, hsave]
    have ek : sexp_make_procedure (Sexp.fixnum 0) (Sexp.fixnum 1) rt.continuation_resumer
        (Sexp.vector (h.vecs ++ [callcc_snapshot S
          (.procedure (.fixnum f) (.fixnum 1) (.bytecode a) vars) b p C]).length)
        = callcc_continuation rt h := by
      unfold callcc_continuation sexp_make_integer
      simp
    simp only [Nat.cast_one, callcc_heap] at hcall
    simp only [ek, h4, ok_bind, callcc_heap, sizeof_sexp, Nat.cast_ofNat, hcall]
  · have e9 : ((p : Int) + 1 - 8 + 8).toNat = p + 1 := by omega
    rw [e9] at hslots
    rw [seg_append, seg_cons, seg_cons, seg_cons, seg_cons, Nat.zero_add]
    refine ⟨hS.seg_same (fun j _ hj => ?_), ?_, ?_, ?_, ?_, Seg.seg_nil _ _⟩
    · rw [Nat.zero_add] at hj
      rw [hslots, if_neg (by omega), if_neg (by omega), if_neg (by omega), p4, if_neg (by omega),
        p3, if_neg (by omega), p2, if_neg (by omega), p1, if_neg (by omega)]
    · rw [hslots, if_neg (by omega), if_neg (by omega), if_neg (by omega), p4, if_pos rfl]
    · rw [hslots, if_pos (by omega)]
      rfl
    · rw [hslots, if_neg (by omega), if_pos (by omega)]
    · rw [hslots, if_neg (by omega), if_neg (by omega), if_pos (by omega)]

theorem resumecc_step (rt : Runtime) (h : Heap) (S X : List Sexp) (x0 x1 : Sexp)
    (st : List (Option Sexp)) (r : Nat) (C v cnt rip cp : Sexp) (rb ro cvi svi : Nat)
    (hop : read_byte h r 0 = .ok .OP_RESUMECC)
    (hcv : h.vecs[cvi]? = some [.vector svi])
    (hsv : h.vecs[svi]? = some (S ++ [x0, x1, .codeptr rb ro, C]))
    (hroomS : S.length + 4 ≤ INIT_STACK_SIZE)
    (hroomX : X.length + 4 ≤ INIT_STACK_SIZE)
    (hseg : Seg st 0 (X ++ [v, cnt, rip, cp])) :
    ∃ st1, vm_step rt
        { heap := h, stack := st, top := ((X.length + 4 : Nat) : Int), bc := r, ip := 0,
          cp := .vector cvi }
      = .ok (.next
        { heap := h, stack := st1, top := ((S.length + 1 : Nat) : Int), bc := rb,
          ip := (ro : Int), cp := C })
      ∧ Seg st1 0 (S ++ [v]) := by
  rw [seg_append, seg_cons, Nat.zero_add] at hseg
  obtain ⟨_, hv, _⟩ := hseg
  obtain ⟨sr, hrest, hsegr, _⟩ := restore_stack_spec (S ++ [x0, x1, .codeptr rb ro, C]) 0 st
    (by simp; omega)
  have hsegr2 := hsegr
  rw [seg_append, seg_cons, seg_cons, seg_cons, seg_cons, Nat.zero_add] at hsegr2
  obtain ⟨hS, _, _, hrip, hC, _⟩ := hsegr2
  obtain ⟨st1, hset, hslots⟩ := stack_set_slot sr (k := S.length) v (by omega)
  refine ⟨st1, ?_, ?_⟩
  · have e1 : ((X.length + 4 : Nat) : Int) - 4 = ((X.length : Nat) : Int) := by omega
    have e2 : (((S ++ [x0, x1, .codeptr rb ro, C]).length : Nat) : Int) - 1
        = ((S.length + 1 + 1 + 1 : Nat) : Int) := by simp; omega
    have e3 : (((S ++ [x0, x1, .codeptr rb ro, C]).length : Nat) : Int) - 2
        = ((S.length + 1 + 1 : Nat) : Int) := by simp; omega
    have e4 : (((S ++ [x0, x1, .codeptr rb ro, C]).length : Nat) : Int) - 3 - 1
        = ((S.length : Nat) : Int) := by simp; omega
    have e5 : (((S ++ [x0, x1, .codeptr rb ro, C]).length : Nat) : Int) - 3
        = ((S.length + 1 : Nat) : Int) := by simp; omega
    have hz : (0 : Int) = ((0 : Nat) : Int) := rfl
    have hip : ((0 : Int) + 1) = 1 := rfl
    have hq : (0 : Int) / 2 ^ SEXP_FIXNUM_BITS = 0 := Int.zero_ediv _
    have e6 : ((S.length + 1 : Nat) : Int) - 1 = ((S.length : Nat) : Int) := by omega
    have hrest0 : sexp_restore_stack (S ++ [x0, x1, .codeptr rb ro, C]) 0 st = .ok sr := hrest
    unfold vm_step
    simp only [hop, ok_bind, VM.arg, e1, stack_get_slot hv (by omega), sexp_vector_ref,
      sexp_unbox_integer, pure, Except.pure, hcv, hq, le_refl, if_true, Int.toNat_zero,
      List.getElem?_cons_zero, hsv, hrest0, e2, e3, e4, e5, stack_get_slot hC (by omega),
      stack_get_slot hrip (by omega), unbox_codeptr, e6, hset]
  · rw [seg_append, seg_cons, Nat.zero_add]
    refine ⟨hS.seg_same (fun j _ hj => ?_), ?_, Seg.seg_nil _ _⟩
    · rw [Nat.zero_add] at hj
      rw [hslots, if_neg (by omega)]
    · rw [hslots, if_pos rfl]

theorem vm_state_eq (h : Heap) (l : List Sexp) (G : List (Option Sexp)) (b p : Nat) (c : Sexp)
    (n : Nat) (hn : l.length = n) :
    vm_state h l G b p c
      = { heap := h, stack := l.map some ++ G, top := ((n : Nat) : Int), bc := b,
          ip := (p : Int), cp := c } := by
  subst hn
  rfl

theorem vm_state_seg {h : Heap} {st : List (Option Sexp)} {l : List Sexp} {n : Nat}
    {a q : Nat} {c : Sexp} (hseg : Seg st 0 l) (hn : l.length = n) :
    ∃ G1, ({ heap := h, stack := st, top := (n : Int), bc := a, ip := (q : Int),
             cp := c } : VM)
      = vm_state h l G1 a q c := by
  obtain ⟨G1, hG1⟩ := stack_of_seg hseg
  refine ⟨G1, ?_⟩
  unfold vm_state
  rw [hG1, hn]

/-- C18: `RET` on the stack `B ++ args ++ [n, rip, rcp, v]`, `n` being the
number of `args`, leaves `B ++ [v]` (the top goes down by `n + 3`) and
continues at `rip` with `cp = rcp`.  A `CALL` of a procedure of fixed arity
builds that frame with `rip` the address after its operand and `rcp` the `cp`
of the caller, so the return of the callee leaves the result in place of the
arguments and the procedure, and resumes the caller. -/
theorem C18_ret_collapses_frame (rt : Runtime) (h h2 : Heap) (B args : List Sexp)
    (G G2 : List (Option Sexp)) (b p a q rb ro : Nat) (c proc vars cp2 rcp v : Sexp) (f : Int)
    (hproc : proc = .procedure (.fixnum f) (.fixnum args.length) (.bytecode a) vars)
    (hf : (f % 2 == 1) = false)
    (hcall : read_byte h b (p : Int) = .ok .OP_CALL)
    (hw : read_word h b ((p : Int) + 1) 0 = .ok (.fixnum ((args.length : Nat) : Int)))
    (hret : read_byte h2 a (q : Int) = .ok .OP_RET)
    (hroom : B.length + args.length + 4 ≤ INIT_STACK_SIZE) :
    (∃ G3, vm_step rt (vm_state h2
          (B ++ args ++ [Sexp.fixnum args.length, .codeptr rb ro, rcp, v]) G2 a q cp2)
        = .ok (.next (vm_state h2 (B ++ [v]) G3 rb ro rcp)))
    ∧ (∃ G1, vm_step rt (vm_state h (B ++ args ++ [proc]) G b p c)
        = .ok (.next (vm_state h
            (B ++ args ++ [Sexp.fixnum args.length, .codeptr b (p + 9), c]) G1 a 0 vars)))
    ∧ (∃ G3, vm_step rt (vm_state h2
          (B ++ args ++ [Sexp.fixnum args.length, .codeptr b (p + 9), c, v]) G2 a q cp2)
        = .ok (.next (vm_state h2 (B ++ [v]) G3 b (p + 9) c))) := by
  subst hproc
  have hret_any : ∀ (rb ro : Nat) (rcp : Sexp), ∃ G3, vm_step rt (vm_state h2
          (B ++ args ++ [Sexp.fixnum args.length, .codeptr rb ro, rcp, v]) G2 a q cp2)
        = .ok (.next (vm_state h2 (B ++ [v]) G3 rb ro rcp)) := by
    intro rb ro rcp
    rw [vm_state_eq h2 _ G2 a q cp2 (B.length + args.length + 4)
      (by simp only [List.length_append, List.length_cons, List.length_nil])]
    obtain ⟨st1, hs, hseg⟩ := ret_step rt h2 B args _ a q cp2 rb ro rcp v hret hroom
      (seg_of_stack _ G2)
    obtain ⟨G3, hG3⟩ := vm_state_seg (h := h2) (a := rb) (q := ro) (c := rcp) hseg
      (n := B.length + 1)
      (by simp only [List.length_append, List.length_cons, List.length_nil])
    exact ⟨G3, by rw [hs, hG3]⟩
  refine ⟨hret_any rb ro rcp, ?_, hret_any b (p + 9) c⟩
  rw [vm_state_eq h _ G b p c (B.length + args.length + 1)
    (by simp only [List.length_append, List.length_cons, List.length_nil])]
  obtain ⟨st1, hs, hseg⟩ := call_fixed_step rt h B args _ b p c f a vars hf hcall hw (by omega)
    (seg_of_stack _ G)
  obtain ⟨G1, hG1⟩ := vm_state_seg (h := h) (a := a) (q := 0) (c := vars) hseg
    (n := B.length + args.length + 3)
    (by simp only [List.length_append, List.length_cons, List.length_nil])
  exact ⟨G1, by rw [hs]; exact congrArg _ (congrArg _ hG1)⟩

/-- C19: `TAIL_CALL d n` on the stack `B ++ old ++ [m, rip, rcp] ++ new ++ [proc]`
with `d = m + n + 4`, `proc` a procedure of fixed arity `n`: the callee is
entered on the stack `B ++ new ++ [n, rip, rcp]`, whose top is `|B| + n + 3`.
Hence after any number of consecutive self tail calls the top has that same
value. -/
theorem C19_tail_call_reuses_frame (rt : Runtime) (h : Heap) (B old new : List Sexp)
    (G : List (Option Sexp)) (b p rb ro a : Nat) (c rcp proc vars : Sexp) (f : Int)
    (hproc : proc = .procedure (.fixnum f) (.fixnum new.length) (.bytecode a) vars)
    (hf : (f % 2 == 1) = false)
    (hop : read_byte h b (p : Int) = .ok .OP_TAIL_CALL)
    (hw0 : read_word h b ((p : Int) + 1) 0
      = .ok (.fixnum ((old.length + new.length + 4 : Nat) : Int)))
    (hw1 : read_word h b ((p : Int) + 1) 1 = .ok (.fixnum ((new.length : Nat) : Int)))
    (hroom : B.length + old.length + 3 + new.length + 1 ≤ INIT_STACK_SIZE) :
    (∃ G1, vm_step rt (vm_state h
          (B ++ old ++ [Sexp.fixnum old.length, .codeptr rb ro, rcp] ++ new ++ [proc]) G b p c)
        = .ok (.next (vm_state h (B ++ new ++ [Sexp.fixnum new.length, .codeptr rb ro, rcp])
            G1 a 0 vars)))
    ∧ (b = a → old.length = new.length →
        ∀ (argss : List (List Sexp)) (q : Nat), (∀ x ∈ argss, x.length = new.length) →
          ∃ m1, self_tail_calls rt proc p argss (vm_state h
              (B ++ old ++ [Sexp.fixnum old.length, .codeptr rb ro, rcp]) G a q vars) = .ok m1
            ∧ m1.top = ((B.length + new.length + 3 : Nat) : Int)) := by
  subst hproc
  constructor
  · rw [vm_state_eq h _ G b p c (B.length + old.length + 3 + new.length + 1)
      (by simp only [List.length_append, List.length_cons, List.length_nil])]
    obtain ⟨st1, hs, hseg⟩ := tail_call_step rt h B old new (.fixnum old.length) _ b p c rb ro rcp
      f a vars hf hop hw0 hw1 hroom (seg_of_stack _ G)
    obtain ⟨G1, hG1⟩ := vm_state_seg (h := h) (a := a) (q := 0) (c := vars) hseg
      (n := B.length + new.length + 3)
      (by simp only [List.length_append, List.length_cons, List.length_nil])
    exact ⟨G1, by rw [hs]; exact congrArg _ (congrArg _ hG1)⟩
  · intro hb hlen argss q hall
    subst hb
    rw [vm_state_eq h _ G b q vars (B.length + new.length + 3)
      (by simp only [List.length_append, List.length_cons, List.length_nil, hlen])]
    rw [hlen] at hw0
    have hseg := seg_of_stack (B ++ old ++ [Sexp.fixnum old.length, .codeptr rb ro, rcp]) G
    rw [hlen] at hseg
    exact self_tail_calls_top rt h B new.length b p rb ro rcp vars f hf hop hw0 hw1
      (by omega) argss old _ q hall hlen (by rw [hlen]; exact hseg)

theorem C19_tail_call_reuses_frame_witness :
    ∃ G1, vm_step sample_rt (vm_state
          (codes_heap [[.byte .OP_TAIL_CALL] ++ word_slots (.fixnum 6) ++ word_slots (.fixnum 1)])
          ([] ++ [.fixnum 7] ++ [Sexp.fixnum 1, .codeptr 3 4, .null] ++ [.fixnum 8]
            ++ [.procedure (.fixnum 0) (.fixnum 1) (.bytecode 0) .undef]) [] 0 0 .undef)
      = .ok (.next (vm_state
          (codes_heap [[.byte .OP_TAIL_CALL] ++ word_slots (.fixnum 6) ++ word_slots (.fixnum 1)])
          ([] ++ [.fixnum 8] ++ [Sexp.fixnum 1, .codeptr 3 4, .null]) G1 0 0 .undef)) :=
  (C19_tail_call_reuses_frame sample_rt
    (codes_heap [[.byte .OP_TAIL_CALL] ++ word_slots (.fixnum 6) ++ word_slots (.fixnum 1)])
    [] [.fixnum 7] [.fixnum 8] [] 0 0 3 4 0 .undef .null _ .undef 0 rfl (by decide) (by rfl)
    (by rfl) (by rfl) (by decide)).1

/-- C20: `CALLCC` with a receiver of one parameter on the stack `S ++ [receiver]`
saves the stack with its frame in a fresh vector and calls the receiver with
the continuation procedure.  Calling that continuation later with one
argument `v`, from any stack, restores the saved stack and resumes after the
`CALLCC` with `S ++ [v]` and the captured `cp`: the state a normal return of
the receiver with the value `v` produces. -/
theorem C20_continuation_restores_capture (rt : Runtime) (h : Heap) (S : List Sexp)
    (G : List (Option Sexp)) (b p a r : Nat) (C receiver vars : Sexp) (f : Int)
    (hrecv : receiver = .procedure (.fixnum f) (.fixnum 1) (.bytecode a) vars)
    (hf : (f % 2 == 1) = false)
    (hres : rt.continuation_resumer = .bytecode r)
    (hop : read_byte h b (p : Int) = .ok .OP_CALLCC)
    (hroom : S.length + 4 ≤ INIT_STACK_SIZE) :
    (∃ G1, vm_step rt (vm_state h (S ++ [receiver]) G b p C)
        = .ok (.next (vm_state (callcc_heap h (callcc_snapshot S receiver b p C))
            (S ++ [callcc_continuation rt h, .fixnum 1, .codeptr b (p + 1), C]) G1 a 0 vars)))
    ∧ (∀ (h3 : Heap) (X : List Sexp) (G3 : List (Option Sexp)) (b3 p3 : Nat) (c3 v : Sexp),
        h3.vecs[h.vecs.length]? = some (callcc_snapshot S receiver b p C) →
        h3.vecs[h.vecs.length + 1]? = some [Sexp.vector h.vecs.length] →
        read_byte h3 r 0 = .ok .OP_RESUMECC →
        read_byte h3 b3 (p3 : Int) = .ok .OP_CALL →
        read_word h3 b3 ((p3 : Int) + 1) 0 = .ok (.fixnum 1) →
        X.length + 5 ≤ INIT_STACK_SIZE →
        ∃ G4 G5,
          vm_step rt (vm_state h3 (X ++ [v, callcc_continuation rt h]) G3 b3 p3 c3)
            = .ok (.next (vm_state h3 (X ++ [v, .fixnum 1, .codeptr b3 (p3 + 9), c3]) G4 r 0
                (.vector (h.vecs.length + 1))))
          ∧ vm_step rt (vm_state h3 (X ++ [v, .fixnum 1, .codeptr b3 (p3 + 9), c3]) G4 r 0
                (.vector (h.vecs.length + 1)))
            = .ok (.next (vm_state h3 (S ++ [v]) G5 b (p + 1) C)))
    ∧ (∀ (h3 : Heap) (G3 : List (Option Sexp)) (q : Nat) (cp3 v : Sexp),
        read_byte h3 a (q : Int) = .ok .OP_RET → S.length + 5 ≤ INIT_STACK_SIZE →
        ∃ G4, vm_step rt (vm_state h3
            (S ++ [callcc_continuation rt h, .fixnum 1, .codeptr b (p + 1), C, v]) G3 a q cp3)
          = .ok (.next (vm_state h3 (S ++ [v]) G4 b (p + 1) C))) := by
  subst hrecv
  refine ⟨?_, ?_, ?_⟩
  · rw [vm_state_eq h _ G b p C (S.length + 1)
      (by simp only [List.length_append, List.length_cons, List.length_nil])]
    obtain ⟨st1, hs, hseg⟩ := callcc_step rt h S _ b p C f a vars hf hop hroom (seg_of_stack _ G)
    obtain ⟨G1, hG1⟩ := vm_state_seg (h := callcc_heap h (callcc_snapshot S
        (.procedure (.fixnum f) (.fixnum 1) (.bytecode a) vars) b p C))
      (a := a) (q := 0) (c := vars) hseg (n := S.length + 4)
      (by simp only [List.length_append, List.length_cons, List.length_nil])
    exact ⟨G1, by rw [hs]; exact congrArg _ (congrArg _ hG1)⟩
  · intro h3 X G3 b3 p3 c3 v hsv hcv hresume hcall hw hroomX
    have hk : callcc_continuation rt h
        = .procedure (.fixnum 0) (.fixnum ([v].length : Nat)) (.bytecode r)
            (.vector (h.vecs.length + 1)) := by
      unfold callcc_continuation
      rw [hres]
      rfl
    have hl : X ++ [v, callcc_continuation rt h]
        = X ++ [v] ++ [Sexp.procedure (.fixnum 0) (.fixnum ([v].length : Nat)) (.bytecode r)
            (.vector (h.vecs.length + 1))] := by
      rw [hk, List.append_assoc]
      rfl
    have hseg0 := seg_of_stack (X ++ [v, callcc_continuation rt h]) G3
    rw [hl] at hseg0
    obtain ⟨st1, hs, hseg⟩ := call_fixed_step rt h3 X [v] _ b3 p3 c3 0 r
      (.vector (h.vecs.length + 1)) (by rfl) hcall hw
      (by simp only [List.length_cons, List.length_nil]; omega) hseg0
    have hl2 : X ++ [v] ++ [Sexp.fixnum ([v].length : Nat), .codeptr b3 (p3 + 9), c3]
        = X ++ [v, .fixnum 1, .codeptr b3 (p3 + 9), c3] := by
      rw [List.append_assoc]
      rfl
    rw [hl2] at hseg
    obtain ⟨G4, hG4⟩ := vm_state_seg (h := h3) (a := r) (q := 0)
      (c := .vector (h.vecs.length + 1)) hseg (n := X.length + [v].length + 3)
      (by simp only [List.length_append, List.length_cons, List.length_nil])
    obtain ⟨st2, hs2, hseg2⟩ := resumecc_step rt h3 S X _ _ st1 r C v _ _ _ b (p + 1)
      (h.vecs.length + 1) h.vecs.length hresume hcv hsv hroom (by omega) hseg
    obtain ⟨G5, hG5⟩ := vm_state_seg (h := h3) (a := b) (q := p + 1) (c := C) hseg2
      (n := S.length + 1)
      (by simp only [List.length_append, List.length_cons, List.length_nil])
    refine ⟨G4, G5, ?_, ?_⟩
    · rw [hl, vm_state_eq h3 _ G3 b3 p3 c3 (X.length + [v].length + 1)
        (by simp only [List.length_append, List.length_cons, List.length_nil])]
      rw [hs]
      exact congrArg _ (congrArg _ hG4)
    · rw [← hG4]
      exact hs2.trans (congrArg _ (congrArg _ hG5))
  · intro h3 G3 q cp3 v hret hroom5
    have hl : S ++ [callcc_continuation rt h, .fixnum 1, .codeptr b (p + 1), C, v]
        = S ++ [callcc_continuation rt h]
          ++ [Sexp.fixnum ([callcc_continuation rt h].length : Nat), .codeptr b (p + 1), C, v] := by
      rw [List.append_assoc]
      rfl
    rw [hl, vm_state_eq h3 _ G3 a q cp3 (S.length + [callcc_continuation rt h].length + 4)
      (by simp only [List.length_append, List.length_cons, List.length_nil])]
    obtain ⟨st1, hs, hseg⟩ := ret_step rt h3 S [callcc_continuation rt h] _ a q cp3 b (p + 1) C v
      hret (by simp only [List.length_cons, List.length_nil]; omega) (seg_of_stack _ G3)
    obtain ⟨G4, hG4⟩ := vm_state_seg (h := h3) (a := b) (q := p + 1) (c := C) hseg
      (n := S.length + 1)
      (by simp only [List.length_append, List.length_cons, List.length_nil])
    exact ⟨G4, by rw [hs, hG4]⟩

theorem C20_continuation_restores_capture_witness :
    ∃ G1, vm_step sample_rt (vm_state (codes_heap [[.byte .OP_CALLCC]])
          ([.fixnum 7] ++ [.procedure (.fixnum 0) (.fixnum 1) (.bytecode 0) .undef]) [] 0 0 .null)
      = .ok (.next (vm_state
          (callcc_heap (codes_heap [[.byte .OP_CALLCC]]) (callcc_snapshot [.fixnum 7]
            (.procedure (.fixnum 0) (.fixnum 1) (.bytecode 0) .undef) 0 0 .null))
          ([.fixnum 7] ++ [callcc_continuation sample_rt (codes_heap [[.byte .OP_CALLCC]]),
            .fixnum 1, .codeptr 0 (0 + 1), .null]) G1 0 0 .undef)) :=
  (C20_continuation_restores_capture sample_rt (codes_heap [[.byte .OP_CALLCC]]) [.fixnum 7] []
    0 0 0 0 .null _ .undef 0 rfl (by decide) rfl (by rfl) (by decide)).1

theorem C18_ret_collapses_frame_witness :
    ∃ G3, vm_step sample_rt (vm_state (codes_heap [[.byte .OP_CALL] ++ word_slots (.fixnum 1),
            [.byte .OP_RET]])
          ([] ++ [.fixnum 5] ++ [Sexp.fixnum ([Sexp.fixnum 5].length : Nat), .codeptr 0 (0 + 9),
            .null, .fixnum 6]) [] 1 0 .undef)
      = .ok (.next (vm_state (codes_heap [[.byte .OP_CALL] ++ word_slots (.fixnum 1),
            [.byte .OP_RET]]) ([] ++ [.fixnum 6]) G3 0 (0 + 9) .null)) := by
  have w := C18_ret_collapses_frame sample_rt
    (codes_heap [[.byte .OP_CALL] ++ word_slots (.fixnum 1), [.byte .OP_RET]])
    (codes_heap [[.byte .OP_CALL] ++ word_slots (.fixnum 1), [.byte .OP_RET]])
    [] [.fixnum 5] [] [] 0 0 1 0 0 0 .null
    (.procedure (.fixnum 0) (.fixnum ([Sexp.fixnum 5].length : Nat)) (.bytecode 1) .undef)
    .undef .undef .null (.fixnum 6) 0 rfl (by decide)
    (by rfl) (by rfl) (by rfl) (by decide)
  exact w.2.2

theorem C16_call_arity_check_witness :
    Raised sample_rt (vm_step sample_rt (vm_state
          (codes_heap [[.byte .OP_CALL] ++ word_slots (.fixnum 1)])
          ([] ++ [.fixnum 5] ++ [.procedure (.fixnum 0) (.fixnum 2) (.bytecode 0) .undef])
          [] 0 0 .null))
        (([] : List Sexp).length + [Sexp.fixnum 5].length + 1)
        (sexp_compile_error "not enough args"
          (sexp_list2 (.procedure (.fixnum 0) (.fixnum 2) (.bytecode 0) .undef)
            (.fixnum ([Sexp.fixnum 5].length : Nat)))) :=
  (C16_call_arity_check sample_rt (codes_heap [[.byte .OP_CALL] ++ word_slots (.fixnum 1)])
    [] [.fixnum 5] [] 0 0 .null _ 0 2 0 .undef _ _ _ _ rfl rfl (by rfl) (by rfl)
    (by decide)).1.2 (by decide)

/-! ## The virtual machine: errors and jumps -/

theorem car_raise_step (rt : Runtime) (h : Heap) (B : List Sexp) (v : Sexp)
    (st : List (Option Sexp)) (b p : Nat) (c hf hn hv : Sexp) (ha : Nat)
    (hnp : sexp_pairp v = false)
    (hh : rt.exception_handler = .procedure hf hn (.bytecode ha) hv)
    (hop : read_byte h b (p : Int) = .ok .OP_CAR)
    (hroom : B.length + 5 ≤ INIT_STACK_SIZE)
    (hseg : Seg st 0 (B ++ [v])) :
    ∃ st1, vm_step rt
        { heap := h, stack := st, top := ((B.length + 1 : Nat) : Int), bc := b, ip := (p : Int),
          cp := c }
      = .ok (.next
        { heap := h, stack := st1, top := ((B.length + 1 + 4 : Nat) : Int), bc := ha, ip := 0,
          cp := hv })
      ∧ slot st1 (B.length + 1) = some (sexp_compile_error "car: not a pair" (sexp_list1 v)) := by
  have hlast := seg_last hseg
  have e1 : ((B.length + 1 : Nat) : Int) - 1 = ((B.length : Nat) : Int) := by omega
  have hget := stack_get_slot hlast (by omega : B.length < INIT_STACK_SIZE)
  obtain ⟨st1, hr, hs, _⟩ := sexp_raise_ok rt h st (B.length + 1) b ((p : Int) + 1) c
    "car: not a pair" (sexp_list1 v) hf hn hv ha hh (by omega) (by omega)
  refine ⟨st1, ?_, hs⟩
  unfold vm_step
  simp only [hop, ok_bind, VM.arg, e1, hget]
  split
  · cases hnp
  · exact hr

/-- C21 (amended): for every value `v` that is not a pair, `CAR` with `v` on top
of the stack raises the Exception `sexp_raise` builds: its kind is the
symbol `compile-error`, its message is "car: not a pair" and its irritants
are the list `(v)`.  The exception is pushed above `v` and the error handler
is entered. -/
theorem C21_car_of_non_pair_raises (rt : Runtime) (h : Heap) (B : List Sexp) (v : Sexp)
    (G : List (Option Sexp)) (b p : Nat) (c hf hn hv : Sexp) (ha : Nat)
    (hnp : sexp_pairp v = false)
    (hh : rt.exception_handler = .procedure hf hn (.bytecode ha) hv)
    (hop : read_byte h b (p : Int) = .ok .OP_CAR)
    (hroom : B.length + 5 ≤ INIT_STACK_SIZE) :
    Raised rt (vm_step rt (vm_state h (B ++ [v]) G b p c)) (B.length + 1)
      (sexp_make_exception (.symbol "compile-error") (.string "car: not a pair")
        (sexp_list1 v)) := by
  rw [vm_state_eq h _ G b p c (B.length + 1)
    (by simp only [List.length_append, List.length_cons, List.length_nil])]
  obtain ⟨st1, hs, hslot⟩ := car_raise_step rt h B v _ b p c hf hn hv ha hnp hh hop hroom
    (seg_of_stack _ G)
  refine ⟨_, hs, rfl, hslot, ?_, rfl⟩
  rw [hh]
  rfl

theorem C21_car_of_non_pair_raises_witness :
    Raised sample_rt (vm_step sample_rt (vm_state (codes_heap [[.byte .OP_CAR]])
        ([] ++ [.null]) [] 0 0 .null)) (([] : List Sexp).length + 1)
      (sexp_make_exception (.symbol "compile-error") (.string "car: not a pair")
        (sexp_list1 .null)) :=
  C21_car_of_non_pair_raises sample_rt (codes_heap [[.byte .OP_CAR]]) [] .null [] 0 0 .null
    _ _ _ _ rfl rfl (by rfl) (by decide)

/-- C21 (counterexample): `CAR` of the empty list does not raise an Exception of
kind `type-error`, whatever its message and irritants. -/
theorem C21_car_exception_is_not_type_error :
    ¬ ∃ msg irritants, Raised sample_rt
        (vm_step sample_rt (vm_state (codes_heap [[.byte .OP_CAR]]) [.null] [] 0 0 .null)) 1
        (sexp_make_exception (.symbol "type-error") msg irritants) := by
  rintro ⟨msg, irritants, m1, hstep, _, hslot, _⟩
  obtain ⟨st1, hs, hslot1⟩ := car_raise_step sample_rt (codes_heap [[.byte .OP_CAR]]) [] .null
    ([Sexp.null].map some ++ []) 0 0 .null _ _ _ _ rfl rfl (by rfl) (by decide)
    (seg_of_stack [.null] [])
  have hst : vm_state (codes_heap [[.byte .OP_CAR]]) [.null] [] 0 0 .null
      = { heap := codes_heap [[.byte .OP_CAR]], stack := [Sexp.null].map some ++ [],
          top := ((([] : List Sexp).length + 1 : Nat) : Int), bc := 0, ip := ((0 : Nat) : Int),
          cp := .null } := rfl
  rw [hst, hs] at hstep
  injection hstep with hstep
  injection hstep with hstep
  subst hstep
  simp only [List.length_nil, Nat.zero_add] at hslot1
  rw [hslot1] at hslot
  simp only [sexp_compile_error, sexp_make_exception, the_compile_error_symbol, Option.some.injEq,
    Sexp.exception.injEq, Sexp.symbol.injEq] at hslot
  exact absurd hslot.1 (by decide)

/-- C22: `PUSH` with the stack full (`top = INIT_STACK_SIZE`) does not raise: the
store to `stack[top]` is outside the stack.  The guard of `CALL` is taken in
that state, but `sexp_raise` itself stores the exception at `stack[top]`. -/
theorem C22_push_on_full_stack_not_raised (rt : Runtime) (h : Heap) (st : List (Option Sexp))
    (b p : Nat) (c w : Sexp) :
    (read_byte h b (p : Int) = .ok .OP_PUSH → read_word h b ((p : Int) + 1) 0 = .ok w →
      vm_step rt
          { heap := h, stack := st, top := (INIT_STACK_SIZE : Int), bc := b, ip := (p : Int),
            cp := c }
        = .error .fault)
    ∧ (read_byte h b (p : Int) = .ok .OP_CALL →
      vm_step rt
          { heap := h, stack := st, top := (INIT_STACK_SIZE : Int), bc := b, ip := (p : Int),
            cp := c }
        = .error .fault) := by
  have hno : ¬ ((0 : Int) ≤ (INIT_STACK_SIZE : Int)
      ∧ ((INIT_STACK_SIZE : Nat) : Int) < (INIT_STACK_SIZE : Nat)) := by omega
  have hset : ∀ x, stack_set st (INIT_STACK_SIZE : Int) x = .error .fault := by
    intro x
    unfold stack_set
    rw [if_neg hno]
  constructor
  · intro hop hw
    unfold vm_step
    simp only [hop, ok_bind, hw, VM.push, hset]
    rfl
  · intro hop
    have hge : ((INIT_STACK_SIZE : Nat) : Int) ≥ (INIT_STACK_SIZE : Nat) := le_refl _
    unfold vm_step
    simp only [hop, ok_bind, hge, if_true, sexp_raise, hset]
    rfl

theorem C22_push_on_full_stack_not_raised_witness :
    vm_step sample_rt
        { heap := codes_heap [[.byte .OP_PUSH] ++ word_slots (.fixnum 1)], stack := [],
          top := (INIT_STACK_SIZE : Int), bc := 0, ip := ((0 : Nat) : Int), cp := .null }
      = .error .fault :=
  (C22_push_on_full_stack_not_raised sample_rt
    (codes_heap [[.byte .OP_PUSH] ++ word_slots (.fixnum 1)]) [] 0 0 .null (.fixnum 1)).1
    (by rfl) (by rfl)

/-- C29: `JUMP_UNLESS` pops the top of the stack.  When the value is not false
the instruction pointer is advanced by one byte only (`ip++`), so execution
continues at the second byte of the operand word, seven bytes before the
first byte after the operand; when the value is false execution continues at
the operand address plus the stored distance. -/
theorem C29_jump_unless_true_advances_one_byte (rt : Runtime) (h : Heap) (B : List Sexp)
    (v : Sexp) (G : List (Option Sexp)) (b p : Nat) (c : Sexp)
    (hop : read_byte h b (p : Int) = .ok .OP_JUMP_UNLESS)
    (hroom : B.length + 1 ≤ INIT_STACK_SIZE) :
    (sexp_eq v .sfalse = false →
      vm_step rt (vm_state h (B ++ [v]) G b p c)
        = .ok (.next (vm_state h B (some v :: G) b (p + 2) c)))
    ∧ (∀ d : Int, sexp_eq v .sfalse = true → read_word h b ((p : Int) + 1) 0 = .ok (.raw d) →
      vm_step rt (vm_state h (B ++ [v]) G b p c)
        = .ok (.next
          { heap := h, stack := (B ++ [v]).map some ++ G, top := (B.length : Int), bc := b,
            ip := (p : Int) + 1 + d, cp := c })) := by
  have hlast := seg_last (seg_of_stack (B ++ [v]) G)
  have e1 : ((B.length + 1 : Nat) : Int) - 1 = ((B.length : Nat) : Int) := by omega
  have hget := stack_get_slot hlast (by omega : B.length < INIT_STACK_SIZE)
  rw [vm_state_eq h _ G b p c (B.length + 1)
    (by simp only [List.length_append, List.length_cons, List.length_nil])]
  constructor
  · intro hv
    unfold vm_step
    have e2 : (p : Int) + 1 + 1 = ((p + 2 : Nat) : Int) := by omega
    simp only [hop, ok_bind, e1, hget, hv, Bool.false_eq_true, if_false, pure, Except.pure, e2]
    unfold vm_state
    simp only [List.map_append, List.map_cons, List.map_nil, List.append_assoc,
      List.singleton_append]
  · intro d hv hw
    unfold vm_step
    simp only [hop, ok_bind, e1, hget, hv, if_true, hw, word_raw, pure, Except.pure]

theorem C29_jump_unless_true_advances_one_byte_witness :
    vm_step sample_rt (vm_state (codes_heap [[.byte .OP_JUMP_UNLESS] ++ word_slots (.raw 9)])
        ([] ++ [.strue]) [] 0 0 .null)
      = .ok (.next (vm_state (codes_heap [[.byte .OP_JUMP_UNLESS] ++ word_slots (.raw 9)])
          [] (some .strue :: []) 0 (0 + 2) .null)) :=
  (C29_jump_unless_true_advances_one_byte sample_rt
    (codes_heap [[.byte .OP_JUMP_UNLESS] ++ word_slots (.raw 9)]) [] .strue [] 0 0 .null
    (by rfl) (by decide)).1 (by rfl)

/-! ## The compiler: literals, labels and evaluation order -/

theorem write_slots_spec {bc new bc1 : List Slot} {pos : Nat}
    (h : write_slots bc pos new = .ok bc1) :
    bc1.length = bc.length ∧ (∀ j, j < pos → bc1[j]? = bc[j]?)
      ∧ (∀ j, j < new.length → bc1[pos + j]? = new[j]?)
      ∧ (∀ j, pos + new.length ≤ j → bc1[j]? = bc[j]?) := by
  unfold write_slots at h
  split at h
  · next hle =>
    injection h with h
    subst h
    refine ⟨?_, fun j hj => ?_, fun j hj => ?_, fun j hj => ?_⟩
    · simp only [List.length_append, List.length_take, List.length_drop]
      omega
    · rw [List.append_assoc, List.getElem?_append_left (by simp; omega)]
      rw [List.getElem?_take_of_lt hj]
    · rw [List.append_assoc, List.getElem?_append_right (by simp)]
      simp only [List.length_take]
      have e : pos + j - min pos bc.length = j := by omega
      rw [e, List.getElem?_append_left hj]
    · rw [List.getElem?_append_right (by simp; omega)]
      simp only [List.length_append, List.length_take, List.getElem?_drop]
      congr 1
      omega
  · cases h

theorem write_slots_ok (bc new : List Slot) (pos : Nat) (hroom : pos + new.length ≤ bc.length) :
    ∃ bc1, write_slots bc pos new = .ok bc1 := by
  unfold write_slots
  rw [if_pos hroom]
  exact ⟨_, rfl⟩

theorem emit_ok (op : Op) (c : Context) (hroom : c.pos + 1 ≤ c.bc.length) :
    ∃ c1, emit op c = .ok c1 ∧ c1.depth = c.depth ∧ c1.pos = c.pos + 1
      ∧ c1.bc.length = c.bc.length ∧ c1.bc[c.pos]? = some (.byte op)
      ∧ (∀ j, j < c.pos → c1.bc[j]? = c.bc[j]?) := by
  have hexp : expand_bcode c 1 = c := by
    unfold expand_bcode
    rw [if_neg (by omega)]
  obtain ⟨bc1, hw⟩ := write_slots_ok c.bc [.byte op] c.pos (by simpa using hroom)
  obtain ⟨hl, hlow, hnew, _⟩ := write_slots_spec hw
  unfold emit
  simp only [hexp, hw, ok_bind]
  exact ⟨_, rfl, rfl, rfl, hl, hnew 0 (by simp), hlow⟩

theorem emit_word_ok (w : Sexp) (c : Context) (hroom : c.pos + sizeof_sexp ≤ c.bc.length) :
    ∃ c1, emit_word w c = .ok c1 ∧ c1.depth = c.depth ∧ c1.pos = c.pos + sizeof_sexp
      ∧ c1.bc.length = c.bc.length ∧ c1.bc[c.pos]? = some (.word w)
      ∧ (∀ j, j < c.pos → c1.bc[j]? = c.bc[j]?) := by
  have hexp : expand_bcode c sizeof_sexp = c := by
    unfold expand_bcode
    rw [if_neg (by omega)]
  have hlen : (word_slots w).length = sizeof_sexp := by
    simp [word_slots, sizeof_sexp]
  obtain ⟨bc1, hw⟩ := write_slots_ok c.bc (word_slots w) c.pos (by omega)
  obtain ⟨hl, hlow, hnew, _⟩ := write_slots_spec hw
  unfold emit_word
  simp only [hexp, hw, ok_bind]
  exact ⟨_, rfl, rfl, rfl, hl, hnew 0 (by rw [hlen]; decide), hlow⟩

/-- C30: `compile_one` of a Lit node, with room for the instruction in the
buffer, emits `PUSH v` (the cursor advances by one byte and one word) and
leaves the simulated depth of the context unchanged; so does `compile_one` of
a self-evaluating value. -/
theorem C30_literal_leaves_depth_unchanged (v : Sexp) (c : Context) (h : Heap)
    (hroom : c.pos + 1 + sizeof_sexp ≤ c.bc.length) :
    ∃ c1, compile_one (.lit v) c h = .ok (c1, h) ∧ c1.depth = c.depth
      ∧ c1.pos = c.pos + 1 + sizeof_sexp
      ∧ c1.bc[c.pos]? = some (.byte .OP_PUSH) ∧ c1.bc[c.pos + 1]? = some (.word v)
      ∧ (self_evaluating v = true → compile_one v c h = .ok (c1, h)) := by
  obtain ⟨c1, h1, d1, p1, l1, b1, _⟩ := emit_ok .OP_PUSH c (by omega)
  obtain ⟨c2, h2, d2, p2, l2, b2, lo2⟩ := emit_word_ok v c1 (by omega)
  have hlit : compile_lit v c h = .ok (c2, h) := by
    unfold compile_lit emit_push
    simp only [h1, h2, ok_bind]
    rfl
  have hb : c2.bc[c.pos]? = some (.byte .OP_PUSH) := by
    rw [lo2 c.pos (by omega), b1]
  refine ⟨c2, ?_, by rw [d2, d1], by rw [p2, p1], hb, by rw [← p1]; exact b2, ?_⟩
  · obtain ⟨k, hk⟩ : ∃ k, ast_budget h (.lit v) = k + 1 := by
      refine ⟨ast_budget h (.lit v) - 1, ?_⟩
      unfold ast_budget ast_size
      omega
    unfold compile_one
    rw [hk]
    exact hlit
  · intro hv
    rw [compile_one_self_evaluating v c h hv]
    exact hlit

theorem C30_literal_leaves_depth_unchanged_witness :
    ∃ c1, compile_one (.lit (.fixnum 42)) sexp_new_context (codes_heap []) = .ok (c1, codes_heap [])
      ∧ c1.depth = sexp_new_context.depth
      ∧ c1.pos = sexp_new_context.pos + 1 + sizeof_sexp
      ∧ c1.bc[sexp_new_context.pos]? = some (.byte .OP_PUSH)
      ∧ c1.bc[sexp_new_context.pos + 1]? = some (.word (.fixnum 42))
      ∧ (self_evaluating (.fixnum 42) = true →
          compile_one (.fixnum 42) sexp_new_context (codes_heap []) = .ok (c1, codes_heap [])) :=
  C30_literal_leaves_depth_unchanged (.fixnum 42) sexp_new_context (codes_heap []) (by decide)

/-- C23: `sexp_context_patch_label` stores the distance `pos - label` in the word
with index `label` of the buffer, that is at byte offset `label * sizeof(sexp)`,
and leaves the byte at offset `label` as it was.  For `Cnd(#t, 1, 2)` compiled
in a fresh context the second store lies outside the 128-byte buffer; in a
256-byte buffer the operands of `JUMP_UNLESS` (offset 10) and `JUMP`
(offset 28) are never written and the distances 26 and 17 are stored at the
offsets 80 and 224. -/
theorem C23_patch_label_indexes_words :
    (∀ (c c1 : Context) (label : Nat), 1 ≤ label → sexp_context_patch_label c label = .ok c1 →
      c1.bc[label]? = c.bc[label]?
        ∧ c1.bc[label * sizeof_sexp]? = some (.word (.raw ((c.pos : Int) - label))))
    ∧ compile_one (.cnd .strue (.fixnum 1) (.fixnum 2)) sexp_new_context (codes_heap [])
        = .error .fault
    ∧ (compile_one (.cnd .strue (.fixnum 1) (.fixnum 2))
          { sexp_new_context with bc := List.replicate 256 .junk } (codes_heap [])).map
          (fun r => (r.1.pos, r.1.bc[10]?, r.1.bc[28]?, r.1.bc[80]?, r.1.bc[224]?))
        = .ok (45, some .junk, some .junk, some (.word (.raw 26)), some (.word (.raw 17))) := by
  refine ⟨?_, by decide!, by decide!⟩
  intro c c1 label hl hp
  unfold sexp_context_patch_label at hp
  cases hw : write_slots c.bc (label * sizeof_sexp) (word_slots (.raw ((c.pos : Int) - label))) with
  | error e =>
    rw [hw] at hp
    cases hp
  | ok bc1 =>
    rw [hw] at hp
    injection hp with hp
    subst hp
    obtain ⟨_, hlow, hnew, _⟩ := write_slots_spec hw
    refine ⟨hlow label (by unfold sizeof_sexp; omega), ?_⟩
    exact hnew 0 (by simp [word_slots, sizeof_sexp])

theorem C23_patch_label_indexes_words_witness :
    patched_context.bc[2]? = sexp_new_context.bc[2]?
      ∧ patched_context.bc[2 * sizeof_sexp]?
        = some (.word (.raw ((sexp_new_context.pos : Int) - (2 : Nat)))) :=
  C23_patch_label_indexes_words.1 sexp_new_context patched_context 2 (by decide) (by decide!)

theorem sexp_revappend_list (l acc : List Sexp) :
    sexp_revappend (sexp_list l) (sexp_list acc) = sexp_list (l.reverse ++ acc) := by
  induction l generalizing acc with
  | nil => rfl
  | cons x xs ih =>
    have := ih (x :: acc)
    simp only [sexp_list, sexp_revappend, List.reverse_cons, List.append_assoc,
      List.singleton_append] at this ⊢
    exact this

theorem sexp_reverse_list (l : List Sexp) : sexp_reverse (sexp_list l) = sexp_list l.reverse := by
  have := sexp_revappend_list l []
  simp only [List.append_nil] at this
  exact this

theorem sexp_length_list (l : List Sexp) : sexp_length (sexp_list l) = l.length := by
  induction l with
  | nil => rfl
  | cons x xs ih => simp only [sexp_list, sexp_length, ih, List.length_cons]

theorem compile_args_list (rec : CRec) (l : List Sexp) (c : Context) (h : Heap) :
    compile_args rec (sexp_list l) c h = compile_each rec l c h := by
  induction l generalizing c h with
  | nil => rfl
  | cons x xs ih =>
    simp only [sexp_list, compile_args, compile_each]
    congr 1
    funext r
    exact ih r.1 r.2

theorem compile_each_append (rec : CRec) (l1 l2 : List Sexp) (c : Context) (h : Heap) :
    compile_each rec (l1 ++ l2) c h
      = (compile_each rec l1 c h >>= fun r => compile_each rec l2 r.1 r.2) := by
  induction l1 generalizing c h with
  | nil => rfl
  | cons x xs ih =>
    simp only [List.cons_append, compile_each]
    cases hx : rec x c h with
    | error e => rfl
    | ok r => exact ih r.1 r.2

theorem compile_seq_loop_list (rec : CRec) (xs : List Sexp) (x : Sexp) (c : Context) (h : Heap) :
    compile_seq_loop rec (.pair x (sexp_list xs)) (sexp_list xs) c h
      = compile_in_order rec x xs c h := by
  induction xs generalizing x c h with
  | nil => rfl
  | cons y ys ih =>
    simp only [sexp_list, compile_seq_loop, compile_in_order, sexp_car, ok_bind]
    cases hx : rec x c h with
    | error e => rfl
    | ok r =>
      cases hd : emit .OP_DROP r.1 with
      | error e => simp only [ok_bind, hd]; rfl
      | ok c1 =>
        simp only [ok_bind, hd]
        exact ih y _ _

/-- C24: for the application `(f a1 ... an)`, `compile_general_app` emits the
code of `an, ..., a1`, then the code of `f`, then one call instruction with
operand `n`; for a sequence `x1 x2 ... xk`, `compile_seq` emits the code of
the elements in source order (each but the last followed by `DROP`). -/
theorem C24_app_right_to_left_seq_in_order (rec : CRec) (f x : Sexp) (args xs : List Sexp)
    (c : Context) (h : Heap) :
    compile_general_app rec (sexp_list (f :: args)) c h
        = (compile_each rec (args.reverse ++ [f]) c h >>= fun r =>
            emit_call args.length r.1 >>= fun c1 =>
              pure ({ c1 with depth := c1.depth - args.length }, r.2))
    ∧ compile_seq rec (sexp_list (x :: xs)) c h = compile_in_order rec x xs c h := by
  constructor
  · unfold compile_general_app
    simp only [sexp_list, sexp_cdr, sexp_car, ok_bind, sexp_reverse_list, sexp_length_list,
      compile_args_list, compile_each_append]
    cases ha : compile_each rec args.reverse c h with
    | error e => rfl
    | ok r =>
      simp only [ok_bind, compile_each]
      cases hf : rec f r.1 r.2 with
      | error e => rfl
      | ok r2 =>
        have hpure : (pure (r2.1, r2.2) : Except Err (Context × Heap)) = .ok (r2.1, r2.2) := rfl
        simp only [ok_bind, emit_call, hpure]
        cases htp : r2.1.tailp
        · simp only [Bool.false_eq_true, if_false, bind_assoc]
        · simp only [if_true, bind_assoc]
  · unfold compile_seq
    simp only [sexp_list, sexp_cdr, ok_bind]
    exact compile_seq_loop_list rec xs x c h

/-! ## Environments -/

theorem assq_cell_find (key : Sexp) (l : List (Sexp × Sexp)) :
    assq_cell key l = l.find? (fun c => sexp_eq c.1 key) := by
  induction l with
  | nil => rfl
  | cons c l ih =>
    unfold assq_cell
    rw [List.find?_cons]
    cases hc : sexp_eq c.1 key
    · simp only [Bool.false_eq_true, if_false, ih]
    · simp only [if_true]

theorem assq_cell_none {key : Sexp} {l : List (Sexp × Sexp)} :
    assq_cell key l = none ↔ ∀ c ∈ l, c.1 ≠ key := by
  rw [assq_cell_find, List.find?_eq_none]
  constructor
  · intro h c hc he
    exact h c hc ((sexp_eq_iff _ _).2 he)
  · intro h c hc he
    exact h c hc ((sexp_eq_iff _ _).1 he)

theorem first_cell_none {h : Heap} {key : Sexp} {i : Nat} :
    first_cell h key i = none ↔ binds h key i = false := by
  unfold first_cell binds
  cases h.envs[i]? with
  | none => simp
  | some f => simp [List.find?_eq_none]

theorem first_cell_some {h : Heap} {key : Sexp} {i : Nat} {c : Sexp × Sexp}
    (hc : first_cell h key i = some c) : c.1 = key := by
  unfold first_cell at hc
  cases hf : h.envs[i]? with
  | none => rw [hf] at hc; cases hc
  | some f =>
    rw [hf] at hc
    simp only at hc
    rw [← assq_cell_find] at hc
    exact (assq_cell_some hc).1

theorem path_det {h : Heap} {e : Nat} {ps : List Nat} (hp : Path h e ps) :
    ∀ qs, Path h e qs → ps = qs := by
  induction hp with
  | root hf hpar =>
    intro qs hq
    cases hq with
    | root _ _ => rfl
    | step hf2 hpar2 _ =>
      rw [hf] at hf2
      cases hf2
      rw [hpar] at hpar2
      cases hpar2
  | step hf hpar _ ih =>
    intro qs hq
    cases hq with
    | root hf2 hpar2 =>
      rw [hf] at hf2
      cases hf2
      rw [hpar] at hpar2
      cases hpar2
    | step hf2 hpar2 hq2 =>
      rw [hf] at hf2
      cases hf2
      rw [hpar] at hpar2
      cases hpar2
      rw [ih _ hq2]

theorem path_suffix {h : Heap} {e : Nat} {ps : List Nat} (hp : Path h e ps) :
    ∀ pre x post, ps = pre ++ x :: post → Path h x (x :: post) := by
  induction hp with
  | root hf hpar =>
    intro pre x post he
    cases pre with
    | nil =>
      simp only [List.nil_append, List.cons.injEq] at he
      obtain ⟨rfl, rfl⟩ := he
      exact .root hf hpar
    | cons a pre =>
      simp only [List.cons_append, List.cons.injEq] at he
      have := congrArg List.length he.2
      simp at this
      omega
  | step hf hpar hp2 ih =>
    intro pre x post he
    cases pre with
    | nil =>
      simp only [List.nil_append, List.cons.injEq] at he
      obtain ⟨rfl, rfl⟩ := he
      exact .step hf hpar hp2
    | cons a pre =>
      simp only [List.cons_append, List.cons.injEq] at he
      exact ih pre x post he.2

theorem path_nodup {h : Heap} {e : Nat} {ps : List Nat} (hp : Path h e ps) : ps.Nodup := by
  induction hp with
  | root _ _ => exact List.nodup_singleton _
  | @step e p f ps hf hpar hp2 ih =>
    rw [List.nodup_cons]
    refine ⟨fun hmem => ?_, ih⟩
    obtain ⟨pre, post, hsplit⟩ := List.append_of_mem hmem
    have h1 := path_suffix hp2 pre e post hsplit
    have h2 := path_det h1 _ (Path.step hf hpar hp2)
    simp only [List.cons.injEq, true_and] at h2
    rw [h2] at hsplit
    have := congrArg List.length hsplit
    simp at this
    omega

theorem path_lt {h : Heap} {e : Nat} {ps : List Nat} (hp : Path h e ps) :
    ∀ x ∈ ps, x < h.envs.length := by
  induction hp with
  | @root e f hf _ =>
    intro x hx
    simp only [List.mem_singleton] at hx
    subst hx
    by_contra hge
    rw [List.getElem?_eq_none (by omega)] at hf
    cases hf
  | @step e p f ps hf _ _ ih =>
    intro x hx
    rcases List.mem_cons.1 hx with rfl | hx
    · by_contra hge
      rw [List.getElem?_eq_none (by omega)] at hf
      cases hf
    · exact ih x hx

theorem path_length_le {h : Heap} {e : Nat} {ps : List Nat} (hp : Path h e ps) :
    ps.length ≤ h.envs.length := by
  have hsub : ps ⊆ List.range h.envs.length := fun x hx => List.mem_range.2 (path_lt hp x hx)
  have := ((path_nodup hp).subperm hsub).length_le
  rwa [List.length_range] at this

theorem env_cell_loop_path {h : Heap} {e : Nat} {ps : List Nat} (key : Sexp)
    (hp : Path h e ps) :
    ∀ fuel, ps.length ≤ fuel → env_cell_loop h.envs fuel e key = .ok (lookup_path h key ps) := by
  induction hp with
  | @root e f hf hpar =>
    intro fuel hfuel
    obtain ⟨n, rfl⟩ : ∃ n, fuel = n + 1 := ⟨fuel - 1, by simp at hfuel; omega⟩
    unfold env_cell_loop
    simp only [hf, lookup_path, first_cell, ← assq_cell_find, hpar]
    cases assq_cell key f.bindings <;> rfl
  | @step e p f ps hf hpar hp2 ih =>
    intro fuel hfuel
    obtain ⟨n, rfl⟩ : ∃ n, fuel = n + 1 := ⟨fuel - 1, by simp at hfuel; omega⟩
    unfold env_cell_loop
    simp only [hf, lookup_path, first_cell, ← assq_cell_find, hpar]
    cases assq_cell key f.bindings with
    | some c => rfl
    | none => exact ih n (by simp at hfuel; omega)

theorem env_cell_path {h : Heap} {e : Nat} {ps : List Nat} (key : Sexp) (hp : Path h e ps) :
    env_cell h e key = .ok (lookup_path h key ps) :=
  env_cell_loop_path key hp _ (path_length_le hp)

theorem lookup_path_none {h : Heap} {key : Sexp} {ps : List Nat} :
    lookup_path h key ps = none ↔ ∀ i ∈ ps, first_cell h key i = none := by
  induction ps with
  | nil => simp [lookup_path]
  | cons i ps ih =>
    unfold lookup_path
    cases hc : first_cell h key i with
    | some c =>
      simp only [List.mem_cons, forall_eq_or_imp, hc]
      simp
    | none =>
      simp only [List.mem_cons, forall_eq_or_imp, hc, true_and]
      exact ih

theorem lookup_path_append {h : Heap} {key : Sexp} (pre : List Nat) (i : Nat) (post : List Nat)
    (hpre : ∀ j ∈ pre, first_cell h key j = none) (c : Sexp × Sexp)
    (hc : first_cell h key i = some c) :
    lookup_path h key (pre ++ i :: post) = some c := by
  induction pre with
  | nil => simp only [List.nil_append, lookup_path, hc]
  | cons j pre ih =>
    simp only [List.cons_append, lookup_path, hpre j (List.mem_cons_self _ _)]
    exact ih (fun k hk => hpre k (List.mem_cons_of_mem _ hk))

theorem path_frame {h : Heap} {e : Nat} {ps : List Nat} (hp : Path h e ps) :
    ∀ i ∈ ps, ∃ f, h.envs[i]? = some f := by
  induction hp with
  | @root e f hf _ =>
    intro i hi
    simp only [List.mem_singleton] at hi
    subst hi
    exact ⟨f, hf⟩
  | @step e p f ps hf _ _ ih =>
    intro i hi
    rcases List.mem_cons.1 hi with rfl | hi
    · exact ⟨f, hf⟩
    · exact ih i hi

/-- C25: on the parent chain `ps` of frame `e`, `env_cell` returns the first
cell whose car is `key` in the first frame of the chain that binds `key`
(every frame before it on the chain not binding `key`), and returns none
when no frame of the chain binds `key`.  The function takes and returns no
heap: the source stores nothing. -/
theorem C25_env_cell_innermost_first (h : Heap) (e : Nat) (key : Sexp) (ps : List Nat)
    (hp : Path h e ps) :
    (∀ pre i post, ps = pre ++ i :: post → (∀ j ∈ pre, binds h key j = false) →
      binds h key i = true →
      ∃ c, first_cell h key i = some c ∧ c.1 = key ∧ env_cell h e key = .ok (some c))
    ∧ ((∀ j ∈ ps, binds h key j = false) → env_cell h e key = .ok none) := by
  rw [env_cell_path key hp]
  constructor
  · intro pre i post hsplit hpre hi
    have hpre1 : ∀ j ∈ pre, first_cell h key j = none :=
      fun j hj => first_cell_none.2 (hpre j hj)
    cases hc : first_cell h key i with
    | none =>
      rw [first_cell_none.1 hc] at hi
      cases hi
    | some c =>
      refine ⟨c, rfl, first_cell_some hc, ?_⟩
      rw [hsplit, lookup_path_append pre i post hpre1 c hc]
  · intro hall
    have : lookup_path h key ps = none := by
      rw [lookup_path_none]
      exact fun i hi => first_cell_none.2 (hall i hi)
    rw [this]

theorem C25_env_cell_innermost_first_witness :
    ∃ c, first_cell two_frames (.symbol "x") 0 = some c ∧ c.1 = .symbol "x"
      ∧ env_cell two_frames 1 (.symbol "x") = .ok (some c) :=
  (C25_env_cell_innermost_first two_frames 1 (.symbol "x") [1, 0]
    (.step (p := 0) rfl rfl (.root rfl rfl))).1 [1] 0 [] rfl (by decide) (by decide)

theorem env_root_loop_path {h : Heap} {e : Nat} {ps : List Nat} (hp : Path h e ps) :
    ∀ fuel, ps.length ≤ fuel → ∃ r f, ps.getLast? = some r ∧ h.envs[r]? = some f
      ∧ f.parent = none ∧ env_root_loop h.envs fuel e = .ok r := by
  induction hp with
  | @root e f hf hpar =>
    intro fuel hfuel
    obtain ⟨n, rfl⟩ : ∃ n, fuel = n + 1 := ⟨fuel - 1, by simp at hfuel; omega⟩
    refine ⟨e, f, rfl, hf, hpar, ?_⟩
    unfold env_root_loop
    simp only [hf, hpar]
  | @step e p f ps hf hpar hp2 ih =>
    intro fuel hfuel
    obtain ⟨n, rfl⟩ : ∃ n, fuel = n + 1 := ⟨fuel - 1, by simp at hfuel; omega⟩
    obtain ⟨r, f1, hlast, hf1, hpar1, hloop⟩ := ih n (by simp at hfuel; omega)
    refine ⟨r, f1, ?_, hf1, hpar1, ?_⟩
    · cases hp2 with
      | root _ _ => exact hlast
      | step _ _ _ => exact hlast
    · unfold env_root_loop
      simp only [hf, hpar]
      exact hloop

theorem path_of_parents {h h1 : Heap} {e : Nat} {ps : List Nat} (hp : Path h e ps)
    (hpar : ∀ (i : Nat) (f : Frame), h.envs[i]? = some f →
      ∃ f1 : Frame, h1.envs[i]? = some f1 ∧ f1.parent = f.parent) :
    Path h1 e ps := by
  induction hp with
  | root hf hp0 =>
    obtain ⟨f1, hf1, he⟩ := hpar _ _ hf
    exact .root hf1 (by rw [he, hp0])
  | step hf hp0 _ ih =>
    obtain ⟨f1, hf1, he⟩ := hpar _ _ hf
    exact .step hf1 (by rw [he, hp0]) ih

theorem set_frame_parents {h : Heap} {r : Nat} {f g : Frame} (hf : h.envs[r]? = some f)
    (hg : g.parent = f.parent) :
    ∀ (i : Nat) (f0 : Frame), h.envs[i]? = some f0 →
      ∃ f1 : Frame, ({ h with envs := h.envs.set r g } : Heap).envs[i]? = some f1
        ∧ f1.parent = f0.parent := by
  intro i f0 hf0
  have hlt : r < h.envs.length := by
    by_contra hge
    rw [List.getElem?_eq_none (by omega)] at hf
    cases hf
  by_cases hi : r = i
  · subst hi
    rw [hf] at hf0
    cases hf0
    exact ⟨g, by simp [List.getElem?_set, hlt], hg⟩
  · exact ⟨f0, by simp only [List.getElem?_set_ne hi]; exact hf0, rfl⟩

theorem first_cell_set_ne {h : Heap} {r i : Nat} {g : Frame} (key : Sexp) (hi : r ≠ i) :
    first_cell { h with envs := h.envs.set r g } key i = first_cell h key i := by
  unfold first_cell
  simp only [List.getElem?_set_ne hi]

theorem first_cell_set_eq {h : Heap} {r : Nat} {f g : Frame} (key : Sexp)
    (hf : h.envs[r]? = some f) :
    first_cell { h with envs := h.envs.set r g } key r
      = g.bindings.find? (fun c => sexp_eq c.1 key) := by
  have hlt : r < h.envs.length := by
    by_contra hge
    rw [List.getElem?_eq_none (by omega)] at hf
    cases hf
  unfold first_cell
  simp [List.getElem?_set, hlt]

theorem lookup_path_pushed {h : Heap} {r : Nat} {f : Frame} {key d : Sexp}
    (hf : h.envs[r]? = some f) :
    ∀ ps : List Nat, r ∈ ps → lookup_path h key ps = none →
      lookup_path { h with envs := h.envs.set r { f with bindings := (key, d) :: f.bindings } }
        key ps = some (key, d) := by
  intro ps
  induction ps with
  | nil => intro hr; cases hr
  | cons i ps ih =>
    intro hr hnone
    have hall := lookup_path_none.1 hnone
    by_cases hi : r = i
    · subst hi
      unfold lookup_path
      rw [first_cell_set_eq key hf]
      simp [List.find?_cons]
    · unfold lookup_path
      rw [first_cell_set_ne key hi, hall i (List.mem_cons_self _ _)]
      refine ih ?_ (lookup_path_none.2 (fun j hj => hall j (List.mem_cons_of_mem _ hj)))
      rcases List.mem_cons.1 hr with h1 | h1
      · exact absurd h1 hi
      · exact h1

theorem env_cell_create_found {h : Heap} {e : Nat} {key d : Sexp} {c : Sexp × Sexp}
    (hc : env_cell h e key = .ok (some c)) : env_cell_create h e key d = .ok (c, h) := by
  unfold env_cell_create
  simp only [hc, ok_bind]
  rfl

/-- C26: on the parent chain `ps` of frame `e`, `env_cell_create` returns the
cell of `env_cell` and the heap as it was when some frame binds `key`;
otherwise it returns the new cell `(key . default)` and the heap in which that
cell is prepended to the bindings of the root frame (the last frame of `ps`),
every other frame being as it was.  In both cases `env_cell` and
`env_cell_create` with any default return that cell afterwards, without
changing the heap. -/
theorem C26_env_cell_create_in_root (h : Heap) (e : Nat) (key d : Sexp) (ps : List Nat)
    (hp : Path h e ps) :
    ∃ cell h1, env_cell_create h e key d = .ok (cell, h1)
      ∧ (∀ c, env_cell h e key = .ok (some c) → cell = c ∧ h1 = h)
      ∧ (env_cell h e key = .ok none → cell = (key, d) ∧ ∃ r f, ps.getLast? = some r
          ∧ h.envs[r]? = some f ∧ f.parent = none
          ∧ h1 = { h with envs := h.envs.set r { f with bindings := (key, d) :: f.bindings } })
      ∧ env_cell h1 e key = .ok (some cell)
      ∧ ∀ d2, env_cell_create h1 e key d2 = .ok (cell, h1) := by
  have hcell := env_cell_path key hp
  cases hl : lookup_path h key ps with
  | some c =>
    rw [hl] at hcell
    refine ⟨c, h, env_cell_create_found hcell, ?_, ?_, hcell, fun d2 => env_cell_create_found hcell⟩
    · intro c1 hc1
      rw [hcell] at hc1
      injection hc1 with hc1
      injection hc1 with hc1
      exact ⟨hc1, rfl⟩
    · intro hn
      rw [hcell] at hn
      injection hn with hn
      cases hn
  | none =>
    rw [hl] at hcell
    obtain ⟨r, f, hlast, hf, hpar, hroot⟩ := env_root_loop_path hp _ (path_length_le hp)
    have hpush : push_binding h.envs r (key, d)
        = h.envs.set r { f with bindings := (key, d) :: f.bindings } := by
      unfold push_binding
      rw [hf]
    have hp1 : Path { h with envs := h.envs.set r { f with bindings := (key, d) :: f.bindings } }
        e ps := path_of_parents hp (set_frame_parents hf rfl)
    have hfound := env_cell_path key hp1
    rw [lookup_path_pushed hf ps (List.mem_of_getLast?_eq_some hlast) hl] at hfound
    refine ⟨(key, d), _, ?_, ?_, ?_, hfound, fun d2 => env_cell_create_found hfound⟩
    · unfold env_cell_create env_root
      simp only [hcell, hroot, ok_bind, hpush]
      rfl
    · intro c hc
      rw [hcell] at hc
      injection hc with hc
      cases hc
    · intro _
      exact ⟨rfl, r, f, hlast, hf, hpar, rfl⟩

theorem C26_env_cell_create_in_root_witness :
    ∃ cell h1, env_cell_create two_frames 1 (.symbol "z") (.fixnum 3) = .ok (cell, h1)
      ∧ (∀ c, env_cell two_frames 1 (.symbol "z") = .ok (some c) → cell = c ∧ h1 = two_frames)
      ∧ (env_cell two_frames 1 (.symbol "z") = .ok none → cell = (.symbol "z", .fixnum 3)
          ∧ ∃ r f, [1, 0].getLast? = some r
          ∧ two_frames.envs[r]? = some f ∧ f.parent = none
          ∧ h1 = { two_frames with
                   envs := two_frames.envs.set r
                     { f with bindings := (.symbol "z", .fixnum 3) :: f.bindings } })
      ∧ env_cell h1 1 (.symbol "z") = .ok (some cell)
      ∧ ∀ d2, env_cell_create h1 1 (.symbol "z") d2 = .ok (cell, h1) :=
  C26_env_cell_create_in_root two_frames 1 (.symbol "z") (.fixnum 3) [1, 0]
    (.step (p := 0) rfl rfl (.root rfl rfl))

theorem set_cell_split (key value : Sexp) :
    ∀ (l : List (Sexp × Sexp)) (c0 : Sexp × Sexp), assq_cell key l = some c0 →
      ∃ pre c post, l = pre ++ c :: post ∧ c.1 = key ∧ (∀ x ∈ pre, x.1 ≠ key)
        ∧ set_cell key value l = pre ++ (key, value) :: post := by
  intro l
  induction l with
  | nil => intro c0 h0; cases h0
  | cons a l ih =>
    intro c0 h0
    unfold assq_cell at h0
    by_cases ha : sexp_eq a.1 key = true
    · have hk : a.1 = key := (sexp_eq_iff _ _).1 ha
      refine ⟨[], a, l, rfl, hk, fun x hx => absurd hx (List.not_mem_nil x), ?_⟩
      unfold set_cell
      rw [if_pos ha, hk]
      rfl
    · rw [if_neg ha] at h0
      obtain ⟨pre, c, post, hl, hc, hpre, hset⟩ := ih c0 h0
      refine ⟨a :: pre, c, post, by rw [hl]; rfl, hc, ?_, ?_⟩
      · intro x hx
        rcases List.mem_cons.1 hx with rfl | hx
        · exact fun he => ha ((sexp_eq_iff _ _).2 he)
        · exact hpre x hx
      · unfold set_cell
        rw [if_neg ha, hset]
        rfl

theorem assq_cell_append {key : Sexp} {pre : List (Sexp × Sexp)} (c : Sexp × Sexp)
    (post : List (Sexp × Sexp)) (hpre : ∀ x ∈ pre, x.1 ≠ key) (hc : c.1 = key) :
    assq_cell key (pre ++ c :: post) = some c := by
  induction pre with
  | nil =>
    simp only [List.nil_append, assq_cell]
    rw [if_pos ((sexp_eq_iff _ _).2 hc)]
  | cons a pre ih =>
    simp only [List.cons_append, assq_cell]
    rw [if_neg (fun he => hpre a (List.mem_cons_self _ _) ((sexp_eq_iff _ _).1 he))]
    exact ih (fun x hx => hpre x (List.mem_cons_of_mem _ hx))

theorem assq_cell_set_cell_ne {key key2 value : Sexp} (hne : key2 ≠ key) :
    ∀ l : List (Sexp × Sexp), assq_cell key2 (set_cell key value l) = assq_cell key2 l := by
  intro l
  induction l with
  | nil => rfl
  | cons a l ih =>
    unfold set_cell
    by_cases ha : sexp_eq a.1 key = true
    · have hk : a.1 = key := (sexp_eq_iff _ _).1 ha
      have hn : ¬ sexp_eq a.1 key2 = true := fun he => hne (((sexp_eq_iff _ _).1 he).symm.trans hk)
      rw [if_pos ha]
      simp only [assq_cell, if_neg hn]
    · rw [if_neg ha]
      simp only [assq_cell, ih]

theorem assq_cell_cons_other {key key2 value : Sexp} (hne : key2 ≠ key)
    (l : List (Sexp × Sexp)) : assq_cell key2 ((key, value) :: l) = assq_cell key2 l := by
  have hn : ¬ sexp_eq key key2 = true := fun he => hne ((sexp_eq_iff _ _).1 he).symm
  simp only [assq_cell, if_neg hn]

theorem env_cell_loop_set {envs : List Frame} {e : Nat} {f g : Frame} {key2 : Sexp}
    (hf : envs[e]? = some f) (hpar : g.parent = f.parent)
    (hb : assq_cell key2 g.bindings = assq_cell key2 f.bindings) :
    ∀ fuel e2, env_cell_loop (envs.set e g) fuel e2 key2 = env_cell_loop envs fuel e2 key2 := by
  have hlt : e < envs.length := by
    by_contra hge
    rw [List.getElem?_eq_none (by omega)] at hf
    cases hf
  intro fuel
  induction fuel with
  | zero => intro e2; rfl
  | succ n ih =>
    intro e2
    unfold env_cell_loop
    by_cases he : e = e2
    · subst he
      have hg : (envs.set e g)[e]? = some g := by simp [List.getElem?_set, hlt]
      simp only [hg, hf, hb, hpar]
      cases assq_cell key2 f.bindings with
      | some c => rfl
      | none =>
        cases f.parent with
        | none => rfl
        | some p => exact ih p
    · rw [List.getElem?_set_ne he]
      cases envs[e2]? with
      | none => rfl
      | some f2 =>
        simp only
        cases assq_cell key2 f2.bindings with
        | some c => rfl
        | none =>
          simp only
          cases f2.parent with
          | none => rfl
          | some p => exact ih p

theorem env_cell_first {h : Heap} {e : Nat} {f : Frame} {key : Sexp} {c : Sexp × Sexp}
    (hf : h.envs[e]? = some f) (hc : assq_cell key f.bindings = some c) :
    env_cell h e key = .ok (some c) := by
  have hlt : e < h.envs.length := by
    by_contra hge
    rw [List.getElem?_eq_none (by omega)] at hf
    cases hf
  obtain ⟨n, hn⟩ : ∃ n, h.envs.length = n + 1 := ⟨h.envs.length - 1, by omega⟩
  unfold env_cell
  rw [hn]
  unfold env_cell_loop
  simp only [hf, hc]

theorem binds_assq {h : Heap} {e : Nat} {f : Frame} {key : Sexp} (hf : h.envs[e]? = some f) :
    binds h key e = (assq_cell key f.bindings).isSome := by
  unfold binds
  rw [hf]
  simp only
  induction f.bindings with
  | nil => rfl
  | cons a l ih =>
    unfold assq_cell
    rw [List.any_cons]
    cases sexp_eq a.1 key
    · simp only [Bool.false_or, Bool.false_eq_true, if_false]
      exact ih
    · rfl

/-- C27: `env_define` on an existing frame `e` leaves a heap in which `env_cell`
from `e` returns the cell `(key . value)`, the first cell for `key` of frame
`e`.  When `e` bound `key`, the first cell for `key` is replaced in place (the
number of cells is unchanged); otherwise the cell is prepended.  The parent
of `e`, the result of `env_cell` for every other key from every frame, and
every frame other than `e` are unchanged. -/
theorem C27_env_define_innermost_frame (h : Heap) (e : Nat) (key value : Sexp) (f : Frame)
    (hf : h.envs[e]? = some f) :
    ∃ h1 f1, env_define h e key value = .ok h1 ∧ h1.envs[e]? = some f1
      ∧ f1.parent = f.parent
      ∧ env_cell h1 e key = .ok (some (key, value))
      ∧ first_cell h1 key e = some (key, value)
      ∧ (binds h key e = true → f1.bindings.length = f.bindings.length
          ∧ ∃ pre c post, f.bindings = pre ++ c :: post ∧ c.1 = key ∧ (∀ x ∈ pre, x.1 ≠ key)
            ∧ f1.bindings = pre ++ (key, value) :: post)
      ∧ (binds h key e = false → f1.bindings = (key, value) :: f.bindings)
      ∧ (∀ e2 key2, key2 ≠ key → env_cell h1 e2 key2 = env_cell h e2 key2)
      ∧ (∀ i, i ≠ e → h1.envs[i]? = h.envs[i]?) := by
  have hlt : e < h.envs.length := by
    by_contra hge
    rw [List.getElem?_eq_none (by omega)] at hf
    cases hf
  have hb := @binds_assq h e f key hf
  have key_fact : ∀ g : Frame, g.parent = f.parent →
      assq_cell key g.bindings = some (key, value) →
      (∀ key2, key2 ≠ key → assq_cell key2 g.bindings = assq_cell key2 f.bindings) →
      env_define h e key value = .ok { h with envs := h.envs.set e g } →
      (binds h key e = true → g.bindings.length = f.bindings.length
          ∧ ∃ pre c post, f.bindings = pre ++ c :: post ∧ c.1 = key ∧ (∀ x ∈ pre, x.1 ≠ key)
            ∧ g.bindings = pre ++ (key, value) :: post) →
      (binds h key e = false → g.bindings = (key, value) :: f.bindings) →
      ∃ h1 f1, env_define h e key value = .ok h1 ∧ h1.envs[e]? = some f1
      ∧ f1.parent = f.parent
      ∧ env_cell h1 e key = .ok (some (key, value))
      ∧ first_cell h1 key e = some (key, value)
      ∧ (binds h key e = true → f1.bindings.length = f.bindings.length
          ∧ ∃ pre c post, f.bindings = pre ++ c :: post ∧ c.1 = key ∧ (∀ x ∈ pre, x.1 ≠ key)
            ∧ f1.bindings = pre ++ (key, value) :: post)
      ∧ (binds h key e = false → f1.bindings = (key, value) :: f.bindings)
      ∧ (∀ e2 key2, key2 ≠ key → env_cell h1 e2 key2 = env_cell h e2 key2)
      ∧ (∀ i, i ≠ e → h1.envs[i]? = h.envs[i]?) := by
    intro g hpar hkey hother hdef hbound hfree
    have hg : ({ h with envs := h.envs.set e g } : Heap).envs[e]? = some g := by
      simp [List.getElem?_set, hlt]
    refine ⟨_, g, hdef, hg, hpar, env_cell_first hg hkey, ?_, hbound, hfree, ?_, ?_⟩
    · unfold first_cell
      rw [hg]
      simp only
      rw [← assq_cell_find, hkey]
    · intro e2 key2 hne
      unfold env_cell
      simp only [List.length_set]
      exact env_cell_loop_set hf hpar (hother key2 hne) _ e2
    · intro i hi
      simp only [List.getElem?_set_ne (Ne.symm hi)]
  cases ha : assq_cell key f.bindings with
  | some c0 =>
    rw [ha] at hb
    obtain ⟨pre, c, post, hl, hc, hpre, hset⟩ := set_cell_split key value f.bindings c0 ha
    refine key_fact { f with bindings := set_cell key value f.bindings } rfl ?_ ?_ ?_ ?_ ?_
    · simp only [hset]
      exact assq_cell_append (key, value) post hpre rfl
    · intro key2 hne
      exact assq_cell_set_cell_ne hne _
    · unfold env_define
      simp only [hf, ha]
    · intro _
      refine ⟨?_, pre, c, post, hl, hc, hpre, hset⟩
      simp only [hset]
      rw [hl]
      simp only [List.length_append, List.length_cons]
    · intro hfalse
      rw [hb] at hfalse
      cases hfalse
  | none =>
    rw [ha] at hb
    refine key_fact { f with bindings := (key, value) :: f.bindings } rfl ?_ ?_ ?_ ?_ ?_
    · simp only [assq_cell]
      rw [if_pos ((sexp_eq_iff _ _).2 rfl)]
    · intro key2 hne
      exact assq_cell_cons_other hne _
    · unfold env_define
      simp only [hf, ha]
    · intro htrue
      rw [hb] at htrue
      cases htrue
    · intro _
      rfl

theorem C27_env_define_innermost_frame_witness :
    ∃ h1 f1, env_define two_frames 1 (.symbol "y") (.fixnum 5) = .ok h1
      ∧ h1.envs[1]? = some f1
      ∧ f1.parent = some 0
      ∧ env_cell h1 1 (.symbol "y") = .ok (some (.symbol "y", .fixnum 5))
      ∧ first_cell h1 (.symbol "y") 1 = some (.symbol "y", .fixnum 5)
      ∧ (binds two_frames (.symbol "y") 1 = true →
          f1.bindings.length = [(Sexp.symbol "y", Sexp.fixnum 2)].length
          ∧ ∃ pre c post, [(Sexp.symbol "y", Sexp.fixnum 2)] = pre ++ c :: post
            ∧ c.1 = .symbol "y" ∧ (∀ x ∈ pre, x.1 ≠ .symbol "y")
            ∧ f1.bindings = pre ++ (.symbol "y", .fixnum 5) :: post)
      ∧ (binds two_frames (.symbol "y") 1 = false →
          f1.bindings = (.symbol "y", .fixnum 5) :: [(Sexp.symbol "y", Sexp.fixnum 2)])
      ∧ (∀ e2 key2, key2 ≠ .symbol "y" → env_cell h1 e2 key2 = env_cell two_frames e2 key2)
      ∧ (∀ i, i ≠ 1 → h1.envs[i]? = two_frames.envs[i]?) :=
  C27_env_define_innermost_frame two_frames 1 (.symbol "y") (.fixnum 5)
    { parent := some 0, lambda := none, bindings := [(.symbol "y", .fixnum 2)] } rfl

theorem env_define_last (h : Heap) (pre : List Frame) (f : Frame) (key v : Sexp)
    (hh : h.envs = pre ++ [f]) :
    env_define h pre.length key v = .ok { h with envs := pre ++ [frame_define f key v] } := by
  have hf : h.envs[pre.length]? = some f := by
    rw [hh]
    simp
  have hset : ∀ g : Frame, h.envs.set pre.length g = pre ++ [g] := by
    intro g
    rw [hh]
    simp
  unfold env_define frame_define
  rw [hf]
  cases ha : assq_cell key f.bindings with
  | some c => simp only [ha, hset]
  | none => simp only [ha, hset]

theorem define_core_forms_last (pre : List Frame) :
    ∀ (l : List (CoreCode × String)) (f : Frame) (h : Heap), h.envs = pre ++ [f] →
      define_core_forms pre.length l h = .ok { h with envs := pre ++ [core_frame l f] } := by
  intro l
  induction l with
  | nil =>
    intro f h hh
    unfold define_core_forms core_frame
    rw [← hh]
    rfl
  | cons a l ih =>
    intro f h hh
    obtain ⟨c, s⟩ := a
    unfold define_core_forms core_frame
    rw [env_define_last h pre f _ _ hh]
    simp only [ok_bind]
    exact ih _ _ rfl

theorem define_opcodes_last (pre : List Frame) :
    ∀ (l : List Opcode) (i : Nat) (f : Frame) (h : Heap), h.envs = pre ++ [f] →
      define_opcodes pre.length l i h = .ok { h with envs := pre ++ [opcode_frame l i f] } := by
  intro l
  induction l with
  | nil =>
    intro i f h hh
    unfold define_opcodes opcode_frame
    rw [← hh]
    rfl
  | cons o l ih =>
    intro i f h hh
    unfold define_opcodes opcode_frame
    rw [env_define_last h pre f _ _ hh]
    simp only [ok_bind]
    exact ih _ _ _ rfl

theorem make_standard_env_eq (h : Heap) :
    make_standard_env h = .ok (h.envs.length, { h with envs := h.envs ++ [standard_frame] }) := by
  unfold make_standard_env
  simp only []
  rw [define_core_forms_last h.envs core_forms _ _ rfl]
  simp only [ok_bind]
  rw [define_opcodes_last h.envs opcodes 0 _ _ rfl]
  rfl

theorem standard_core_cells : ∀ p ∈ core_forms,
    assq_cell (sexp_intern p.2) standard_frame.bindings = some (sexp_intern p.2, .core p.1) := by
  decide!

theorem standard_opcode_cells : ∀ p ∈ opcodes.enum,
    assq_cell (sexp_intern p.2.name) standard_frame.bindings
      = some (sexp_intern p.2.name, .opcode p.1) := by
  decide!

/-- C28: `make_standard_env` returns a fresh frame without parent (every frame of
the heap stays as it was) in which, for every row of the core-form table and
every row of the opcode table, `env_cell` on the interned name of the row
returns the cell whose value is that row; `define`, `set!`, `lambda`, `if`,
`begin` and `quote` resolve to their core codes. -/
theorem C28_standard_env_binds_every_entry (h : Heap) :
    ∃ h2 f, make_standard_env h = .ok (h.envs.length, h2)
      ∧ h2.envs = h.envs ++ [f] ∧ f.parent = none
      ∧ (∀ c s, (c, s) ∈ core_forms →
          env_cell h2 h.envs.length (sexp_intern s) = .ok (some (sexp_intern s, .core c)))
      ∧ (∀ i o, opcodes[i]? = some o →
          env_cell h2 h.envs.length (sexp_intern o.name)
            = .ok (some (sexp_intern o.name, .opcode i)))
      ∧ core_code h2 h.envs.length (.symbol "define") = .ok (some .CORE_DEFINE)
      ∧ core_code h2 h.envs.length (.symbol "set!") = .ok (some .CORE_SET)
      ∧ core_code h2 h.envs.length (.symbol "lambda") = .ok (some .CORE_LAMBDA)
      ∧ core_code h2 h.envs.length (.symbol "if") = .ok (some .CORE_IF)
      ∧ core_code h2 h.envs.length (.symbol "begin") = .ok (some .CORE_BEGIN)
      ∧ core_code h2 h.envs.length (.symbol "quote") = .ok (some .CORE_QUOTE) := by
  have hf : ({ h with envs := h.envs ++ [standard_frame] } : Heap).envs[h.envs.length]?
      = some standard_frame := by simp
  have hcore : ∀ c s, (c, s) ∈ core_forms →
      env_cell { h with envs := h.envs ++ [standard_frame] } h.envs.length (sexp_intern s)
        = .ok (some (sexp_intern s, .core c)) :=
    fun c s hm => env_cell_first hf (standard_core_cells (c, s) hm)
  have hcode : ∀ c s, (c, s) ∈ core_forms →
      core_code { h with envs := h.envs ++ [standard_frame] } h.envs.length (.symbol s)
        = .ok (some c) := by
    intro c s hm
    unfold core_code
    have := hcore c s hm
    unfold sexp_intern at this
    simp only [this, ok_bind]
    rfl
  refine ⟨_, standard_frame, make_standard_env_eq h, rfl, by rfl, hcore, ?_,
    hcode _ _ (by decide), hcode _ _ (by decide), hcode _ _ (by decide), hcode _ _ (by decide),
    hcode _ _ (by decide), hcode _ _ (by decide)⟩
  intro i o hio
  exact env_cell_first hf (standard_opcode_cells (i, o) (List.mk_mem_enum_iff_getElem?.2 hio))

theorem C28_standard_env_binds_every_entry_witness :
    ∃ h2, make_standard_env empty_heap = .ok (0, h2)
      ∧ env_cell h2 0 (.symbol "car") = .ok (some (.symbol "car", .opcode 0)) := by
  obtain ⟨h2, f, h1, _, _, _, hop, _⟩ := C28_standard_env_binds_every_entry empty_heap
  exact ⟨h2, h1, hop 0 _ rfl⟩

/-! ## The free-variable pass: invariants -/

theorem getElem?_of_length {α : Type} {l l1 : List α} {a : Nat} {x : α}
    (hl : l1.length = l.length) (hx : l[a]? = some x) : ∃ y, l1[a]? = some y := by
  have hlt : a < l.length := by
    by_contra hge
    rw [List.getElem?_eq_none (by omega)] at hx
    cases hx
  exact ⟨l1[a], List.getElem?_eq_getElem (by omega)⟩

theorem SameLams.same_refl (h : Heap) : SameLams h h :=
  ⟨rfl, fun a n n1 h1 h2 => by rw [h1] at h2; cases h2; exact ⟨rfl, rfl⟩⟩

theorem SameLams.same_symm {h h1 : Heap} (hs : SameLams h h1) : SameLams h1 h :=
  ⟨hs.1.symm, fun a n n1 h1 h2 => by
    obtain ⟨hb, hp⟩ := hs.2 a n1 n h2 h1
    exact ⟨hb.symm, hp.symm⟩⟩

theorem SameLams.same_trans {h h1 h2 : Heap} (hs : SameLams h h1) (hs2 : SameLams h1 h2) :
    SameLams h h2 :=
  ⟨hs2.1.trans hs.1, fun a n n2 hn hn2 => by
    obtain ⟨n1, hn1⟩ := getElem?_of_length hs.1 hn
    obtain ⟨hb, hp⟩ := hs.2 a n n1 hn hn1
    obtain ⟨hb2, hp2⟩ := hs2.2 a n1 n2 hn1 hn2
    exact ⟨hb2.trans hb, hp2.trans hp⟩⟩

theorem Occ.occ_same {h h1 : Heap} (hs : SameLams h h1) {y x : Sexp} (ho : Occ h y x) :
    Occ h1 y x := by
  induction ho with
  | refl => exact .refl _
  | elem _ ih => exact .elem ih
  | rest _ ih => exact .rest ih
  | test _ ih => exact .test ih
  | pass _ ih => exact .pass ih
  | fail _ ih => exact .fail ih
  | var _ ih => exact .var ih
  | value _ ih => exact .value ih
  | seq _ ih => exact .seq ih
  | body hn hb _ ih =>
    obtain ⟨n1, hn1⟩ := getElem?_of_length hs.1 hn
    exact .body hn1 ((hs.2 _ _ _ hn hn1).1.trans hb) ih

theorem Collected.coll_same {h h1 : Heap} (hs : SameLams h h1) {x fv : Sexp}
    (hc : Collected h x fv) : Collected h1 x fv :=
  fun n l hl ho => hc n l hl (ho.occ_same hs.same_symm)

theorem GoodNode.good_same {h h1 : Heap} (hs : SameLams h h1) {node : LamNode}
    (hg : GoodNode h node) : GoodNode h1 node :=
  ⟨hg.1, fun b hb => (hg.2 b hb).coll_same hs⟩

theorem ParamsOk.params_same {h h1 : Heap} (hs : SameLams h h1) (hp : ParamsOk h) :
    ParamsOk h1 := by
  intro node1 hmem
  obtain ⟨a, hlt, hget⟩ := List.getElem_of_mem hmem
  have h1 : h1.lams[a]? = some node1 := by rw [List.getElem?_eq_getElem hlt, hget]
  obtain ⟨node, hn⟩ := getElem?_of_length hs.1.symm h1
  rw [(hs.2 a node node1 hn h1).2]
  exact hp node (List.getElem?_mem hn)

theorem Kept.kept_refl (h : Heap) : Kept h h :=
  ⟨SameLams.same_refl h, fun _ _ hn => Or.inl hn⟩

theorem Kept.kept_trans {h h1 h2 : Heap} (hk : Kept h h1) (hk2 : Kept h1 h2) : Kept h h2 := by
  refine ⟨hk.1.same_trans hk2.1, fun a n2 hn2 => ?_⟩
  rcases hk2.2 a n2 hn2 with h1 | hg
  · exact hk.2 a n2 h1
  · exact Or.inr (hg.good_same hk.1.same_symm)

theorem Kept.good_kept {h h1 : Heap} (hk : Kept h h1) {a : Nat} {n : LamNode}
    (hn : h.lams[a]? = some n) (hg : GoodNode h n) :
    ∃ n1, h1.lams[a]? = some n1 ∧ GoodNode h n1 := by
  obtain ⟨n1, hn1⟩ := getElem?_of_length hk.1.1 hn
  refine ⟨n1, hn1, ?_⟩
  rcases hk.2 a n1 hn1 with h0 | hg1
  · rw [hn] at h0
    cases h0
    exact hg
  · exact hg1

/-- Two calls one after the other. -/
theorem FvPost.post_then {h h1 h2 : Heap} {x1 x2 fv fv1 fv2 : Sexp}
    (p1 : FvPost h x1 fv fv1 h1) (p2 : FvPost h1 x2 fv1 fv2 h2) :
    Kept h h2 ∧ FvOk fv2 ∧ sexp_elems fv ⊆ sexp_elems fv2
      ∧ Collected h x1 fv2 ∧ Collected h x2 fv2
      ∧ (∀ a, Occ h (.lambda a) x1 → ∃ n1, h2.lams[a]? = some n1 ∧ GoodNode h n1)
      ∧ (∀ a, Occ h (.lambda a) x2 → ∃ n1, h2.lams[a]? = some n1 ∧ GoodNode h n1) := by
  obtain ⟨k1, _, s1, c1, g1⟩ := p1
  obtain ⟨k2, o2, s2, c2, g2⟩ := p2
  refine ⟨k1.kept_trans k2, o2, fun a ha => s2 (s1 ha), ?_, ?_, ?_, ?_⟩
  · exact fun n l hl ho => s2 (c1 n l hl ho)
  · exact c2.coll_same k1.1.same_symm
  · intro a ha
    obtain ⟨n1, hn1, hg1⟩ := g1 a ha
    obtain ⟨n2, hn2, hg2⟩ := k2.good_kept hn1 (hg1.good_same k1.1)
    exact ⟨n2, hn2, hg2.good_same k1.1.same_symm⟩
  · intro a ha
    obtain ⟨n2, hn2, hg2⟩ := g2 a (ha.occ_same k1.1)
    exact ⟨n2, hn2, hg2.good_same k1.1.same_symm⟩

theorem lambda_ref_eq {a : Sexp} (h : lambda_ref a = true) :
    ∃ n l, a = .ref n l ∧ sexp_lambdap l = true := by
  cases a <;> first | cases h | exact ⟨_, _, rfl, h⟩

theorem sexp_refp_eq {a : Sexp} (h : sexp_refp a = true) : ∃ n l, a = .ref n l := by
  cases a <;> first | exact ⟨_, _, rfl⟩ | cases h

theorem lambda_ref_refp {a : Sexp} (h : lambda_ref a = true) : sexp_refp a = true := by
  obtain ⟨n, l, rfl, _⟩ := lambda_ref_eq h
  rfl

theorem free_var_member_spec (n l : Sexp) :
    ∀ fv, (∀ a ∈ sexp_elems fv, sexp_refp a = true) →
      free_var_member n l fv = .ok (decide (Sexp.ref n l ∈ sexp_elems fv)) := by
  intro fv
  induction fv with
  | pair a d _ ihd =>
    intro hall
    obtain ⟨n1, l1, rfl⟩ := sexp_refp_eq (hall a (by simp [sexp_elems]))
    have ih := ihd (fun b hb => hall b (by simp [sexp_elems, hb]))
    unfold free_var_member
    simp only [sexp_car, sexp_cdr, ok_bind, sexp_elems, List.mem_cons, Sexp.ref.injEq]
    by_cases hn : n = n1
    · by_cases hl : l = l1
      · subst hn hl
        simp [pure, Except.pure]
      · have hl2 : ¬ sexp_eq l l1 = true := fun he => hl ((sexp_eq_iff _ _).1 he)
        subst hn
        simp only [sexp_eq_iff, if_true, hl2, if_false, ih, hl, and_false, false_or,
          Bool.false_eq_true]
    · have hn2 : ¬ sexp_eq n n1 = true := fun he => hn ((sexp_eq_iff _ _).1 he)
      simp only [hn2, if_false, ih, hn, false_and, false_or, Bool.false_eq_true]
  | _ => intro _; simp [free_var_member, sexp_elems, pure, Except.pure]

theorem insert_free_var_spec (n l fv : Sexp) (hall : ∀ a ∈ sexp_elems fv, sexp_refp a = true) :
    insert_free_var (.ref n l) fv
      = .ok (if Sexp.ref n l ∈ sexp_elems fv then fv else .pair (.ref n l) fv) := by
  unfold insert_free_var
  simp only [sexp_ref_name, sexp_ref_loc, ok_bind, free_var_member_spec n l fv hall, sexp_cons]
  by_cases hm : Sexp.ref n l ∈ sexp_elems fv
  · simp [hm, pure, Except.pure]
  · simp [hm, pure, Except.pure]

theorem insert_free_var_ok {n l fv : Sexp} (hl : sexp_lambdap l = true) (hfv : FvOk fv) :
    ∃ r, insert_free_var (.ref n l) fv = .ok r ∧ FvOk r ∧ sexp_elems fv ⊆ sexp_elems r
      ∧ Sexp.ref n l ∈ sexp_elems r
      ∧ ∀ a ∈ sexp_elems r, a = .ref n l ∨ a ∈ sexp_elems fv := by
  rw [insert_free_var_spec n l fv (fun a ha => lambda_ref_refp (hfv.1 a ha))]
  by_cases hm : Sexp.ref n l ∈ sexp_elems fv
  · rw [if_pos hm]
    exact ⟨fv, rfl, hfv, fun a ha => ha, hm, fun a ha => Or.inr ha⟩
  · rw [if_neg hm]
    refine ⟨_, rfl, ⟨?_, ?_⟩, ?_, ?_, ?_⟩
    · intro a ha
      simp only [sexp_elems, List.mem_cons] at ha
      rcases ha with rfl | ha
      · exact hl
      · exact hfv.1 a ha
    · simp only [sexp_elems, List.nodup_cons]
      exact ⟨hm, hfv.2⟩
    · intro a ha
      simp only [sexp_elems, List.mem_cons]
      exact Or.inr ha
    · simp only [sexp_elems, List.mem_cons, true_or]
    · intro a ha
      simp only [sexp_elems, List.mem_cons] at ha
      exact ha

theorem union_free_vars_loop_ok :
    ∀ fv1 fv2, (∀ a ∈ sexp_elems fv1, lambda_ref a = true) → FvOk fv2 →
      ∃ r, union_free_vars_loop fv1 fv2 = .ok r ∧ FvOk r ∧ sexp_elems fv1 ⊆ sexp_elems r
        ∧ sexp_elems fv2 ⊆ sexp_elems r := by
  intro fv1
  induction fv1 with
  | pair a d _ ihd =>
    intro fv2 hall hfv2
    obtain ⟨n, l, rfl, hl⟩ := lambda_ref_eq (hall a (by simp [sexp_elems]))
    obtain ⟨r1, hr1, ok1, sub1, mem1, _⟩ := insert_free_var_ok (n := n) hl hfv2
    obtain ⟨r, hr, okr, subd, subr⟩ := ihd r1 (fun b hb => hall b (by simp [sexp_elems, hb])) ok1
    refine ⟨r, ?_, okr, ?_, fun b hb => subr (sub1 hb)⟩
    · unfold union_free_vars_loop
      simp only [hr1, ok_bind, hr]
    · intro b hb
      simp only [sexp_elems, List.mem_cons] at hb
      rcases hb with rfl | hb
      · exact subr mem1
      · exact subd hb
  | _ =>
    intro fv2 _ hfv2
    exact ⟨fv2, by simp [union_free_vars_loop, pure, Except.pure], hfv2,
      by simp [sexp_elems], fun b hb => hb⟩

theorem union_free_vars_ok {fv1 fv2 : Sexp} (h1 : FvOk fv1) (h2 : FvOk fv2) :
    ∃ r, union_free_vars fv1 fv2 = .ok r ∧ FvOk r ∧ sexp_elems fv1 ⊆ sexp_elems r
      ∧ sexp_elems fv2 ⊆ sexp_elems r := by
  unfold union_free_vars
  by_cases hn : sexp_nullp fv2 = true
  · rw [if_pos hn]
    refine ⟨fv1, rfl, h1, fun b hb => hb, ?_⟩
    cases fv2 <;> first | exact fun b hb => absurd hb (List.not_mem_nil b) | cases hn
  · rw [if_neg hn]
    exact union_free_vars_loop_ok fv1 fv2 h1.1 h2

theorem sexp_memq_elems (x : Sexp) : ∀ ls, sexp_memq x ls = true → x ∈ sexp_elems ls := by
  intro ls
  induction ls with
  | pair a d _ ihd =>
    intro hm
    unfold sexp_memq at hm
    simp only [sexp_elems, List.mem_cons]
    by_cases ha : sexp_eq a x = true
    · exact Or.inl ((sexp_eq_iff _ _).1 ha).symm
    · rw [if_neg ha] at hm
      exact Or.inr (ihd hm)
  | _ => intro hm; simp [sexp_memq] at hm

theorem sexp_lset_diff_refs (ps : Sexp) (hps : ∀ p ∈ sexp_elems ps, sexp_refp p = false) :
    ∀ fv, (∀ a ∈ sexp_elems fv, lambda_ref a = true) →
      sexp_elems (sexp_lset_diff fv ps) = sexp_elems fv := by
  intro fv
  induction fv with
  | pair a d _ ihd =>
    intro hall
    obtain ⟨n, l, rfl, _⟩ := lambda_ref_eq (hall a (by simp [sexp_elems]))
    have hno : ¬ sexp_memq (.ref n l) ps = true := by
      intro hm
      have := hps _ (sexp_memq_elems _ _ hm)
      simp [sexp_refp] at this
    unfold sexp_lset_diff
    rw [if_neg hno]
    simp only [sexp_elems, ihd (fun b hb => hall b (by simp [sexp_elems, hb]))]
  | _ => intro _; simp [sexp_lset_diff, sexp_elems]

theorem occ_pair {h : Heap} {y x : Sexp} (ho : Occ h y x) :
    ∀ a d, x = .pair a d → sexp_pairp y = false → ∃ e ∈ sexp_elems (.pair a d), Occ h y e := by
  induction ho with
  | refl =>
    intro a d hx hy
    subst hx
    cases hy
  | elem ho _ =>
    intro a d hx _
    cases hx
    exact ⟨_, by simp [sexp_elems], ho⟩
  | rest _ ih =>
    intro a d hx hy
    cases hx
    obtain ⟨e, he, hoe⟩ := ih _ _ rfl hy
    exact ⟨e, by simp only [sexp_elems, List.mem_cons] at he ⊢; exact Or.inr he, hoe⟩
  | test _ _ => intro a d hx; cases hx
  | pass _ _ => intro a d hx; cases hx
  | fail _ _ => intro a d hx; cases hx
  | var _ _ => intro a d hx; cases hx
  | value _ _ => intro a d hx; cases hx
  | seq _ _ => intro a d hx; cases hx
  | body _ _ _ _ => intro a d hx; cases hx

theorem occ_atom {h : Heap} {y x : Sexp} (ho : Occ h y x)
    (hx : ast_leaf x = true) : y = x := by
  cases ho <;> first | rfl | cases hx

/-- The list loop: every element is walked by a callee that meets `FvPost`. -/
theorem free_vars_list_post (rec : FvRec)
    (hrec : ∀ x fv h fv1 h1, rec x fv h = .ok (fv1, h1) → ParamsOk h → FvOk fv →
      FvPost h x fv fv1 h1) :
    ∀ ls fv h fv1 h1, free_vars_list rec ls fv h = .ok (fv1, h1) → ParamsOk h → FvOk fv →
      Kept h h1 ∧ FvOk fv1 ∧ sexp_elems fv ⊆ sexp_elems fv1
        ∧ ∀ e ∈ sexp_elems ls, Collected h e fv1
          ∧ ∀ a, Occ h (.lambda a) e → ∃ n1, h1.lams[a]? = some n1 ∧ GoodNode h n1 := by
  intro ls
  induction ls with
  | pair a d _ ihd =>
    intro fv h fv1 h1 hr hp hfv
    unfold free_vars_list at hr
    cases hra : rec a fv h with
    | error e => rw [hra] at hr; cases hr
    | ok r =>
      obtain ⟨fva, ha⟩ := r
      rw [hra] at hr
      simp only [ok_bind] at hr
      have pa := hrec a fv h fva ha hra hp hfv
      obtain ⟨kd, okd, subd, hd⟩ := ihd fva ha fv1 h1 hr (hp.params_same pa.1.1) pa.2.1
      obtain ⟨ka, _, suba, ca, ga⟩ := pa
      refine ⟨ka.kept_trans kd, okd, fun b hb => subd (suba hb), ?_⟩
      intro e he
      simp only [sexp_elems, List.mem_cons] at he
      rcases he with rfl | he
      · refine ⟨fun n l hl ho => subd (ca n l hl ho), fun a2 ha2 => ?_⟩
        obtain ⟨n1, hn1, hg1⟩ := ga a2 ha2
        obtain ⟨n2, hn2, hg2⟩ := kd.good_kept hn1 (hg1.good_same ka.1)
        exact ⟨n2, hn2, hg2.good_same ka.1.same_symm⟩
      · obtain ⟨ce, ge⟩ := hd e he
        refine ⟨ce.coll_same ka.1.same_symm, fun a2 ha2 => ?_⟩
        obtain ⟨n2, hn2, hg2⟩ := ge a2 (ha2.occ_same ka.1)
        exact ⟨n2, hn2, hg2.good_same ka.1.same_symm⟩
  | _ =>
    intro fv h fv1 h1 hr _ hfv
    simp only [free_vars_list, pure, Except.pure, Except.ok.injEq, Prod.mk.injEq] at hr
    obtain ⟨rfl, rfl⟩ := hr
    exact ⟨Kept.kept_refl h, hfv, fun b hb => hb, fun e he => by simp [sexp_elems] at he⟩

/-! ## The free-variable pass: the walk -/

theorem fvok_null : FvOk .null := ⟨fun a ha => absurd ha (List.not_mem_nil a), List.nodup_nil⟩

theorem fvpost_leaf {h : Heap} {x fv : Sexp} (hx : ast_leaf x = true) (hfv : FvOk fv) :
    FvPost h x fv fv h := by
  refine ⟨Kept.kept_refl h, hfv, fun b hb => hb, fun n l _ ho => ?_, fun a ho => ?_⟩
  · have := occ_atom ho hx
    subst this
    cases hx
  · have := occ_atom ho hx
    subst this
    cases hx

theorem set_lambda_fv (h1 : Heap) (a : Nat) (node1 : LamNode) (fv2 : Sexp)
    (hn1 : h1.lams[a]? = some node1) :
    ∃ h2 node2, set_lambda h1 (.lambda a) (fun n => { n with fv := fv2 }) = .ok h2
      ∧ h2.lams[a]? = some node2 ∧ node2.fv = fv2 ∧ node2.body = node1.body
      ∧ node2.params = node1.params ∧ SameLams h1 h2
      ∧ ∀ a2, a2 ≠ a → h2.lams[a2]? = h1.lams[a2]? := by
  have hlt : a < h1.lams.length := by
    by_contra hge
    rw [List.getElem?_eq_none (by omega)] at hn1
    cases hn1
  have hset : set_lambda h1 (.lambda a) (fun n => { n with fv := fv2 })
      = .ok { h1 with lams := h1.lams.set a { node1 with fv := fv2 } } := by
    simp only [set_lambda, hn1]
  refine ⟨_, { node1 with fv := fv2 }, hset, ?_, rfl, rfl, rfl, ?_, ?_⟩
  · simp [List.getElem?_set, hlt]
  · refine ⟨by simp, fun a2 m m2 hm hm2 => ?_⟩
    by_cases ha : a = a2
    · subst ha
      rw [hn1] at hm
      cases hm
      simp only [List.getElem?_set, hlt, if_true] at hm2
      cases hm2
      exact ⟨rfl, rfl⟩
    · simp only [List.getElem?_set_ne ha] at hm2
      rw [hm] at hm2
      cases hm2
      exact ⟨rfl, rfl⟩
  · intro a2 ha
    simp only [List.getElem?_set_ne (Ne.symm ha)]

theorem free_varsF_post : ∀ n x fv h fv1 h1, free_varsF n x fv h = .ok (fv1, h1) →
    ParamsOk h → FvOk fv → FvPost h x fv fv1 h1 := by
  intro n
  induction n with
  | zero =>
    intro x fv h fv1 h1 hr
    cases hr
  | succ n ih =>
    intro x fv h fv1 h1 hr hp hfv
    have hlist := free_vars_list_post (free_varsF n) ih
    unfold free_varsF at hr
    cases x with
    | lambda a =>
      unfold free_vars_step at hr
      simp only [get_lambda] at hr
      cases hn : h.lams[a]? with
      | none => simp only [hn] at hr; cases hr
      | some node =>
        simp only [hn, ok_bind] at hr
        cases hb : node.body with
        | none => simp only [hb] at hr; cases hr
        | some b =>
          simp only [hb, pure, Except.pure, ok_bind] at hr
          cases hrb : free_varsF n b .null h with
          | error e => simp only [hrb] at hr; cases hr
          | ok r =>
            obtain ⟨fvb, hb1⟩ := r
            simp only [hrb, ok_bind] at hr
            obtain ⟨kb, okb, _, cb, gb⟩ := ih b .null h fvb hb1 hrb hp fvok_null
            obtain ⟨node1, hn1⟩ := getElem?_of_length kb.1.1 hn
            obtain ⟨hbody1, hparams1⟩ := kb.1.2 a node node1 hn hn1
            have hps : ∀ p ∈ sexp_elems (sexp_flatten_dot node1.params), sexp_refp p = false := by
              rw [hparams1]
              exact hp node (List.getElem?_mem hn)
            have hel := sexp_lset_diff_refs _ hps fvb okb.1
            have ok2 : FvOk (sexp_lset_diff fvb (sexp_flatten_dot node1.params)) := by
              unfold FvOk
              rw [hel]
              exact okb
            obtain ⟨h2, node2, hset, hn2, hfv2, hbody2, _, hsame2, hother⟩ :=
              set_lambda_fv hb1 a node1 (sexp_lset_diff fvb (sexp_flatten_dot node1.params)) hn1
            obtain ⟨ru, hu, oku, sub2, subfv⟩ := union_free_vars_ok ok2 hfv
            simp only [hn1, ok_bind, hset, hu, Except.ok.injEq, Prod.mk.injEq] at hr
            obtain ⟨rfl, rfl⟩ := hr
            have hgood : GoodNode h node2 := by
              refine ⟨by rw [hfv2]; exact ok2, fun b2 hb2 => ?_⟩
              rw [hbody2, hbody1, hb] at hb2
              cases hb2
              intro n2 l2 hl2 ho
              rw [hfv2, hel]
              exact cb n2 l2 hl2 ho
            have hkept : Kept h h2 := by
              refine ⟨kb.1.same_trans hsame2, fun a2 m2 hm2 => ?_⟩
              by_cases ha : a2 = a
              · subst ha
                rw [hn2] at hm2
                cases hm2
                exact Or.inr hgood
              · rw [hother a2 ha] at hm2
                exact kb.2 a2 m2 hm2
            refine ⟨hkept, oku, subfv, ?_, ?_⟩
            · intro n2 l2 hl2 ho
              cases ho with
              | body hn3 hb3 ho2 =>
                rw [hn] at hn3
                cases hn3
                rw [hb] at hb3
                cases hb3
                apply sub2
                rw [hel]
                exact cb n2 l2 hl2 ho2
            · intro a2 ho
              by_cases ha : a2 = a
              · subst ha
                exact ⟨node2, hn2, hgood⟩
              · cases ho with
                | refl => exact absurd rfl ha
                | body hn3 hb3 ho2 =>
                  rw [hn] at hn3
                  cases hn3
                  rw [hb] at hb3
                  cases hb3
                  obtain ⟨m1, hm1, hg1⟩ := gb a2 ho2
                  exact ⟨m1, by rw [hother a2 ha]; exact hm1, hg1⟩
    | pair a d =>
      unfold free_vars_step at hr
      obtain ⟨k, ok1, sub, hall⟩ := hlist _ fv h fv1 h1 hr hp hfv
      refine ⟨k, ok1, sub, fun n2 l2 hl2 ho => ?_, fun a2 ho => ?_⟩
      · obtain ⟨e, he, hoe⟩ := occ_pair ho a d rfl rfl
        exact (hall e he).1 n2 l2 hl2 hoe
      · obtain ⟨e, he, hoe⟩ := occ_pair ho a d rfl rfl
        exact (hall e he).2 a2 hoe
    | seq ls =>
      unfold free_vars_step at hr
      obtain ⟨k, ok1, sub, hall⟩ := hlist _ fv h fv1 h1 hr hp hfv
      refine ⟨k, ok1, sub, fun n2 l2 hl2 ho => ?_, fun a2 ho => ?_⟩
      · cases ho with
        | seq ho2 =>
          obtain ⟨e, he, hoe⟩ := occ_pair ho2 _ _ rfl rfl
          exact (hall e he).1 n2 l2 hl2 hoe
      · cases ho with
        | seq ho2 =>
          obtain ⟨e, he, hoe⟩ := occ_pair ho2 _ _ rfl rfl
          exact (hall e he).2 a2 hoe
    | cnd t p f =>
      unfold free_vars_step at hr
      cases hrt : free_varsF n t fv h with
      | error e => simp only [hrt] at hr; cases hr
      | ok r =>
        obtain ⟨fvt, ht⟩ := r
        simp only [hrt, ok_bind] at hr
        have pt := ih t fv h fvt ht hrt hp hfv
        cases hrp : free_varsF n p fvt ht with
        | error e => simp only [hrp] at hr; cases hr
        | ok r =>
          obtain ⟨fvp, hp1⟩ := r
          simp only [hrp, ok_bind] at hr
          have hpt := hp.params_same pt.1.1
          have pp := ih p fvt ht fvp hp1 hrp hpt pt.2.1
          have pf := ih f fvp hp1 fv1 h1 hr (hpt.params_same pp.1.1) pp.2.1
          obtain ⟨k12, ok12, s12, ct, cp, gt, gp⟩ := pt.post_then pp
          have p12 : FvPost h (.pair t (.pair p .null)) fv fvp hp1 := by
            refine ⟨k12, ok12, s12, fun n2 l2 hl2 ho => ?_, fun a2 ho => ?_⟩
            · obtain ⟨e, he, hoe⟩ := occ_pair ho _ _ rfl rfl
              simp only [sexp_elems, List.mem_cons, List.mem_nil_iff, or_false] at he
              rcases he with rfl | rfl
              · exact ct n2 l2 hl2 hoe
              · exact cp n2 l2 hl2 hoe
            · obtain ⟨e, he, hoe⟩ := occ_pair ho _ _ rfl rfl
              simp only [sexp_elems, List.mem_cons, List.mem_nil_iff, or_false] at he
              rcases he with rfl | rfl
              · exact gt a2 hoe
              · exact gp a2 hoe
          obtain ⟨k, ok3, s3, c12, cf, g12, gf⟩ := p12.post_then pf
          refine ⟨k, ok3, s3, fun n2 l2 hl2 ho => ?_, fun a2 ho => ?_⟩
          · cases ho with
            | test ho2 => exact c12 n2 l2 hl2 (.elem ho2)
            | pass ho2 => exact c12 n2 l2 hl2 (.rest (.elem ho2))
            | fail ho2 => exact cf n2 l2 hl2 ho2
          · cases ho with
            | test ho2 => exact g12 a2 (.elem ho2)
            | pass ho2 => exact g12 a2 (.rest (.elem ho2))
            | fail ho2 => exact gf a2 ho2
    | set v val =>
      unfold free_vars_step at hr
      cases hrv : free_varsF n val fv h with
      | error e => simp only [hrv] at hr; cases hr
      | ok r =>
        obtain ⟨fvv, hv⟩ := r
        simp only [hrv, ok_bind] at hr
        have pv := ih val fv h fvv hv hrv hp hfv
        have pvar := ih v fvv hv fv1 h1 hr (hp.params_same pv.1.1) pv.2.1
        obtain ⟨k, ok3, s3, c1, c2, g1, g2⟩ := pv.post_then pvar
        refine ⟨k, ok3, s3, fun n2 l2 hl2 ho => ?_, fun a2 ho => ?_⟩
        · cases ho with
          | var ho2 => exact c2 n2 l2 hl2 ho2
          | value ho2 => exact c1 n2 l2 hl2 ho2
        · cases ho with
          | var ho2 => exact g2 a2 ho2
          | value ho2 => exact g1 a2 ho2
    | ref nm loc =>
      unfold free_vars_step at hr
      by_cases hl : sexp_lambdap loc = true
      · simp only [hl, if_true] at hr
        obtain ⟨r, hri, okr, subr, memr, _⟩ := insert_free_var_ok (n := nm) hl hfv
        simp only [hri, ok_bind, pure, Except.pure, Except.ok.injEq, Prod.mk.injEq] at hr
        obtain ⟨rfl, rfl⟩ := hr
        refine ⟨Kept.kept_refl h, okr, subr, fun n2 l2 _ ho => ?_, fun a2 ho => ?_⟩
        · cases ho
          exact memr
        · cases ho
      · simp only [hl, Bool.false_eq_true, if_false, pure, Except.pure, Except.ok.injEq,
          Prod.mk.injEq] at hr
        obtain ⟨rfl, rfl⟩ := hr
        refine ⟨Kept.kept_refl h, hfv, fun b hb => hb, fun n2 l2 hl2 ho => ?_, fun a2 ho => ?_⟩
        · cases ho
          exact absurd hl2 hl
        · cases ho
    | _ =>
      simp only [free_vars_step, pure, Except.pure, Except.ok.injEq, Prod.mk.injEq] at hr
      obtain ⟨rfl, rfl⟩ := hr
      exact fvpost_leaf rfl hfv

theorem fvok_distinct {fv : Sexp} (hfv : FvOk fv) :
    (sexp_elems fv).Pairwise (fun a b => ¬ same_var a b) := by
  refine List.Pairwise.imp_of_mem ?_ hfv.2
  intro a b ha hb hne hs
  obtain ⟨n1, l1, rfl, _⟩ := lambda_ref_eq (hfv.1 a ha)
  obtain ⟨n2, l2, rfl, _⟩ := lambda_ref_eq (hfv.1 b hb)
  obtain ⟨h1, h2⟩ := hs
  simp only [sexp_ref_name, sexp_ref_loc, Except.ok.injEq] at h1 h2
  exact hne (by rw [h1, h2])

/-! ## The free-variable pass: termination -/

theorem ast_budget_tail (h : Heap) (x : Sexp) : ast_budget h x = ast_size x + tail_budget h 0 :=
  rfl

theorem tail_budget_step {h : Heap} {a : Nat} {node : LamNode} {b : Sexp}
    (hn : h.lams[a]? = some node) (hb : node.body = some b) :
    tail_budget h a = ast_size b + 1 + tail_budget h (a + 1) := by
  have hlt : a < h.lams.length := by
    by_contra hge
    rw [List.getElem?_eq_none (by omega)] at hn
    cases hn
  have hget : h.lams[a] = node := by
    rw [List.getElem?_eq_getElem hlt] at hn
    exact Option.some.inj hn
  unfold tail_budget
  rw [List.drop_eq_getElem_cons hlt, hget]
  simp only [List.map_cons, List.sum_cons, hb]

theorem tail_budget_succ_le (h : Heap) (k : Nat) : tail_budget h (k + 1) ≤ tail_budget h k := by
  unfold tail_budget
  by_cases hlt : k < h.lams.length
  · rw [List.drop_eq_getElem_cons hlt]
    simp only [List.map_cons, List.sum_cons]
    omega
  · rw [List.drop_eq_nil_of_le (by omega), List.drop_eq_nil_of_le (by omega)]

theorem tail_budget_mono (h : Heap) {k a : Nat} (hka : k ≤ a) :
    tail_budget h a ≤ tail_budget h k := by
  induction hka with
  | refl => exact le_refl _
  | step _ ih => exact le_trans (tail_budget_succ_le h _) ih

theorem ast_size_elem : ∀ ls, ∀ e ∈ sexp_elems ls, ast_size e < ast_size ls := by
  intro ls
  induction ls with
  | pair a d _ ihd =>
    intro e he
    simp only [sexp_elems, List.mem_cons] at he
    simp only [ast_size]
    rcases he with rfl | he
    · omega
    · have := ihd e he
      omega
  | _ => intro e he; simp [sexp_elems] at he

theorem occ_of_elem {h : Heap} {y : Sexp} : ∀ ls, ∀ e ∈ sexp_elems ls, Occ h y e → Occ h y ls := by
  intro ls
  induction ls with
  | pair a d _ ihd =>
    intro e he ho
    simp only [sexp_elems, List.mem_cons] at he
    rcases he with rfl | he
    · exact .elem ho
    · have hd := ihd e he ho
      cases d with
      | pair a2 d2 => exact .rest hd
      | _ => simp [sexp_elems] at he
  | _ => intro e he; simp [sexp_elems] at he

theorem occ_seq_of_elem {h : Heap} {y ls e : Sexp} (he : e ∈ sexp_elems ls) (ho : Occ h y e) :
    Occ h y (.seq ls) := by
  have hl := occ_of_elem ls e he ho
  cases ls with
  | pair a d => exact .seq hl
  | _ => simp [sexp_elems] at he

theorem Fits.of_elem {h0 : Heap} {k n : Nat} {ls e : Sexp} (hf : Fits h0 k (n + 1) ls)
    (he : e ∈ sexp_elems ls) : Fits h0 k n e := by
  obtain ⟨hb, hk, hn⟩ := hf
  have := ast_size_elem ls e he
  exact ⟨fun a ho => hb a (occ_of_elem ls e he ho), fun a ho => hk a (occ_of_elem ls e he ho),
    by omega⟩

theorem Fits.of_seq_elem {h0 : Heap} {k n : Nat} {ls e : Sexp} (hf : Fits h0 k (n + 1) (.seq ls))
    (he : e ∈ sexp_elems ls) : Fits h0 k n e := by
  obtain ⟨hb, hk, hn⟩ := hf
  have := ast_size_elem ls e he
  simp only [ast_size] at hn
  exact ⟨fun a ho => hb a (occ_seq_of_elem he ho), fun a ho => hk a (occ_seq_of_elem he ho),
    by omega⟩

/-- The list loop returns when the callee returns on every element. -/
theorem free_vars_list_returns (h0 : Heap) (k n : Nat) (hp0 : ParamsOk h0)
    (hrec : ∀ x fv h, SameLams h0 h → FvOk fv → Fits h0 k n x →
      ∃ r, free_varsF n x fv h = .ok r) :
    ∀ ls fv h, SameLams h0 h → FvOk fv → (∀ e ∈ sexp_elems ls, Fits h0 k n e) →
      ∃ r, free_vars_list (free_varsF n) ls fv h = .ok r := by
  intro ls
  induction ls with
  | pair a d _ ihd =>
    intro fv h hs hfv hall
    obtain ⟨r, hr⟩ := hrec a fv h hs hfv (hall a (by simp [sexp_elems]))
    obtain ⟨fv1, h1⟩ := r
    have post := free_varsF_post n a fv h fv1 h1 hr (hp0.params_same hs) hfv
    obtain ⟨r2, hr2⟩ := ihd fv1 h1 (hs.same_trans post.1.1) post.2.1
      (fun e he => hall e (by simp [sexp_elems, he]))
    refine ⟨r2, ?_⟩
    unfold free_vars_list
    simp only [hr, ok_bind, hr2]
  | _ =>
    intro fv h _ _ _
    exact ⟨(fv, h), by simp [free_vars_list, pure, Except.pure]⟩

theorem free_varsF_returns (h0 : Heap) (hnest : Nested h0) (hp0 : ParamsOk h0) :
    ∀ n x fv h k, SameLams h0 h → FvOk fv → Fits h0 k n x →
      ∃ r, free_varsF n x fv h = .ok r := by
  intro n
  induction n with
  | zero =>
    intro x fv h k _ _ hf
    have : 0 < ast_size x := by cases x <;> simp [ast_size]
    have := hf.2.2
    omega
  | succ n ih =>
    intro x fv h k hs hfv hf
    have hlist := fun k => free_vars_list_returns h0 k n hp0 (fun x fv h => ih x fv h k)
    have hpost := free_varsF_post n
    unfold free_varsF
    cases x with
    | lambda a =>
      obtain ⟨hbod, hk, hn⟩ := hf
      obtain ⟨node0, b, hn0, hb0⟩ := hbod a (.refl _)
      obtain ⟨node, hnode⟩ := getElem?_of_length hs.1 hn0
      have hbody : node.body = some b := (hs.2 a node0 node hn0 hnode).1.trans hb0
      have hfit : Fits h0 (a + 1) n b := by
        refine ⟨fun a2 ho => hbod a2 (.body hn0 hb0 ho), fun a2 ho => hnest a node0 b hn0 hb0 a2 ho,
          ?_⟩
        have h1 := tail_budget_step hn0 hb0
        have h2 := tail_budget_mono h0 (hk a (.refl _))
        simp only [ast_size] at hn
        omega
      obtain ⟨r, hr⟩ := ih b .null h (a + 1) hs fvok_null hfit
      obtain ⟨fvb, h1⟩ := r
      obtain ⟨kb, okb, _, _, _⟩ := hpost b .null h fvb h1 hr (hp0.params_same hs) fvok_null
      obtain ⟨node1, hn1⟩ := getElem?_of_length kb.1.1 hnode
      obtain ⟨_, hparams1⟩ := kb.1.2 a node node1 hnode hn1
      have hps : ∀ p ∈ sexp_elems (sexp_flatten_dot node1.params), sexp_refp p = false := by
        rw [hparams1, (hs.2 a node0 node hn0 hnode).2]
        exact hp0 node0 (List.getElem?_mem hn0)
      have hel := sexp_lset_diff_refs _ hps fvb okb.1
      have ok2 : FvOk (sexp_lset_diff fvb (sexp_flatten_dot node1.params)) := by
        unfold FvOk
        rw [hel]
        exact okb
      obtain ⟨h2, node2, hset, _⟩ :=
        set_lambda_fv h1 a node1 (sexp_lset_diff fvb (sexp_flatten_dot node1.params)) hn1
      obtain ⟨ru, hu, _⟩ := union_free_vars_ok ok2 hfv
      refine ⟨(ru, h2), ?_⟩
      unfold free_vars_step
      simp only [get_lambda, hnode, hbody, ok_bind, pure, Except.pure, hr, hn1, hset, hu]
    | pair a d =>
      unfold free_vars_step
      exact hlist k _ fv h hs hfv (fun e he => hf.of_elem he)
    | seq ls =>
      unfold free_vars_step
      exact hlist k _ fv h hs hfv (fun e he => hf.of_seq_elem he)
    | cnd t p f =>
      obtain ⟨hbod, hk, hn⟩ := hf
      simp only [ast_size] at hn
      obtain ⟨r1, hr1⟩ := ih t fv h k hs hfv
        ⟨fun a ho => hbod a (.test ho), fun a ho => hk a (.test ho), by omega⟩
      obtain ⟨fv1, h1⟩ := r1
      have p1 := hpost t fv h fv1 h1 hr1 (hp0.params_same hs) hfv
      have hs1 := hs.same_trans p1.1.1
      obtain ⟨r2, hr2⟩ := ih p fv1 h1 k hs1 p1.2.1
        ⟨fun a ho => hbod a (.pass ho), fun a ho => hk a (.pass ho), by omega⟩
      obtain ⟨fv2, h2⟩ := r2
      have p2 := hpost p fv1 h1 fv2 h2 hr2 (hp0.params_same hs1) p1.2.1
      obtain ⟨r3, hr3⟩ := ih f fv2 h2 k (hs1.same_trans p2.1.1) p2.2.1
        ⟨fun a ho => hbod a (.fail ho), fun a ho => hk a (.fail ho), by omega⟩
      refine ⟨r3, ?_⟩
      unfold free_vars_step
      simp only [hr1, ok_bind, hr2, hr3]
    | set v val =>
      obtain ⟨hbod, hk, hn⟩ := hf
      simp only [ast_size] at hn
      obtain ⟨r1, hr1⟩ := ih val fv h k hs hfv
        ⟨fun a ho => hbod a (.value ho), fun a ho => hk a (.value ho), by omega⟩
      obtain ⟨fv1, h1⟩ := r1
      have p1 := hpost val fv h fv1 h1 hr1 (hp0.params_same hs) hfv
      obtain ⟨r2, hr2⟩ := ih v fv1 h1 k (hs.same_trans p1.1.1) p1.2.1
        ⟨fun a ho => hbod a (.var ho), fun a ho => hk a (.var ho), by omega⟩
      refine ⟨r2, ?_⟩
      unfold free_vars_step
      simp only [hr1, ok_bind, hr2]
    | ref nm loc =>
      unfold free_vars_step
      by_cases hl : sexp_lambdap loc = true
      · obtain ⟨r, hri, _⟩ := insert_free_var_ok (n := nm) hl hfv
        exact ⟨(r, h), by simp only [hl, if_true, hri, ok_bind]; rfl⟩
      · exact ⟨(fv, h), by simp only [hl, Bool.false_eq_true, if_false]; rfl⟩
    | _ => exact ⟨(fv, h), rfl⟩

/-- The pass returns on an AST whose Lambdas have bodies that hold only Lambdas
allocated later. -/
theorem free_vars_returns (x fv : Sexp) (h : Heap) (hnest : Nested h) (hbod : Bodies h x)
    (hp : ParamsOk h) (hfv : FvOk fv) : ∃ fv1 h1, free_vars x fv h = .ok (fv1, h1) := by
  obtain ⟨r, hr⟩ := free_varsF_returns h hnest hp (ast_budget h x) x fv h 0
    (SameLams.same_refl h) hfv ⟨hbod, fun _ _ => Nat.zero_le _, le_of_eq (ast_budget_tail h x).symm⟩
  exact ⟨r.1, r.2, hr⟩

/-! ## The free-variable pass: the lists of a Lambda -/

/-- C14: `free_vars(x, fv)` returns on an AST whose Lambdas have bodies that hold
only Lambdas allocated later, and after it has returned, for every Lambda `L`
that occurs in `x`: every Ref that occurs in the body of `L` (nested Lambdas
included) and whose loc is a Lambda other than `L` has an entry with its name
and its loc in the free-vars list of `L`; and every entry of that list, as of
the list returned, is a Ref whose loc is a Lambda.  The parameters of the
Lambdas are names (no Ref nodes) and the list `fv` passed in is in good order,
as is the empty list `compile` passes. -/
theorem C14_free_vars_collects_outer_refs (x fv : Sexp) (h : Heap) (hp : ParamsOk h)
    (hfv : FvOk fv) :
    (Nested h → Bodies h x → ∃ fv1 h1, free_vars x fv h = .ok (fv1, h1))
    ∧ ∀ fv1 h1, free_vars x fv h = .ok (fv1, h1) →
      (∀ a, Occ h (.lambda a) x → ∃ node1, h1.lams[a]? = some node1
        ∧ (∀ b n l, node1.body = some b → Occ h1 (.ref n l) b → sexp_lambdap l = true →
            l ≠ .lambda a →
            ∃ e ∈ sexp_elems node1.fv, sexp_ref_name e = .ok n ∧ sexp_ref_loc e = .ok l)
        ∧ (∀ e ∈ sexp_elems node1.fv, ∃ n l, e = .ref n l ∧ sexp_lambdap l = true))
      ∧ (∀ e ∈ sexp_elems fv1, ∃ n l, e = .ref n l ∧ sexp_lambdap l = true) := by
  refine ⟨fun hnest hbod => free_vars_returns x fv h hnest hbod hp hfv, fun fv1 h1 hr => ?_⟩
  obtain ⟨k, ok1, _, _, g⟩ := free_varsF_post _ x fv h fv1 h1 hr hp hfv
  refine ⟨fun a ha => ?_, fun e he => lambda_ref_eq (ok1.1 e he)⟩
  obtain ⟨node1, hn1, hg⟩ := g a ha
  refine ⟨node1, hn1, fun b n l hb ho hl _ => ?_, fun e he => lambda_ref_eq (hg.1.1 e he)⟩
  exact ⟨.ref n l, hg.2 b hb n l hl (ho.occ_same k.1.same_symm), rfl, rfl⟩

theorem C14_free_vars_collects_outer_refs_witness :
    (∀ a, Occ nested_heap (.lambda a) (.lambda 0) → ∃ node1,
        nested_heap_after.lams[a]? = some node1
      ∧ (∀ b n l, node1.body = some b → Occ nested_heap_after (.ref n l) b →
          sexp_lambdap l = true → l ≠ .lambda a →
          ∃ e ∈ sexp_elems node1.fv, sexp_ref_name e = .ok n ∧ sexp_ref_loc e = .ok l)
      ∧ (∀ e ∈ sexp_elems node1.fv, ∃ n l, e = .ref n l ∧ sexp_lambdap l = true))
    ∧ (∀ e ∈ sexp_elems nested_fv, ∃ n l, e = .ref n l ∧ sexp_lambdap l = true) :=
  (C14_free_vars_collects_outer_refs (.lambda 0) .null nested_heap (by unfold ParamsOk; decide)
    ⟨by decide, by decide⟩).2 nested_fv nested_heap_after (by decide!)

/-- C15: `insert_free_var` returns the list unchanged when it has an entry with
the name and the loc of the Ref, and the list with the Ref prepended when no
entry has both; so a Ref is added next to an entry with its name and another
loc.  `free_vars` returns on an AST whose Lambdas have bodies that hold only
Lambdas allocated later, and after it has returned neither the list returned
nor the free-vars list of a Lambda that occurs in `x` has two entries with
equal name and equal loc. -/
theorem C15_free_vars_identified_by_name_and_loc :
    (∀ n l fv, (∀ a ∈ sexp_elems fv, sexp_refp a = true) →
      insert_free_var (.ref n l) fv
        = .ok (if Sexp.ref n l ∈ sexp_elems fv then fv else .pair (.ref n l) fv))
    ∧ (∀ n l l2 fv, (∀ a ∈ sexp_elems fv, sexp_refp a = true) → l ≠ l2 →
        Sexp.ref n l2 ∈ sexp_elems fv → Sexp.ref n l ∉ sexp_elems fv →
        ∃ r, insert_free_var (.ref n l) fv = .ok r ∧ Sexp.ref n l ∈ sexp_elems r
          ∧ Sexp.ref n l2 ∈ sexp_elems r)
    ∧ (∀ x fv h, ParamsOk h → FvOk fv →
        (Nested h → Bodies h x → ∃ fv1 h1, free_vars x fv h = .ok (fv1, h1))
        ∧ ∀ fv1 h1, free_vars x fv h = .ok (fv1, h1) →
          (sexp_elems fv1).Pairwise (fun a b => ¬ same_var a b)
          ∧ ∀ a node1, Occ h (.lambda a) x → h1.lams[a]? = some node1 →
              (sexp_elems node1.fv).Pairwise (fun a b => ¬ same_var a b)) := by
  refine ⟨insert_free_var_spec, fun n l l2 fv hall _ h2 hno => ?_, ?_⟩
  · rw [insert_free_var_spec n l fv hall, if_neg hno]
    refine ⟨_, rfl, ?_, ?_⟩
    · simp only [sexp_elems, List.mem_cons, true_or]
    · simp only [sexp_elems, List.mem_cons]
      exact Or.inr h2
  · intro x fv h hp hfv
    refine ⟨fun hnest hbod => free_vars_returns x fv h hnest hbod hp hfv, fun fv1 h1 hr => ?_⟩
    obtain ⟨_, ok1, _, _, g⟩ := free_varsF_post _ x fv h fv1 h1 hr hp hfv
    refine ⟨fvok_distinct ok1, fun a node1 ha hn1 => ?_⟩
    obtain ⟨node2, hn2, hg⟩ := g a ha
    rw [hn1] at hn2
    cases hn2
    exact fvok_distinct hg.1

theorem C15_free_vars_identified_by_name_and_loc_witness :
    (sexp_elems nested_fv).Pairwise (fun a b => ¬ same_var a b)
      ∧ ∀ a node1, Occ nested_heap (.lambda a) (.lambda 0) →
          nested_heap_after.lams[a]? = some node1 →
          (sexp_elems node1.fv).Pairwise (fun a b => ¬ same_var a b) :=
  (C15_free_vars_identified_by_name_and_loc.2.2 (.lambda 0) .null nested_heap
    (by unfold ParamsOk; decide) ⟨by decide, by decide⟩).2 nested_fv nested_heap_after
    (by decide!)

/-! ## Executing emitted code: arithmetic and comparisons -/

theorem roomy_new : Roomy sexp_new_context := by
  unfold Roomy
  decide

theorem write_emitted (c : Context) (new : List Slot) (hr : Roomy c)
    (hn : new.length ≤ sizeof_sexp) :
    ∃ bc1, write_slots (expand_bcode c new.length).bc c.pos new = .ok bc1
      ∧ (expand_bcode c new.length).pos = c.pos
      ∧ (expand_bcode c new.length).depth = c.depth
      ∧ (expand_bcode c new.length).lambda = c.lambda
      ∧ (expand_bcode c new.length).tailp = c.tailp
      ∧ c.pos + new.length ≤ bc1.length ∧ sizeof_sexp ≤ bc1.length
      ∧ bc1.take (c.pos + new.length) = c.bc.take c.pos ++ new := by
  obtain ⟨hp, hl⟩ := hr
  have hexp : ∃ x, (expand_bcode c new.length).bc = c.bc ++ x
      ∧ c.pos + new.length ≤ (c.bc ++ x).length
      ∧ (expand_bcode c new.length).pos = c.pos
      ∧ (expand_bcode c new.length).depth = c.depth
      ∧ (expand_bcode c new.length).lambda = c.lambda
      ∧ (expand_bcode c new.length).tailp = c.tailp := by
    unfold expand_bcode
    by_cases hlt : c.bc.length < c.pos + new.length
    · rw [if_pos hlt]
      refine ⟨List.replicate c.bc.length .junk, rfl, ?_, rfl, rfl, rfl, rfl⟩
      simp only [List.length_append, List.length_replicate]
      omega
    · rw [if_neg hlt]
      refine ⟨[], by simp, ?_, rfl, rfl, rfl, rfl⟩
      simp only [List.append_nil]
      omega
  obtain ⟨x, hx, hroom, h1, h2, h3, h4⟩ := hexp
  rw [hx]
  unfold write_slots
  rw [if_pos hroom]
  refine ⟨_, rfl, h1, h2, h3, h4, ?_, ?_, ?_⟩
  · simp only [List.length_append, List.length_take, List.length_drop] at hroom ⊢
    omega
  · simp only [List.length_append, List.length_take, List.length_drop] at hroom ⊢
    omega
  · have ht : (List.take c.pos (c.bc ++ x)).length = c.pos := by
      simp only [List.length_take, List.length_append]
      omega
    rw [List.take_append_of_le_length (by rw [List.length_append, ht]),
      List.take_of_length_le (by rw [List.length_append, ht]),
      List.take_append_of_le_length hp]

theorem emit_code (op : Op) (c : Context) (hr : Roomy c) :
    ∃ c1, emit op c = .ok c1 ∧ Roomy c1 ∧ emitted c1 = emitted c ++ [.byte op]
      ∧ c1.depth = c.depth ∧ c1.lambda = c.lambda ∧ c1.tailp = c.tailp := by
  obtain ⟨bc1, hw, h1, h2, h3, h4, h5, h6, h7⟩ := write_emitted c [.byte op] hr
    (by simp [sizeof_sexp])
  simp only [List.length_singleton] at hw h1 h2 h3 h4 h5 h7
  refine ⟨{ bc := bc1, pos := c.pos + 1, depth := c.depth, lambda := c.lambda,
            tailp := c.tailp }, ?_, ⟨h5, h6⟩, h7, rfl, rfl, rfl⟩
  unfold emit
  simp only [h1, hw, ok_bind, h2, h3, h4]
  rfl

theorem word_slots_length (w : Sexp) : (word_slots w).length = sizeof_sexp := by
  simp [word_slots, sizeof_sexp]

theorem emit_word_code (w : Sexp) (c : Context) (hr : Roomy c) :
    ∃ c1, emit_word w c = .ok c1 ∧ Roomy c1 ∧ emitted c1 = emitted c ++ word_slots w
      ∧ c1.depth = c.depth ∧ c1.lambda = c.lambda ∧ c1.tailp = c.tailp := by
  obtain ⟨bc1, hw, h1, h2, h3, h4, h5, h6, h7⟩ := write_emitted c (word_slots w) hr
    (by rw [word_slots_length])
  rw [word_slots_length] at hw h1 h2 h3 h4 h5 h7
  refine ⟨{ bc := bc1, pos := c.pos + sizeof_sexp, depth := c.depth, lambda := c.lambda,
            tailp := c.tailp }, ?_, ⟨h5, h6⟩, h7, rfl, rfl, rfl⟩
  unfold emit_word
  simp only [h1, hw, ok_bind, h2, h3, h4]
  rfl

theorem emit_push_code (w : Sexp) (c : Context) (hr : Roomy c) :
    ∃ c1, emit_push w c = .ok c1 ∧ Roomy c1 ∧ emitted c1 = emitted c ++ push_code w
      ∧ c1.depth = c.depth ∧ c1.lambda = c.lambda ∧ c1.tailp = c.tailp := by
  obtain ⟨c1, e1, r1, k1, d1, l1, t1⟩ := emit_code .OP_PUSH c hr
  obtain ⟨c2, e2, r2, k2, d2, l2, t2⟩ := emit_word_code w c1 r1
  unfold emit_push
  simp only [e1, ok_bind]
  refine ⟨c2, e2, r2, ?_, d2.trans d1, l2.trans l1, t2.trans t1⟩
  rw [k2, k1, List.append_assoc]
  rfl

theorem emit_times_code (op : Op) : ∀ (n : Nat) (c : Context), Roomy c →
    ∃ c1, emit_times op n c = .ok c1 ∧ Roomy c1
      ∧ emitted c1 = emitted c ++ List.replicate n (.byte op)
      ∧ c1.depth = c.depth ∧ c1.lambda = c.lambda ∧ c1.tailp = c.tailp := by
  intro n
  induction n with
  | zero =>
    intro c hr
    exact ⟨c, rfl, hr, by simp, rfl, rfl, rfl⟩
  | succ n ih =>
    intro c hr
    obtain ⟨c1, e1, r1, k1, d1, l1, t1⟩ := emit_code op c hr
    obtain ⟨c2, e2, r2, k2, d2, l2, t2⟩ := ih c1 r1
    refine ⟨c2, ?_, r2, ?_, d2.trans d1, l2.trans l1, t2.trans t1⟩
    · rw [emit_times]
      simp only [e1, ok_bind]
      exact e2
    · rw [k2, k1, List.append_assoc, List.replicate_succ]
      rfl

theorem finalize_code (c : Context) (h : Heap) (hr : Roomy c) :
    finalize_bytecode c h
      = .ok (.bytecode h.bcs.length,
          { h with bcs := h.bcs ++ [emitted c ++ [.byte .OP_RET]] }) := by
  obtain ⟨c1, e1, r1, k1, _, _, _⟩ := emit_code .OP_RET c hr
  unfold finalize_bytecode
  simp only [e1, ok_bind]
  rw [← k1]
  unfold shrink_bcode emitted
  by_cases hl : c1.bc.length = c1.pos
  · rw [if_neg (by simpa using hl)]
    simp only [ok_bind, pure, Except.pure]
    rw [← hl, List.take_length]
  · rw [if_pos hl, if_pos r1.1]
    rfl

theorem vm_steps_next (rt : Runtime) : ∀ (n k : Nat) (m m1 : VM),
    vm_steps rt n m = .ok (.next m1) → vm_steps rt (n + k) m = vm_steps rt k m1 := by
  intro n
  induction n with
  | zero =>
    intro k m m1 h
    have : m = m1 := by
      simp only [vm_steps, pure, Except.pure, Except.ok.injEq, Step.next.injEq] at h
      exact h
    subst this
    rw [Nat.zero_add]
  | succ n ih =>
    intro k m m1 h
    rw [Nat.add_right_comm]
    rw [vm_steps] at h ⊢
    cases hs : vm_step rt m with
    | error e =>
      rw [hs] at h
      cases h
    | ok s =>
      rw [hs] at h
      cases s with
      | done v => cases h
      | next m2 =>
        simp only [ok_bind] at h ⊢
        exact ih k m2 m1 h

theorem vm_steps_one (rt : Runtime) (m m1 : VM) (h : vm_step rt m = .ok (.next m1)) :
    vm_steps rt 1 m = .ok (.next m1) := by
  rw [vm_steps]
  simp only [h, ok_bind]
  rfl

theorem read_byte_at (h : Heap) (b : Nat) (pre post : List Slot) (op : Op)
    (hd : h.bcs[b]? = some (pre ++ .byte op :: post)) :
    read_byte h b (pre.length : Int) = .ok op := by
  have hg : (pre ++ .byte op :: post)[pre.length]? = some (.byte op) := by
    rw [List.getElem?_append_right (le_refl _)]
    simp
  unfold read_byte
  rw [hd]
  simp only [Int.toNat_ofNat, hg, Int.ofNat_zero_le, if_true]
  rfl

theorem read_word_at (h : Heap) (b : Nat) (pre post : List Slot) (w : Sexp) (p : Nat)
    (hd : h.bcs[b]? = some (pre ++ word_slots w ++ post)) (hp : pre.length = p + 1) :
    read_word h b ((p : Int) + 1) 0 = .ok w := by
  have e : ((p : Int) + 1 + ((0 : Nat) : Int) * (sizeof_sexp : Int)) = ((pre.length : Nat) : Int) := by
    rw [hp]
    simp
  have hg : (pre ++ word_slots w ++ post)[pre.length]? = some (.word w) := by
    rw [List.append_assoc, List.getElem?_append_right (le_refl _)]
    simp [word_slots]
  have hd2 : ((pre ++ word_slots w ++ post).drop (pre.length + 1)).take (sizeof_sexp - 1)
      = List.replicate (sizeof_sexp - 1) .wtail := by
    rw [List.append_assoc, List.drop_append_eq_append_drop,
      List.drop_of_length_le (Nat.le_succ _)]
    simp [word_slots, sizeof_sexp]
  unfold read_word
  rw [hd]
  simp only [e, Int.toNat_ofNat, hg, Int.ofNat_zero_le, if_true, hd2]
  rfl

theorem step_push (rt : Runtime) (h : Heap) (B : List Sexp) (G : List (Option Sexp))
    (b p : Nat) (c w : Sexp)
    (hop : read_byte h b (p : Int) = .ok .OP_PUSH)
    (hw : read_word h b ((p : Int) + 1) 0 = .ok w)
    (hroom : B.length + 1 ≤ INIT_STACK_SIZE) :
    ∃ G1, vm_step rt (vm_state h B G b p c)
      = .ok (.next (vm_state h (B ++ [w]) G1 b (p + 9) c)) := by
  rw [vm_state_eq h B G b p c B.length rfl]
  obtain ⟨s1, hset, hslots⟩ := stack_set_slot (B.map some ++ G) (k := B.length) w (by omega)
  have hseg1 : Seg s1 0 (B ++ [w]) := by
    rw [seg_append, seg_cons]
    refine ⟨(seg_of_stack B G).seg_same (fun j _ hj => ?_), ?_, Seg.seg_nil _ _⟩
    · rw [hslots, if_neg (by omega)]
    · rw [hslots, Nat.zero_add, if_pos rfl]
  obtain ⟨G1, hG1⟩ := @vm_state_seg h s1 (B ++ [w]) (B.length + 1) b (p + 9) c hseg1 (by simp)
  refine ⟨G1, ?_⟩
  rw [← hG1]
  have e2 : (p : Int) + 1 + ((sizeof_sexp : Nat) : Int) = ((p + 9 : Nat) : Int) := by
    simp only [sizeof_sexp]
    omega
  have e3 : ((B.length : Nat) : Int) + 1 = ((B.length + 1 : Nat) : Int) := by omega
  unfold vm_step
  simp only [hop, ok_bind, hw, VM.push, hset, pure, Except.pure, e2, e3]

theorem step_arith (rt : Runtime) (h : Heap) (B : List Sexp) (G : List (Option Sexp))
    (b p : Nat) (c : Sexp) (op : Op) (x y : Int)
    (hk : op = .OP_ADD ∨ op = .OP_SUB ∨ op = .OP_MUL)
    (hop : read_byte h b (p : Int) = .ok op)
    (hroom : B.length + 2 ≤ INIT_STACK_SIZE) :
    ∃ G1, vm_step rt (vm_state h (B ++ [.fixnum y, .fixnum x]) G b p c)
      = .ok (.next (vm_state h (B ++ [.fixnum (fx_op op x y)]) G1 b (p + 1) c)) := by
  rw [vm_state_eq h _ G b p c (B.length + 2) (by simp)]
  have hseg := seg_of_stack (B ++ [Sexp.fixnum y, Sexp.fixnum x]) G
  have hseg2 := hseg
  rw [seg_append, seg_cons, seg_cons] at hseg2
  obtain ⟨hB, hy, hx, _⟩ := hseg2
  rw [Nat.zero_add] at hy hx
  have g1 := stack_get_slot hx (by omega : B.length + 1 < INIT_STACK_SIZE)
  have g2 := stack_get_slot hy (by omega : B.length < INIT_STACK_SIZE)
  obtain ⟨s1, hset, hslots⟩ := stack_set_slot (((B ++ [Sexp.fixnum y, Sexp.fixnum x]).map some) ++ G)
    (k := B.length) (.fixnum (fx_op op x y)) (by omega)
  have hseg1 : Seg s1 0 (B ++ [.fixnum (fx_op op x y)]) := by
    rw [seg_append, seg_cons]
    refine ⟨hB.seg_same (fun j _ hj => ?_), ?_, Seg.seg_nil _ _⟩
    · rw [hslots, if_neg (by omega)]
    · rw [hslots, Nat.zero_add, if_pos rfl]
  obtain ⟨G1, hG1⟩ := @vm_state_seg h s1 (B ++ [.fixnum (fx_op op x y)]) (B.length + 1) b
    (p + 1) c hseg1 (by simp)
  refine ⟨G1, ?_⟩
  rw [← hG1]
  have e1 : ((B.length + 2 : Nat) : Int) - 1 = ((B.length + 1 : Nat) : Int) := by omega
  have e2 : ((B.length + 2 : Nat) : Int) - 2 = ((B.length : Nat) : Int) := by omega
  have e3 : (p : Int) + 1 = ((p + 1 : Nat) : Int) := by omega
  unfold vm_step
  rcases hk with hk | hk | hk <;> subst hk <;> simp only [fx_op] at hset <;>
    simp only [hop, ok_bind, arith, VM.arg, VM.set_arg, e1, e2, g1, g2, hset, pure,
      Except.pure, e3]

theorem step_compare (rt : Runtime) (h : Heap) (B : List Sexp) (G : List (Option Sexp))
    (b p : Nat) (c : Sexp) (op : Op) (x y : Int)
    (hk : op = .OP_LT ∨ op = .OP_LE ∨ op = .OP_GT ∨ op = .OP_GE)
    (hop : read_byte h b (p : Int) = .ok op)
    (hroom : B.length + 2 ≤ INIT_STACK_SIZE) :
    ∃ G1, vm_step rt (vm_state h (B ++ [.fixnum y, .fixnum x]) G b p c)
      = .ok (.next (vm_state h (B ++ [sexp_make_boolean (cmp_op op x y)]) G1 b (p + 1) c)) := by
  rw [vm_state_eq h _ G b p c (B.length + 2) (by simp)]
  have hseg := seg_of_stack (B ++ [Sexp.fixnum y, Sexp.fixnum x]) G
  have hseg2 := hseg
  rw [seg_append, seg_cons, seg_cons] at hseg2
  obtain ⟨hB, hy, hx, _⟩ := hseg2
  rw [Nat.zero_add] at hy hx
  have g1 := stack_get_slot hx (by omega : B.length + 1 < INIT_STACK_SIZE)
  have g2 := stack_get_slot hy (by omega : B.length < INIT_STACK_SIZE)
  obtain ⟨s1, hset, hslots⟩ := stack_set_slot (((B ++ [Sexp.fixnum y, Sexp.fixnum x]).map some) ++ G)
    (k := B.length) (sexp_make_boolean (cmp_op op x y)) (by omega)
  have hseg1 : Seg s1 0 (B ++ [sexp_make_boolean (cmp_op op x y)]) := by
    rw [seg_append, seg_cons]
    refine ⟨hB.seg_same (fun j _ hj => ?_), ?_, Seg.seg_nil _ _⟩
    · rw [hslots, if_neg (by omega)]
    · rw [hslots, Nat.zero_add, if_pos rfl]
  obtain ⟨G1, hG1⟩ := @vm_state_seg h s1 _ (B.length + 1) b (p + 1) c hseg1 (by simp)
  refine ⟨G1, ?_⟩
  rw [← hG1]
  have e1 : ((B.length + 2 : Nat) : Int) - 1 = ((B.length + 1 : Nat) : Int) := by omega
  have e2 : ((B.length + 2 : Nat) : Int) - 2 = ((B.length : Nat) : Int) := by omega
  have e3 : (p : Int) + 1 = ((p + 1 : Nat) : Int) := by omega
  unfold vm_step
  rcases hk with hk | hk | hk | hk <;> subst hk <;> simp only [cmp_op] at hset <;>
    simp only [hop, ok_bind, compare, VM.arg, VM.set_arg, e1, e2, g1, g2, hset, pure,
      Except.pure, e3]

theorem push_all_length (ws : List Sexp) : (push_all ws).length = 9 * ws.length := by
  induction ws with
  | nil => rfl
  | cons w ws ih =>
    simp only [push_all, push_code, List.length_append, List.length_cons, word_slots_length, ih,
      sizeof_sexp]
    omega

theorem push_all_append (l1 l2 : List Sexp) : push_all (l1 ++ l2) = push_all l1 ++ push_all l2 := by
  induction l1 with
  | nil => rfl
  | cons w ws ih =>
    show push_code w ++ push_all (ws ++ l2) = push_code w ++ push_all ws ++ push_all l2
    rw [ih, List.append_assoc]

theorem with_code_at (h : Heap) (code : List Slot) :
    (with_code h code).bcs[h.bcs.length]? = some code := by
  unfold with_code
  simp

theorem run_pushes (rt : Runtime) (h : Heap) (b : Nat) (c : Sexp) :
    ∀ (ws : List Sexp) (pre post : List Slot) (B : List Sexp) (G : List (Option Sexp)),
      h.bcs[b]? = some (pre ++ push_all ws ++ post) →
      B.length + ws.length ≤ INIT_STACK_SIZE →
      ∃ G1, vm_steps rt ws.length (vm_state h B G b pre.length c)
        = .ok (.next (vm_state h (B ++ ws) G1 b (pre.length + 9 * ws.length) c)) := by
  intro ws
  induction ws with
  | nil =>
    intro pre post B G _ _
    refine ⟨G, ?_⟩
    simp only [List.length_nil, List.append_nil, Nat.mul_zero, Nat.add_zero]
    rfl
  | cons w ws ih =>
    intro pre post B G hd hroom
    simp only [List.length_cons] at hroom
    have hb := read_byte_at h b pre (word_slots w ++ push_all ws ++ post) .OP_PUSH
      (by rw [hd]; simp [push_all, push_code])
    have hw := read_word_at h b (pre ++ [.byte .OP_PUSH]) (push_all ws ++ post) w pre.length
      (by rw [hd]; simp [push_all, push_code]) (by simp)
    obtain ⟨G1, h1⟩ := step_push rt h B G b pre.length c w hb hw (by omega)
    have hlen : (pre ++ push_code w).length = pre.length + 9 := by
      simp [push_code, word_slots_length, sizeof_sexp]
    obtain ⟨G2, h2⟩ := ih (pre ++ push_code w) post (B ++ [w]) G1
      (by rw [hd]; simp [push_all]) (by simp; omega)
    rw [hlen] at h2
    refine ⟨G2, ?_⟩
    have e : (w :: ws).length = 1 + ws.length := by simp; omega
    rw [e, vm_steps_next rt 1 ws.length _ _ (vm_steps_one rt _ _ h1), h2]
    simp only [List.append_assoc, List.singleton_append, List.length_cons]
    congr 3
    omega

theorem run_fold (rt : Runtime) (h : Heap) (b : Nat) (c : Sexp) (op : Op)
    (hk : op = .OP_ADD ∨ op = .OP_SUB ∨ op = .OP_MUL) :
    ∀ (rest : List Int) (pre post : List Slot) (B : List Sexp) (G : List (Option Sexp))
      (acc : Int),
      h.bcs[b]? = some (pre ++ List.replicate rest.length (.byte op) ++ post) →
      B.length + rest.length + 1 ≤ INIT_STACK_SIZE →
      ∃ G1, vm_steps rt rest.length
          (vm_state h (B ++ rest.reverse.map .fixnum ++ [.fixnum acc]) G b pre.length c)
        = .ok (.next (vm_state h (B ++ [.fixnum (rest.foldl (fx_op op) acc)]) G1 b
            (pre.length + rest.length) c)) := by
  intro rest
  induction rest with
  | nil =>
    intro pre post B G acc _ _
    refine ⟨G, ?_⟩
    simp only [List.length_nil, List.reverse_nil, List.map_nil, List.append_nil, Nat.add_zero,
      List.foldl_nil]
    rfl
  | cons a rest ih =>
    intro pre post B G acc hd hroom
    simp only [List.length_cons] at hroom
    have hb := read_byte_at h b pre (List.replicate rest.length (.byte op) ++ post) op
      (by rw [hd]; simp [List.replicate_succ])
    have hst : B ++ (a :: rest).reverse.map Sexp.fixnum ++ [Sexp.fixnum acc]
        = (B ++ rest.reverse.map Sexp.fixnum) ++ [Sexp.fixnum a, Sexp.fixnum acc] := by
      simp
    obtain ⟨G1, h1⟩ := step_arith rt h (B ++ rest.reverse.map Sexp.fixnum) G b pre.length c op
      acc a hk hb (by simp; omega)
    obtain ⟨G2, h2⟩ := ih (pre ++ [.byte op]) post B G1 (fx_op op acc a)
      (by rw [hd]; simp [List.replicate_succ]) (by omega)
    refine ⟨G2, ?_⟩
    have e : (a :: rest).length = 1 + rest.length := by simp; omega
    have hl : (pre ++ [Slot.byte op]).length = pre.length + 1 := by simp
    rw [hl] at h2
    rw [hst, e, vm_steps_next rt 1 rest.length _ _ (vm_steps_one rt _ _ h1), h2]
    simp only [List.foldl_cons]
    congr 3
    omega

theorem compile_lits (h : Heap) : ∀ (l : List Sexp), (∀ v ∈ l, self_evaluating v = true) →
    ∀ c : Context, Roomy c →
    ∃ c1, compile_each compile_one l c h = .ok (c1, h) ∧ Roomy c1
      ∧ emitted c1 = emitted c ++ push_all l
      ∧ c1.depth = c.depth ∧ c1.lambda = c.lambda ∧ c1.tailp = c.tailp := by
  intro l
  induction l with
  | nil =>
    intro _ c hr
    exact ⟨c, rfl, hr, by simp [push_all], rfl, rfl, rfl⟩
  | cons v vs ih =>
    intro hv c hr
    obtain ⟨c1, e1, r1, k1, d1, l1, t1⟩ := emit_push_code v c hr
    obtain ⟨c2, e2, r2, k2, d2, l2, t2⟩ := ih (fun x hx => hv x (List.mem_cons_of_mem _ hx)) c1 r1
    refine ⟨c2, ?_, r2, ?_, d2.trans d1, l2.trans l1, t2.trans t1⟩
    · rw [compile_each, compile_one_self_evaluating v c h (hv v (List.mem_cons_self _ _))]
      unfold compile_lit
      simp only [e1, ok_bind, pure, Except.pure]
      exact e2
    · rw [k2, k1, List.append_assoc]
      rfl

theorem not_class_eq_inv_false (o : Opcode) : not_class_eq_inv o = false := by
  unfold not_class_eq_inv
  cases o.op_class <;> rfl

theorem opcode_default_p_nodata (op : Opcode) (n : Int) (hd : op.data = .nodata) :
    opcode_default_p op n = .ok false := by
  unfold opcode_default_p
  split
  · cases hv : sexp_opcode_variadic_p op with
    | ok v => simp [hd, pure, Except.pure]
    | error e => simp [hd, pure, Except.pure]
  · rfl

theorem compile_arith_gen (h : Heap) (i : Nat) (cls : OpClass) (op : Op) (inv : Option Op)
    (s : String)
    (hget : get_opcode (.opcode i) = .ok (mk_OP cls op 0 1 .SEXP_FIXNUM .notag inv s .nodata))
    (hcls : cls = .OPC_ARITHMETIC ∧ inv = none ∨ cls = .OPC_ARITHMETIC_INV)
    (args : List Int) (hn : 2 ≤ args.length) (c : Context) (hr : Roomy c) :
    ∃ c1, compile_opcode_app compile_one (opcode_app i args) c h = .ok (c1, h) ∧ Roomy c1
      ∧ emitted c1 = emitted c ++ arith_code op args := by
  obtain ⟨c1, e1, r1, k1, d1, l1, t1⟩ := compile_lits h ((args.map Sexp.fixnum).reverse)
    (by
      intro v hv
      simp only [List.mem_reverse, List.mem_map] at hv
      obtain ⟨a, _, rfl⟩ := hv
      rfl) c hr
  obtain ⟨c2, e2, r2, k2, d2, l2, t2⟩ := emit_code op c1 r1
  obtain ⟨c3, e3, r3, k3, d3, l3, t3⟩ := emit_times_code op (args.length - 2) c2 r2
  have hne : ¬ (((args.map Sexp.fixnum).length : Int) = 1) := by
    simp only [List.length_map]
    omega
  have hfold : ∀ K : Context → CRes,
      (if (((args.map Sexp.fixnum).length : Int)) > 2 then
        (emit_times op ((((args.map Sexp.fixnum).length : Int)) - 2).toNat c2 >>= K)
       else K c2) = K c3 := by
    intro K
    simp only [List.length_map]
    by_cases hgt : ((args.length : Int)) > 2
    · rw [if_pos hgt]
      have : ((args.length : Int) - 2).toNat = args.length - 2 := by omega
      rw [this, e3]
      rfl
    · rw [if_neg hgt]
      have h2 : args.length - 2 = 0 := by omega
      rw [h2] at e3
      simp only [emit_times, pure, Except.pure, Except.ok.injEq] at e3
      rw [e3]
  refine ⟨{ c3 with depth := c3.depth - (((args.map Sexp.fixnum).length : Int) - 1) }, ?_, r3, ?_⟩
  · unfold compile_opcode_app opcode_app
    rcases hcls with ⟨hc, hi⟩ | hc
    · subst hc hi
      simp only [sexp_car, sexp_cdr, hget, ok_bind, pure, Except.pure, mk_OP,
        opcode_default_p_nodata, not_class_eq_inv_false]
      simp only [Nat.one_mod, beq_self_eq_true, Bool.and_true, ne_eq, not_true_eq_false,
        decide_False, Bool.and_false, Bool.false_eq_true, if_false, Option.isSome_none,
        Bool.false_and, ok_bind, reduceCtorEq, if_true, true_or, or_true, sexp_length_list,
        sexp_reverse_list, compile_args_list, e1, e2]
      exact hfold _
    · subst hc
      simp only [sexp_car, sexp_cdr, hget, ok_bind, pure, Except.pure, mk_OP,
        opcode_default_p_nodata, not_class_eq_inv_false]
      simp only [Nat.one_mod, beq_self_eq_true, Bool.and_true, ne_eq, not_true_eq_false,
        decide_False, Bool.and_false, Bool.false_eq_true, if_false,
        Bool.false_and, ok_bind, reduceCtorEq, if_true, true_or, or_true, sexp_length_list,
        sexp_reverse_list, compile_args_list, e1, e2, if_neg hne]
      exact hfold _
  · show emitted c3 = _
    rw [k3, k2, k1]
    unfold arith_code
    have : args.length - 1 = (args.length - 2) + 1 := by omega
    rw [this, List.replicate_succ, List.map_reverse]
    simp only [List.append_assoc, List.singleton_append]

theorem compile_cmp_gen (h : Heap) (i : Nat) (op iop : Op) (s : String)
    (hget : get_opcode (.opcode i)
      = .ok (mk_OP .OPC_ARITHMETIC_CMP op 0 1 .SEXP_FIXNUM .notag (some iop) s .nodata))
    (a b : Int) (c : Context) (hr : Roomy c) :
    ∃ c1, compile_opcode_app compile_one (opcode_app i [a, b]) c h = .ok (c1, h) ∧ Roomy c1
      ∧ emitted c1 = emitted c ++ (push_all [.fixnum b, .fixnum a] ++ [.byte iop]) := by
  obtain ⟨c1, e1, r1, k1, d1, l1, t1⟩ := compile_lits h [.fixnum b, .fixnum a]
    (by
      intro v hv
      simp only [List.mem_cons, List.mem_singleton, List.not_mem_nil, or_false] at hv
      rcases hv with rfl | rfl <;> rfl) c hr
  obtain ⟨c2, e2, r2, k2, d2, l2, t2⟩ := emit_code iop c1 r1
  refine ⟨{ c2 with depth := c2.depth - ((2 : Int) - 1) }, ?_, r2, ?_⟩
  · unfold compile_opcode_app opcode_app
    simp only [sexp_car, sexp_cdr, hget, ok_bind, pure, Except.pure, mk_OP,
      opcode_default_p_nodata, not_class_eq_inv_false]
    simp only [Nat.one_mod, beq_self_eq_true, Bool.and_true, ne_eq, not_true_eq_false,
      decide_False, Bool.and_false, Bool.false_eq_true, if_false,
      Bool.false_and, ok_bind, reduceCtorEq, if_true, true_or, or_true, sexp_length_list,
      sexp_reverse_list, compile_args_list, List.map_cons, List.map_nil, List.reverse_cons,
      List.reverse_nil, List.nil_append, List.singleton_append, e1, e2, List.length_cons,
      List.length_nil]
    rfl
  · show emitted c2 = _
    rw [k2, k1, List.append_assoc]

theorem fx_wrap_range (n : Int) (hn : fixnum_range n) : fx_wrap n = n := by
  unfold fixnum_range at hn
  unfold fx_wrap
  have e1 : (2 : Int) ^ (61 : Nat) = 2305843009213693952 := by norm_num
  have e2 : (2 : Int) ^ (62 : Nat) = 4611686018427387904 := by norm_num
  rw [e1] at hn ⊢
  rw [e2]
  omega

theorem fx_word_nonneg (n : Int) (h0 : 0 ≤ n) (hn : fixnum_range n) : fx_word n = n * 4 + 1 := by
  unfold fixnum_range at hn
  unfold fx_word
  have e1 : (2 : Int) ^ (61 : Nat) = 2305843009213693952 := by norm_num
  have e2 : (2 : Int) ^ (64 : Nat) = 18446744073709551616 := by norm_num
  rw [e1] at hn
  rw [e2]
  omega

theorem fx_fold_range (op : Op) (hk : op = .OP_ADD ∨ op = .OP_SUB ∨ op = .OP_MUL) :
    ∀ (rest : List Int) (acc : Int),
      (∀ k, k < rest.length → fixnum_range ((rest.take (k + 1)).foldl (int_op op) acc)) →
      rest.foldl (fx_op op) acc = rest.foldl (int_op op) acc := by
  intro rest
  induction rest with
  | nil =>
    intro acc _
    rfl
  | cons a rest ih =>
    intro acc hr
    have h1 : fx_op op acc a = int_op op acc a := by
      have := hr 0 (by simp)
      simp only [Nat.zero_add, List.take_succ_cons, List.take_zero, List.foldl_cons,
        List.foldl_nil] at this
      rcases hk with hk | hk | hk <;> subst hk <;> exact fx_wrap_range _ this
    simp only [List.foldl_cons, h1]
    refine ih _ (fun k hlt => ?_)
    have := hr (k + 1) (by simp; omega)
    simpa only [List.take_succ_cons, List.foldl_cons] using this

/-- C37: for the opcodes `+`, `*` and `-` applied to `n ≥ 2` integer literals
`a1 a2 ... an`, `compile_opcode_app` emits the pushes of the arguments (last
argument first, so that `a1` ends on top) followed by exactly `n - 1` copies of
the base opcode.  Executing that code, `2n - 1` instructions, from a stack `B`
leaves `B` with one more slot, which holds the left-associative fold
`((a1 op a2) op ...) op an` of the operation the VM performs on fixnums; this is
the fold of the integer operation whenever the partial results are fixnums. -/
theorem C37_arith_fold_left (rt : Runtime) (h : Heap) (i : Nat) (op : Op) (a1 a2 : Int)
    (rest : List Int) (B : List Sexp) (G : List (Option Sexp)) (c : Sexp)
    (hop : (i, op) = (8, Op.OP_ADD) ∨ (i, op) = (9, Op.OP_MUL) ∨ (i, op) = (10, Op.OP_SUB))
    (hroom : B.length + rest.length + 2 ≤ INIT_STACK_SIZE) :
    ∃ c1, compile_opcode_app compile_one (opcode_app i (a1 :: a2 :: rest)) sexp_new_context h
        = .ok (c1, h)
      ∧ emitted c1 = push_all ((a1 :: a2 :: rest).reverse.map Sexp.fixnum)
          ++ List.replicate (rest.length + 1) (.byte op)
      ∧ finalize_bytecode c1 h
        = .ok (.bytecode h.bcs.length, with_code h (emitted c1 ++ [.byte .OP_RET]))
      ∧ (∃ G1, vm_steps rt (2 * rest.length + 3)
            (vm_state (with_code h (emitted c1 ++ [.byte .OP_RET])) B G h.bcs.length 0 c)
          = .ok (.next (vm_state (with_code h (emitted c1 ++ [.byte .OP_RET]))
              (B ++ [.fixnum (rest.foldl (fx_op op) (fx_op op a1 a2))]) G1 h.bcs.length
              (emitted c1).length c)))
      ∧ ((∀ k, k ≤ rest.length →
            fixnum_range ((rest.take k).foldl (int_op op) (int_op op a1 a2))) →
          rest.foldl (fx_op op) (fx_op op a1 a2)
            = rest.foldl (int_op op) (int_op op a1 a2)) := by
  have hk : op = .OP_ADD ∨ op = .OP_SUB ∨ op = .OP_MUL := by
    rcases hop with hop | hop | hop <;> cases hop <;> simp
  have hgen : ∃ c1, compile_opcode_app compile_one (opcode_app i (a1 :: a2 :: rest))
        sexp_new_context h = .ok (c1, h) ∧ Roomy c1
      ∧ emitted c1 = emitted sexp_new_context ++ arith_code op (a1 :: a2 :: rest) := by
    rcases hop with hop | hop | hop <;> cases hop
    · exact compile_arith_gen h 8 .OPC_ARITHMETIC .OP_ADD none "+" rfl (Or.inl ⟨rfl, rfl⟩) _
        (by simp) _ roomy_new
    · exact compile_arith_gen h 9 .OPC_ARITHMETIC .OP_MUL none "*" rfl (Or.inl ⟨rfl, rfl⟩) _
        (by simp) _ roomy_new
    · exact compile_arith_gen h 10 .OPC_ARITHMETIC_INV .OP_SUB (some .OP_NEG) "-" rfl (Or.inr rfl) _
        (by simp) _ roomy_new
  obtain ⟨c1, hc, hr, hcode⟩ := hgen
  have hcode1 : emitted c1 = push_all ((a1 :: a2 :: rest).reverse.map Sexp.fixnum)
      ++ List.replicate (rest.length + 1) (.byte op) := by
    rw [hcode]
    rfl
  refine ⟨c1, hc, hcode1, finalize_code c1 h hr, ?_, ?_⟩
  · have hat := with_code_at h (emitted c1 ++ [.byte .OP_RET])
    obtain ⟨G1, h1⟩ := run_pushes rt (with_code h (emitted c1 ++ [.byte .OP_RET])) h.bcs.length c
      ((a1 :: a2 :: rest).reverse.map Sexp.fixnum) []
      (List.replicate (rest.length + 1) (.byte op) ++ [.byte .OP_RET]) B G
      (by rw [hat, hcode1]; simp) (by simp; omega)
    have hst : B ++ (a1 :: a2 :: rest).reverse.map Sexp.fixnum
        = B ++ (a2 :: rest).reverse.map Sexp.fixnum ++ [Sexp.fixnum a1] := by
      simp
    obtain ⟨G2, h2⟩ := run_fold rt (with_code h (emitted c1 ++ [.byte .OP_RET])) h.bcs.length c
      op hk (a2 :: rest) (push_all ((a1 :: a2 :: rest).reverse.map Sexp.fixnum))
      [.byte .OP_RET] B G1 a1
      (by rw [hat, hcode1]; simp) (by simp; omega)
    refine ⟨G2, ?_⟩
    have hn : 2 * rest.length + 3
        = ((a1 :: a2 :: rest).reverse.map Sexp.fixnum).length + (a2 :: rest).length := by
      simp
      omega
    have hp : (([] : List Slot).length + 9 * ((a1 :: a2 :: rest).reverse.map Sexp.fixnum).length)
        = (push_all ((a1 :: a2 :: rest).reverse.map Sexp.fixnum)).length := by
      rw [push_all_length]
      simp
    rw [hp, hst] at h1
    rw [hn]
    refine (vm_steps_next rt _ (a2 :: rest).length _ _ h1).trans ?_
    rw [h2]
    simp only [List.foldl_cons]
    congr 3
    rw [hcode1]
    simp
  · intro hin
    have := fx_fold_range op hk (a2 :: rest) a1 (fun k hlt => by
      have := hin k (by simp only [List.length_cons] at hlt; omega)
      simpa only [List.take_succ_cons, List.foldl_cons] using this)
    simpa only [List.foldl_cons] using this

theorem C37_arith_fold_left_witness :
    ∃ c1, compile_opcode_app compile_one (opcode_app 8 (1 :: 2 :: [3])) sexp_new_context
        empty_heap = .ok (c1, empty_heap)
      ∧ emitted c1 = push_all ((1 :: 2 :: [3]).reverse.map Sexp.fixnum)
          ++ List.replicate (([3] : List Int).length + 1) (.byte .OP_ADD)
      ∧ finalize_bytecode c1 empty_heap
        = .ok (.bytecode empty_heap.bcs.length, with_code empty_heap (emitted c1 ++ [.byte .OP_RET]))
      ∧ (∃ G1, vm_steps sample_rt (2 * ([3] : List Int).length + 3)
            (vm_state (with_code empty_heap (emitted c1 ++ [.byte .OP_RET])) [] [] empty_heap.bcs.length
              0 .null)
          = .ok (.next (vm_state (with_code empty_heap (emitted c1 ++ [.byte .OP_RET]))
              ([] ++ [.fixnum 6]) G1 empty_heap.bcs.length
              (emitted c1).length .null)))
      ∧ ((∀ k, k ≤ ([3] : List Int).length →
            fixnum_range (([3].take k).foldl (int_op .OP_ADD) (int_op .OP_ADD 1 2))) →
          [3].foldl (fx_op .OP_ADD) (fx_op .OP_ADD 1 2)
            = [3].foldl (int_op .OP_ADD) (int_op .OP_ADD 1 2)) :=
  C37_arith_fold_left sample_rt empty_heap 8 .OP_ADD 1 2 [3] [] [] .null (Or.inl rfl) (by decide)

/-- C36: the code `compile_opcode_app` emits for `(> a b)` is `PUSH b; PUSH a;
LE` (the arguments are pushed last to first, so `a` is on top, and the opcode
emitted is the inverse entry of the table row).  For nonnegative fixnums `a`
and `b`, executing it leaves the boolean of `a ≤ b` on the stack, the negation
of `a > b`; for `(>= a b)` the code is `PUSH b; PUSH a; LT` and leaves the
boolean of `a < b`. -/
theorem C36_gt_ge_compute_the_negation (rt : Runtime) (h : Heap) (a b : Int) (B : List Sexp)
    (G : List (Option Sexp)) (c : Sexp)
    (ha : 0 ≤ a ∧ fixnum_range a) (hb : 0 ≤ b ∧ fixnum_range b)
    (hroom : B.length + 2 ≤ INIT_STACK_SIZE) :
    (opcodes[16]?.map Opcode.name = some ">" ∧ opcodes[17]?.map Opcode.name = some ">=")
      ∧ (∃ c1, compile_opcode_app compile_one (opcode_app 16 [a, b]) sexp_new_context h
          = .ok (c1, h)
        ∧ emitted c1 = push_all [.fixnum b, .fixnum a] ++ [.byte .OP_LE]
        ∧ finalize_bytecode c1 h
          = .ok (.bytecode h.bcs.length, with_code h (emitted c1 ++ [.byte .OP_RET]))
        ∧ ∃ G1, vm_steps rt 3
              (vm_state (with_code h (emitted c1 ++ [.byte .OP_RET])) B G h.bcs.length 0 c)
            = .ok (.next (vm_state (with_code h (emitted c1 ++ [.byte .OP_RET]))
                (B ++ [sexp_make_boolean (decide (a ≤ b))]) G1 h.bcs.length 19 c)))
      ∧ (∃ c1, compile_opcode_app compile_one (opcode_app 17 [a, b]) sexp_new_context h
          = .ok (c1, h)
        ∧ emitted c1 = push_all [.fixnum b, .fixnum a] ++ [.byte .OP_LT]
        ∧ finalize_bytecode c1 h
          = .ok (.bytecode h.bcs.length, with_code h (emitted c1 ++ [.byte .OP_RET]))
        ∧ ∃ G1, vm_steps rt 3
              (vm_state (with_code h (emitted c1 ++ [.byte .OP_RET])) B G h.bcs.length 0 c)
            = .ok (.next (vm_state (with_code h (emitted c1 ++ [.byte .OP_RET]))
                (B ++ [sexp_make_boolean (decide (a < b))]) G1 h.bcs.length 19 c))) := by
  have wa := fx_word_nonneg a ha.1 ha.2
  have wb := fx_word_nonneg b hb.1 hb.2
  have run : ∀ (iop : Op) (c1 : Context), (iop = .OP_LT ∨ iop = .OP_LE ∨ iop = .OP_GT ∨ iop = .OP_GE) →
      emitted c1 = push_all [.fixnum b, .fixnum a] ++ [.byte iop] →
      ∃ G1, vm_steps rt 3
          (vm_state (with_code h (emitted c1 ++ [.byte .OP_RET])) B G h.bcs.length 0 c)
        = .ok (.next (vm_state (with_code h (emitted c1 ++ [.byte .OP_RET]))
            (B ++ [sexp_make_boolean (cmp_op iop a b)]) G1 h.bcs.length 19 c)) := by
    intro iop c1 hk hcode
    have hat := with_code_at h (emitted c1 ++ [.byte .OP_RET])
    obtain ⟨G1, h1⟩ := run_pushes rt (with_code h (emitted c1 ++ [.byte .OP_RET])) h.bcs.length c
      [.fixnum b, .fixnum a] [] [.byte iop, .byte .OP_RET] B G
      (by rw [hat, hcode]; simp) (by simp; omega)
    have hb2 := read_byte_at (with_code h (emitted c1 ++ [.byte .OP_RET])) h.bcs.length
      (push_all [.fixnum b, .fixnum a]) [.byte .OP_RET] iop (by rw [hat, hcode]; simp)
    rw [push_all_length] at hb2
    obtain ⟨G2, h2⟩ := step_compare rt (with_code h (emitted c1 ++ [.byte .OP_RET])) B G1
      h.bcs.length 18 c iop a b hk hb2 hroom
    refine ⟨G2, ?_⟩
    refine (vm_steps_next rt 2 1 _ _ h1).trans ?_
    exact vm_steps_one rt _ _ h2
  refine ⟨⟨rfl, rfl⟩, ?_, ?_⟩
  · obtain ⟨c1, hc, hr, hcode⟩ := compile_cmp_gen h 16 .OP_GT .OP_LE ">" rfl a b _ roomy_new
    have hcode1 : emitted c1 = push_all [.fixnum b, .fixnum a] ++ [.byte .OP_LE] := by
      rw [hcode]
      rfl
    obtain ⟨G1, h1⟩ := run .OP_LE c1 (by simp) hcode1
    refine ⟨c1, hc, hcode1, finalize_code c1 h hr, G1, ?_⟩
    rw [h1]
    simp only [cmp_op, wa, wb]
    congr 6
    simp only [decide_eq_decide]
    omega
  · obtain ⟨c1, hc, hr, hcode⟩ := compile_cmp_gen h 17 .OP_GE .OP_LT ">=" rfl a b _ roomy_new
    have hcode1 : emitted c1 = push_all [.fixnum b, .fixnum a] ++ [.byte .OP_LT] := by
      rw [hcode]
      rfl
    obtain ⟨G1, h1⟩ := run .OP_LT c1 (by simp) hcode1
    refine ⟨c1, hc, hcode1, finalize_code c1 h hr, G1, ?_⟩
    rw [h1]
    simp only [cmp_op, wa, wb]
    congr 6
    simp only [decide_eq_decide]
    omega

theorem C36_gt_ge_compute_the_negation_witness :
    ∃ c1, compile_opcode_app compile_one (opcode_app 16 [2, 1]) sexp_new_context empty_heap
        = .ok (c1, empty_heap)
      ∧ emitted c1 = push_all [.fixnum 1, .fixnum 2] ++ [.byte .OP_LE]
      ∧ finalize_bytecode c1 empty_heap
        = .ok (.bytecode empty_heap.bcs.length,
            with_code empty_heap (emitted c1 ++ [.byte .OP_RET]))
      ∧ ∃ G1, vm_steps sample_rt 3
            (vm_state (with_code empty_heap (emitted c1 ++ [.byte .OP_RET])) [] []
              empty_heap.bcs.length 0 .null)
          = .ok (.next (vm_state (with_code empty_heap (emitted c1 ++ [.byte .OP_RET]))
              ([] ++ [.sfalse]) G1 empty_heap.bcs.length 19 .null)) := by
  have w := C36_gt_ge_compute_the_negation sample_rt empty_heap 2 1 [] [] .null
    ⟨by decide, by unfold fixnum_range; decide⟩ ⟨by decide, by unfold fixnum_range; decide⟩
    (by decide)
  exact w.2.1

/-! ## The compiler: references, calls and closures -/

theorem closure_ref_loop_stuck (name loc e rest : Sexp) (hne : sexp_eq name e = false) :
    ∀ (fuel i : Nat), closure_ref_loop fuel name loc (.pair e rest) i = .error .fuel := by
  intro fuel
  induction fuel with
  | zero =>
    intro i
    rfl
  | succ n ih =>
    intro i
    rw [closure_ref_loop]
    simp only [sexp_pairp, if_true, sexp_car, ok_bind, hne, Bool.false_eq_true, if_false]
    exact ih (i + 1)

/-- C33: a Ref to a variable of an outer Lambda, compiled in a Lambda whose
free-vars list is not empty, never yields `CLOSURE_REF k`: the search loop of
`compile_non_global_ref` compares the name with the first entry of the list (a
Ref, never a symbol) and does not advance, so it runs out of every budget. -/
theorem C33_closure_ref_search_never_ends (fuel : Nat) (s : String) (loc : Sexp)
    (lam : Option Sexp) (n l rest : Sexp) (c : Context) (unboxp : Bool) (h : Heap)
    (hloc : (match lam with
      | some x => sexp_eq loc x
      | none => false) = false) :
    compile_non_global_ref fuel (.symbol s) loc lam (.pair (.ref n l) rest) c unboxp h
      = .error .fuel := by
  have hne : sexp_eq (.symbol s) (.ref n l) = false := by
    unfold sexp_eq
    simp
  have hloop := closure_ref_loop_stuck (.symbol s) loc (.ref n l) rest hne fuel 0
  unfold compile_non_global_ref
  cases lam with
  | none =>
    simp only [Bool.false_eq_true, if_false, hloop]
    rfl
  | some x =>
    simp only at hloc
    simp only [hloc, Bool.false_eq_true, if_false, hloop]
    rfl

theorem C33_closure_ref_search_never_ends_witness :
    compile_non_global_ref 1000 (.symbol "x") (.lambda 0) (some (.lambda 1))
        (.pair (.ref (.symbol "x") (.lambda 0)) .null) sexp_new_context true (codes_heap [])
      = .error .fuel :=
  C33_closure_ref_search_never_ends 1000 "x" (.lambda 0) (some (.lambda 1)) (.symbol "x")
    (.lambda 0) .null sexp_new_context true (codes_heap []) (by decide)

theorem compile_global_ref (fuel : Nat) (n l : Sexp) (c : Context) (unboxp : Bool) (h : Heap)
    (hl : sexp_lambdap l = false) (hr : Roomy c) :
    ∃ c1, compile_ref fuel (.ref n l) c unboxp h = .ok c1 ∧ Roomy c1
      ∧ emitted c1 = emitted c ++ (push_code (.ref n l) ++ [.byte .OP_CDR])
      ∧ c1.depth = c.depth ∧ c1.lambda = c.lambda ∧ c1.tailp = c.tailp := by
  obtain ⟨c1, e1, r1, k1, d1, l1, t1⟩ := emit_push_code (.ref n l) c hr
  obtain ⟨c2, e2, r2, k2, d2, l2, t2⟩ := emit_code .OP_CDR c1 r1
  refine ⟨c2, ?_, r2, ?_, d2.trans d1, l2.trans l1, t2.trans t1⟩
  · unfold compile_ref
    simp only [sexp_ref_loc, ok_bind, hl, Bool.not_false, if_true, e1]
    exact e2
  · rw [k2, k1, List.append_assoc]

theorem compile_one_global_ref (n l : Sexp) (c : Context) (h : Heap)
    (hl : sexp_lambdap l = false) (hr : Roomy c) :
    ∃ c1, compile_one (.ref n l) c h = .ok (c1, h) ∧ Roomy c1
      ∧ emitted c1 = emitted c ++ (push_code (.ref n l) ++ [.byte .OP_CDR])
      ∧ c1.depth = c.depth ∧ c1.lambda = c.lambda ∧ c1.tailp = c.tailp := by
  obtain ⟨k, hk⟩ : ∃ k, ast_budget h (.ref n l) = k + 1 := by
    refine ⟨ast_budget h (.ref n l) - 1, ?_⟩
    unfold ast_budget ast_size
    omega
  obtain ⟨c1, e1, rest⟩ := compile_global_ref k n l c true h hl hr
  refine ⟨c1, ?_, rest⟩
  unfold compile_one
  rw [hk]
  show (compile_ref k (.ref n l) c true h >>= fun c => pure (c, h)) = _
  rw [e1]
  rfl

theorem cdr_raise_step (rt : Runtime) (h : Heap) (B : List Sexp) (v : Sexp)
    (st : List (Option Sexp)) (b p : Nat) (c hf hn hv : Sexp) (ha : Nat)
    (hnp : sexp_pairp v = false)
    (hh : rt.exception_handler = .procedure hf hn (.bytecode ha) hv)
    (hop : read_byte h b (p : Int) = .ok .OP_CDR)
    (hroom : B.length + 5 ≤ INIT_STACK_SIZE)
    (hseg : Seg st 0 (B ++ [v])) :
    ∃ st1, vm_step rt
        { heap := h, stack := st, top := ((B.length + 1 : Nat) : Int), bc := b, ip := (p : Int),
          cp := c }
      = .ok (.next
        { heap := h, stack := st1, top := ((B.length + 1 + 4 : Nat) : Int), bc := ha, ip := 0,
          cp := hv })
      ∧ slot st1 (B.length + 1) = some (sexp_compile_error "cdr: not a pair" (sexp_list1 v)) := by
  have hlast := seg_last hseg
  have e1 : ((B.length + 1 : Nat) : Int) - 1 = ((B.length : Nat) : Int) := by omega
  have hget := stack_get_slot hlast (by omega : B.length < INIT_STACK_SIZE)
  obtain ⟨st1, hr, hs, _⟩ := sexp_raise_ok rt h st (B.length + 1) b ((p : Int) + 1) c
    "cdr: not a pair" (sexp_list1 v) hf hn hv ha hh (by omega) (by omega)
  refine ⟨st1, ?_, hs⟩
  unfold vm_step
  simp only [hop, ok_bind, VM.arg, e1, hget]
  split
  · cases hnp
  · exact hr

/-- C32: for a Ref whose loc is not a Lambda, `compile_ref` emits `PUSH` with
the Ref node itself as operand (not the binding cell of the name), then `CDR`;
`compile_set` pushes the same Ref node before `SET_CDR`.  The Ref is not a
pair, so executing the code of the reference pushes the Ref and then raises
"cdr: not a pair" instead of pushing the value of the global. -/
theorem C32_global_ref_pushes_ref_node (rt : Runtime) (fuel : Nat) (n l v : Sexp) (h : Heap)
    (B : List Sexp) (G : List (Option Sexp)) (cp hf hn hv : Sexp) (ha : Nat)
    (hl : sexp_lambdap l = false) (hval : self_evaluating v = true)
    (hh : rt.exception_handler = .procedure hf hn (.bytecode ha) hv)
    (hroom : B.length + 5 ≤ INIT_STACK_SIZE) :
    (∃ c1, compile_ref fuel (.ref n l) sexp_new_context true h = .ok c1
      ∧ emitted c1 = push_code (.ref n l) ++ [.byte .OP_CDR]
      ∧ finalize_bytecode c1 h
        = .ok (.bytecode h.bcs.length, with_code h (emitted c1 ++ [.byte .OP_RET]))
      ∧ ∃ G1, vm_step rt
            (vm_state (with_code h (emitted c1 ++ [.byte .OP_RET])) B G h.bcs.length 0 cp)
          = .ok (.next (vm_state (with_code h (emitted c1 ++ [.byte .OP_RET]))
              (B ++ [.ref n l]) G1 h.bcs.length 9 cp))
        ∧ Raised rt (vm_step rt (vm_state (with_code h (emitted c1 ++ [.byte .OP_RET]))
              (B ++ [.ref n l]) G1 h.bcs.length 9 cp)) (B.length + 1)
            (sexp_make_exception (.symbol "compile-error") (.string "cdr: not a pair")
              (sexp_list1 (.ref n l))))
    ∧ (∃ c2, compile_set fuel compile_one (.set (.ref n l) v) sexp_new_context h = .ok (c2, h)
      ∧ emitted c2 = push_code v ++ (push_code (.ref n l) ++ [.byte .OP_SET_CDR]))
    ∧ sexp_pairp (.ref n l) = false := by
  refine ⟨?_, ?_, rfl⟩
  · obtain ⟨c1, e1, r1, k1, _⟩ := compile_global_ref fuel n l sexp_new_context true h hl roomy_new
    have hcode : emitted c1 = push_code (.ref n l) ++ [.byte .OP_CDR] := by
      rw [k1]
      rfl
    have hat := with_code_at h (emitted c1 ++ [.byte .OP_RET])
    have hb := read_byte_at (with_code h (emitted c1 ++ [.byte .OP_RET])) h.bcs.length []
      (word_slots (.ref n l) ++ [.byte .OP_CDR, .byte .OP_RET]) .OP_PUSH
      (by rw [hat, hcode]; simp [push_code])
    have hw := read_word_at (with_code h (emitted c1 ++ [.byte .OP_RET])) h.bcs.length
      [.byte .OP_PUSH] [.byte .OP_CDR, .byte .OP_RET] (.ref n l) 0
      (by rw [hat, hcode]; simp [push_code]) rfl
    have hc := read_byte_at (with_code h (emitted c1 ++ [.byte .OP_RET])) h.bcs.length
      (push_code (.ref n l)) [.byte .OP_RET] .OP_CDR
      (by rw [hat, hcode]; simp)
    have hlen : (push_code (.ref n l)).length = 9 := by
      simp [push_code, word_slots_length, sizeof_sexp]
    rw [hlen] at hc
    obtain ⟨G1, h1⟩ := step_push rt (with_code h (emitted c1 ++ [.byte .OP_RET])) B G h.bcs.length
      0 cp (.ref n l) hb hw (by omega)
    refine ⟨c1, e1, hcode, finalize_code c1 h r1, G1, h1, ?_⟩
    rw [vm_state_eq _ _ G1 h.bcs.length 9 cp (B.length + 1)
      (by simp only [List.length_append, List.length_cons, List.length_nil])]
    obtain ⟨st1, hs, hslot⟩ := cdr_raise_step rt (with_code h (emitted c1 ++ [.byte .OP_RET])) B
      (.ref n l) _ h.bcs.length 9 cp hf hn hv ha rfl hh hc hroom (seg_of_stack _ G1)
    refine ⟨_, hs, rfl, hslot, ?_, rfl⟩
    rw [hh]
    rfl
  · obtain ⟨c1, e1, r1, k1, d1, l1, t1⟩ := emit_push_code v sexp_new_context roomy_new
    obtain ⟨c2, e2, r2, k2, d2, l2, t2⟩ := emit_push_code (.ref n l) c1 r1
    obtain ⟨c3, e3, r3, k3, d3, l3, t3⟩ := emit_code .OP_SET_CDR c2 r2
    refine ⟨{ c3 with depth := c3.depth - 1 }, ?_, ?_⟩
    · unfold compile_set
      simp only [ok_bind, pure, Except.pure, compile_one_self_evaluating v _ h hval, compile_lit,
        e1, sexp_ref_loc, hl, Bool.not_false, if_true, e2, e3]
    · show emitted c3 = _
      rw [k3, k2, k1]
      simp only [List.append_assoc]
      rfl

theorem C32_global_ref_pushes_ref_node_witness :
    (∃ c1, compile_ref 0 (.ref (.symbol "x") .undef) sexp_new_context true empty_heap = .ok c1
      ∧ emitted c1 = push_code (.ref (.symbol "x") .undef) ++ [.byte .OP_CDR]
      ∧ finalize_bytecode c1 empty_heap
        = .ok (.bytecode empty_heap.bcs.length,
            with_code empty_heap (emitted c1 ++ [.byte .OP_RET]))
      ∧ ∃ G1, vm_step sample_rt
            (vm_state (with_code empty_heap (emitted c1 ++ [.byte .OP_RET])) [] []
              empty_heap.bcs.length 0 .null)
          = .ok (.next (vm_state (with_code empty_heap (emitted c1 ++ [.byte .OP_RET]))
              ([] ++ [.ref (.symbol "x") .undef]) G1 empty_heap.bcs.length 9 .null))
        ∧ Raised sample_rt (vm_step sample_rt
            (vm_state (with_code empty_heap (emitted c1 ++ [.byte .OP_RET]))
              ([] ++ [.ref (.symbol "x") .undef]) G1 empty_heap.bcs.length 9 .null))
            (([] : List Sexp).length + 1)
            (sexp_make_exception (.symbol "compile-error") (.string "cdr: not a pair")
              (sexp_list1 (.ref (.symbol "x") .undef))))
    ∧ (∃ c2, compile_set 0 compile_one (.set (.ref (.symbol "x") .undef) (.fixnum 1))
          sexp_new_context empty_heap = .ok (c2, empty_heap)
      ∧ emitted c2 = push_code (.fixnum 1)
          ++ (push_code (.ref (.symbol "x") .undef) ++ [.byte .OP_SET_CDR]))
    ∧ sexp_pairp (.ref (.symbol "x") .undef) = false :=
  C32_global_ref_pushes_ref_node sample_rt 0 (.symbol "x") .undef (.fixnum 1) empty_heap [] []
    .null _ _ _ _ rfl rfl rfl (by decide)

theorem compile_each_lits (rec : CRec) (h : Heap) : ∀ (l : List Sexp),
    (∀ v ∈ l, ∀ c0, rec v c0 h = compile_lit v c0 h) →
    ∀ c : Context, Roomy c →
    ∃ c1, compile_each rec l c h = .ok (c1, h) ∧ Roomy c1
      ∧ emitted c1 = emitted c ++ push_all l
      ∧ c1.depth = c.depth ∧ c1.lambda = c.lambda ∧ c1.tailp = c.tailp := by
  intro l
  induction l with
  | nil =>
    intro _ c hr
    exact ⟨c, rfl, hr, by simp [push_all], rfl, rfl, rfl⟩
  | cons v vs ih =>
    intro hv c hr
    obtain ⟨c1, e1, r1, k1, d1, l1, t1⟩ := emit_push_code v c hr
    obtain ⟨c2, e2, r2, k2, d2, l2, t2⟩ := ih (fun x hx => hv x (List.mem_cons_of_mem _ hx)) c1 r1
    refine ⟨c2, ?_, r2, ?_, d2.trans d1, l2.trans l1, t2.trans t1⟩
    · rw [compile_each, hv v (List.mem_cons_self _ _)]
      unfold compile_lit
      simp only [e1, ok_bind, pure, Except.pure]
      exact e2
    · rw [k2, k1, List.append_assoc]
      rfl

theorem general_app_code (rec : CRec) (h : Heap) (f : Sexp) (fcode : List Slot)
    (args : List Int) (c : Context) (hr : Roomy c)
    (hlit : ∀ (a : Int) c0, rec (.fixnum a) c0 h = compile_lit (.fixnum a) c0 h)
    (hf : ∀ c0, Roomy c0 → ∃ c1, rec f c0 h = .ok (c1, h) ∧ Roomy c1
      ∧ emitted c1 = emitted c0 ++ fcode
      ∧ c1.depth = c0.depth ∧ c1.lambda = c0.lambda ∧ c1.tailp = c0.tailp) :
    ∃ c1, compile_general_app rec (.pair f (sexp_list (args.map .fixnum))) c h
        = .ok (c1, h) ∧ Roomy c1
      ∧ emitted c1 = emitted c ++ (push_all (args.reverse.map .fixnum) ++ fcode
          ++ call_code c args.length)
      ∧ c1.tailp = c.tailp ∧ c1.lambda = c.lambda := by
  obtain ⟨c1, e1, r1, k1, d1, l1, t1⟩ := compile_each_lits rec h ((args.map Sexp.fixnum).reverse)
    (by
      intro v hv
      simp only [List.mem_reverse, List.mem_map] at hv
      obtain ⟨a, _, rfl⟩ := hv
      exact hlit a) c hr
  obtain ⟨c2, e2, r2, k2, d2, l2, t2⟩ := hf c1 r1
  have hlen : sexp_length (sexp_list (args.map Sexp.fixnum)) = args.length := by
    rw [sexp_length_list, List.length_map]
  unfold compile_general_app
  simp only [sexp_cdr, sexp_car, ok_bind, sexp_reverse_list, compile_args_list, e1, e2, hlen]
  by_cases htp : c.tailp = true
  · obtain ⟨c3, e3, r3, k3, d3, l3, t3⟩ := emit_code .OP_TAIL_CALL c2 r2
    obtain ⟨c4, e4, r4, k4, d4, l4, t4⟩ := emit_word_code (.raw c3.depth) c3 r3
    obtain ⟨c5, e5, r5, k5, d5, l5, t5⟩ := emit_word_code (sexp_make_integer args.length) c4 r4
    have h2 : c2.tailp = true := by rw [t2, t1, htp]
    refine ⟨{ c5 with depth := c5.depth - args.length }, ?_, r5, ?_, ?_, ?_⟩
    · simp only [h2, if_true, e3, ok_bind, e4, e5]
      rfl
    · show emitted c5 = _
      rw [k5, k4, k3, k2, k1, d3, d2, d1]
      unfold call_code
      rw [if_pos htp, List.map_reverse]
      simp only [List.append_assoc]
    · show c5.tailp = _
      rw [t5, t4, t3, t2, t1]
    · show c5.lambda = _
      rw [l5, l4, l3, l2, l1]
  · obtain ⟨c3, e3, r3, k3, d3, l3, t3⟩ := emit_code .OP_CALL c2 r2
    obtain ⟨c5, e5, r5, k5, d5, l5, t5⟩ := emit_word_code (sexp_make_integer args.length) c3 r3
    have h2 : ¬ (c2.tailp = true) := by rw [t2, t1]; exact htp
    refine ⟨{ c5 with depth := c5.depth - args.length }, ?_, r5, ?_, ?_, ?_⟩
    · simp only [h2, if_false, e3, ok_bind, e5]
      rfl
    · show emitted c5 = _
      rw [k5, k3, k2, k1]
      unfold call_code
      rw [if_neg htp, List.map_reverse]
      simp only [List.append_assoc]
    · show c5.tailp = _
      rw [t5, t3, t2, t1]
    · show c5.lambda = _
      rw [l5, l3, l2, l1]

theorem compile_oneF_global_ref (k : Nat) (n l : Sexp) (c : Context) (h : Heap)
    (hl : sexp_lambdap l = false) (hr : Roomy c) :
    ∃ c1, compile_oneF (k + 1) (.ref n l) c h = .ok (c1, h) ∧ Roomy c1
      ∧ emitted c1 = emitted c ++ (push_code (.ref n l) ++ [.byte .OP_CDR])
      ∧ c1.depth = c.depth ∧ c1.lambda = c.lambda ∧ c1.tailp = c.tailp := by
  obtain ⟨c1, e1, rest⟩ := compile_global_ref k n l c true h hl hr
  refine ⟨c1, ?_, rest⟩
  show (compile_ref k (.ref n l) c true h >>= fun c => pure (c, h)) = _
  rw [e1]
  rfl

theorem compile_one_call (h : Heap) (n l : Sexp) (args : List Int) (c : Context)
    (hl : sexp_lambdap l = false) (hr : Roomy c) :
    ∃ c1, compile_one (.pair (.ref n l) (sexp_list (args.map .fixnum))) c h = .ok (c1, h)
      ∧ Roomy c1
      ∧ emitted c1 = emitted c ++ (push_all (args.reverse.map .fixnum)
          ++ (push_code (.ref n l) ++ [.byte .OP_CDR]) ++ call_code c args.length)
      ∧ c1.tailp = c.tailp ∧ c1.lambda = c.lambda := by
  obtain ⟨k, hk⟩ : ∃ k, ast_budget h (.pair (.ref n l) (sexp_list (args.map .fixnum)))
      = k + 1 + 1 := by
    refine ⟨ast_budget h (.pair (.ref n l) (sexp_list (args.map .fixnum))) - 2, ?_⟩
    have h1 : 1 ≤ ast_size (sexp_list (args.map Sexp.fixnum)) := by
      cases args <;> simp [sexp_list, ast_size]
    unfold ast_budget
    simp only [ast_size]
    omega
  unfold compile_one
  rw [hk]
  have hstep : compile_oneF (k + 1 + 1) (.pair (.ref n l) (sexp_list (args.map .fixnum))) c h
      = compile_general_app (compile_oneF (k + 1))
          (.pair (.ref n l) (sexp_list (args.map .fixnum))) c h := by
    show compile_app (compile_oneF (k + 1)) _ c h = _
    unfold compile_app
    simp only [sexp_car, ok_bind, sexp_opcodep, Bool.false_eq_true, if_false]
  rw [hstep]
  exact general_app_code (compile_oneF (k + 1)) h (.ref n l) _ args c hr (fun a c0 => rfl)
    (fun c0 hc0 => compile_oneF_global_ref k n l c0 h hl hc0)

theorem push_all_slots (ws : List Sexp) (x : Slot) (hx : x ∈ push_all ws) :
    x = .byte .OP_PUSH ∨ (∃ w, x = .word w) ∨ x = .wtail := by
  induction ws with
  | nil => cases hx
  | cons w ws ih =>
    simp only [push_all, push_code, word_slots, List.mem_append, List.mem_cons,
      List.mem_replicate] at hx
    rcases hx with (hx | hx | hx) | hx
    · exact Or.inl hx
    · exact Or.inr (Or.inl ⟨w, hx⟩)
    · exact Or.inr (Or.inr hx.2)
    · exact ih hx

/-- C31: the application that is the whole body of a Lambda (a tail position)
is emitted as `CALL`, not `TAIL_CALL`: `compile_lambda` compiles the body in a
fresh context, whose tail flag is off, and nothing in the compiler turns the
flag on.  Here the body applies a global to integer literals; the bytecode
stored for the Lambda is the argument pushes, the operator, `CALL n`, `RET`. -/
theorem C31_lambda_body_call_is_not_tail_call (fuel : Nat) (h : Heap) (a : Nat)
    (params n l pfv : Sexp) (args : List Int) (c : Context)
    (hl : sexp_lambdap l = false)
    (hlam : h.lams[a]? = some (closed_lambda params (.pair (.ref n l)
      (sexp_list (args.map .fixnum)))))
    (hprev : sexp_lambda_fv h c.lambda = .ok pfv) (hr : Roomy c) :
    ∃ c1 h1, compile_lambda fuel compile_one (.lambda a) c h = .ok (c1, h1)
      ∧ h1.bcs = h.bcs ++ [app_call_code (.ref n l) args ++ [.byte .OP_RET]]
      ∧ Slot.byte .OP_CALL ∈ app_call_code (.ref n l) args
      ∧ Slot.byte .OP_TAIL_CALL ∉ app_call_code (.ref n l) args
      ∧ c1.tailp = c.tailp := by
  obtain ⟨b1, e1, r1, k1, t1, _⟩ := compile_one_call h n l args
    { sexp_new_context with lambda := some (.lambda a) } hl roomy_new
  have hcode : emitted b1 = app_call_code (.ref n l) args := by
    rw [k1]
    rfl
  obtain ⟨c2, e2, r2, k2, d2, l2, t2⟩ := emit_push_code
    (sexp_make_procedure (sexp_make_integer (if sexp_listp params then 0 else 1))
      (sexp_make_integer (sexp_length params)) (.bytecode h.bcs.length)
      (.vector h.vecs.length)) c hr
  refine ⟨c2, (sexp_make_vector (with_code h (emitted b1 ++ [.byte .OP_RET])) 0 .undef).2,
    ?_, ?_, ?_, ?_, t2⟩
  · unfold compile_lambda
    simp only [hprev, ok_bind, get_lambda, hlam, closed_lambda, pure, Except.pure, e1,
      finalize_code b1 h r1, sexp_nullp, if_true, sexp_make_vector, compile_lit, e2]
    rfl
  · rw [hcode]
    rfl
  · unfold app_call_code
    simp
  · intro hmem
    unfold app_call_code at hmem
    simp only [List.mem_append, List.mem_cons, List.mem_singleton, push_code, word_slots,
      List.mem_replicate, List.not_mem_nil, or_false, reduceCtorEq, false_or, or_false,
      Slot.byte.injEq, false_and, and_false] at hmem
    rcases push_all_slots _ _ hmem with hx | ⟨w, hx⟩ | hx <;> cases hx

theorem C31_lambda_body_call_is_not_tail_call_witness :
    ∃ c1 h1, compile_lambda 0 compile_one (.lambda 0)
        (sexp_extend_context (some (.lambda 0)))
        (lambda_heap (closed_lambda .null (.pair (.ref (.symbol "f") .undef)
          (sexp_list ([1].map .fixnum))))) = .ok (c1, h1)
      ∧ h1.bcs = (lambda_heap (closed_lambda .null (.pair (.ref (.symbol "f") .undef)
          (sexp_list ([1].map .fixnum))))).bcs
          ++ [app_call_code (.ref (.symbol "f") .undef) [1] ++ [.byte .OP_RET]]
      ∧ Slot.byte .OP_CALL ∈ app_call_code (.ref (.symbol "f") .undef) [1]
      ∧ Slot.byte .OP_TAIL_CALL ∉ app_call_code (.ref (.symbol "f") .undef) [1]
      ∧ c1.tailp = (sexp_extend_context (some (.lambda 0))).tailp :=
  C31_lambda_body_call_is_not_tail_call 0 _ 0 .null (.symbol "f") .undef .null [1]
    (sexp_extend_context (some (.lambda 0))) rfl rfl rfl roomy_new

/-- C38: in a Lambda body whose tail flag is on, `compile_general_app` writes
after `TAIL_CALL` the raw word `sexp_context_depth`, which is 0 at the start of
the body and is not advanced by literal arguments nor by a global operator.
The VM decodes the word with `sexp_unbox_integer`, a shift by the tag width,
so the decoded value is 0 and not `m + 3 + n + 1`. -/
theorem C38_tail_call_operand_is_raw_depth (h : Heap) (n l lam : Sexp) (args : List Int)
    (m : Nat) (hl : sexp_lambdap l = false) :
    ∃ c1, compile_general_app compile_one (.pair (.ref n l) (sexp_list (args.map .fixnum)))
        (tail_context lam) h = .ok (c1, h)
      ∧ emitted c1 = push_all (args.reverse.map .fixnum) ++ (push_code (.ref n l) ++ [.byte .OP_CDR])
          ++ ([.byte .OP_TAIL_CALL] ++ word_slots (.raw 0)
            ++ word_slots (sexp_make_integer args.length))
      ∧ sexp_unbox_integer (.raw 0) = .ok 0
      ∧ (0 : Int) ≠ ((m + 3 + args.length + 1 : Nat) : Int)
      ∧ ∀ d : Int, sexp_unbox_integer (.raw d) = .ok (d / 2 ^ SEXP_FIXNUM_BITS) := by
  have hroomy : Roomy (tail_context lam) := roomy_new
  obtain ⟨c1, e1, r1, k1, _⟩ := general_app_code compile_one h (.ref n l)
    (push_code (.ref n l) ++ [.byte .OP_CDR]) args (tail_context lam) hroomy
    (fun a c0 => compile_one_self_evaluating (.fixnum a) c0 h rfl)
    (fun c0 hc0 => compile_one_global_ref n l c0 h hl hc0)
  refine ⟨c1, e1, ?_, rfl, by omega, fun d => rfl⟩
  rw [k1]
  rfl

theorem C38_tail_call_operand_is_raw_depth_witness :
    ∃ c1, compile_general_app compile_one
        (.pair (.ref (.symbol "f") .undef) (sexp_list ([1, 2].map .fixnum)))
        (tail_context (.lambda 0)) empty_heap = .ok (c1, empty_heap)
      ∧ emitted c1 = push_all (([1, 2] : List Int).reverse.map .fixnum)
          ++ (push_code (.ref (.symbol "f") .undef) ++ [.byte .OP_CDR])
          ++ ([.byte .OP_TAIL_CALL] ++ word_slots (.raw 0)
            ++ word_slots (sexp_make_integer ([1, 2] : List Int).length))
      ∧ sexp_unbox_integer (.raw 0) = .ok 0
      ∧ (0 : Int) ≠ ((2 + 3 + ([1, 2] : List Int).length + 1 : Nat) : Int)
      ∧ ∀ d : Int, sexp_unbox_integer (.raw d) = .ok (d / 2 ^ SEXP_FIXNUM_BITS) :=
  C38_tail_call_operand_is_raw_depth empty_heap (.symbol "f") .undef (.lambda 0) [1, 2] 2 rfl

theorem step_local_ref (rt : Runtime) (h : Heap) (F : List Sexp) (G : List (Option Sexp))
    (b p : Nat) (c v : Sexp) (k : Nat)
    (hop : read_byte h b (p : Int) = .ok .OP_LOCAL_REF)
    (hw : read_word h b ((p : Int) + 1) 0 = .ok (.raw (k : Int)))
    (hk : 1 ≤ k ∧ k ≤ F.length) (hv : F[F.length - k]? = some v)
    (hroom : F.length + 1 ≤ INIT_STACK_SIZE) :
    ∃ G1, vm_step rt (vm_state h F G b p c)
      = .ok (.next (vm_state h (F ++ [v]) G1 b (p + 9) c)) := by
  rw [vm_state_eq h F G b p c F.length rfl]
  have hslot : slot (F.map some ++ G) (F.length - k) = some v := by
    have := seg_of_stack F G (F.length - k) v hv
    rw [Nat.zero_add] at this
    exact this
  have hget := stack_get_slot hslot (by omega : F.length - k < INIT_STACK_SIZE)
  obtain ⟨s1, hset, hslots⟩ := stack_set_slot (F.map some ++ G) (k := F.length) v (by omega)
  have hseg1 : Seg s1 0 (F ++ [v]) := by
    rw [seg_append, seg_cons]
    refine ⟨(seg_of_stack F G).seg_same (fun j _ hj => ?_), ?_, Seg.seg_nil _ _⟩
    · rw [hslots, if_neg (by omega)]
    · rw [hslots, Nat.zero_add, if_pos rfl]
  obtain ⟨G1, hG1⟩ := @vm_state_seg h s1 (F ++ [v]) (F.length + 1) b (p + 9) c hseg1 (by simp)
  refine ⟨G1, ?_⟩
  rw [← hG1]
  have e1 : ((F.length : Nat) : Int) - (k : Int) = ((F.length - k : Nat) : Int) := by omega
  have e2 : (p : Int) + 1 + ((sizeof_sexp : Nat) : Int) = ((p + 9 : Nat) : Int) := by
    simp only [sizeof_sexp]
    omega
  have e3 : ((F.length : Nat) : Int) + 1 = ((F.length + 1 : Nat) : Int) := by omega
  unfold vm_step
  simp only [hop, ok_bind, hw, word_raw, pure, Except.pure, e1, hget, hset, e2, e3]

theorem compile_local_ref (fuel : Nat) (h : Heap) (a : Nat) (node : LamNode) (name : Sexp)
    (k : Int) (c : Context)
    (hlam : h.lams[a]? = some node) (hidx : sexp_list_index node.params name = k)
    (hsv : sexp_list_index node.sv name < 0)
    (hc : c.lambda = some (.lambda a)) (hr : Roomy c) :
    ∃ c1, compile_ref fuel (.ref name (.lambda a)) c true h = .ok c1
      ∧ emitted c1 = emitted c ++ local_ref_code k := by
  obtain ⟨c1, e1, r1, k1, d1, l1, t1⟩ := emit_code .OP_LOCAL_REF c hr
  obtain ⟨c2, e2, r2, k2, d2, l2, t2⟩ := emit_word_code (.raw k) c1 r1
  have heq : sexp_eq (.lambda a) (.lambda a) = true := by
    unfold sexp_eq
    simp
  have hnot : ¬ (sexp_list_index node.sv name ≥ 0) := by omega
  refine ⟨{ c2 with depth := c2.depth + 1 }, ?_, ?_⟩
  · unfold compile_ref compile_non_global_ref
    simp only [sexp_ref_loc, sexp_ref_name, ok_bind, sexp_lambdap, Bool.not_true,
      Bool.false_eq_true, if_false, hc, sexp_lambda_fv, get_lambda, hlam, pure, Except.pure,
      heq, if_true, e1, hidx, e2, hnot, decide_False, Bool.and_false]
  · show emitted c2 = _
    rw [k2, k1, List.append_assoc]
    rfl

/-- C34: for a Ref to a parameter of the Lambda being compiled, `compile_ref`
emits `LOCAL_REF k` with `k` the zero-based index of the parameter in the
parameter list.  The VM reads `stack[top - k]`; in the frame
`args ... n ret-ip ret-cp` left by a call, the words at distance 1, 2 and 3
from the top are the saved closure, the saved instruction pointer and the
argument count, so the code emitted for the 2nd, 3rd and 4th parameter pushes
one of these frame words instead of the argument. -/
theorem C34_local_ref_reads_frame_word (rt : Runtime) (fuel : Nat) (h : Heap) (a b : Nat)
    (node : LamNode) (name : Sexp) (k : Nat) (c : Context) (B args : List Sexp)
    (count rip rcp v cp : Sexp) (G : List (Option Sexp)) (pre post : List Slot)
    (hlam : h.lams[a]? = some node) (hidx : sexp_list_index node.params name = (k : Int))
    (hsv : sexp_list_index node.sv name < 0)
    (hc : c.lambda = some (.lambda a)) (hr : Roomy c)
    (hk1 : 1 ≤ k) (hk : [rcp, rip, count][k - 1]? = some v)
    (hcode : h.bcs[b]? = some (pre ++ local_ref_code k ++ post))
    (hroom : (call_frame B args count rip rcp).length + 1 ≤ INIT_STACK_SIZE) :
    (∃ c1, compile_ref fuel (.ref name (.lambda a)) c true h = .ok c1
      ∧ emitted c1 = emitted c ++ local_ref_code k)
    ∧ ∃ G1, vm_step rt (vm_state h (call_frame B args count rip rcp) G b pre.length cp)
        = .ok (.next (vm_state h (call_frame B args count rip rcp ++ [v]) G1 b
            (pre.length + 9) cp)) := by
  refine ⟨compile_local_ref fuel h a node name k c hlam hidx hsv hc hr, ?_⟩
  have hb := read_byte_at h b pre (word_slots (.raw (k : Int)) ++ post) .OP_LOCAL_REF
    (by rw [hcode]; simp [local_ref_code])
  have hw := read_word_at h b (pre ++ [.byte .OP_LOCAL_REF]) post (.raw (k : Int)) pre.length
    (by rw [hcode]; simp [local_ref_code]) (by simp)
  have hlen : (call_frame B args count rip rcp).length = B.length + args.length + 3 := by
    simp [call_frame]
    omega
  have hk3 : k ≤ 3 := by
    by_contra hgt
    rw [List.getElem?_eq_none (by simp; omega)] at hk
    cases hk
  refine step_local_ref rt h _ G b pre.length cp v k hb hw ⟨hk1, by omega⟩ ?_ hroom
  rw [hlen]
  unfold call_frame
  rw [List.getElem?_append_right (by simp; omega)]
  have hi : B.length + args.length + 3 - k - (B ++ args).length = 3 - k := by
    simp
    omega
  rw [hi]
  have h3 : k = 1 ∨ k = 2 ∨ k = 3 := by omega
  rcases h3 with h3 | h3 | h3 <;> subst h3 <;> simpa using hk

theorem C34_local_ref_reads_frame_word_witness :
    (∃ c1, compile_ref 0 (.ref (.symbol "y") (.lambda 0)) (sexp_extend_context (some (.lambda 0)))
          true (node_code_heap (fresh_lambda (sexp_list [.symbol "x", .symbol "y"]))
            (local_ref_code 1)) = .ok c1
      ∧ emitted c1 = emitted (sexp_extend_context (some (.lambda 0))) ++ local_ref_code 1)
    ∧ ∃ G1, vm_step sample_rt
          (vm_state (node_code_heap (fresh_lambda (sexp_list [.symbol "x", .symbol "y"]))
              (local_ref_code 1))
            (call_frame [] [.fixnum 20, .fixnum 10] (.fixnum 2) (.codeptr 0 9) (.vector 0)) []
            0 ([] : List Slot).length .null)
        = .ok (.next (vm_state (node_code_heap (fresh_lambda (sexp_list [.symbol "x", .symbol "y"]))
              (local_ref_code 1))
            (call_frame [] [.fixnum 20, .fixnum 10] (.fixnum 2) (.codeptr 0 9) (.vector 0)
              ++ [.vector 0]) G1 0 (([] : List Slot).length + 9) .null)) :=
  C34_local_ref_reads_frame_word sample_rt 0
    (node_code_heap (fresh_lambda (sexp_list [.symbol "x", .symbol "y"])) (local_ref_code 1))
    0 0 (fresh_lambda (sexp_list [.symbol "x", .symbol "y"])) (.symbol "y") 1
    (sexp_extend_context (some (.lambda 0))) [] [.fixnum 20, .fixnum 10] (.fixnum 2)
    (.codeptr 0 9) (.vector 0) (.vector 0) .null [] [] [] rfl (by decide) (by decide) rfl
    roomy_new (by decide) rfl rfl (by decide)

theorem step_make_vector (rt : Runtime) (h : Heap) (B : List Sexp) (G : List (Option Sexp))
    (b p : Nat) (c dflt : Sexp) (len : Nat)
    (hop : read_byte h b (p : Int) = .ok .OP_MAKE_VECTOR)
    (hroom : B.length + 2 ≤ INIT_STACK_SIZE) :
    ∃ G1, vm_step rt (vm_state h (B ++ [dflt, .fixnum len]) G b p c)
      = .ok (.next (vm_state (sexp_make_vector h len dflt).2 (B ++ [.vector h.vecs.length]) G1 b
          (p + 1) c)) := by
  rw [vm_state_eq h _ G b p c (B.length + 2) (by simp)]
  have hseg := seg_of_stack (B ++ [dflt, Sexp.fixnum len]) G
  have hseg2 := hseg
  rw [seg_append, seg_cons, seg_cons] at hseg2
  obtain ⟨hB, hy, hx, _⟩ := hseg2
  rw [Nat.zero_add] at hy hx
  have g1 := stack_get_slot hx (by omega : B.length + 1 < INIT_STACK_SIZE)
  have g2 := stack_get_slot hy (by omega : B.length < INIT_STACK_SIZE)
  obtain ⟨s1, hset, hslots⟩ := stack_set_slot (((B ++ [dflt, Sexp.fixnum len]).map some) ++ G)
    (k := B.length) (.vector h.vecs.length) (by omega)
  have hseg1 : Seg s1 0 (B ++ [.vector h.vecs.length]) := by
    rw [seg_append, seg_cons]
    refine ⟨hB.seg_same (fun j _ hj => ?_), ?_, Seg.seg_nil _ _⟩
    · rw [hslots, if_neg (by omega)]
    · rw [hslots, Nat.zero_add, if_pos rfl]
  obtain ⟨G1, hG1⟩ := @vm_state_seg (sexp_make_vector h len dflt).2 s1 _ (B.length + 1) b
    (p + 1) c hseg1 (by simp)
  refine ⟨G1, ?_⟩
  rw [← hG1]
  have e1 : ((B.length + 2 : Nat) : Int) - 1 = ((B.length + 1 : Nat) : Int) := by omega
  have e2 : ((B.length + 2 : Nat) : Int) - 2 = ((B.length : Nat) : Int) := by omega
  have e3 : (p : Int) + 1 = ((p + 1 : Nat) : Int) := by omega
  have hneg : ¬ ((len : Int) < 0) := by omega
  unfold vm_step
  simp only [hop, ok_bind, VM.arg, VM.set_arg, e1, e2, g1, g2, sexp_unbox_integer, pure,
    Except.pure, hneg, if_false, Int.toNat_ofNat, sexp_make_vector, hset, e3]

/-- C35: for the Lambda `(lambda () 7)` nested in `(lambda (y) ...)` and given
the free-vars list `(Ref(y, outer))`, `compile_lambda` emits `PUSH undef;
PUSH 0; MAKE_VECTOR` before the stores: the length pushed is the number of
parameters of the Lambda (0), not the number of entries of the free-vars list
(1).  Executing these three instructions builds a vector of length 0. -/
theorem C35_captured_vector_has_parameter_count :
    (compile_lambda 0 compile_one (.lambda 1) (sexp_extend_context (some (.lambda 0)))
        capture_heap >>= fun r => pure (emitted r.1, r.2.bcs))
      = .ok (capture_code, [push_ret_code (.fixnum 7)])
    ∧ (get_lambda capture_heap (.lambda 1) >>= fun n => pure (sexp_length n.fv, sexp_length n.params))
      = .ok (1, 0)
    ∧ ∃ G1, vm_steps sample_rt 3 (vm_state capture_run_heap [] [] 1 0 .null)
        = .ok (.next (vm_state (sexp_make_vector capture_run_heap 0 .undef).2
            [.vector 0] G1 1 19 .null))
      ∧ (sexp_make_vector capture_run_heap 0 .undef).2.vecs[0]? = some [] := by
  refine ⟨by decide!, rfl, ?_⟩
  have hcode : capture_run_heap.bcs[1]?
      = some ([] ++ push_all [.undef, .fixnum 0]
          ++ (.byte .OP_MAKE_VECTOR :: (local_ref_code 0 ++ push_code (.fixnum 0)
            ++ local_ref_code 3 ++ [.byte .OP_VECTOR_SET, .byte .OP_DROP]
            ++ push_code (.bytecode 0) ++ push_code (.fixnum 0) ++ push_code (.fixnum 0)
            ++ [.byte .OP_MAKE_PROCEDURE] ++ [.byte .OP_RET]))) := by
    decide!
  obtain ⟨G1, h1⟩ := run_pushes sample_rt capture_run_heap 1 .null [.undef, .fixnum 0] [] _ [] []
    hcode (by decide)
  have hb := read_byte_at capture_run_heap 1 ([] ++ push_all [.undef, .fixnum 0]) _
    .OP_MAKE_VECTOR hcode
  obtain ⟨G2, h2⟩ := step_make_vector sample_rt capture_run_heap [] G1 1 18 .null .undef 0 hb
    (by decide)
  refine ⟨G2, ?_, rfl⟩
  refine (vm_steps_next sample_rt 2 1 _ _ h1).trans ?_
  exact vm_steps_one sample_rt _ _ h2

theorem push_args_spec : ∀ (vs : List Sexp) (k : Nat) (st : List (Option Sexp)),
    k + vs.length ≤ INIT_STACK_SIZE →
    ∃ st1, push_args (sexp_list vs) (k : Int) st = .ok (st1, ((k + vs.length : Nat) : Int))
      ∧ Seg st1 k vs ∧ ∀ j, j < k → slot st1 j = slot st j := by
  intro vs
  induction vs with
  | nil =>
    intro k st _
    exact ⟨st, rfl, Seg.seg_nil _ _, fun _ _ => rfl⟩
  | cons v vs ih =>
    intro k st hroom
    simp only [List.length_cons] at hroom
    obtain ⟨s1, hset, hslots⟩ := stack_set_slot st (k := k) v (by omega)
    obtain ⟨st1, hrun, hseg, hlow⟩ := ih (k + 1) s1 (by omega)
    refine ⟨st1, ?_, ?_, fun j hj => ?_⟩
    · have e1 : (k : Int) + 1 = ((k + 1 : Nat) : Int) := by omega
      have e2 : k + (v :: vs).length = k + 1 + vs.length := by simp; omega
      rw [sexp_list, push_args]
      simp only [hset, ok_bind, e1, e2]
      exact hrun
    · rw [seg_cons]
      refine ⟨?_, hseg⟩
      rw [hlow k (by omega), hslots, if_pos rfl]
    · rw [hlow j (by omega), hslots, if_neg (by omega)]

/-- C40: `apply(P, (a1 ... an))` stores the arguments in list order, so the
slot next to the argument-count word holds `an`; the code `compile_general_app`
emits for `(P a1 ... an)` pushes `an` first, and the frame `CALL n` leaves has
`a1` next to the argument-count word.  The two frames list the arguments in
opposite orders. -/
theorem C40_apply_frame_mirrors_call_frame (rt : Runtime) (h : Heap) (args : List Int)
    (f : Int) (a : Nat) (vars c : Sexp) (st0 G : List (Option Sexp))
    (hf : (f % 2 == 1) = false) (hroom : args.length + 4 ≤ INIT_STACK_SIZE) :
    (∃ st1 st2, push_args (sexp_list (args.map .fixnum)) 0 st0 = .ok (st1, (args.length : Int))
      ∧ stack_set st1 (args.length : Int) (sexp_make_integer (args.length : Int)) = .ok st2
      ∧ Seg st2 0 (args.map .fixnum ++ [.fixnum args.length]))
    ∧ ∃ c1, compile_general_app compile_one
          (.pair (fixed_proc f args.length a vars) (sexp_list (args.map .fixnum)))
          sexp_new_context h = .ok (c1, h)
      ∧ emitted c1 = push_all (args.reverse.map .fixnum ++ [fixed_proc f args.length a vars])
          ++ ([.byte .OP_CALL] ++ word_slots (sexp_make_integer args.length))
      ∧ ∃ G1 st3, vm_steps rt (args.length + 1)
            (vm_state (with_code h (emitted c1 ++ [.byte .OP_RET])) [] G h.bcs.length 0 c)
          = .ok (.next (vm_state (with_code h (emitted c1 ++ [.byte .OP_RET]))
              (args.reverse.map .fixnum ++ [fixed_proc f args.length a vars]) G1 h.bcs.length
              (9 * (args.length + 1)) c))
        ∧ vm_step rt (vm_state (with_code h (emitted c1 ++ [.byte .OP_RET]))
              (args.reverse.map .fixnum ++ [fixed_proc f args.length a vars]) G1 h.bcs.length
              (9 * (args.length + 1)) c)
          = .ok (.next
              { heap := with_code h (emitted c1 ++ [.byte .OP_RET]), stack := st3,
                top := ((args.length + 3 : Nat) : Int), bc := a, ip := 0, cp := vars })
        ∧ Seg st3 0 (args.reverse.map .fixnum
            ++ [.fixnum args.length, .codeptr h.bcs.length (9 * (args.length + 1) + 9), c]) := by
  constructor
  · obtain ⟨st1, hp, hseg, _⟩ := push_args_spec (args.map .fixnum) 0 st0 (by simp; omega)
    obtain ⟨st2, hset, hslots⟩ := stack_set_slot st1 (k := args.length)
      (sexp_make_integer (args.length : Int)) (by omega)
    refine ⟨st1, st2, ?_, hset, ?_⟩
    · simpa using hp
    · rw [seg_append, seg_cons]
      refine ⟨hseg.seg_same (fun j _ hj => ?_), ?_, Seg.seg_nil _ _⟩
      · rw [hslots, if_neg (by simp at hj; omega)]
      · rw [hslots, if_pos (by simp)]
        rfl
  · obtain ⟨c1, e1, r1, k1, _⟩ := general_app_code compile_one h
      (fixed_proc f args.length a vars) (push_code (fixed_proc f args.length a vars)) args
      sexp_new_context roomy_new
      (fun x c0 => compile_one_self_evaluating (.fixnum x) c0 h rfl)
      (fun c0 hc0 => by
        obtain ⟨c2, e2, rest⟩ := emit_push_code (fixed_proc f args.length a vars) c0 hc0
        refine ⟨c2, ?_, rest⟩
        rw [compile_one_self_evaluating (fixed_proc f args.length a vars) c0 h rfl]
        unfold compile_lit
        simp only [e2, ok_bind]
        rfl)
    have hcode : emitted c1
        = push_all (args.reverse.map .fixnum ++ [fixed_proc f args.length a vars])
          ++ ([.byte .OP_CALL] ++ word_slots (sexp_make_integer args.length)) := by
      rw [k1, push_all_append]
      show [] ++ _ = _
      simp only [List.nil_append, call_code, push_all, List.append_nil]
      rfl
    refine ⟨c1, e1, hcode, ?_⟩
    have hat := with_code_at h (emitted c1 ++ [.byte .OP_RET])
    have hl : (args.reverse.map Sexp.fixnum ++ [fixed_proc f args.length a vars]).length
        = args.length + 1 := by simp
    obtain ⟨G1, h1⟩ := run_pushes rt (with_code h (emitted c1 ++ [.byte .OP_RET])) h.bcs.length c
      (args.reverse.map .fixnum ++ [fixed_proc f args.length a vars]) []
      ([.byte .OP_CALL] ++ word_slots (sexp_make_integer args.length) ++ [.byte .OP_RET]) [] G
      (by rw [hat, hcode]; simp) (by rw [hl]; simp; omega)
    rw [hl] at h1
    have hp : ([] : List Slot).length + 9 * (args.length + 1) = 9 * (args.length + 1) := by simp
    rw [hp, List.nil_append] at h1
    have hb := read_byte_at (with_code h (emitted c1 ++ [.byte .OP_RET])) h.bcs.length
      (push_all (args.reverse.map .fixnum ++ [fixed_proc f args.length a vars]))
      (word_slots (sexp_make_integer args.length) ++ [.byte .OP_RET]) .OP_CALL
      (by rw [hat, hcode]; simp)
    have hw := read_word_at (with_code h (emitted c1 ++ [.byte .OP_RET])) h.bcs.length
      (push_all (args.reverse.map .fixnum ++ [fixed_proc f args.length a vars])
        ++ [.byte .OP_CALL]) [.byte .OP_RET] (sexp_make_integer args.length)
      (9 * (args.length + 1))
      (by rw [hat, hcode]; simp) (by rw [List.length_append, push_all_length, hl]; simp)
    rw [push_all_length, hl] at hb
    have hrl : (args.reverse.map Sexp.fixnum).length = args.length := by simp
    obtain ⟨st3, h3, hseg3⟩ := call_fixed_step rt (with_code h (emitted c1 ++ [.byte .OP_RET])) []
      (args.reverse.map .fixnum) ((args.reverse.map Sexp.fixnum
        ++ [fixed_proc f args.length a vars]).map some ++ G1) h.bcs.length
      (9 * (args.length + 1)) c f a vars hf
      (by exact_mod_cast hb) (by rw [hrl]; exact_mod_cast hw) (by rw [hrl]; simp; omega)
      (by
        rw [hrl]
        exact seg_of_stack _ G1)
    rw [hrl] at h3 hseg3
    refine ⟨G1, st3, h1, ?_, ?_⟩
    · rw [vm_state_eq _ _ G1 _ _ c (args.length + 1) hl]
      simpa using h3
    · simpa using hseg3

theorem C40_apply_frame_mirrors_call_frame_witness :
    (∃ st1 st2, push_args (sexp_list ([1, 2].map .fixnum)) 0 [] = .ok (st1, (([1, 2] : List Int).length : Int))
      ∧ stack_set st1 (([1, 2] : List Int).length : Int)
          (sexp_make_integer (([1, 2] : List Int).length : Int)) = .ok st2
      ∧ Seg st2 0 ([.fixnum 1, .fixnum 2] ++ [.fixnum 2]))
    ∧ ∃ c1, compile_general_app compile_one
          (.pair (fixed_proc 0 ([1, 2] : List Int).length 0 .null) (sexp_list ([1, 2].map .fixnum)))
          sexp_new_context empty_heap = .ok (c1, empty_heap)
      ∧ emitted c1 = push_all (([1, 2] : List Int).reverse.map .fixnum
            ++ [fixed_proc 0 ([1, 2] : List Int).length 0 .null])
          ++ ([.byte .OP_CALL] ++ word_slots (sexp_make_integer ([1, 2] : List Int).length))
      ∧ ∃ G1 st3, vm_steps sample_rt (([1, 2] : List Int).length + 1)
            (vm_state (with_code empty_heap (emitted c1 ++ [.byte .OP_RET])) [] []
              empty_heap.bcs.length 0 .null)
          = .ok (.next (vm_state (with_code empty_heap (emitted c1 ++ [.byte .OP_RET]))
              ([.fixnum 2, .fixnum 1] ++ [fixed_proc 0 ([1, 2] : List Int).length 0 .null]) G1
              empty_heap.bcs.length (9 * (([1, 2] : List Int).length + 1)) .null))
        ∧ vm_step sample_rt (vm_state (with_code empty_heap (emitted c1 ++ [.byte .OP_RET]))
              ([.fixnum 2, .fixnum 1] ++ [fixed_proc 0 ([1, 2] : List Int).length 0 .null]) G1
              empty_heap.bcs.length (9 * (([1, 2] : List Int).length + 1)) .null)
          = .ok (.next
              { heap := with_code empty_heap (emitted c1 ++ [.byte .OP_RET]), stack := st3,
                top := ((([1, 2] : List Int).length + 3 : Nat) : Int), bc := 0, ip := 0,
                cp := .null })
        ∧ Seg st3 0 ([.fixnum 2, .fixnum 1]
            ++ [.fixnum 2, .codeptr empty_heap.bcs.length
                  (9 * (([1, 2] : List Int).length + 1) + 9), .null]) :=
  C40_apply_frame_mirrors_call_frame sample_rt empty_heap [1, 2] 0 0 .null .null [] []
    (by decide) (by decide)

/-! ## The analyzer: lexical scoping of Lambda parameters -/

theorem lookup_of_loop {h : Heap} {key : Sexp} :
    ∀ (fuel e : Nat) (res : Option (Sexp × Sexp)),
      env_cell_loop h.envs fuel e key = .ok res → Lookup h key e res := by
  intro fuel
  induction fuel with
  | zero => intro e res hr; simp [env_cell_loop] at hr
  | succ n ih =>
    intro e res hr
    unfold env_cell_loop at hr
    cases hf : h.envs[e]? with
    | none => simp [hf] at hr
    | some f =>
      simp only [hf] at hr
      cases ha : assq_cell key f.bindings with
      | some c =>
        simp only [ha] at hr
        cases hr
        exact .here hf ha
      | none =>
        simp only [ha] at hr
        cases hp : f.parent with
        | none =>
          simp only [hp] at hr
          cases hr
          exact .unbound hf ha hp
        | some p =>
          simp only [hp] at hr
          exact .up hf ha hp (ih _ _ hr)

theorem lookup_of_env_cell {h : Heap} {key : Sexp} {e : Nat} {res : Option (Sexp × Sexp)}
    (hr : env_cell h e key = .ok res) : Lookup h key e res :=
  lookup_of_loop _ _ _ hr

theorem Lookup.lookup_unique {h : Heap} {key : Sexp} {e : Nat} {r1 r2 : Option (Sexp × Sexp)}
    (h1 : Lookup h key e r1) (h2 : Lookup h key e r2) : r1 = r2 := by
  induction h1 with
  | here hf ha =>
    cases h2 with
    | here hf2 ha2 =>
      rw [hf] at hf2
      cases hf2
      rw [ha] at ha2
      exact ha2
    | unbound hf2 ha2 _ =>
      rw [hf] at hf2
      cases hf2
      rw [ha] at ha2
      cases ha2
    | up hf2 ha2 _ _ =>
      rw [hf] at hf2
      cases hf2
      rw [ha] at ha2
      cases ha2
  | unbound hf ha hp =>
    cases h2 with
    | here hf2 ha2 =>
      rw [hf] at hf2
      cases hf2
      rw [ha] at ha2
      cases ha2
    | unbound _ _ _ => rfl
    | up hf2 _ hp2 _ =>
      rw [hf] at hf2
      cases hf2
      rw [hp] at hp2
      cases hp2
  | up hf ha hp _ ih =>
    cases h2 with
    | here hf2 ha2 =>
      rw [hf] at hf2
      cases hf2
      rw [ha] at ha2
      cases ha2
    | unbound hf2 _ hp2 =>
      rw [hf] at hf2
      cases hf2
      rw [hp] at hp2
      cases hp2
    | up hf2 _ hp2 hl2 =>
      rw [hf] at hf2
      cases hf2
      rw [hp] at hp2
      cases hp2
      exact ih hl2

theorem Lookup.lookup_mono {h h1 : Heap} {key : Sexp} {e : Nat} {res : Option (Sexp × Sexp)}
    (he : ∀ (i : Nat) (f : Frame), h.envs[i]? = some f → h1.envs[i]? = some f)
    (hl : Lookup h key e res) : Lookup h1 key e res := by
  induction hl with
  | here hf ha => exact .here (he _ _ hf) ha
  | unbound hf ha hp => exact .unbound (he _ _ hf) ha hp
  | up hf ha hp _ ih => exact .up (he _ _ hf) ha hp ih

theorem Lookup.lookup_same {h h1 : Heap} {r : Nat} {key : Sexp} {e : Nat} {c : Sexp × Sexp}
    (hroot : ∃ f, h.envs[r]? = some f ∧ f.parent = none) (hs : Same h h1 r)
    (hl : Lookup h key e (some c)) : Lookup h1 key e (some c) := by
  generalize hres : some c = res at hl
  induction hl with
  | @here e f c2 hf ha =>
    cases hres
    by_cases her : e = r
    · subst her
      obtain ⟨f1, hf1, _, hk⟩ := hs.1.root f hf
      exact .here hf1 (hk _ _ ha)
    · exact .here (hs.2 e f her hf) ha
  | unbound _ _ _ => cases hres
  | @up e p f res hf ha hp _ ih =>
    have her : e ≠ r := by
      intro he
      subst he
      obtain ⟨f0, hf0, hp0⟩ := hroot
      rw [hf] at hf0
      cases hf0
      rw [hp] at hp0
      cases hp0
    exact .up (hs.2 e f her hf) ha hp (ih hres)

theorem Ext.ext_same {h h1 : Heap} {r : Nat} (x : Ext h h1 r) : Same h h1 r :=
  ⟨x.grow, x.frames⟩

theorem Scoped.scoped_same {h h1 : Heap} {r : Nat} {e : Nat} {x : Sexp}
    (hroot : ∃ f, h.envs[r]? = some f ∧ f.parent = none) (hs : Same h h1 r)
    (hx : Scoped h e x) : Scoped h1 e x := by
  induction hx with
  | leaf hl => exact .leaf hl
  | ref hl hc => exact .ref (hl.lookup_same hroot hs) hc
  | pair _ _ iha ihd => exact .pair iha ihd
  | cnd _ _ _ i1 i2 i3 => exact .cnd i1 i2 i3
  | set _ _ i1 i2 => exact .set i1 i2
  | seq _ i1 => exact .seq i1
  | @lambda e e2 a node b hn hb hf _ ih =>
    obtain ⟨n1, hn1, hp1, hb1⟩ := hs.1.lams a node hn
    have her : e2 ≠ r := by
      intro he
      subst he
      obtain ⟨f0, hf0, hp0⟩ := hroot
      rw [hf] at hf0
      cases hf0
      cases hp0
    exact .lambda hn1 (hb1 b hb) (by rw [hp1]; exact hs.2 e2 _ her hf) ih

theorem Keep.keep_refl (r env : Nat) (h : Heap) : Keep r env h h := by
  intro key c f f1 _ hf hf1
  rw [hf] at hf1
  cases hf1
  rfl

theorem Keep.keep_trans {r env : Nat} {h h1 h2 : Heap}
    (hroot : ∃ f, h.envs[r]? = some f ∧ f.parent = none) (hs : Same h h1 r)
    (k1 : Keep r env h h1) (k2 : Keep r env h1 h2) : Keep r env h h2 := by
  intro key c f f2 hl hf hf2
  obtain ⟨f1, hf1, _, _⟩ := hs.1.root f hf
  rw [k2 key c f1 f2 (hl.lookup_same hroot hs) hf1 hf2, k1 key c f f1 hl hf hf1]

theorem Keep.of_envs {r env : Nat} {h h1 : Heap} (he : h1.envs = h.envs) : Keep r env h h1 := by
  intro key c f f1 _ hf hf1
  rw [he, hf] at hf1
  cases hf1
  rfl

theorem lookup_push {h : Heap} {r e : Nat} {key v : Sexp} (hc : Chain h r e)
    (hl : Lookup h key e none) :
    Lookup { h with envs := push_binding h.envs r (key, v) } key e (some (key, v)) := by
  induction hc with
  | @root f hf hp =>
    have hlt : r < h.envs.length := getElem?_lt hf
    refine .here (f := { f with bindings := (key, v) :: f.bindings }) ?_ ?_
    · simp [push_binding, hf, List.getElem?_set, hlt]
    · simp [assq_cell]
  | @step e p f hf hp hb hc2 ih =>
    have her : e ≠ r := by
      intro he
      subst he
      obtain ⟨f0, hf0, hp0⟩ := hc2.root_frame
      rw [hf] at hf0
      cases hf0
      rw [hp] at hp0
      cases hp0
    obtain ⟨f0, hf0, _⟩ := hc2.root_frame
    have hfe : (push_binding h.envs r (key, v))[e]? = some f := by
      simp only [push_binding, hf0]
      rw [List.getElem?_set_ne (Ne.symm her)]
      exact hf
    cases hl with
    | unbound hf2 _ hp2 =>
      rw [hf] at hf2
      cases hf2
      rw [hp] at hp2
      cases hp2
    | up hf2 ha2 hp2 hl2 =>
      rw [hf] at hf2
      cases hf2
      rw [hp] at hp2
      cases hp2
      exact .up hfe ha2 hp (ih hl2)

theorem env_cell_create_scoped {h h1 : Heap} {r env : Nat} {key v : Sexp} {cell : Sexp × Sexp}
    (hc : Chain h r env) (hr : env_cell_create h env key v = .ok (cell, h1)) :
    Lookup h1 key env (some cell) ∧ Keep r env h h1 := by
  unfold env_cell_create at hr
  cases hf : env_cell h env key with
  | error e => simp [hf, bind, Except.bind] at hr
  | ok res =>
    have hl := lookup_of_env_cell hf
    cases res with
    | some c =>
      simp [hf, bind, Except.bind, pure, Except.pure] at hr
      obtain ⟨rfl, rfl⟩ := hr
      exact ⟨hl, Keep.keep_refl _ _ _⟩
    | none =>
      cases hroot : env_root h env with
      | error e => simp [hf, hroot, bind, Except.bind] at hr
      | ok r1 =>
        have : r1 = r := env_root_loop_chain _ _ _ hc hroot
        subst this
        simp [hf, hroot, bind, Except.bind, pure, Except.pure] at hr
        obtain ⟨rfl, rfl⟩ := hr
        refine ⟨lookup_push hc hl, ?_⟩
        intro key2 c f f1 hl2 hfr hfr1
        have hne : sexp_eq key key2 = false := by
          cases hq : sexp_eq key key2 with
          | false => rfl
          | true =>
            have : key = key2 := (sexp_eq_iff _ _).1 hq
            subst this
            cases hl.lookup_unique hl2
        have hlt : r1 < h.envs.length := getElem?_lt hfr
        have : f1 = { f with bindings := (key, v) :: f.bindings } := by
          simp [push_binding, hfr, List.getElem?_set, hlt] at hfr1
          exact hfr1.symm
        subst this
        simp [assq_cell, hne]

theorem analyze_var_ref_scoped {h h1 : Heap} {r env : Nat} {x ast : Sexp}
    (hc : Chain h r env) (hr : analyze_var_ref x env h = .ok (ast, h1)) :
    Post2 r env h ast h1 := by
  unfold analyze_var_ref at hr
  cases hcc : env_cell_create h env x .undef with
  | error e => simp [hcc, bind, Except.bind] at hr
  | ok p =>
    obtain ⟨cell, h2⟩ := p
    simp [hcc, bind, Except.bind, pure, Except.pure, sexp_make_ref] at hr
    obtain ⟨rfl, rfl⟩ := hr
    obtain ⟨hl, hk⟩ := env_cell_create_scoped hc hcc
    exact ⟨fun _ => .ref hl rfl, hk⟩

theorem Post2.scoped_of_exc {r env : Nat} {h h1 : Heap} {ast : Sexp} (k : Keep r env h h1)
    (hexc : sexp_exceptionp ast = true) : Post2 r env h ast h1 :=
  ⟨fun hne => (by rw [hexc] at hne; cases hne), k⟩

theorem Scoped.scoped_pair_inv {h : Heap} {e : Nat} {a d : Sexp} (hg : Scoped h e (.pair a d)) :
    Scoped h e a ∧ Scoped h e d := by
  cases hg with
  | leaf hl => simp [ast_leaf] at hl
  | pair ha hd => exact ⟨ha, hd⟩

theorem Scoped.scoped_revappend {h : Heap} {e : Nat} :
    ∀ (x acc : Sexp), Scoped h e x → Scoped h e acc → Scoped h e (sexp_revappend x acc) := by
  intro x
  induction x with
  | pair a d _ ihd =>
    intro acc hx hacc
    obtain ⟨ha, hd⟩ := hx.scoped_pair_inv
    simp only [sexp_revappend]
    exact ihd _ hd (.pair ha hacc)
  | _ => intro acc _ hacc; simpa [sexp_revappend] using hacc

theorem analyze_app_loop_scoped {r : Nat} {rec : Rec} (hrec : RecGood r rec)
    (hsc : RecScoped r rec) (env : Nat) :
    ∀ (x res : Sexp) (h : Heap) (ast : Sexp) (h1 : Heap), raw_form x = true → Chain h r env →
      Scoped h env res → analyze_app_loop rec env x res h = .ok (ast, h1) →
      Post2 r env h ast h1 := by
  intro x
  induction x with
  | pair a d _ ihd =>
    intro res h ast h1 hraw hc hres hr
    simp only [raw_form, Bool.and_eq_true] at hraw
    unfold analyze_app_loop at hr
    cases ha : rec a env h with
    | error e => simp [ha, bind, Except.bind] at hr
    | ok p =>
      obtain ⟨tmp, h2⟩ := p
      have hp := hrec a env h tmp h2 hraw.1 hc ha
      have hq := hsc a env h tmp h2 hraw.1 hc ha
      simp only [ha, bind, Except.bind] at hr
      by_cases hexc : sexp_exceptionp tmp = true
      · simp only [hexc, if_true, pure, Except.pure] at hr
        cases hr
        exact Post2.scoped_of_exc hq.2 hexc
      · simp only [hexc, Bool.false_eq_true, if_false] at hr
        have hgood : Scoped h2 env (.pair tmp res) :=
          .pair (hq.1 (by simpa using hexc)) (hres.scoped_same hc.root_frame hp.1.ext_same)
        have hnext := ihd _ _ _ _ hraw.2 (hc.ext hp.1) hgood hr
        exact ⟨hnext.1, Keep.keep_trans hc.root_frame hp.1.ext_same hq.2 hnext.2⟩
  | _ =>
    intro res h ast h1 _ _ hres hr
    simp only [analyze_app_loop, pure, Except.pure] at hr
    cases hr
    exact ⟨fun _ => Scoped.scoped_revappend _ _ hres (.leaf rfl), Keep.keep_refl _ _ _⟩

theorem analyze_app_scoped {r : Nat} {rec : Rec} (hrec : RecGood r rec) (hsc : RecScoped r rec)
    {x : Sexp} {env : Nat} {h h1 : Heap} {ast : Sexp} (hraw : raw_form x = true)
    (hc : Chain h r env) (hr : analyze_app rec x env h = .ok (ast, h1)) :
    Post2 r env h ast h1 :=
  analyze_app_loop_scoped hrec hsc env x .null h ast h1 hraw hc (.leaf rfl) hr

theorem analyze_seq_scoped {r : Nat} {rec : Rec} (hrec : RecGood r rec) (hsc : RecScoped r rec)
    {ls : Sexp} {env : Nat} {h h1 : Heap} {ast : Sexp} (hraw : raw_form ls = true)
    (hc : Chain h r env) (hr : analyze_seq rec ls env h = .ok (ast, h1)) :
    Post2 r env h ast h1 := by
  unfold analyze_seq at hr
  by_cases hn : sexp_nullp ls = true
  · simp only [hn, if_true, pure, Except.pure] at hr
    cases hr
    exact ⟨fun _ => .leaf rfl, Keep.keep_refl _ _ _⟩
  · simp only [hn, Bool.false_eq_true, if_false] at hr
    cases hd : sexp_cdr ls with
    | error e => simp [hd, bind, Except.bind] at hr
    | ok d =>
      simp only [hd, bind, Except.bind] at hr
      by_cases hdn : sexp_nullp d = true
      · simp only [hdn, if_true] at hr
        cases ha : sexp_car ls with
        | error e => simp [ha] at hr
        | ok a =>
          simp only [ha] at hr
          exact hsc a env h ast h1 (raw_form_car hraw ha) hc hr
      · simp only [hdn, Bool.false_eq_true, if_false] at hr
        cases hap : analyze_app rec ls env h with
        | error e => simp [hap] at hr
        | ok p =>
          obtain ⟨tmp, h2⟩ := p
          have hp := analyze_app_scoped hrec hsc hraw hc hap
          simp only [hap] at hr
          by_cases hexc : sexp_exceptionp tmp = true
          · simp only [hexc, if_true, pure, Except.pure] at hr
            cases hr
            exact Post2.scoped_of_exc hp.2 hexc
          · simp only [hexc, Bool.false_eq_true, if_false, pure, Except.pure] at hr
            cases hr
            exact ⟨fun _ => .seq (hp.1 (by simpa using hexc)), hp.2⟩

theorem analyze_if_scoped {r : Nat} {rec : Rec} (hrec : RecGood r rec) (hsc : RecScoped r rec)
    {x : Sexp} {env : Nat} {h h1 : Heap} {ast : Sexp} (hraw : raw_form x = true)
    (hc : Chain h r env) (hr : analyze_if rec x env h = .ok (ast, h1)) :
    Post2 r env h ast h1 := by
  unfold analyze_if at hr
  cases ha : sexp_car x with
  | error e => simp [ha, bind, Except.bind] at hr
  | ok a =>
    simp only [ha, bind, Except.bind] at hr
    cases ht : rec a env h with
    | error e => simp [ht] at hr
    | ok pt =>
      obtain ⟨test, h2⟩ := pt
      have hpt := hrec a env h test h2 (raw_form_car hraw ha) hc ht
      have hqt := hsc a env h test h2 (raw_form_car hraw ha) hc ht
      simp only [ht] at hr
      by_cases hexc : sexp_exceptionp test = true
      · simp only [hexc, if_true, pure, Except.pure] at hr
        cases hr
        exact Post2.scoped_of_exc hqt.2 hexc
      · simp only [hexc, Bool.false_eq_true, if_false] at hr
        cases hb : sexp_cadr x with
        | error e => simp [hb] at hr
        | ok b =>
          simp only [hb] at hr
          cases hp : rec b env h2 with
          | error e => simp [hp] at hr
          | ok pp =>
            obtain ⟨pass, h3⟩ := pp
            have hc2 := hc.ext hpt.1
            have hpp := hrec b env h2 pass h3 (raw_form_cadr hraw hb) hc2 hp
            have hqp := hsc b env h2 pass h3 (raw_form_cadr hraw hb) hc2 hp
            have hk3 : Keep r env h h3 := Keep.keep_trans hc.root_frame hpt.1.ext_same hqt.2 hqp.2
            simp only [hp] at hr
            by_cases hexc2 : sexp_exceptionp pass = true
            · simp only [hexc2, if_true, pure, Except.pure] at hr
              cases hr
              exact Post2.scoped_of_exc hk3 hexc2
            · simp only [hexc2, Bool.false_eq_true, if_false] at hr
              have tail : ∀ c : Sexp, raw_form c = true →
                  Except.bind (rec c env h3) (fun v =>
                      if sexp_exceptionp v.1 = true then Except.ok (v.1, v.2)
                      else Except.ok (sexp_make_cnd test pass v.1, v.2)) = Except.ok (ast, h1) →
                  Post2 r env h ast h1 := by
                intro c hrawc hr
                simp only [Except.bind] at hr
                cases hf : rec c env h3 with
                | error e => simp [hf] at hr
                | ok pf =>
                  obtain ⟨fail, h4⟩ := pf
                  have hc3 := hc2.ext hpp.1
                  have hpf := hrec c env h3 fail h4 hrawc hc3 hf
                  have hqf := hsc c env h3 fail h4 hrawc hc3 hf
                  have hk4 : Keep r env h h4 :=
                    Keep.keep_trans hc.root_frame (hpt.1.ext_trans hpp.1).ext_same hk3 hqf.2
                  simp only [hf] at hr
                  by_cases hexc3 : sexp_exceptionp fail = true
                  · simp only [hexc3, if_true, pure, Except.pure] at hr
                    cases hr
                    exact Post2.scoped_of_exc hk4 hexc3
                  · simp only [hexc3, Bool.false_eq_true, if_false, pure, Except.pure,
                      sexp_make_cnd] at hr
                    cases hr
                    exact ⟨fun _ => .cnd
                      ((hqt.1 (not_exc hexc)).scoped_same hc2.root_frame (hpp.1.ext_trans hpf.1).ext_same)
                      ((hqp.1 (not_exc hexc2)).scoped_same hc3.root_frame hpf.1.ext_same)
                      (hqf.1 (not_exc hexc3)), hk4⟩
              cases hdd : sexp_cddr x with
              | error e => simp [hdd] at hr
              | ok dd =>
                simp only [hdd] at hr
                by_cases hpd : sexp_pairp dd = true
                · simp only [hpd, if_true] at hr
                  cases hcc : sexp_caddr x with
                  | error e => simp [hcc] at hr
                  | ok c =>
                    simp only [hcc, pure, Except.pure] at hr
                    exact tail c (raw_form_caddr hraw hcc) hr
                · simp only [hpd, Bool.false_eq_true, if_false, pure, Except.pure] at hr
                  exact tail .undef rfl hr

theorem lambda_setup_frame {h h3 : Heap} {env : Nat} (params : Sexp)
    (hs : set_env_lambda (extend_env (alloc_lambda h params).2 env (sexp_flatten_dot params)
        (alloc_lambda h params).1).2 (extend_env (alloc_lambda h params).2 env
          (sexp_flatten_dot params) (alloc_lambda h params).1).1 (alloc_lambda h params).1
        = .ok h3) :
    h3.envs[h.envs.length]?
        = some (lambda_frame env (.lambda h.lams.length) (sexp_flatten_dot params))
      ∧ ∀ (i : Nat) (f : Frame), h.envs[i]? = some f → h3.envs[i]? = some f := by
  have hh : h3.envs = h.envs ++ [lambda_frame env (.lambda h.lams.length)
        (sexp_flatten_dot params)] := by
    simp only [alloc_lambda, extend_env, set_env_lambda, List.getElem?_concat_length,
      set_concat_length] at hs
    cases hs
    rfl
  refine ⟨by rw [hh]; exact List.getElem?_concat_length _ _, fun i f hf => ?_⟩
  rw [hh, List.getElem?_append_left (getElem?_lt hf)]
  exact hf

theorem extend_bindings_skip (n value : Sexp) : ∀ (vars : Sexp) (acc : List (Sexp × Sexp)),
    sexp_memq n vars = false →
    assq_cell n (extend_bindings value vars acc) = assq_cell n acc := by
  intro vars
  induction vars with
  | pair v d _ ihd =>
    intro acc hm
    simp only [sexp_memq] at hm
    by_cases hv : sexp_eq v n = true
    · simp [hv] at hm
    · simp only [hv, Bool.false_eq_true, if_false] at hm
      simp only [extend_bindings]
      rw [ihd _ hm]
      simp [assq_cell, hv]
  | _ => intro acc _; rfl

theorem extend_bindings_find (n value : Sexp) : ∀ (vars : Sexp) (acc : List (Sexp × Sexp)),
    (sexp_memq n vars = true ∨ ∃ c, assq_cell n acc = some c ∧ c.2 = value) →
    ∃ c, assq_cell n (extend_bindings value vars acc) = some c ∧ c.2 = value := by
  intro vars
  induction vars with
  | pair v d _ ihd =>
    intro acc hm
    simp only [extend_bindings]
    by_cases hv : sexp_eq v n = true
    · exact ihd _ (Or.inr ⟨(v, value), by simp [assq_cell, hv], rfl⟩)
    · rcases hm with hm | ⟨c, hc, hcv⟩
      · simp only [sexp_memq, hv, Bool.false_eq_true, if_false] at hm
        exact ihd _ (Or.inl hm)
      · exact ihd _ (Or.inr ⟨c, by simp [assq_cell, hv, hc], hcv⟩)
  | _ =>
    intro acc hm
    rcases hm with hm | hm
    · simp [sexp_memq] at hm
    · simpa [extend_bindings] using hm

theorem lookup_lambda_frame {h : Heap} {key : Sexp} {e env : Nat} {l vars : Sexp}
    {c : Sexp × Sexp} (hf : h.envs[e]? = some (lambda_frame env l vars))
    (hl : Lookup h key env (some c)) : ∃ c2, Lookup h key e (some c2) := by
  cases ha : assq_cell key (lambda_frame env l vars).bindings with
  | some c2 => exact ⟨c2, .here hf ha⟩
  | none => exact ⟨c, .up hf ha rfl hl⟩

theorem analyze_lambda_scoped {r : Nat} {rec : Rec} (hrec : RecGood r rec)
    (hsc : RecScoped r rec) {x : Sexp} {env : Nat} {h h1 : Heap} {ast : Sexp}
    (hraw : raw_form x = true) (hc : Chain h r env)
    (hr : analyze_lambda rec x env h = .ok (ast, h1)) :
    Post2 r env h ast h1
      ∧ ∃ params, sexp_cadr x = .ok params
        ∧ (∀ (p : Sexp) (f f1 : Frame), sexp_memq p (sexp_flatten_dot params) = true →
            h.envs[r]? = some f → h1.envs[r]? = some f1 →
            assq_cell p f1.bindings = assq_cell p f.bindings)
        ∧ (sexp_exceptionp ast = false → ∃ node b, ast = .lambda h.lams.length
            ∧ h1.lams[h.lams.length]? = some node ∧ node.params = params
            ∧ node.body = some b) := by
  unfold analyze_lambda at hr
  cases hpar : sexp_cadr x with
  | error e => simp [hpar, bind, Except.bind] at hr
  | ok params =>
    simp only [hpar, bind, Except.bind] at hr
    cases hset : set_env_lambda (extend_env (alloc_lambda h params).2 env
        (sexp_flatten_dot params) (alloc_lambda h params).1).2 (extend_env
          (alloc_lambda h params).2 env (sexp_flatten_dot params) (alloc_lambda h params).1).1
        (alloc_lambda h params).1 with
    | error e => simp [hset] at hr
    | ok h3 =>
      obtain ⟨hext3, hc3, hl3⟩ := lambda_setup params hc hset
      obtain ⟨hfr3, hold3⟩ := lambda_setup_frame params hset
      simp only [hset] at hr
      cases hforms : sexp_cddr x with
      | error e => simp [hforms] at hr
      | ok forms =>
        simp only [hforms] at hr
        cases hseq : analyze_seq rec forms (extend_env (alloc_lambda h params).2 env
            (sexp_flatten_dot params) (alloc_lambda h params).1).1 h3 with
        | error e => simp [hseq] at hr
        | ok pb =>
          obtain ⟨body, h4⟩ := pb
          have hpb := analyze_seq_post hrec (raw_form_cddr hraw hforms) hc3 hseq
          have hqb : Post2 r h.envs.length h3 body h4 :=
            analyze_seq_scoped hrec hsc (raw_form_cddr hraw hforms) hc3 hseq
          have hne2 : h.envs.length ≠ r := by
            intro he
            obtain ⟨f0, hf0, hp0⟩ := hc3.root_frame
            rw [← he, hfr3] at hf0
            cases hf0
            cases hp0
          have hroot4 : ∀ (key : Sexp) (f f4 : Frame),
              (∃ c, Lookup h3 key h.envs.length (some c)) →
              h.envs[r]? = some f → h4.envs[r]? = some f4 →
              assq_cell key f4.bindings = assq_cell key f.bindings := by
            intro key f f4 ⟨c, hl⟩ hf hf4
            exact hqb.2 key c f f4 hl (hold3 r f hf) hf4
          have hk4 : Keep r env h h4 := by
            intro key c f f4 hl hf hf4
            exact hroot4 key f f4 (lookup_lambda_frame hfr3 (hl.lookup_mono hold3)) hf hf4
          have hpar4 : ∀ (p : Sexp) (f f4 : Frame),
              sexp_memq p (sexp_flatten_dot params) = true →
              h.envs[r]? = some f → h4.envs[r]? = some f4 →
              assq_cell p f4.bindings = assq_cell p f.bindings := by
            intro p f f4 hm hf hf4
            obtain ⟨c, hc, _⟩ := extend_bindings_find p (.lambda h.lams.length)
              (sexp_flatten_dot params) [] (Or.inl hm)
            exact hroot4 p f f4 ⟨c, .here hfr3 hc⟩ hf hf4
          simp only [hseq] at hr
          by_cases hexc : sexp_exceptionp body = true
          · simp only [hexc, if_true, pure, Except.pure] at hr
            cases hr
            exact ⟨Post2.scoped_of_exc hk4 hexc, params, rfl, hpar4,
              fun hne => by rw [hexc] at hne; cases hne⟩
          · simp only [hexc, Bool.false_eq_true, if_false] at hr
            cases hs5 : set_lambda h4 (alloc_lambda h params).1
                (fun n => { n with body := some body }) with
            | error e => simp [hs5] at hr
            | ok h5 =>
              simp only [hs5, pure, Except.pure] at hr
              cases hr
              obtain ⟨n4, hn4, hb4⟩ := hpb.1.bodies _ _ hl3
              obtain ⟨n4b, hn4b, hp4, _⟩ := hpb.1.grow.lams _ _ hl3
              rw [hn4] at hn4b
              cases hn4b
              have hs5a : set_lambda h4 (.lambda h.lams.length)
                  (fun n => { n with body := some body }) = .ok h1 := hs5
              obtain ⟨hg, hn5⟩ := set_body_grow (r := r) hn4 hb4 hs5a
              have henv5 : h1.envs = h4.envs := set_lambda_envs hs5a
              have hsame : Same h4 h1 r := ⟨hg, fun i f _ hf => by rw [henv5]; exact hf⟩
              have hfr4 : h4.envs[h.envs.length]?
                  = some (lambda_frame env (.lambda h.lams.length) (sexp_flatten_dot params)) :=
                hpb.1.frames _ _ hne2 hfr3
              have hc4 := hc3.ext hpb.1
              refine ⟨⟨fun _ => ?_, ?_⟩, params, rfl, ?_, fun _ => ⟨_, body, rfl, hn5, hp4, rfl⟩⟩
              · refine .lambda hn5 rfl ?_
                  ((hqb.1 (not_exc hexc)).scoped_same hc4.root_frame hsame)
                show h1.envs[h.envs.length]? = some (lambda_frame env (.lambda h.lams.length)
                  (sexp_flatten_dot n4.params))
                rw [henv5, hp4]
                exact hfr4
              · intro key c f f5 hl hf hf5
                rw [henv5] at hf5
                exact hk4 key c f f5 hl hf hf5
              · intro p f f5 hm hf hf5
                rw [henv5] at hf5
                exact hpar4 p f f5 hm hf hf5

theorem analyze_define_scoped {r : Nat} {rec : Rec} (hrec : RecGood r rec)
    (hsc : RecScoped r rec) {x : Sexp} {env : Nat} {h h1 : Heap} {ast : Sexp}
    (hraw : raw_form x = true) (hc : Chain h r env)
    (hr : analyze_define rec x env h = .ok (ast, h1)) : Post2 r env h ast h1 := by
  unfold analyze_define at hr
  obtain ⟨target, htar, hr⟩ := bind_ok_inv hr
  obtain ⟨name, hname, hr⟩ := bind_ok_inv hr
  obtain ⟨owner, hown, hr⟩ := bind_ok_inv hr
  obtain ⟨ha, hh1, hr⟩ := bind_ok_inv hr
  obtain ⟨⟨value, hb⟩, hval, hr⟩ := bind_ok_inv hr
  dsimp only at hr
  have hexta : Ext h ha r ∧ ha.envs = h.envs := by
    cases owner with
    | none =>
      simp only [pure, Except.pure] at hh1
      cases hh1
      exact ⟨Ext.ext_refl _ _, rfl⟩
    | some l =>
      dsimp only at hh1
      by_cases hl : sexp_lambdap l = true
      · simp only [hl, if_true] at hh1
        exact ⟨set_lambda_ext (g := fun n => { n with locals := .pair name n.locals })
          (fun n => ⟨rfl, rfl⟩) hh1, set_lambda_envs hh1⟩
      · simp only [hl, Bool.false_eq_true, if_false, pure, Except.pure] at hh1
        cases hh1
        exact ⟨Ext.ext_refl _ _, rfl⟩
  obtain ⟨hexta, henva⟩ := hexta
  have hca := hc.ext hexta
  have hpv : Post r ha value hb ∧ Post2 r env ha value hb := by
    by_cases hpt : sexp_pairp target = true
    · simp only [hpt, if_true] at hval
      obtain ⟨formals, hform, hval⟩ := bind_ok_inv hval
      obtain ⟨body, hbody, hval⟩ := bind_ok_inv hval
      have hrawl : raw_form (sexp_cons .undef (sexp_cons formals body)) = true := by
        simp [sexp_cons, raw_form, raw_form_cdadr hraw hform, raw_form_cddr hraw hbody]
      exact ⟨analyze_lambda_post hrec hrawl hca hval,
        (analyze_lambda_scoped hrec hsc hrawl hca hval).1⟩
    · simp only [hpt, Bool.false_eq_true, if_false] at hval
      obtain ⟨v, hv, hval⟩ := bind_ok_inv hval
      exact ⟨hrec v env ha value hb (raw_form_caddr hraw hv) hca hval,
        hsc v env ha value hb (raw_form_caddr hraw hv) hca hval⟩
  obtain ⟨hpv, hqv⟩ := hpv
  have hkb : Keep r env h hb :=
    Keep.keep_trans hc.root_frame hexta.ext_same (Keep.of_envs henva) hqv.2
  by_cases hexc : sexp_exceptionp value = true
  · simp only [hexc, if_true, pure, Except.pure] at hr
    cases hr
    exact Post2.scoped_of_exc hkb hexc
  · simp only [hexc, Bool.false_eq_true, if_false] at hr
    obtain ⟨⟨ref, hc3⟩, hvr, hr⟩ := bind_ok_inv hr
    dsimp only at hr
    have hcb := hca.ext hpv.1
    have hpr := analyze_var_ref_post hcb hvr
    have hqr := analyze_var_ref_scoped hcb hvr
    have hk3 : Keep r env h hc3 :=
      Keep.keep_trans hc.root_frame (hexta.ext_trans hpv.1).ext_same hkb hqr.2
    by_cases hexc2 : sexp_exceptionp ref = true
    · simp only [hexc2, if_true, pure, Except.pure] at hr
      cases hr
      exact Post2.scoped_of_exc hk3 hexc2
    · simp only [hexc2, Bool.false_eq_true, if_false] at hr
      obtain ⟨⟨cell, h4⟩, hcc, hr⟩ := bind_ok_inv hr
      have hc3c := hcb.ext hpr.1
      obtain ⟨hext4, _, _⟩ := env_cell_create_post hc3c hcc
      obtain ⟨_, hk34⟩ := env_cell_create_scoped hc3c hcc
      simp only [pure, Except.pure, sexp_make_set] at hr
      cases hr
      exact ⟨fun _ => .set
        ((hqr.1 (not_exc hexc2)).scoped_same hc3c.root_frame hext4.ext_same)
        ((hqv.1 (not_exc hexc)).scoped_same hcb.root_frame (hpr.1.ext_trans hext4).ext_same),
        Keep.keep_trans hc.root_frame ((hexta.ext_trans hpv.1).ext_trans hpr.1).ext_same hk3
          hk34⟩

theorem analyze_set_scoped {r : Nat} {rec : Rec} (hrec : RecGood r rec)
    (hsc : RecScoped r rec) {x : Sexp} {env : Nat} {h h1 : Heap} {ast : Sexp}
    (hraw : raw_form x = true) (hc : Chain h r env)
    (hr : analyze_set rec x env h = .ok (ast, h1)) : Post2 r env h ast h1 := by
  unfold analyze_set at hr
  obtain ⟨target, htar, hr⟩ := bind_ok_inv hr
  obtain ⟨⟨ref, ha⟩, hvr, hr⟩ := bind_ok_inv hr
  dsimp only at hr
  obtain ⟨loc, hloc, hr⟩ := bind_ok_inv hr
  obtain ⟨name, hnm, hr⟩ := bind_ok_inv hr
  obtain ⟨hb, hsv, hr⟩ := bind_ok_inv hr
  have hpr := analyze_var_ref_post hc hvr
  have hqr := analyze_var_ref_scoped hc hvr
  have hextb : Ext ha hb r ∧ hb.envs = ha.envs := by
    by_cases hl : sexp_lambdap loc = true
    · simp only [hl, if_true] at hsv
      exact ⟨set_lambda_ext (g := fun n => { n with sv := sexp_insert n.sv name })
        (fun n => ⟨rfl, rfl⟩) hsv, set_lambda_envs hsv⟩
    · simp only [hl, Bool.false_eq_true, if_false, pure, Except.pure] at hsv
      cases hsv
      exact ⟨Ext.ext_refl _ _, rfl⟩
  obtain ⟨hextb, henvb⟩ := hextb
  have hca := hc.ext hpr.1
  have hkb : Keep r env h hb :=
    Keep.keep_trans hc.root_frame hpr.1.ext_same hqr.2 (Keep.of_envs henvb)
  by_cases hexc : sexp_exceptionp ref = true
  · simp only [hexc, if_true, pure, Except.pure] at hr
    cases hr
    exact Post2.scoped_of_exc hkb hexc
  · simp only [hexc, Bool.false_eq_true, if_false] at hr
    obtain ⟨v, hv, hr⟩ := bind_ok_inv hr
    obtain ⟨⟨value, h3⟩, hval, hr⟩ := bind_ok_inv hr
    dsimp only at hr
    have hcb := hca.ext hextb
    have hpv := hrec v env hb value h3 (raw_form_caddr hraw hv) hcb hval
    have hqv := hsc v env hb value h3 (raw_form_caddr hraw hv) hcb hval
    have hk3 : Keep r env h h3 :=
      Keep.keep_trans hc.root_frame (hpr.1.ext_trans hextb).ext_same hkb hqv.2
    by_cases hexc2 : sexp_exceptionp value = true
    · simp only [hexc2, if_true, pure, Except.pure] at hr
      cases hr
      exact Post2.scoped_of_exc hk3 hexc2
    · simp only [hexc2, Bool.false_eq_true, if_false, pure, Except.pure, sexp_make_set] at hr
      cases hr
      exact ⟨fun _ => .set
        ((hqr.1 (not_exc hexc)).scoped_same hca.root_frame (hextb.ext_trans hpv.1).ext_same)
        (hqv.1 (not_exc hexc2)), hk3⟩

theorem analyze_step_scoped {r : Nat} {rec : Rec} (hrec : RecGood r rec)
    (hsc : RecScoped r rec) {x : Sexp} {env : Nat} {h h1 : Heap} {ast : Sexp}
    (hraw : raw_form x = true) (hc : Chain h r env)
    (hr : analyze_step rec x env h = .ok (ast, h1)) : Post2 r env h ast h1 := by
  unfold analyze_step at hr
  cases x with
  | pair a d =>
    dsimp only at hr
    by_cases hid : sexp_idp a = true
    · simp only [hid, if_true] at hr
      obtain ⟨res, hres, hr⟩ := bind_ok_inv hr
      cases res with
      | none => exact analyze_app_scoped hrec hsc hraw hc hr
      | some cell =>
        dsimp only at hr
        split at hr
        · exact analyze_define_scoped hrec hsc hraw hc hr
        · exact analyze_set_scoped hrec hsc hraw hc hr
        · exact (analyze_lambda_scoped hrec hsc hraw hc hr).1
        · exact analyze_if_scoped hrec hsc hraw hc hr
        · exact analyze_seq_scoped hrec hsc hraw hc hr
        · simp only [pure, Except.pure, sexp_make_lit] at hr
          cases hr
          exact ⟨fun _ => .leaf rfl, Keep.keep_refl _ _ _⟩
        · simp only [pure, Except.pure] at hr
          cases hr
          exact Post2.scoped_of_exc (Keep.keep_refl _ _ _) rfl
        · simp only [pure, Except.pure] at hr
          cases hr
          exact Post2.scoped_of_exc (Keep.keep_refl _ _ _) rfl
        · exact analyze_app_scoped hrec hsc hraw hc hr
    · simp only [hid, Bool.false_eq_true, if_false] at hr
      exact analyze_app_scoped hrec hsc hraw hc hr
  | symbol s => exact analyze_var_ref_scoped hc hr
  | synclo e y => simp [raw_form] at hraw
  | _ =>
    first
      | (simp [raw_form] at hraw; done)
      | (simp only [pure, Except.pure] at hr
         cases hr
         exact ⟨fun _ => .leaf rfl, Keep.keep_refl _ _ _⟩)

theorem analyzeF_scoped (r : Nat) : ∀ n, RecScoped r (analyzeF n) := by
  intro n
  induction n with
  | zero =>
    intro y env h ast h1 _ _ hr
    simp [analyzeF] at hr
  | succ n ih =>
    intro y env h ast h1 hraw hc hr
    exact analyze_step_scoped (analyzeF_good r n) ih hraw hc hr

theorem analyze_scoped (r : Nat) : RecScoped r analyze :=
  fun y env h ast h1 hraw hc hr => analyzeF_scoped r (sexp_size y) y env h ast h1 hraw hc hr

theorem scoped_outside {h : Heap} {n l : Sexp} {x : Sexp} (ho : Outside h n (.ref n l) x) :
    ∀ e, Scoped h e x → ∃ c, Lookup h n e (some c) ∧ c.2 = l := by
  induction ho with
  | refl =>
    intro e hs
    cases hs with
    | leaf hl => simp [ast_leaf] at hl
    | ref hl hc => exact ⟨_, hl, hc⟩
  | car _ ih =>
    intro e hs
    cases hs with
    | leaf hl => simp [ast_leaf] at hl
    | pair ha _ => exact ih e ha
  | cdr _ ih =>
    intro e hs
    cases hs with
    | leaf hl => simp [ast_leaf] at hl
    | pair _ hd => exact ih e hd
  | test _ ih =>
    intro e hs
    cases hs with
    | leaf hl => simp [ast_leaf] at hl
    | cnd h1 _ _ => exact ih e h1
  | pass _ ih =>
    intro e hs
    cases hs with
    | leaf hl => simp [ast_leaf] at hl
    | cnd _ h2 _ => exact ih e h2
  | fail _ ih =>
    intro e hs
    cases hs with
    | leaf hl => simp [ast_leaf] at hl
    | cnd _ _ h3 => exact ih e h3
  | var _ ih =>
    intro e hs
    cases hs with
    | leaf hl => simp [ast_leaf] at hl
    | set h1 _ => exact ih e h1
  | value _ ih =>
    intro e hs
    cases hs with
    | leaf hl => simp [ast_leaf] at hl
    | set _ h2 => exact ih e h2
  | seq _ ih =>
    intro e hs
    cases hs with
    | leaf hl => simp [ast_leaf] at hl
    | seq h1 => exact ih e h1
  | @body b a node hn hb hm _ ih =>
    intro e hs
    cases hs with
    | leaf hl => simp [ast_leaf] at hl
    | @lambda _ e2 _ node2 b2 hn2 hb2 hf2 hs2 =>
      rw [hn] at hn2
      cases hn2
      rw [hb] at hb2
      cases hb2
      obtain ⟨c, hl, hc⟩ := ih e2 hs2
      refine ⟨c, ?_, hc⟩
      have hskip : assq_cell n (lambda_frame e (.lambda a) (sexp_flatten_dot node.params)).bindings
          = none := by
        show assq_cell n (extend_bindings _ _ []) = none
        rw [extend_bindings_skip n _ _ [] hm]
        rfl
      cases hl with
      | here hf3 ha3 =>
        rw [hf2] at hf3
        cases hf3
        rw [hskip] at ha3
        cases ha3
      | up hf3 _ hp3 hl3 =>
        rw [hf2] at hf3
        cases hf3
        cases hp3
        exact hl3

theorem scoped_sub {h : Heap} {x y : Sexp} (hs : Sub h y x) :
    ∀ e, Scoped h e x → ∃ e2, Scoped h e2 y := by
  induction hs with
  | refl => exact fun e hx => ⟨e, hx⟩
  | car _ ih =>
    intro e hx
    cases hx with
    | leaf hl => simp [ast_leaf] at hl
    | pair ha _ => exact ih e ha
  | cdr _ ih =>
    intro e hx
    cases hx with
    | leaf hl => simp [ast_leaf] at hl
    | pair _ hd => exact ih e hd
  | test _ ih =>
    intro e hx
    cases hx with
    | leaf hl => simp [ast_leaf] at hl
    | cnd h1 _ _ => exact ih e h1
  | pass _ ih =>
    intro e hx
    cases hx with
    | leaf hl => simp [ast_leaf] at hl
    | cnd _ h2 _ => exact ih e h2
  | fail _ ih =>
    intro e hx
    cases hx with
    | leaf hl => simp [ast_leaf] at hl
    | cnd _ _ h3 => exact ih e h3
  | var _ ih =>
    intro e hx
    cases hx with
    | leaf hl => simp [ast_leaf] at hl
    | set h1 _ => exact ih e h1
  | value _ ih =>
    intro e hx
    cases hx with
    | leaf hl => simp [ast_leaf] at hl
    | set _ h2 => exact ih e h2
  | seq _ ih =>
    intro e hx
    cases hx with
    | leaf hl => simp [ast_leaf] at hl
    | seq h1 => exact ih e h1
  | body hn hb _ ih =>
    intro e hx
    cases hx with
    | leaf hl => simp [ast_leaf] at hl
    | lambda hn2 hb2 _ hs2 =>
      rw [hn] at hn2
      cases hn2
      rw [hb] at hb2
      cases hb2
      exact ih _ hs2

theorem lambda_binds {h : Heap} {e m : Nat} {node : LamNode} {b n l : Sexp}
    (hs : Scoped h e (.lambda m)) (hn : h.lams[m]? = some node) (hb : node.body = some b)
    (hm : sexp_memq n (sexp_flatten_dot node.params) = true)
    (ho : Outside h n (.ref n l) b) : l = .lambda m := by
  cases hs with
  | leaf hl => simp [ast_leaf] at hl
  | @lambda _ e2 _ node2 b2 hn2 hb2 hf2 hs2 =>
    rw [hn] at hn2
    cases hn2
    rw [hb] at hb2
    cases hb2
    obtain ⟨c, hl, hc⟩ := scoped_outside ho e2 hs2
    obtain ⟨c2, hc2, hv2⟩ := extend_bindings_find n (.lambda m) (sexp_flatten_dot node.params) []
      (Or.inl hm)
    have hhere : Lookup h n e2 (some c2) := .here hf2 hc2
    have := hl.lookup_unique hhere
    cases this
    rw [← hc, hv2]

/-- The Refs that the analysis of `(lambda P body...)` produces are lexically
scoped.  When the form is analyzed in the frame `env` of a well-formed chain
and yields no Exception, the result is a Lambda node `L` whose params are `P`
and whose body is set.  Every Ref in the body whose name is in the flattened
`P` and that lies outside every nested Lambda binding that name has loc `L`; a
Ref to a name bound by a nested Lambda `M`, outside every Lambda nested in `M`
that binds the name again, has loc `M`; and no frame of the chain gains or
changes a binding for a name of the flattened `P`.  Nothing is said here of
the parts of the body that the analysis leaves out. -/
theorem lambda_params_resolve_to_lambda (P B : Sexp) (env r : Nat) (h h1 : Heap)
    (L key : Sexp) (hP : raw_form P = true) (hB : raw_form B = true) (hc : Chain h r env)
    (hl : env_cell h env (.symbol "lambda") = .ok (some (key, .core .CORE_LAMBDA)))
    (hr : analyze (.pair (.symbol "lambda") (.pair P B)) env h = .ok (L, h1))
    (hexc : sexp_exceptionp L = false) :
    ∃ a node b, L = .lambda a ∧ h1.lams[a]? = some node ∧ node.params = P
      ∧ node.body = some b
      ∧ (∀ n l, sexp_memq n (sexp_flatten_dot P) = true → Outside h1 n (.ref n l) b → l = L)
      ∧ (∀ (m : Nat) (nodeM : LamNode) (bM n l : Sexp), Sub h1 (.lambda m) b →
          h1.lams[m]? = some nodeM → nodeM.body = some bM →
          sexp_memq n (sexp_flatten_dot nodeM.params) = true →
          Outside h1 n (.ref n l) bM → l = .lambda m)
      ∧ (∀ (p : Sexp) (f f1 : Frame), sexp_memq p (sexp_flatten_dot P) = true →
          h.envs[env]? = some f → h1.envs[env]? = some f1 →
          assq_cell p f1.bindings = assq_cell p f.bindings) := by
  have hraw : raw_form (.pair (.symbol "lambda") (.pair P B)) = true := by
    simp [raw_form, hP, hB]
  rw [analyze_lambda_form P B env h key hl] at hr
  obtain ⟨hq, params, hpar, hkeep, hshape⟩ :=
    analyze_lambda_scoped (analyze_good r) (analyze_scoped r) hraw hc hr
  have hpost := analyze_lambda_post (analyze_good r) hraw hc hr
  have hparams : params = P := by
    simp [sexp_cadr, sexp_cdr, sexp_car, bind, Except.bind] at hpar
    exact hpar.symm
  subst hparams
  obtain ⟨node, b, hL, hn, hp, hb⟩ := hshape hexc
  have hs := hq.1 hexc
  refine ⟨h.lams.length, node, b, hL, hn, hp, hb, ?_, ?_, ?_⟩
  · intro n l hm ho
    rw [hL]
    rw [hL] at hs
    exact lambda_binds hs hn hb (by rw [hp]; exact hm) ho
  · intro m nodeM bM n l hsub hnM hbM hm ho
    rw [hL] at hs
    have hsb : ∃ e2, Scoped h1 e2 b := by
      cases hs with
      | leaf hl => simp [ast_leaf] at hl
      | lambda hn2 hb2 _ hs2 =>
        rw [hn] at hn2
        cases hn2
        rw [hb] at hb2
        cases hb2
        exact ⟨_, hs2⟩
    obtain ⟨e2, hs2⟩ := hsb
    obtain ⟨e3, hs3⟩ := scoped_sub hsub e2 hs2
    exact lambda_binds hs3 hnM hbM hm ho
  · intro p f f1 hm hf hf1
    by_cases her : env = r
    · subst her
      exact hkeep p f f1 hm hf hf1
    · have := hpost.1.frames env f her hf
      rw [hf1] at this
      cases this
      rfl

/-! ## The eval interface: the frame of apply -/

theorem error_bind {α β : Type} (e : Err) (f : α → Except Err β) :
    (Except.error e >>= f) = .error e :=
  id rfl

/-- The frame of `apply` for a procedure and no arguments: the argument count
0, the return-address word and an empty vector; the VM starts in the code of
the procedure with `top = 3`. -/
theorem apply_no_args (rt : Runtime) (fuel : Nat) (f n vars : Sexp) (a : Nat) (h : Heap)
    (stack : List (Option Sexp)) :
    ∃ G, apply rt fuel (.procedure f n (.bytecode a) vars) .null h stack
      = vm_run rt fuel (vm_state (sexp_make_vector h 0 .undef).2
          [.fixnum 0, resumer_address rt.final_resumer, (sexp_make_vector h 0 .undef).1] G a 0
          vars) := by
  obtain ⟨s1, h1, p1⟩ := stack_set_slot stack (k := 0) (sexp_make_integer 0) (by decide)
  obtain ⟨s2, h2, p2⟩ := stack_set_slot s1 (k := 1) (resumer_address rt.final_resumer)
    (by decide)
  obtain ⟨s3, h3, p3⟩ := stack_set_slot s2 (k := 2) (sexp_make_vector h 0 .undef).1 (by decide)
  have hseg : Seg s3 0
      [.fixnum 0, resumer_address rt.final_resumer, (sexp_make_vector h 0 .undef).1] := by
    rw [seg_cons, seg_cons, seg_cons]
    refine ⟨?_, ?_, ?_, Seg.seg_nil _ _⟩
    · rw [p3, if_neg (by decide), p2, if_neg (by decide), p1, if_pos rfl]
      rfl
    · rw [p3, if_neg (by decide), p2, if_pos rfl]
    · rw [p3, if_pos rfl]
  obtain ⟨G, hG⟩ := @vm_state_seg (sexp_make_vector h 0 .undef).2 s3 _ 3 a 0 vars hseg rfl
  refine ⟨G, ?_⟩
  rw [← hG]
  have e0 : ((0 : Nat) : Int) = 0 := rfl
  have e1 : ((1 : Nat) : Int) = 0 + 1 := rfl
  have e2 : ((2 : Nat) : Int) = 0 + 1 + 1 := rfl
  have e3 : ((3 : Nat) : Int) = 0 + 1 + 1 + 1 := rfl
  rw [e0] at h1
  rw [e1] at h2
  rw [e2] at h3
  rw [e3]
  unfold apply
  simp only [push_args, pure, Except.pure, ok_bind, h1, h2, h3, sexp_procedure_code,
    sexp_procedure_vars, vm, sexp_bytecode_data]
  rfl

/-- `RET` through a frame whose return-address word is not an instruction
pointer: the C code loads the word into `ip` and continues from there; the
machine has no instruction to continue with. -/
theorem ret_wild_step (rt : Runtime) (h : Heap) (n w c v cp : Sexp) (G : List (Option Sexp))
    (b p : Nat) (hop : read_byte h b (p : Int) = .ok .OP_RET)
    (hw : unbox_codeptr w = .error .fault) :
    vm_step rt (vm_state h [n, w, c, v] G b p cp) = .error .fault := by
  rw [vm_state_eq h [n, w, c, v] G b p cp 4 rfl]
  have hseg := seg_of_stack [n, w, c, v] G
  rw [seg_cons, seg_cons, seg_cons, seg_cons] at hseg
  obtain ⟨hn, hrip, hrcp, hv, _⟩ := hseg
  have hlt : ¬ (((4 : Nat) : Int) < 4) := by omega
  have e2 : ((4 : Nat) : Int) - 2 = ((0 + 1 + 1 : Nat) : Int) := by omega
  have e3 : ((4 : Nat) : Int) - 3 = ((0 + 1 : Nat) : Int) := by omega
  unfold vm_step
  simp only [hop, ok_bind, hlt, if_false, VM.arg, e2, e3,
    stack_get_slot hrip (by decide), stack_get_slot hrcp (by decide), hw, error_bind]

/-- The thunk `PUSH v; RET` run from a frame of three words whose
return-address word is not an instruction pointer: `PUSH` makes `top = 4`, so
`RET` takes the return through the frame and does not end the loop. -/
theorem push_ret_wild (rt : Runtime) (h : Heap) (n w c v cp : Sexp) (G : List (Option Sexp))
    (b : Nat) (hcode : h.bcs[b]? = some (push_ret_code v))
    (hw : unbox_codeptr w = .error .fault) :
    (∀ fuel, vm_run rt (fuel + 2) (vm_state h [n, w, c] G b 0 cp) = .error .fault)
      ∧ ∀ fuel x, vm_run rt fuel (vm_state h [n, w, c] G b 0 cp) ≠ .ok x := by
  have hb0 := read_byte_at h b [] (word_slots v ++ [.byte .OP_RET]) .OP_PUSH
    (by rw [hcode]; rfl)
  have hw0 := read_word_at h b [.byte .OP_PUSH] [.byte .OP_RET] v 0 (by rw [hcode]; rfl) rfl
  have hb9 := read_byte_at h b ([.byte .OP_PUSH] ++ word_slots v) [] .OP_RET
    (by rw [hcode]; rfl)
  obtain ⟨G1, hs1⟩ := step_push rt h [n, w, c] G b 0 cp v hb0 hw0
    (by show 3 + 1 ≤ INIT_STACK_SIZE; decide)
  have hs2 := ret_wild_step rt h n w c v cp G1 b (0 + 9) hb9 hw
  have hfault : ∀ fuel, vm_run rt (fuel + 2) (vm_state h [n, w, c] G b 0 cp) = .error .fault := by
    intro fuel
    rw [vm_run]
    simp only [hs1, ok_bind]
    rw [vm_run]
    simp only [List.cons_append, List.nil_append] at hs2 ⊢
    simp only [hs2, error_bind]
  refine ⟨hfault, fun fuel x => ?_⟩
  match fuel with
  | 0 =>
    intro hx
    cases hx
  | 1 =>
    rw [vm_run]
    simp only [hs1, ok_bind]
    intro hx
    cases hx
  | k + 2 =>
    rw [hfault k]
    intro hx
    cases hx

/-- A thunk `PUSH w; RET` under `eval`, in a runtime whose `final_resumer` gives
no instruction pointer: the run ends in the `RET` of the thunk. -/
theorem eval_push_ret (rt : Runtime) (obj w f n vars : Sexp) (a env : Nat) (h h1 : Heap)
    (hr : unbox_codeptr (resumer_address rt.final_resumer) = .error .fault)
    (hc : compile obj env h = .ok (.procedure f n (.bytecode a) vars, h1))
    (hcode : h1.bcs[a]? = some (push_ret_code w)) :
    (∀ fuel, eval rt (fuel + 2) obj env h = .error .fault)
      ∧ ∀ fuel x, eval rt fuel obj env h ≠ .ok x := by
  have key : ∀ fuel, ∃ G, eval rt fuel obj env h
      = vm_run rt fuel (vm_state (sexp_make_vector h1 0 .undef).2
          [.fixnum 0, resumer_address rt.final_resumer, (sexp_make_vector h1 0 .undef).1] G a 0
          vars) := by
    intro fuel
    obtain ⟨G, hG⟩ := apply_no_args rt fuel f n vars a h1 []
    refine ⟨G, ?_⟩
    unfold eval eval_in_context
    simp only [hc, ok_bind]
    exact hG
  constructor
  · intro fuel
    obtain ⟨G, hG⟩ := key (fuel + 2)
    rw [hG]
    exact (push_ret_wild rt (sexp_make_vector h1 0 .undef).2 _ _ _ w vars G a hcode hr).1 fuel
  · intro fuel x
    obtain ⟨G, hG⟩ := key fuel
    rw [hG]
    exact (push_ret_wild rt (sexp_make_vector h1 0 .undef).2 _ _ _ w vars G a hcode hr).2 fuel x

/-- The call `(car 5)` under `eval` in the standard environment: the frame of
`apply` is built and the VM entered.  The code is `PUSH 5; PUSH ref; CDR;
CALL 1; RET`, `ref` being the Ref to `car`; `CDR` raises on the Ref, the error
handler `PUSH undef; DONE` runs, and `eval` returns the undefined value.  The
return address of the frame is never used on this path. -/
theorem eval_car_of_fixnum :
    eval main_rt 20 (sexp_list [.symbol "car", .fixnum 5]) main_env main_heap = .ok .undef := by
  decide!

/-- C1 (as the code behaves): compiling `(quote v)` in the standard environment
gives a thunk whose code is `PUSH (quote v); RET`, pushing the whole form and
not `v`; and `eval` of `(quote v)` does not return `v`.  `apply` builds the
frame `0, return address, empty vector` and enters the VM; the
return-address word is taken from `final_resumer` through the Procedure
accessor, but `scheme_init` stored a Bytecode there, so the word is not the
address of the `DONE` instruction.  After `PUSH` the stack holds four words,
`RET` returns through the frame, and the run ends there without a value. -/
theorem C1_eval_quote_not_v (v : Sexp) (fuel : Nat) :
    (compile (sexp_list [.symbol "quote", v]) main_env main_heap).map
        (fun r => (r.1, r.2.bcs[3]?))
        = .ok (.procedure (.fixnum 0) (.fixnum 0) (.bytecode 3) (.vector 1),
            some (push_ret_code (sexp_list [.symbol "quote", v])))
      ∧ eval main_rt fuel (sexp_list [.symbol "quote", v]) main_env main_heap ≠ .ok v
      ∧ eval main_rt (fuel + 2) (sexp_list [.symbol "quote", v]) main_env main_heap
        = .error .fault := by
  have hm : (compile (sexp_list [.symbol "quote", v]) main_env main_heap).map
        (fun r => (r.1, r.2.bcs[3]?))
        = .ok (.procedure (.fixnum 0) (.fixnum 0) (.bytecode 3) (.vector 1),
            some (push_ret_code (sexp_list [.symbol "quote", v]))) := by
    rfl
  refine ⟨hm, ?_⟩
  cases hc : compile (sexp_list [.symbol "quote", v]) main_env main_heap with
  | error e =>
    rw [hc] at hm
    cases hm
  | ok r =>
    obtain ⟨p, h1⟩ := r
    rw [hc] at hm
    simp only [Except.map, Except.ok.injEq, Prod.mk.injEq] at hm
    obtain ⟨hp, hcode⟩ := hm
    subst hp
    have hk := eval_push_ret main_rt _ _ _ _ _ 3 main_env main_heap h1 (by rfl) hc hcode
    exact ⟨hk.2 fuel v, hk.1 fuel⟩

/-- C2 (as the code behaves): for every value `v` that is not a pair, a symbol, a
syntactic closure, an AST node or an Exception, `analyze` returns `v`
unchanged and `compile` returns a thunk whose code is `PUSH v; RET`, but
`eval` does not return `v`.  `apply` builds the frame `0, return address,
empty vector` and enters the VM; the return-address word is taken from
`final_resumer` through the Procedure accessor, but `scheme_init` stored a
Bytecode there, so the word is not the address of the `DONE` instruction.
After `PUSH v` the stack holds four words, so `RET` does not end the loop: it
returns through the frame, and the run ends there without a value. -/
theorem C2_eval_self_evaluating (v : Sexp) (env : Nat) (h : Heap) (fuel : Nat)
    (hv : self_evaluating v = true) :
    analyze v env h = .ok (v, h)
      ∧ compile v env h
        = .ok (.procedure (.fixnum 0) (.fixnum 0) (.bytecode h.bcs.length)
              (.vector h.vecs.length),
            { h with bcs := h.bcs ++ [push_ret_code v], vecs := h.vecs ++ [[]] })
      ∧ eval main_rt fuel v env h ≠ .ok v
      ∧ eval main_rt (fuel + 2) v env h = .error .fault := by
  have hk := eval_push_ret main_rt v v _ _ _ h.bcs.length env h _ (by rfl)
    (compile_self_evaluating v env h hv) (List.getElem?_concat_length _ _)
  exact ⟨analyze_self_evaluating v env h hv, compile_self_evaluating v env h hv,
    hk.2 fuel v, hk.1 fuel⟩

theorem C2_eval_self_evaluating_witness :
    self_evaluating (.fixnum 42) = true
      ∧ eval main_rt 100 (.fixnum 42) main_env main_heap ≠ .ok (.fixnum 42)
      ∧ eval main_rt (100 + 2) (.fixnum 42) main_env main_heap = .error .fault :=
  ⟨by rfl, (C2_eval_self_evaluating (.fixnum 42) main_env main_heap 100 (by rfl)).2.2⟩

/-! ## Definitions by sugar and the reach of lexical scoping -/

theorem chain_of_root {h : Heap} {e : Nat}
    (hroot : (h.envs[e]?).map (fun f => f.parent) = some none) : Chain h e e := by
  cases hf : h.envs[e]? with
  | none => simp [hf] at hroot
  | some f =>
    simp only [hf, Option.map_some', Option.some.injEq] at hroot
    exact .root hf hroot

/-- What `analyze_lambda` returns when the body yields no Exception: the new
Lambda node, holding the parameters and, as body, the result of `analyze_seq`
on the body forms in the new frame that binds the flattened parameters. -/
theorem analyze_lambda_shape {r : Nat} {X P B : Sexp} {env : Nat} {h h1 : Heap} {ast : Sexp}
    (hB : raw_form B = true) (hc : Chain h r env)
    (hr : analyze_lambda analyze (.pair X (.pair P B)) env h = .ok (ast, h1))
    (hne : sexp_exceptionp ast = false) :
    ∃ node b h3 h4, ast = .lambda h.lams.length
      ∧ h1.lams[h.lams.length]? = some node ∧ node.params = P ∧ node.body = some b
      ∧ h3.envs[h.envs.length]?
          = some (lambda_frame env (.lambda h.lams.length) (sexp_flatten_dot P))
      ∧ analyze_seq analyze B h.envs.length h3 = .ok (b, h4)
      ∧ sexp_exceptionp b = false := by
  unfold analyze_lambda at hr
  simp only [sexp_cadr, sexp_cddr, sexp_cdr, sexp_car, ok_bind, bind, Except.bind] at hr
  cases hset : set_env_lambda (extend_env (alloc_lambda h P).2 env
      (sexp_flatten_dot P) (alloc_lambda h P).1).2 (extend_env
        (alloc_lambda h P).2 env (sexp_flatten_dot P) (alloc_lambda h P).1).1
      (alloc_lambda h P).1 with
  | error e => simp [hset] at hr
  | ok h3 =>
    obtain ⟨hext3, hc3, hl3⟩ := lambda_setup P hc hset
    obtain ⟨hf3, _⟩ := lambda_setup_frame P hset
    simp only [hset] at hr
    have henv : (extend_env (alloc_lambda h P).2 env (sexp_flatten_dot P)
        (alloc_lambda h P).1).1 = h.envs.length := rfl
    have hres : (alloc_lambda h P).1 = .lambda h.lams.length := rfl
    rw [henv, hres] at hr
    cases hbody : analyze_seq analyze B h.envs.length h3 with
    | error e => simp [hbody] at hr
    | ok rb =>
      obtain ⟨b, h4⟩ := rb
      simp only [hbody] at hr
      have hpost := analyze_seq_post (analyze_good r) hB hc3 hbody
      by_cases hexc : sexp_exceptionp b = true
      · simp only [hexc, if_true, pure, Except.pure, Except.ok.injEq, Prod.mk.injEq] at hr
        obtain ⟨rfl, _⟩ := hr
        rw [hexc] at hne
        cases hne
      · simp only [hexc, Bool.false_eq_true, if_false] at hr
        obtain ⟨n4, hn4, hp4, _⟩ := hpost.1.grow.lams _ _ hl3
        cases hs5 : set_lambda h4 (.lambda h.lams.length) (fun n => { n with body := some b }) with
        | error e => simp [hs5] at hr
        | ok h5 =>
          simp only [hs5, pure, Except.pure, Except.ok.injEq, Prod.mk.injEq] at hr
          obtain ⟨rfl, rfl⟩ := hr
          simp only [set_lambda, hn4, Except.ok.injEq] at hs5
          subst hs5
          have hlt := getElem?_lt hn4
          refine ⟨{ n4 with body := some b }, b, h3, h4, rfl, ?_, hp4, rfl, hf3, hbody,
            not_exc hexc⟩
          simp [List.getElem?_set, hlt]

theorem chain_path {h : Heap} {r e : Nat} (hc : Chain h r e) : ∃ ps, Path h e ps := by
  induction hc with
  | root hf hpar => exact ⟨_, .root hf hpar⟩
  | step hf hpar _ _ ih =>
    obtain ⟨ps, hp⟩ := ih
    exact ⟨_, .step hf hpar hp⟩

/-- After `env_cell_create` the binding is found by `env_cell`. -/
theorem env_cell_after_create {h h1 : Heap} {r env : Nat} {key v : Sexp} {cell : Sexp × Sexp}
    (hc : Chain h r env) (hr : env_cell_create h env key v = .ok (cell, h1)) (w : Sexp) :
    env_cell_create h1 env key w = .ok (cell, h1) := by
  obtain ⟨hl, _⟩ := env_cell_create_scoped hc hr
  obtain ⟨hext, _, _⟩ := env_cell_create_post hc hr
  have hc1 := hc.ext hext
  obtain ⟨ps, hp⟩ := chain_path hc1
  have hcell := env_cell_path key hp
  have hl2 := lookup_of_env_cell hcell
  have := hl.lookup_unique hl2
  rw [← this] at hcell
  exact env_cell_create_found hcell

/-- C9: for every name `f`, formals `P` and body `B`, in a frame `env` of a
well-formed chain where `define` and `lambda` resolve to their core forms,
`analyze` of `(define (f . P) B...)` and `analyze` of
`(define f (lambda P B...))` return the same result and the same heap (the same
Lambda node, the same `locals` entry, the same binding cells).  When that
result is not an Exception it is the Set AST whose target is the Ref named `f`
with the loc found in the binding cell of `f`, and whose value is a new Lambda
node with params `P` and with body `b`, the result of `analyze_seq` on the
forms `B` in the frame that binds the flattened `P` to that Lambda. -/
theorem C9_define_sugar_equiv (f : String) (P B : Sexp) (r env : Nat) (h : Heap) (k1 k2 : Sexp)
    (hP : raw_form P = true) (hB : raw_form B = true) (hc : Chain h r env)
    (hdef : env_cell h env (.symbol "define") = .ok (some (k1, .core .CORE_DEFINE)))
    (hlam : env_cell h env (.symbol "lambda") = .ok (some (k2, .core .CORE_LAMBDA))) :
    analyze (.pair (.symbol "define") (.pair (.pair (.symbol f) P) B)) env h
        = analyze (sexp_list [.symbol "define", .symbol f,
            .pair (.symbol "lambda") (.pair P B)]) env h
      ∧ ∀ ast h1, analyze (.pair (.symbol "define") (.pair (.pair (.symbol f) P) B)) env h
            = .ok (ast, h1) → sexp_exceptionp ast = false →
          ∃ loc a node b e2 h3 h4,
            ast = .set (.ref (.symbol f) loc) (.lambda a)
              ∧ analyze (sexp_list [.symbol "define", .symbol f,
                  .pair (.symbol "lambda") (.pair P B)]) env h
                = .ok (.set (.ref (.symbol f) loc) (.lambda a), h1)
              ∧ env_cell h1 env (.symbol f) = .ok (some (.symbol f, loc))
              ∧ h1.lams[a]? = some node ∧ node.params = P ∧ node.body = some b
              ∧ h3.envs[e2]? = some (lambda_frame env (.lambda a) (sexp_flatten_dot P))
              ∧ analyze_seq analyze B e2 h3 = .ok (b, h4)
              ∧ sexp_exceptionp b = false := by
  have heq := define_sugar_eq f P B env h k1 k2 hdef hlam
  refine ⟨heq, fun ast h1 hr hne => ?_⟩
  have hr0 := hr
  rw [analyze_unfold] at hr
  simp only [analyze_step, sexp_idp, hdef, ok_bind, if_true] at hr
  unfold analyze_define at hr
  simp only [sexp_cadr, sexp_caadr, sexp_cdadr, sexp_cddr, sexp_cdr, sexp_car, ok_bind,
    sexp_pairp, if_true, pure, Except.pure] at hr
  obtain ⟨owner, hown, hr⟩ := bind_ok_inv hr
  obtain ⟨ha, hh1, hr⟩ := bind_ok_inv hr
  obtain ⟨⟨value, hb⟩, hval, hr⟩ := bind_ok_inv hr
  dsimp only at hr
  have hexta : Ext h ha r := by
    cases owner with
    | none =>
      simp only [pure, Except.pure] at hh1
      cases hh1
      exact Ext.ext_refl _ _
    | some l =>
      dsimp only at hh1
      by_cases hl : sexp_lambdap l = true
      · simp only [hl, if_true] at hh1
        exact set_lambda_ext (g := fun n => { n with locals := .pair (.symbol f) n.locals })
          (fun n => ⟨rfl, rfl⟩) hh1
      · simp only [hl, Bool.false_eq_true, if_false, pure, Except.pure] at hh1
        cases hh1
        exact Ext.ext_refl _ _
  have hca := hc.ext hexta
  by_cases hexc : sexp_exceptionp value = true
  · simp only [hexc, if_true, pure, Except.pure, Except.ok.injEq, Prod.mk.injEq] at hr
    obtain ⟨rfl, _⟩ := hr
    rw [hexc] at hne
    cases hne
  · simp only [hexc, Bool.false_eq_true, if_false] at hr
    obtain ⟨node, b, h3, h4, hv, hn, hp, hbd, hf3, hseq, hbne⟩ :=
      analyze_lambda_shape hB hca hval (not_exc hexc)
    have hpv : Post r ha value hb := by
      refine analyze_lambda_post (analyze_good r) ?_ hca hval
      simp [sexp_cons, raw_form, hP, hB]
    obtain ⟨⟨ref, h6⟩, hvr, hr⟩ := bind_ok_inv hr
    dsimp only at hr
    have hcb := hca.ext hpv.1
    unfold analyze_var_ref at hvr
    obtain ⟨⟨cell, h6b⟩, hcc, hvr⟩ := bind_ok_inv hvr
    simp only [pure, Except.pure, sexp_make_ref, Except.ok.injEq, Prod.mk.injEq] at hvr
    obtain ⟨rfl, rfl⟩ := hvr
    obtain ⟨hext6, hk6, _⟩ := env_cell_create_post hcb hcc
    have hagain := env_cell_after_create hcb hcc .sdef
    simp only [sexp_exceptionp, Bool.false_eq_true, if_false, hagain, ok_bind, pure,
      Except.pure, sexp_make_set, Except.ok.injEq, Prod.mk.injEq] at hr
    obtain ⟨rfl, rfl⟩ := hr
    obtain ⟨n6, hn6, hp6, hb6⟩ := hext6.grow.lams _ _ hn
    have hcell : env_cell h6b env (.symbol f) = .ok (some (.symbol f, cell.2)) := by
      have hc6 := hcb.ext hext6
      obtain ⟨hl, _⟩ := env_cell_create_scoped hcb hcc
      obtain ⟨ps, hpth⟩ := chain_path hc6
      have hce := env_cell_path (.symbol f) hpth
      have := hl.lookup_unique (lookup_of_env_cell hce)
      rw [← this] at hce
      rw [hce, ← hk6]
    subst hv
    refine ⟨cell.2, ha.lams.length, n6, b, ha.envs.length, h3, h4, rfl, ?_, hcell, hn6,
      hp6.trans hp, hb6 b hbd, hf3, hseq, hbne⟩
    rw [← heq]
    exact hr0

theorem C9_define_sugar_equiv_witness :
    (analyze (.pair (.symbol "define") (.pair (.pair (.symbol "f") (sexp_list [.symbol "a"]))
        (sexp_list [.symbol "a"]))) main_env main_heap).map (fun r => (r.1, r.2.lams))
        = .ok (.set (.ref (.symbol "f") .undef) (.lambda 0),
            [closed_lambda (sexp_list [.symbol "a"]) (.ref (.symbol "a") (.lambda 0))])
      ∧ analyze (.pair (.symbol "define") (.pair (.pair (.symbol "f") (sexp_list [.symbol "a"]))
          (sexp_list [.symbol "a"]))) main_env main_heap
        = analyze (sexp_list [.symbol "define", .symbol "f",
            .pair (.symbol "lambda") (.pair (sexp_list [.symbol "a"]) (sexp_list [.symbol "a"]))])
            main_env main_heap
      ∧ ∀ ast h1, analyze (.pair (.symbol "define") (.pair (.pair (.symbol "f")
            (sexp_list [.symbol "a"])) (sexp_list [.symbol "a"]))) main_env main_heap
            = .ok (ast, h1) → sexp_exceptionp ast = false →
          ∃ loc a node b e2 h3 h4,
            ast = .set (.ref (.symbol "f") loc) (.lambda a)
              ∧ analyze (sexp_list [.symbol "define", .symbol "f",
                  .pair (.symbol "lambda") (.pair (sexp_list [.symbol "a"])
                    (sexp_list [.symbol "a"]))]) main_env main_heap
                = .ok (.set (.ref (.symbol "f") loc) (.lambda a), h1)
              ∧ env_cell h1 main_env (.symbol "f") = .ok (some (.symbol "f", loc))
              ∧ h1.lams[a]? = some node ∧ node.params = sexp_list [.symbol "a"]
              ∧ node.body = some b
              ∧ h3.envs[e2]? = some (lambda_frame main_env (.lambda a)
                  (sexp_flatten_dot (sexp_list [.symbol "a"])))
              ∧ analyze_seq analyze (sexp_list [.symbol "a"]) e2 h3 = .ok (b, h4)
              ∧ sexp_exceptionp b = false :=
  ⟨by rfl, C9_define_sugar_equiv "f" (sexp_list [.symbol "a"]) (sexp_list [.symbol "a"])
    main_env main_env main_heap (.symbol "define") (.symbol "lambda") (by rfl) (by rfl)
    (chain_of_root (by rfl)) (by rfl) (by rfl)⟩

/-- C39 (as the code behaves): in the standard environment
`(lambda (x) (if #t 1 x))` is analyzed to a Lambda with params `(x)` whose body
is the Cnd of the Ref to `if`, `#t` and `1`.  The parameter `x` occurs as a
variable reference in the body, in the alternative of the `if`, and is
analyzed to no Ref at all: `analyze_if` reads the test, the consequent and the
alternative from the head of the form (`sexp_car`, `sexp_cadr`, `sexp_caddr` of
the whole form), so the last operand of an `if` with three operands is never
analyzed. -/
theorem C39_parameter_in_if_alternative_is_dropped :
    (analyze (sexp_list [.symbol "lambda", sexp_list [.symbol "x"],
        sexp_list [.symbol "if", .strue, .fixnum 1, .symbol "x"]]) main_env main_heap).map
        (fun r => (r.1, r.2.lams))
      = .ok (.lambda 0,
          [closed_lambda (sexp_list [.symbol "x"])
            (.cnd (.ref (.symbol "if") (.core .CORE_IF)) .strue (.fixnum 1))]) := by
  rfl

end Chibi
